import Mathlib

/-!
# Model-composition bootstrap of `yep/models` (bootstrap.go)

A shallow embedding of `BootStrap` and its phases.

Conventions of the embedding.

* A Go `map[K]V` is an association list `List (K × V)`; reading a key returns the
  first binding, writing replaces that binding in place or appends a new one, and
  `range` visits the bindings in list order.  Go leaves the iteration order of a map
  unspecified: here it is the order of the list, and theorems hold for every order.
  A list that binds each key once is a well-formed map (`Nodup` of its keys).
* A `*Model` is the key of the model in `Registry.registryByName`; a `*Field` is the
  key of the field in its model's `registryByName`; a `*methodLayer` is the index of
  the layer in the arena `layers` of its `methodInfo` (`none` is the nil pointer).
* The global variables `Registry` and `mixed` are the two components of `State`,
  which every function takes and returns.
* A function with an unbounded loop or recursion takes a fuel argument and returns
  `none` when the fuel runs out (the Go code would not return) or when it meets a
  pointer that designates nothing, which Go's memory model excludes.
* A phase that may panic returns a `Result`: the state it returns, or the message of the
  panic with the state the panic leaves.
* Code of the repository that is not in the sources at hand (the structs `Model`, `Field`
  and `methodInfo` with their helpers, and the package `security`) is modelled from the
  specification; the doc comment of each such definition says so.
-/

namespace Yep

/-! ## Go maps -/

/-- Reading `m[k]` with the comma-ok idiom. -/
def mapGet {K V : Type} [DecidableEq K] : List (K × V) → K → Option V
  | [], _ => none
  | (k', v) :: rest, k => if k' = k then some v else mapGet rest k

/-- The assignment `m[k] = v`. -/
def mapSet {K V : Type} [DecidableEq K] : List (K × V) → K → V → List (K × V)
  | [], k, v => [(k, v)]
  | (k', v') :: rest, k, v =>
    if k' = k then (k, v) :: rest else (k', v') :: mapSet rest k v

/-- The keys of a map, in iteration order. -/
def mapKeys {K V : Type} (m : List (K × V)) : List K := m.map Prod.fst

/-! ## Package `security` -/

namespace security

/-- A security group, identified by its name. -/
abbrev Group := String

/-- A set of permission bits. -/
abbrev Permission := Nat

/-- Modelled from the spec: the type `security.AccessControlList` is declared outside
the sources at hand; the spec describes it as an "access-control list (per security
group, permission bits)". -/
structure AccessControlList where
  perms : List (Group × Permission)
  deriving DecidableEq, Repr

/-- Modelled from the spec: `security.NewAccessControlList` returns a list that grants
nothing. -/
def NewAccessControlList : AccessControlList := ⟨[]⟩

/-- Modelled from the spec: `Permissions` returns the (group, permission) pairs. -/
def AccessControlList.Permissions (acl : AccessControlList) : List (Group × Permission) :=
  acl.perms

/-- Modelled from the spec: `AddPermission` adds the permission bits to those the group
already has. -/
def AccessControlList.AddPermission (acl : AccessControlList) (group : Group)
    (perm : Permission) : AccessControlList :=
  ⟨mapSet acl.perms group (((mapGet acl.perms group).getD 0) ||| perm)⟩

/-- Name of the administrative group, `security.GroupAdmin`. -/
def GroupAdmin : Group := "admin"

end security

/-! ## Data model -/

/-- Modelled from the spec: the semantic type of a field ("scalar kinds; relational
kinds: many-to-one, one-to-many, many-to-many, one-to-one"). -/
inductive FieldType where
  | scalar (kind : String)
  | many2one
  | one2many
  | many2many
  | one2one
  deriving DecidableEq, Repr

/-- Modelled from the spec: `IsRelationType` holds of the relational kinds. -/
def FieldType.IsRelationType : FieldType → Bool
  | .scalar _ => false
  | _ => true

/-- Modelled from the spec: the struct `Field` is declared outside the sources at hand.
It has the attributes that bootstrap.go reads or writes and those listed in the
spec's data model. -/
structure Field where
  name : String
  json : String
  /-- the owning model (a `*Model`) -/
  model : String
  acl : security.AccessControlList
  fieldType : FieldType
  relatedModelName : String
  /-- the related model (a `*Model`, nil until linking) -/
  relatedModel : Option String
  stored : Bool
  structField : String
  noCopy : Bool
  relatedPath : String
  embed : Bool
  index : Bool
  onDelete : String
  compute : String
  depends : List String
  deriving DecidableEq, Repr

/-- Modelled from the spec: the "Field Registry — per-model mapping of field name →
field descriptor".  `registryByJSON` maps a column name to the `*Field` it denotes. -/
structure fieldsCollection where
  registryByName : List (String × Field)
  registryByJSON : List (String × String)
  bootstrapped : Bool
  deriving DecidableEq, Repr

/-- Modelled from the spec: `fieldsCollection.add` registers the descriptor under its
name and under its column name. -/
def fieldsCollection.add (fc : fieldsCollection) (fInfo : Field) : fieldsCollection :=
  { fc with
    registryByName := mapSet fc.registryByName fInfo.name fInfo
    registryByJSON := mapSet fc.registryByJSON fInfo.json fInfo.name }

/-- Modelled from the spec: `fieldsCollection.get` looks a field up by name. -/
def fieldsCollection.get (fc : fieldsCollection) (name : String) : Option Field :=
  mapGet fc.registryByName name

/-- The implementation function of a layer (a `reflect.Value`), identified by a label. -/
abbrev FuncValue := String

/-- Modelled from the spec: `wrapFunctionForMethodLayer` adapts the calling convention
of an implementation; the layer keeps the same implementation. -/
def wrapFunctionForMethodLayer (f : FuncValue) : FuncValue := f

/-- One layer of a method.  The struct is declared outside the sources at hand; its
attributes are those bootstrap.go names: `funcValue`, `mixedIn`, `method`, `doc`.
`method` is the (model, name) identity of the owning `methodInfo`. -/
structure methodLayer where
  funcValue : FuncValue
  mixedIn : Bool
  method : String × String
  doc : String
  deriving DecidableEq, Repr

/-- Modelled from the spec: a `methodInfo` "holds an ordered chain of layers": the top
layer and, for each layer, the next one below it.  `layers` is the arena in which the
layers of this method live. -/
structure methodInfo where
  name : String
  /-- the owning model (a `*Model`) -/
  model : String
  methodType : String
  layers : List methodLayer
  topLayer : Option Nat
  nextLayer : List (Option Nat × Option Nat)
  groups : List (security.Group × Bool)
  deriving DecidableEq, Repr

/-- Allocation of a layer (`&ml`): the layer is stored and its address returned. -/
def methodInfo.alloc (m : methodInfo) (ml : methodLayer) : methodInfo × Nat :=
  ({ m with layers := m.layers ++ [ml] }, m.layers.length)

/-- Dereference of a `*methodLayer`. -/
def methodInfo.deref (m : methodInfo) (p : Nat) : Option methodLayer := m.layers[p]?

/-- Modelled from the spec: `getNextLayer` is the next-lower layer, `nextLayer[layer]`
(nil when the map has no such key). -/
def methodInfo.getNextLayer (m : methodInfo) (layer : Option Nat) : Option Nat :=
  (mapGet m.nextLayer layer).join

/-- Modelled from the spec: the layer that `addMethodLayer` builds, a layer "originally
declared on this model": it wraps the function, belongs to the method and is not one
"injected from a mixin". -/
def methodInfo.ownLayer (methInfo : methodInfo) (val : FuncValue) (doc : String) :
    methodLayer :=
  { funcValue := wrapFunctionForMethodLayer val, mixedIn := false,
    method := (methInfo.model, methInfo.name), doc := doc }

/-- Modelled from the spec: `addMethodLayer` "appends a new top layer; the previous top
layer becomes reachable only via callSuper".  The layer is one "originally declared on
this model": the call takes the function and its doc only, and `mixedIn` keeps its
zero value. -/
def methodInfo.addMethodLayer (methInfo : methodInfo) (val : FuncValue) (doc : String) :
    methodInfo :=
  let (m1, p) := methInfo.alloc (methInfo.ownLayer val doc)
  let m2 := match m1.topLayer with
    | some t => { m1 with nextLayer := mapSet m1.nextLayer (some p) (some t) }
    | none => m1
  { m2 with topLayer := some p }

/-- The walk `for cl := topLayer; cl != nil; cl = getNextLayer(cl)`, from `cl` down:
the addresses met, top first. -/
def methodInfo.walk (m : methodInfo) : Nat → Option Nat → Option (List Nat)
  | _, none => some []
  | 0, some _ => none
  | fuel + 1, some p => (m.walk fuel (m.getNextLayer (some p))).map (fun r => p :: r)

/-- The chain of a method, top layer first (`none`: the walk does not end). -/
def methodInfo.chain (m : methodInfo) : Option (List Nat) :=
  m.walk m.layers.length m.topLayer

/-- Dereference of a list of `*methodLayer`. -/
def methodInfo.derefAll (m : methodInfo) : List Nat → Option (List methodLayer)
  | [] => some []
  | p :: ps =>
    match m.deref p, m.derefAll ps with
    | some l, some ls => some (l :: ls)
    | _, _ => none

/-- Modelled from the spec: `invertedLayers` returns the layers of the chain "by inverse
order", that is from the base layer up to the top layer. -/
def methodInfo.invertedLayers (m : methodInfo) : Option (List methodLayer) :=
  m.chain.bind (fun ps => m.derefAll ps.reverse)

/-- A method whose chain of layers ends, holds allocated layers only and has at least
one layer. -/
def methodInfo.wellFormed (m : methodInfo) : Bool :=
  match m.invertedLayers with
  | some (_ :: _) => true
  | _ => false

/-- Modelled from the spec: the dispatch of a call, which is not in the sources at hand.
A call "dispatches to the topmost layer"; the implementation of a layer may invoke
`callSuper`, "which dispatches to the next-lower layer in the same chain; calling
`callSuper` on the bottommost layer is fatal".  `impl` interprets a function value: it
takes the result of `callSuper` (`none` when that call is fatal) and returns the result of
the layer. -/
def methodInfo.callLayer (impl : FuncValue → Option String → Option String)
    (m : methodInfo) : Nat → Option Nat → Option String
  | _, none => none
  | 0, some _ => none
  | fuel + 1, some p =>
    (m.deref p).bind (fun l =>
      impl l.funcValue (m.callLayer impl fuel (m.getNextLayer (some p))))

/-- Modelled from the spec: a call of the method, dispatched to its top layer. -/
def methodInfo.call (impl : FuncValue → Option String → Option String) (m : methodInfo) :
    Option String :=
  m.callLayer impl m.layers.length m.topLayer

/-- Modelled from the spec: `copyMethod` creates a `methodInfo` without any layer for
the given model, taking name and type from the given method. -/
def copyMethod (mi : String) (methInfo : methodInfo) : methodInfo :=
  { name := methInfo.name, model := mi, methodType := methInfo.methodType,
    layers := [], topLayer := none, nextLayer := [], groups := [] }

/-- Modelled from the spec: the method registry of a model, method name → `methodInfo`. -/
structure methodsCollection where
  registry : List (String × methodInfo)
  bootstrapped : Bool
  deriving DecidableEq, Repr

/-- Modelled from the spec: `methodsCollection.set` registers the method under the name. -/
def methodsCollection.set (mc : methodsCollection) (methodName : String)
    (methInfo : methodInfo) : methodsCollection :=
  { mc with registry := mapSet mc.registry methodName methInfo }

/-- A method registry that binds each name once, to a well-formed method. -/
def methodsCollection.wellFormed (mc : methodsCollection) : Bool :=
  mc.registry.all (fun e => e.2.wellFormed) && decide (mapKeys mc.registry).Nodup

/-- Modelled from the spec: the kind of a model ("regular / mixin / manual / M2M-link"). -/
inductive ModelKind where
  | regular
  | mixin
  | manual
  | m2mLink
  deriving DecidableEq, Repr

/-- Modelled from the spec: the struct `Model` is declared outside the sources at hand:
"identity = unique name; attributes = table name, kind, ordered list of mixed-in model
references, field registry, method registry". -/
structure Model where
  name : String
  tableName : String
  kind : ModelKind
  /-- the mixed-in models (a `[]*Model`) -/
  mixins : List String
  fields : fieldsCollection
  methods : methodsCollection
  deriving DecidableEq, Repr

/-- Modelled from the spec: `isM2MLink` holds of the M2M-link (pure association) models. -/
def Model.isM2MLink (m : Model) : Bool := m.kind == ModelKind.m2mLink

/-- A sequence of the registry; the schema synchroniser reads its name in the database,
`JSON`. -/
structure Sequence where
  JSON : String
  deriving DecidableEq, Repr

/-- The global `Registry`.  `registryByTableName` maps a table name to the `*Model` of
that table and `sequences` holds the declared sequences; both are read by the schema
synchroniser only. -/
structure modelCollection where
  registryByName : List (String × Model)
  bootstrapped : Bool
  registryByTableName : List (String × String) := []
  sequences : List Sequence := []
  deriving DecidableEq, Repr

/-- A modelCouple holds a model and one of its mixin. -/
structure modelCouple where
  model : String
  mixIn : String
  deriving DecidableEq, Repr

/-- The package-level variables that bootstrap.go reads and writes. -/
structure State where
  Registry : modelCollection
  mixed : List (modelCouple × Bool)
  deriving DecidableEq, Repr

/-- Dereference of a `*Model`. -/
def State.model (st : State) (p : String) : Option Model :=
  mapGet st.Registry.registryByName p

/-- Assignment through a `*Model`. -/
def State.setModel (st : State) (p : String) (m : Model) : State :=
  { st with Registry :=
      { st.Registry with registryByName := mapSet st.Registry.registryByName p m } }

/-- Lookup `mixed[couple]` (false when absent). -/
def State.isMixed (st : State) (mi mixInMI : String) : Bool :=
  (mapGet st.mixed ⟨mi, mixInMI⟩).getD false

/-! ## Mixin injection (bootstrap.go, lines 74–152) -/

/-- The permissions of the mixin's field are added to the access-control list of the
copy (lines 108–110). -/
def copyPermissions (acl : security.AccessControlList)
    (perms : List (security.Group × security.Permission)) : security.AccessControlList :=
  perms.foldl (fun a gp => a.AddPermission gp.1 gp.2) acl

/-- The copy `newFI` of a mixin field `fi` for the model `mi`, as registered once its
permissions are added (lines 102–110).  `add` reads the name and the column name only,
and the list `newFI.acl` is filled through the pointer after `add`: the field registered
is the one built here. -/
def mixedInField (mi : String) (fi : Field) : Field :=
  { fi with
    model := mi
    acl := copyPermissions security.NewAccessControlList fi.acl.Permissions }

/-- One iteration of the loop over the mixin's fields (lines 96–111). -/
def injectField (mi : String) (fields : fieldsCollection) (entry : String × Field) :
    fieldsCollection :=
  match mapGet fields.registryByName entry.1 with
  | some _ => fields
  | none => fields.add (mixedInField mi entry.2)

/-- The loop "Add mixIn fields" (lines 96–111). -/
def injectFields (mi : String) (fields : fieldsCollection)
    (mixInFields : List (String × Field)) : fieldsCollection :=
  mixInFields.foldl (injectField mi) fields

/-- The loop of lines 120–128: from `lastImplLayer` and `firstMixedLayer`, go down the
chain until `firstMixedLayer` is nil or a mixed-in layer; returns both pointers. -/
def findFirstMixedLayer (emi : methodInfo) :
    Nat → Option Nat → Option Nat → Option (Option Nat × Option Nat)
  | _, lastImplLayer, none => some (lastImplLayer, none)
  | 0, _, some _ => none
  | fuel + 1, lastImplLayer, some p =>
    match emi.deref p with
    | none => none
    | some l =>
      if l.mixedIn then some (lastImplLayer, some p)
      else findFirstMixedLayer emi fuel (some p) (emi.getNextLayer (some p))

/-- The struct literal `methodLayer{funcValue: wrapFunctionForMethodLayer(lf.funcValue),
mixedIn: true, method: emi}` of lines 130–134. -/
def methodInfo.mixedLayer (emi : methodInfo) (lf : methodLayer) : methodLayer :=
  { funcValue := wrapFunctionForMethodLayer lf.funcValue, mixedIn := true,
    method := (emi.model, emi.name), doc := "" }

/-- One iteration of the loop of lines 129–137: a mixed-in layer for `lf` is allocated
above `firstMixedLayer` and becomes the new `firstMixedLayer`. -/
def insertMixedLayer (acc : methodInfo × Option Nat) (lf : methodLayer) :
    methodInfo × Option Nat :=
  let (emi1, p) := acc.1.alloc (acc.1.mixedLayer lf)
  ({ emi1 with nextLayer := mapSet emi1.nextLayer (some p) acc.2 }, some p)

/-- The branch "the method already exists in our target model" (lines 117–138). -/
def spliceLayers (emi : methodInfo) (layersInv : List methodLayer) : Option methodInfo :=
  (findFirstMixedLayer emi emi.layers.length emi.topLayer
      (emi.getNextLayer emi.topLayer)).map (fun found =>
    let r := layersInv.foldl insertMixedLayer (emi, found.2)
    { r.1 with nextLayer := mapSet r.1.nextLayer found.1 r.2 })

/-- The branch "the method does not exist in the target" (lines 140–144), before
`methods.set`. -/
def copyLayers (mi : String) (methInfo : methodInfo) (layersInv : List methodLayer) :
    methodInfo :=
  layersInv.foldl (fun m l => m.addMethodLayer l.funcValue l.doc) (copyMethod mi methInfo)

/-- The loop of lines 147–149: the groups of the mixin's method are granted on the
target's method. -/
def copyGroups (emi : methodInfo) (groups : List (security.Group × Bool)) : methodInfo :=
  groups.foldl (fun e g => { e with groups := mapSet e.groups g.1 true }) emi

/-- The method that one iteration of the loop over the mixin's methods leaves in the
target under the method's name (lines 115–149); `existing` is the target's method of
that name before the iteration. -/
def mixedInMethod (mi : String) (existing : Option methodInfo) (methInfo : methodInfo) :
    Option methodInfo :=
  methInfo.invertedLayers.bind (fun layersInv =>
    (match existing with
      | some emi => spliceLayers emi layersInv
      | none => some (copyLayers mi methInfo layersInv)).map (fun emi1 =>
        copyGroups emi1 methInfo.groups))

/-- One iteration of the loop over the mixin's methods (lines 113–150).  In the first
branch the method is modified through the pointer `emi`, in the second one it is
registered by `methods.set`: either way the registry binds the name to the result. -/
def injectMethod (mi : String) (methods : methodsCollection)
    (entry : String × methodInfo) : Option methodsCollection :=
  (mixedInMethod mi (mapGet methods.registry entry.1) entry.2).map (fun emi1 =>
    methods.set entry.1 emi1)

/-- The loop "Add mixIn methods" (lines 113–150). -/
def injectMethods (mi : String) (methods : methodsCollection)
    (mixInMethods : List (String × methodInfo)) : Option methodsCollection :=
  mixInMethods.foldlM (injectMethod mi) methods

/-- The body of `injectMixInModel` after the memo check (lines 95–151). -/
def injectBody (st : State) (mixInMI mi : String) : Option State :=
  (st.model mixInMI).bind (fun mixIn =>
  (st.model mi).bind (fun target =>
  (injectMethods mi target.methods mixIn.methods.registry).map (fun methods =>
    let fields := injectFields mi target.fields mixIn.fields.registryByName
    let st1 := st.setModel mi { target with fields := fields, methods := methods }
    { st1 with mixed := mapSet st1.mixed ⟨mi, mixInMI⟩ true })))

/-- Function `injectMixInModel` injects fields and methods of `mixInMI` in model `mi`
(lines 88–152). -/
def injectMixInModel : Nat → State → String → String → Option State
  | 0, _, _, _ => none
  | fuel + 1, st, mixInMI, mi =>
    (st.model mixInMI).bind (fun mixIn =>
    (mixIn.mixins.foldlM (fun s mmm => injectMixInModel fuel s mmm mixInMI) st).bind
      (fun st1 =>
        if st1.isMixed mi mixInMI then some st1 else injectBody st1 mixInMI mi))

/-- One iteration of the loop of `inflateMixIns` (lines 77–83). -/
def inflateModel (fuel : Nat) (st : State) (mi : String) : Option State :=
  (st.model mi).bind (fun m =>
    if m.isM2MLink then some st
    else m.mixins.foldlM (fun s mixInMI => injectMixInModel fuel s mixInMI mi) st)

/-- Function `inflateMixIns` inserts fields and methods of mixed in models
(lines 75–85). -/
def inflateMixIns (fuel : Nat) (st : State) : Option State :=
  (mapKeys st.Registry.registryByName).foldlM (inflateModel fuel) st

/-! ## The other phases of `BootStrap` (bootstrap.go, lines 31–72, 154–201, 462–477) -/

/-- How a run ends: it returns, it panics (the state is the one the panic leaves), or it
does not end. -/
inductive Result (σ : Type) where
  | done (s : σ)
  | panicked (msg : String) (s : σ)
  | diverged
  deriving DecidableEq, Repr

/-- Sequential composition: what follows a statement runs when the statement returns. -/
def Result.andThen {σ : Type} (r : Result σ) (f : σ → Result σ) : Result σ :=
  match r with
  | Result.done s => f s
  | Result.panicked msg s => Result.panicked msg s
  | Result.diverged => Result.diverged

/-- A `range` loop whose body may panic. -/
def forEach {α σ : Type} (body : σ → α → Result σ) : List α → σ → Result σ
  | [], s => Result.done s
  | a :: rest, s => (body s a).andThen (fun s1 => forEach body rest s1)

/-- The message of the runtime panic on a nil pointer. -/
def nilDereference : String := "invalid memory address or nil pointer dereference"

/-- Dereference of a `*Field` of model `mi`. -/
def State.field (st : State) (mi fi : String) : Option Field :=
  (st.model mi).bind (fun m => mapGet m.fields.registryByName fi)

/-- Assignment through a `*Field` of model `mi`. -/
def State.setField (st : State) (mi fi : String) (f : Field) : State :=
  match st.model mi with
  | some m =>
    st.setModel mi
      { m with fields := { m.fields with registryByName := mapSet m.fields.registryByName fi f } }
  | none => st

/-- Modelled from the spec: `Registry.Get` looks a model up by its name; the result is
the `*Model`, when there is one. -/
def modelCollection.Get (mc : modelCollection) (name : String) : Option String :=
  (mapGet mc.registryByName name).map (fun _ => name)

/-- The body of the inner loop of `createModelLinks` (lines 58–68). -/
def linkField (mi : String) (st : State) (fi : String) : Result State :=
  match st.field mi fi with
  | none => Result.panicked nilDereference st
  | some f =>
    if f.fieldType.IsRelationType then
      match st.Registry.Get f.relatedModelName with
      | none => Result.panicked "Unknown related model in field declaration" st
      | some relatedMI => Result.done (st.setField mi fi { f with relatedModel := some relatedMI })
    else Result.done (st.setField mi fi { f with relatedModel := none })

/-- The body of the outer loop of `createModelLinks` (lines 57–70). -/
def linkModel (st : State) (mi : String) : Result State :=
  match st.model mi with
  | none => Result.panicked nilDereference st
  | some m =>
    (forEach (linkField mi) (mapKeys m.fields.registryByName) st).andThen (fun s =>
      match s.model mi with
      | none => Result.panicked nilDereference s
      | some m1 =>
        Result.done (s.setModel mi { m1 with fields := { m1.fields with bootstrapped := true } }))

/-- Function `createModelLinks` creates links with related Model where applicable
(lines 55–72). -/
def createModelLinks (st : State) : Result State :=
  forEach linkModel (mapKeys st.Registry.registryByName) st

/-- Modelled from the spec: the separator of the segments of a "dotted" path, `ExprSep`. -/
def ExprSep : String := "."

/-- The struct literal of lines 167–176; the attributes it does not name have their zero
value. -/
def embeddedField (mi : String) (fi : Field) (relName : String) (relFI : Field) : Field :=
  { name := relName, json := relFI.json, acl := security.NewAccessControlList, model := mi,
    stored := fi.stored, structField := relFI.structField, noCopy := true,
    relatedPath := fi.name ++ ExprSep ++ relName,
    fieldType := FieldType.scalar "", relatedModelName := "", relatedModel := none,
    embed := false, index := false, onDelete := "", compute := "", depends := [] }

/-- The body of the innermost loop of `inflateEmbeddings` (lines 162–177). -/
def promoteField (mi : String) (fi : Field) (st : State) (entry : String × Field) :
    Result State :=
  match st.model mi with
  | none => Result.panicked nilDereference st
  | some m =>
    match m.fields.get entry.1 with
    | some _ => Result.done st
    | none =>
      Result.done (st.setModel mi
        { m with fields := m.fields.add (embeddedField mi fi entry.1 entry.2) })

/-- The body of the loop over the fields in `inflateEmbeddings` (lines 158–178). -/
def embedField (mi : String) (st : State) (fi : String) : Result State :=
  match st.field mi fi with
  | none => Result.panicked nilDereference st
  | some f =>
    if f.embed then
      match f.relatedModel.bind st.model with
      | none => Result.panicked nilDereference st
      | some related => forEach (promoteField mi f) related.fields.registryByName st
    else Result.done st

/-- Function `inflateEmbeddings` creates related fields for all fields of embedded models
(lines 155–181).  The fields that the loop adds to the map it ranges over are not
embeddings, so that visiting them or not makes no difference: the loop ranges over the
fields the model has when it starts. -/
def inflateEmbeddings (st : State) : Result State :=
  forEach (fun s mi =>
    match s.model mi with
    | none => Result.panicked nilDereference s
    | some m => forEach (embedField mi) (mapKeys m.fields.registryByName) s)
    (mapKeys st.Registry.registryByName) st

/-- Modelled from the spec: a related field is one with a related path ("a field whose
value is an alias for a field reached via a dotted relation path"). -/
def Field.isRelatedField (f : Field) : Bool := f.relatedPath != ""

/-- The segments of a character list cut at each `sep`; `cur` holds the characters of the
current segment, last first. -/
def splitChars (sep : Char) : List Char → List Char → List String
  | cur, [] => [String.mk cur.reverse]
  | cur, c :: cs =>
    if c = sep then String.mk cur.reverse :: splitChars sep [] cs
    else splitChars sep (c :: cur) cs

/-- The call `strings.Split(path, ExprSep)`, with the one-character separator. -/
def splitPath (path : String) : List String := splitChars '.' [] path.data

/-- Modelled from the spec: `getRelatedFieldInfo` resolves the segments of a dotted path
from model `mi`, through the related model of each relation field, to "the path's
terminal field". -/
def getRelatedFieldInfo (st : State) : String → List String → Option Field
  | _, [] => none
  | mi, [name] => st.field mi name
  | mi, name :: rest =>
    (st.field mi name).bind (fun f =>
      f.relatedModel.bind (fun related => getRelatedFieldInfo st related rest))

/-- The body of the inner loop of `syncRelatedFieldInfo` (lines 188–198). -/
def syncField (mi : String) (st : State) (fi : String) : Result State :=
  match st.field mi fi with
  | none => Result.panicked nilDereference st
  | some f =>
    if f.isRelatedField then
      match getRelatedFieldInfo st mi (splitPath f.relatedPath) with
      | none => Result.panicked nilDereference st
      | some target =>
        Result.done (st.setField mi fi
          { target with
            name := f.name, json := f.json, relatedPath := f.relatedPath, stored := f.stored,
            model := mi, noCopy := true })
    else Result.done st

/-- Function `syncRelatedFieldInfo` overwrites the Field data of the related fields with
the data of the Field of the target (lines 185–201). -/
def syncRelatedFieldInfo (st : State) : Result State :=
  forEach (fun s mi =>
    match s.model mi with
    | none => Result.panicked nilDereference s
    | some m => forEach (syncField mi) (mapKeys m.fields.registryByName) s)
    (mapKeys st.Registry.registryByName) st

/-- Function `bootStrapMethods` freezes the methods of the models (lines 463–467). -/
def bootStrapMethods (st : State) : State :=
  (mapKeys st.Registry.registryByName).foldl (fun s mi =>
    match s.model mi with
    | none => s
    | some m => s.setModel mi { m with methods := { m.methods with bootstrapped := true } }) st

/-- The inner loop of `setupSecurity` (lines 473–475). -/
def grantAdmin (mc : methodsCollection) : methodsCollection :=
  (mapKeys mc.registry).foldl (fun c name =>
    match mapGet c.registry name with
    | none => c
    | some meth =>
      c.set name { meth with groups := mapSet meth.groups security.GroupAdmin true }) mc

/-- Function `setupSecurity` adds execution permission to the admin group for all methods
(lines 471–477). -/
def setupSecurity (st : State) : State :=
  (mapKeys st.Registry.registryByName).foldl (fun s mi =>
    match s.model mi with
    | none => s
    | some m => s.setModel mi { m with methods := grantAdmin m.methods }) st

/-- The two phases whose code is not in the sources at hand, as parameters: they read and
write the models of the registry; `processDepends` may panic, and
`checkComputeMethodsSignature` is a validation that panics with a message or passes. -/
structure External where
  processDepends : List (String × Model) → Result (List (String × Model))
  checkComputeMethodsSignature : List (String × Model) → Option String

/-- A phase that works on the models of the registry, as a phase on the state. -/
def onModels (phase : List (String × Model) → Result (List (String × Model)))
    (st : State) : Result State :=
  match phase st.Registry.registryByName with
  | Result.done models =>
    Result.done { st with Registry := { st.Registry with registryByName := models } }
  | Result.panicked msg models =>
    Result.panicked msg { st with Registry := { st.Registry with registryByName := models } }
  | Result.diverged => Result.diverged

/-- A validation of the models of the registry, as a phase on the state. -/
def onModelsCheck (check : List (String × Model) → Option String) (st : State) :
    Result State :=
  match check st.Registry.registryByName with
  | none => Result.done st
  | some msg => Result.panicked msg st

/-- A phase that returns when it has fuel enough. -/
def withFuel (r : Option State) : Result State :=
  match r with
  | some s => Result.done s
  | none => Result.diverged

/-- A run of `BootStrap`: how it ends, and the phases it has entered, in order. -/
structure Run where
  result : Result State
  trace : List String
  deriving DecidableEq, Repr

/-- One call of a phase from `BootStrap`: the phase is entered when what precedes has
returned. -/
def Run.call (r : Run) (name : String) (phase : State → Result State) : Run :=
  match r.result with
  | Result.done s => { result := phase s, trace := r.trace ++ [name] }
  | _ => r

/-- The assignment `Registry.bootstrapped = true` (line 41). -/
def State.setBootstrapped (st : State) : State :=
  { st with Registry := { st.Registry with bootstrapped := true } }

/-- A run that has entered no phase yet. -/
def Run.start (r : Result State) : Run := { result := r, trace := [] }

/-- Function `BootStrap` freezes model, fields and method caches (lines 33–51).  The log
lines and the lock are left out. -/
def BootStrap (ext : External) (fuel : Nat) (st : State) : Run :=
  if st.Registry.bootstrapped = true then
    Run.start (Result.panicked "Trying to bootstrap models twice !" st)
  else
    (((((((((Run.start (Result.done st.setBootstrapped)).call
      "createModelLinks" createModelLinks).call
      "inflateMixIns" (fun s => withFuel (inflateMixIns fuel s))).call
      "inflateEmbeddings" inflateEmbeddings).call
      "syncRelatedFieldInfo" syncRelatedFieldInfo).call
      "bootStrapMethods" (fun s => Result.done (bootStrapMethods s))).call
      "processDepends" (onModels ext.processDepends)).call
      "checkComputeMethodsSignature" (onModelsCheck ext.checkComputeMethodsSignature)).call
      "setupSecurity" (fun s => Result.done (setupSecurity s)))

/-! ## Vocabulary of the statements -/

/-- The attributes of a model that the bootstrap never writes. -/
def Model.static (m : Model) : String × String × ModelKind × List String :=
  (m.name, m.tableName, m.kind, m.mixins)

/-- State `st2` records every injection that `st` records, and has the same models with
the same static attributes. -/
def Stable (st st2 : State) : Prop :=
  (∀ a x, st.isMixed a x = true → st2.isMixed a x = true) ∧
  (∀ p, (st2.model p).map Model.static = (st.model p).map Model.static)

/-- Every field of every model is registered under its own name. -/
def State.fieldsKeyed (st : State) : Bool :=
  st.Registry.registryByName.all (fun e =>
    e.2.fields.registryByName.all (fun x => x.2.name == x.1))

/-- Some model other than `L` declares `L` as one of its mixins. -/
def State.mixedInElsewhere (st : State) (L : String) : Bool :=
  st.Registry.registryByName.any (fun e => decide (e.1 ≠ L) && decide (L ∈ e.2.mixins))

/-- A registry ready for mixin injection: the methods of every model are well formed,
every mixin a model declares is a model of the registry, and the mixin graph is acyclic,
`rank` decreasing from a model to each of its mixins. -/
def State.wellFormed (rank : String → Nat) (st : State) : Bool :=
  st.Registry.registryByName.all (fun e =>
    e.2.methods.wellFormed &&
    e.2.mixins.all (fun x => (st.model x).isSome && decide (rank x < rank e.1)))

/-- The rank of every model of the registry is at most `n`. -/
def State.rankedBelow (rank : String → Nat) (st : State) (n : Nat) : Bool :=
  st.Registry.registryByName.all (fun e => decide (rank e.1 ≤ n))

/-- The well-formedness of a registry, read model by model. -/
def WFp (rank : String → Nat) (st : State) : Prop :=
  ∀ p m, st.model p = some m → m.methods.wellFormed = true ∧
    ∀ x ∈ m.mixins, (st.model x).isSome = true ∧ rank x < rank p

/-- The calls that `inflateMixIns` makes, directly or not, inject into a model one of the
mixins it declares. -/
def Declared (st : State) (x a : String) : Prop :=
  ∃ ma, st.model a = some ma ∧ x ∈ ma.mixins

/-- The method `X` of model `A`, when the registry has both. -/
def State.method (st : State) (A X : String) : Option methodInfo :=
  (st.model A).bind (fun m => mapGet m.methods.registry X)

/-- Property `P` holds of the state that a run leaves, if it leaves one. -/
def Result.holds {σ : Type} (P : σ → Prop) : Result σ → Prop
  | Result.done s => P s
  | Result.panicked _ s => P s
  | Result.diverged => True

/-- The phases that `BootStrap` calls, in the order of lines 43–50. -/
def phaseList (ext : External) (fuel : Nat) : List (String × (State → Result State)) :=
  [("createModelLinks", createModelLinks),
   ("inflateMixIns", fun s => withFuel (inflateMixIns fuel s)),
   ("inflateEmbeddings", inflateEmbeddings),
   ("syncRelatedFieldInfo", syncRelatedFieldInfo),
   ("bootStrapMethods", fun s => Result.done (bootStrapMethods s)),
   ("processDepends", onModels ext.processDepends),
   ("checkComputeMethodsSignature", onModelsCheck ext.checkComputeMethodsSignature),
   ("setupSecurity", fun s => Result.done (setupSecurity s))]

/-- The run returns. -/
def Result.isDone {σ : Type} : Result σ → Bool
  | Result.done _ => true
  | _ => false

/-- The state that a run returns. -/
def Result.state? {σ : Type} : Result σ → Option σ
  | Result.done s => some s
  | _ => none

/-! ## Vocabulary of the statements on linking, embedding and related fields -/

/-- The descriptor that `createModelLinks` leaves for field `f`, in a registry that has
the models of `st` (line 68). -/
def linkedField (st : State) (f : Field) : Field :=
  { f with relatedModel :=
      if f.fieldType.IsRelationType then st.Registry.Get f.relatedModelName else none }

/-- Some field of relation type names a related model that the registry does not have. -/
def UnknownRelatedModel (st : State) : Prop :=
  ∃ mi fi f, st.field mi fi = some f ∧ f.fieldType.IsRelationType = true ∧
    st.model f.relatedModelName = none

/-- The states that `createModelLinks` goes through, from `st`: the same models, each
field as declared or linked. -/
def Linking (st s : State) : Prop :=
  (∀ n, (s.model n).isSome = (st.model n).isSome) ∧
  ∀ p q, s.field p q = st.field p q ∨ s.field p q = (st.field p q).map (linkedField st)

/-- Field `i.2` of model `i.1` is linked, and names a model of the registry if it is of
relation type. -/
def Linked (st : State) (i : String × String) (s : State) : Prop :=
  ∀ f, st.field i.1 i.2 = some f →
    s.field i.1 i.2 = some (linkedField st f) ∧
    (f.fieldType.IsRelationType = true → (st.model f.relatedModelName).isSome = true)

/-- The method `m` once the admin group is authorised to execute it (line 474). -/
def grantedMethod (m : methodInfo) : methodInfo :=
  { m with groups := mapSet m.groups security.GroupAdmin true }

/-- The descriptor that `syncRelatedFieldInfo` assigns to the related field `f` of model
`mi` when its path resolves to `t` (lines 191–198). -/
def syncedField (mi : String) (f t : Field) : Field :=
  { t with
    name := f.name, json := f.json, relatedPath := f.relatedPath, stored := f.stored,
    model := mi, noCopy := true }

/-- The path resolves from model `mi` through fields none of which, the last one included,
is itself a related field. -/
def plainPath (st : State) : String → List String → Bool
  | _, [] => false
  | mi, [name] =>
    match st.field mi name with
    | some f => !f.isRelatedField
    | none => false
  | mi, name :: rest =>
    match st.field mi name with
    | some f =>
      !f.isRelatedField &&
        (match f.relatedModel with
         | some related => plainPath st related rest
         | none => false)
    | none => false

/-- The path of every related field of the registry resolves through fields that are not
related fields. -/
def State.relatedPathsPlain (st : State) : Bool :=
  st.Registry.registryByName.all (fun e =>
    e.2.fields.registryByName.all (fun x =>
      !x.2.isRelatedField || plainPath st e.1 (splitPath x.2.relatedPath)))

/-- The states that `syncRelatedFieldInfo` goes through, from `st`: the same models and
fields, the fields that are not related fields as they were, the related fields with their
own name, column, path and `stored` flag. -/
def Syncing (st s : State) : Prop :=
  (∀ n, (s.model n).isSome = (st.model n).isSome) ∧
  (∀ p q, st.field p q = none → s.field p q = none) ∧
  (∀ p q f, st.field p q = some f → f.isRelatedField = false → s.field p q = some f) ∧
  (∀ p q f, st.field p q = some f → f.isRelatedField = true →
    ∃ g, s.field p q = some g ∧ g.name = f.name ∧ g.json = f.json ∧
      g.relatedPath = f.relatedPath ∧ g.stored = f.stored)

/-- The related field `i.2` of model `i.1` is synchronised with the target of its path,
when the path is plain. -/
def Synced (st : State) (i : String × String) (s : State) : Prop :=
  ∀ f t, st.field i.1 i.2 = some f → f.isRelatedField = true →
    plainPath st i.1 (splitPath f.relatedPath) = true →
    getRelatedFieldInfo st i.1 (splitPath f.relatedPath) = some t →
    s.field i.1 i.2 = some (syncedField i.1 f t)

/-- Some related field has a path that does not resolve through plain fields. -/
def ChainedRelatedField (st : State) : Prop :=
  ∃ p q f, st.field p q = some f ∧ f.isRelatedField = true ∧
    plainPath st p (splitPath f.relatedPath) = false

/-- Every field that state `s` has, state `s2` has too, unchanged. -/
def FieldsKept (s s2 : State) : Prop :=
  ∀ p q g, s.field p q = some g → s2.field p q = some g

/-- The states that `inflateEmbeddings` goes through, from `st`: the same models, the
fields of `st` unchanged, and every other field promoted through an embedding of its
model from a field of the related model. -/
def Embedding (st s : State) : Prop :=
  (∀ n, (s.model n).isSome = (st.model n).isSome) ∧
  FieldsKept st s ∧
  ∀ p q g, s.field p q = some g → st.field p q = some g ∨
    (st.field p q = none ∧ ∃ e E r relFI, st.field p e = some E ∧ E.embed = true ∧
      E.relatedModel = some r ∧ s.field r q = some relFI ∧
      g = embeddedField p E q relFI)

/-- Model `i.1` has a field for every field of the model that its embedding `i.2`
relates to. -/
def Promoted (st : State) (i : String × String) (s : State) : Prop :=
  ∀ E r n, st.field i.1 i.2 = some E → E.embed = true → E.relatedModel = some r →
    (st.field r n).isSome = true → (s.field i.1 n).isSome = true

/-- Some embedding has no related model in the registry. -/
def UnresolvedEmbedding (st : State) : Prop :=
  ∃ p e E, st.field p e = some E ∧ E.embed = true ∧ E.relatedModel.bind st.model = none

/-- Every embedding of the registry has its related model, as `createModelLinks` leaves
the relation fields. -/
def State.embedsResolved (st : State) : Bool :=
  st.Registry.registryByName.all (fun e =>
    e.2.fields.registryByName.all (fun x =>
      !x.2.embed || (x.2.relatedModel.bind st.model).isSome))

/-! ## Schema synchronisation (bootstrap.go, lines 203–460)

`SyncDatabase` reads the registry, which it does not change, and the live catalog of the
database, which it changes by the statements it issues.  The database and its adapter are
not in the sources at hand: the catalog and the effect of a statement on it are modelled
from the specification, and the functions of the adapter that compute from a field are
parameters. -/

/-- Modelled from the spec: `isMixin` holds of the mixin models. -/
def Model.isMixin (m : Model) : Bool := m.kind == ModelKind.mixin

/-- Modelled from the spec: `isManual` holds of the manual models. -/
def Model.isManual (m : Model) : Bool := m.kind == ModelKind.manual

/-- A column of a live table, as `adapter.columns` reports it.  The struct is declared
outside the sources at hand; its attributes are those bootstrap.go reads.
`ColumnDefault` is a `sql.NullString`: `none` when it is not `Valid`. -/
structure ColumnData where
  DataType : String
  IsNullable : String
  ColumnDefault : Option String
  deriving DecidableEq, Repr

/-- The zero value of `ColumnData`, which reading a map returns for an absent key. -/
def ColumnData.zero : ColumnData :=
  { DataType := "", IsNullable := "", ColumnDefault := none }

/-- Modelled from the spec: the "live database catalog": the tables with their columns,
the foreign-key constraints and the indexes, each with the table it is on, and the
sequences. -/
structure Catalog where
  tables : List (String × List (String × ColumnData))
  constraints : List (String × String)
  indexes : List (String × String)
  sequences : List String
  deriving DecidableEq, Repr

/-- The functions of the database adapter that compute from their arguments, as
parameters: their code is not in the sources at hand.  `like` is the test that
`adapter.sequences` applies to the name of a sequence, given the pattern. -/
structure dbAdapter where
  quoteTableName : String → String
  typeSQL : Field → String
  fieldIsNotNull : Field → Bool
  fieldSQLDefault : Field → String
  columnSQLDefinition : Field → String
  like : String → String → Bool

/-- What the schema synchroniser calls and is not in the sources at hand, as parameters:
the adapter of the database, and the methods `isStored` of `Field` and `IsFKRelationType`
of the field types. -/
structure Collaborators where
  adapter : dbAdapter
  isStored : Field → Bool
  IsFKRelationType : FieldType → Bool

/-- Modelled from the spec: `adapter.tables` "enumerates existing tables". -/
def Catalog.tableNames (cat : Catalog) : List String := mapKeys cat.tables

/-- Modelled from the spec: `adapter.columns` enumerates the columns of a table. -/
def Catalog.columns (cat : Catalog) (tableName : String) : List (String × ColumnData) :=
  (mapGet cat.tables tableName).getD []

/-- Modelled from the spec: `adapter.constraintExists` tells whether the catalog has a
constraint of the given name. -/
def Catalog.constraintExists (cat : Catalog) (name : String) : Bool :=
  cat.constraints.any (fun c => c.2 == name)

/-- Modelled from the spec: `adapter.indexExists` tells whether the table has an index of
the given name. -/
def Catalog.indexExists (cat : Catalog) (tableName name : String) : Bool :=
  cat.indexes.any (fun i => i.1 == tableName && i.2 == name)

/-- Modelled from the spec: `adapter.sequences` enumerates the sequences whose name
matches the pattern. -/
def Catalog.sequencesLike (adapter : dbAdapter) (cat : Catalog) (pattern : String) :
    List String :=
  cat.sequences.filter (fun s => adapter.like pattern s)

/-- The name of the foreign-key constraint of a column,
`fmt.Sprintf("%s_%s_fkey", tableName, colName)`. -/
def fkeyName (tableName colName : String) : String :=
  tableName ++ "_" ++ colName ++ "_fkey"

/-- The name of the index of a column, `fmt.Sprintf("%s_%s_index", tableName, colName)`. -/
def indexName (tableName colName : String) : String :=
  tableName ++ "_" ++ colName ++ "_index"

/-- A statement that the schema synchroniser issues, with the arguments of the function
that builds it: one constructor for each function of lines 275–460 that calls
`dbExecuteNoTx`, and two for the calls `adapter.createSequence` and
`adapter.dropSequence`. -/
inductive Statement where
  /-- line 277, `createDBTable` -/
  | createTable (tableName : String)
  /-- line 288, `dropDBTable` -/
  | dropTable (tableName : String)
  /-- line 329, `createDBColumn` -/
  | addColumn (tableName : String) (fi : Field)
  /-- line 342, `updateDBColumnDataType` -/
  | setDataType (tableName column dataType : String)
  /-- line 352, `updateDBColumnNullable`: `SET NOT NULL` when `notNull`, else `DROP` -/
  | setNotNull (tableName column : String) (notNull : Bool)
  /-- line 368, `updateDBColumnDefault`: `DROP DEFAULT` when `defValue` is empty -/
  | setDefault (tableName column defValue : String)
  /-- line 387, `dropDBColumn` -/
  | dropColumn (tableName colName : String)
  /-- line 413, `createFKConstraint` -/
  | addConstraint (tableName colName targetTable ondelete : String)
  /-- line 422, `dropFKConstraint` -/
  | dropConstraint (tableName colName : String)
  /-- line 446, `createColumnIndex` -/
  | createIndex (tableName colName : String)
  /-- line 455, `dropColumnIndex` -/
  | dropIndex (tableName colName : String)
  /-- line 257, `adapter.createSequence` -/
  | createSequence (name : String)
  /-- line 270, `adapter.dropSequence` -/
  | dropSequence (name : String)
  deriving DecidableEq, Repr

/-- The text that the function passes to `dbExecuteNoTx` (the statements on sequences are
built by the adapter, and have none here). -/
def Statement.query (adapter : dbAdapter) : Statement → Option String
  | .createTable tableName =>
    some ("\n\tCREATE TABLE " ++ adapter.quoteTableName tableName ++
      " (\n\t\tid serial NOT NULL PRIMARY KEY\n\t)\n\t")
  | .dropTable tableName => some ("DROP TABLE " ++ adapter.quoteTableName tableName)
  | .addColumn tableName fi =>
    some ("\n\t\tALTER TABLE " ++ adapter.quoteTableName tableName ++ "\n\t\tADD COLUMN " ++
      fi.json ++ " " ++ adapter.columnSQLDefinition fi ++ "\n\t")
  | .setDataType tableName column dataType =>
    some ("\n\t\tALTER TABLE " ++ adapter.quoteTableName tableName ++ "\n\t\tALTER COLUMN " ++
      column ++ " SET DATA TYPE " ++ dataType ++ "\n\t")
  | .setNotNull tableName column notNull =>
    some ("\n\t\tALTER TABLE " ++ adapter.quoteTableName tableName ++ "\n\t\tALTER COLUMN " ++
      column ++ " " ++ (if notNull then "SET" else "DROP") ++ " NOT NULL\n\t")
  | .setDefault tableName column defValue =>
    if defValue = "" then
      some ("\n\t\t\tALTER TABLE " ++ adapter.quoteTableName tableName ++
        "\n\t\t\tALTER COLUMN " ++ column ++ " DROP DEFAULT\n\t\t")
    else
      some ("\n\t\t\tALTER TABLE " ++ adapter.quoteTableName tableName ++
        "\n\t\t\tALTER COLUMN " ++ column ++ " SET DEFAULT " ++ defValue ++ "\n\t\t")
  | .dropColumn tableName colName =>
    some ("\n\t\tALTER TABLE " ++ adapter.quoteTableName tableName ++ "\n\t\tDROP COLUMN " ++
      colName ++ "\n\t")
  | .addConstraint tableName colName targetTable ondelete =>
    some ("\n\t\tALTER TABLE " ++ adapter.quoteTableName tableName ++ " ADD CONSTRAINT " ++
      fkeyName tableName colName ++ " FOREIGN KEY (" ++ colName ++ ") REFERENCES " ++
      adapter.quoteTableName targetTable ++ " ON DELETE " ++ ondelete ++ "\n\t")
  | .dropConstraint tableName colName =>
    some ("\n\t\tALTER TABLE " ++ adapter.quoteTableName tableName ++
      " DROP CONSTRAINT IF EXISTS " ++ fkeyName tableName colName ++ "\n\t")
  | .createIndex tableName colName =>
    some ("\n\t\tCREATE INDEX " ++ indexName tableName colName ++ " ON " ++
      adapter.quoteTableName tableName ++ " (" ++ colName ++ ")\n\t")
  | .dropIndex tableName colName =>
    some ("\n\t\tDROP INDEX IF EXISTS " ++ indexName tableName colName ++ "\n\t")
  | .createSequence _ => none
  | .dropSequence _ => none

/-- The column that `ADD COLUMN` creates for a field: the type, the nullability and the
default that the adapter derives from the field. -/
def declaredColumn (adapter : dbAdapter) (fi : Field) : ColumnData :=
  { DataType := adapter.typeSQL fi,
    IsNullable := if adapter.fieldIsNotNull fi then "NO" else "YES",
    ColumnDefault :=
      if adapter.fieldSQLDefault fi = "" then none else some (adapter.fieldSQLDefault fi) }

/-- The column that `CREATE TABLE` creates, `id serial NOT NULL PRIMARY KEY`. -/
def serialColumn : ColumnData :=
  { DataType := "integer", IsNullable := "NO", ColumnDefault := some "nextval" }

/-- Change of one column of a table, when the catalog has both. -/
def Catalog.alterColumn (cat : Catalog) (tableName column : String)
    (change : ColumnData → ColumnData) : Catalog :=
  match mapGet cat.tables tableName with
  | none => cat
  | some cols =>
    match mapGet cols column with
    | none => cat
    | some data =>
      { cat with tables := mapSet cat.tables tableName (mapSet cols column (change data)) }

/-- Modelled from the spec: the effect of a statement on the catalog, "each DDL statement
taking effect on the catalog".  A statement that the database would refuse (a table that
exists already, a column of a table that does not exist) leaves the catalog as it is. -/
def Catalog.exec (adapter : dbAdapter) (cat : Catalog) : Statement → Catalog
  | .createTable tableName =>
    if (mapGet cat.tables tableName).isSome then cat
    else { cat with tables := mapSet cat.tables tableName [("id", serialColumn)] }
  | .dropTable tableName =>
    { cat with
      tables := cat.tables.filter (fun t => t.1 != tableName)
      constraints := cat.constraints.filter (fun c => c.1 != tableName)
      indexes := cat.indexes.filter (fun i => i.1 != tableName) }
  | .addColumn tableName fi =>
    match mapGet cat.tables tableName with
    | none => cat
    | some cols =>
      if (mapGet cols fi.json).isSome then cat
      else
        { cat with
          tables := mapSet cat.tables tableName
            (mapSet cols fi.json (declaredColumn adapter fi)) }
  | .setDataType tableName column dataType =>
    cat.alterColumn tableName column (fun d => { d with DataType := dataType })
  | .setNotNull tableName column notNull =>
    cat.alterColumn tableName column
      (fun d => { d with IsNullable := if notNull then "NO" else "YES" })
  | .setDefault tableName column defValue =>
    cat.alterColumn tableName column
      (fun d => { d with ColumnDefault := if defValue = "" then none else some defValue })
  | .dropColumn tableName colName =>
    match mapGet cat.tables tableName with
    | none => cat
    | some cols =>
      { cat with
        tables := mapSet cat.tables tableName (cols.filter (fun c => c.1 != colName)) }
  | .addConstraint tableName colName _ _ =>
    if cat.constraints.contains (tableName, fkeyName tableName colName) then cat
    else { cat with constraints := cat.constraints ++ [(tableName, fkeyName tableName colName)] }
  | .dropConstraint tableName colName =>
    { cat with
      constraints :=
        cat.constraints.filter (fun c => c != (tableName, fkeyName tableName colName)) }
  | .createIndex tableName colName =>
    if cat.indexes.contains (tableName, indexName tableName colName) then cat
    else { cat with indexes := cat.indexes ++ [(tableName, indexName tableName colName)] }
  | .dropIndex tableName colName =>
    { cat with indexes := cat.indexes.filter (fun i => i.2 != indexName tableName colName) }
  | .createSequence name =>
    if cat.sequences.contains name then cat
    else { cat with sequences := cat.sequences ++ [name] }
  | .dropSequence name =>
    { cat with sequences := cat.sequences.filter (fun s => s != name) }

/-- The database as a run of the synchroniser sees it: the live catalog, and the
statements issued so far, in order. -/
structure DB where
  catalog : Catalog
  statements : List Statement
  deriving DecidableEq, Repr

/-- Modelled from the spec: `dbExecuteNoTx` executes the statement "outside any
multi-statement transaction (each is independently applied)". -/
def dbExecuteNoTx (adapter : dbAdapter) (db : DB) (stmt : Statement) : DB :=
  { catalog := db.catalog.exec adapter stmt, statements := db.statements ++ [stmt] }

/-- Function `createDBTable` creates a table in the database; it only creates the primary
key (lines 277–285). -/
def createDBTable (c : Collaborators) (tableName : String) (db : DB) : DB :=
  dbExecuteNoTx c.adapter db (Statement.createTable tableName)

/-- Function `dropDBTable` drops the given table in the database (lines 288–292). -/
def dropDBTable (c : Collaborators) (tableName : String) (db : DB) : DB :=
  dbExecuteNoTx c.adapter db (Statement.dropTable tableName)

/-- The table of the model that owns the field, `fi.model.tableName`. -/
def ownerTable (st : State) (fi : Field) : Option String :=
  (st.model fi.model).map (fun owner => owner.tableName)

/-- Function `createDBColumn` inserts the column described by the field in the database
(lines 329–339). -/
def createDBColumn (c : Collaborators) (st : State) (fi : Field) (db : DB) : Result DB :=
  if c.isStored fi = false then
    Result.panicked "createDBColumn should not be called on non stored fields" db
  else
    match ownerTable st fi with
    | none => Result.panicked nilDereference db
    | some tableName =>
      Result.done (dbExecuteNoTx c.adapter db (Statement.addColumn tableName fi))

/-- Function `updateDBColumnDataType` updates the data type in database for the given
field (lines 342–349). -/
def updateDBColumnDataType (c : Collaborators) (st : State) (fi : Field) (db : DB) :
    Result DB :=
  match ownerTable st fi with
  | none => Result.panicked nilDereference db
  | some tableName =>
    Result.done (dbExecuteNoTx c.adapter db
      (Statement.setDataType tableName fi.json (c.adapter.typeSQL fi)))

/-- Function `updateDBColumnNullable` updates the NULL/NOT NULL data in database for the
given field (lines 352–365). -/
def updateDBColumnNullable (c : Collaborators) (st : State) (fi : Field) (db : DB) :
    Result DB :=
  match ownerTable st fi with
  | none => Result.panicked nilDereference db
  | some tableName =>
    Result.done (dbExecuteNoTx c.adapter db
      (Statement.setNotNull tableName fi.json (c.adapter.fieldIsNotNull fi)))

/-- Function `updateDBColumnDefault` updates the default value in database for the given
field (lines 368–384). -/
def updateDBColumnDefault (c : Collaborators) (st : State) (fi : Field) (db : DB) :
    Result DB :=
  match ownerTable st fi with
  | none => Result.panicked nilDereference db
  | some tableName =>
    Result.done (dbExecuteNoTx c.adapter db
      (Statement.setDefault tableName fi.json (c.adapter.fieldSQLDefault fi)))

/-- Function `dropDBColumn` drops the column from the table in database (lines 387–394). -/
def dropDBColumn (c : Collaborators) (tableName colName : String) (db : DB) : DB :=
  dbExecuteNoTx c.adapter db (Statement.dropColumn tableName colName)

/-- Dereference of the `*Field` that `registryByJSON` holds for a column of model `m`. -/
def Model.fieldByJSON (m : Model) (entry : String × String) : Option Field :=
  mapGet m.fields.registryByName entry.2

/-- The body of the first loop of `updateDBColumns` (lines 301–318), for one entry of
`registryByJSON`; `dbColumns` is the map read at line 298. -/
def updateDBColumn (c : Collaborators) (st : State) (m : Model)
    (dbColumns : List (String × ColumnData)) (db : DB) (entry : String × String) :
    Result DB :=
  if entry.1 = "id" then Result.done db
  else
    match m.fieldByJSON entry with
    | none => Result.panicked nilDereference db
    | some fi =>
      if c.isStored fi = false then Result.done db
      else
        let dbColData := (mapGet dbColumns entry.1).getD ColumnData.zero
        (((if (mapGet dbColumns entry.1).isSome = false then createDBColumn c st fi db
           else Result.done db).andThen
          (fun d =>
            if dbColData.DataType ≠ c.adapter.typeSQL fi then updateDBColumnDataType c st fi d
            else Result.done d)).andThen
          (fun d =>
            if (dbColData.IsNullable = "NO" ∧ c.adapter.fieldIsNotNull fi = false) ∨
                (dbColData.IsNullable = "YES" ∧ c.adapter.fieldIsNotNull fi = true) then
              updateDBColumnNullable c st fi d
            else Result.done d)).andThen
          (fun d =>
            match dbColData.ColumnDefault with
            | some s =>
              if s ≠ c.adapter.fieldSQLDefault fi then updateDBColumnDefault c st fi d
              else Result.done d
            | none => Result.done d)

/-- The body of the second loop of `updateDBColumns` (lines 321–325). -/
def dropUnknownColumn (c : Collaborators) (m : Model) (db : DB)
    (col : String × ColumnData) : DB :=
  if (mapGet m.fields.registryByJSON col.1).isSome = false then
    dropDBColumn c m.tableName col.1 db
  else db

/-- Function `updateDBColumns` synchronizes the colums of the database with the given
Model (lines 296–326). -/
def updateDBColumns (c : Collaborators) (st : State) (m : Model) (db : DB) : Result DB :=
  (forEach (updateDBColumn c st m (db.catalog.columns m.tableName))
      m.fields.registryByJSON db).andThen
    (fun d =>
      Result.done ((db.catalog.columns m.tableName).foldl (dropUnknownColumn c m) d))

/-- Function `createFKConstraint` creates an FK constraint for the given column that
references the given targetTable (lines 413–419). -/
def createFKConstraint (c : Collaborators) (tableName colName targetTable ondelete : String)
    (db : DB) : DB :=
  dbExecuteNoTx c.adapter db (Statement.addConstraint tableName colName targetTable ondelete)

/-- Function `dropFKConstraint` drops an FK constraint for colName in the given table
(lines 422–428). -/
def dropFKConstraint (c : Collaborators) (tableName colName : String) (db : DB) : DB :=
  dbExecuteNoTx c.adapter db (Statement.dropConstraint tableName colName)

/-- The body of the loop of `updateDBForeignKeyConstraints` (lines 401–408). -/
def updateDBForeignKeyConstraint (c : Collaborators) (st : State) (m : Model) (db : DB)
    (entry : String × String) : Result DB :=
  match m.fieldByJSON entry with
  | none => Result.panicked nilDereference db
  | some fi =>
    let fkContraintInDB := db.catalog.constraintExists (fkeyName m.tableName entry.1)
    let fieldIsFK := c.IsFKRelationType fi.fieldType && c.isStored fi
    if fieldIsFK = true ∧ fkContraintInDB = false then
      match fi.relatedModel.bind st.model with
      | none => Result.panicked nilDereference db
      | some related =>
        Result.done
          (createFKConstraint c m.tableName entry.1 related.tableName fi.onDelete db)
    else if fieldIsFK = false ∧ fkContraintInDB = true then
      Result.done (dropFKConstraint c m.tableName entry.1 db)
    else Result.done db

/-- Function `updateDBForeignKeyConstraints` creates or updates fk constraints based on
the data of the given Model (lines 398–410). -/
def updateDBForeignKeyConstraints (c : Collaborators) (st : State) (m : Model) (db : DB) :
    Result DB :=
  forEach (updateDBForeignKeyConstraint c st m) m.fields.registryByJSON db

/-- Function `createColumnIndex` creates an column index for colName in the given table
(lines 446–452). -/
def createColumnIndex (c : Collaborators) (tableName colName : String) (db : DB) : DB :=
  dbExecuteNoTx c.adapter db (Statement.createIndex tableName colName)

/-- Function `dropColumnIndex` drops a column index for colName in the given table
(lines 455–460). -/
def dropColumnIndex (c : Collaborators) (tableName colName : String) (db : DB) : DB :=
  dbExecuteNoTx c.adapter db (Statement.dropIndex tableName colName)

/-- The body of the loop of `updateDBIndexes` (lines 435–441). -/
def updateDBIndex (c : Collaborators) (m : Model) (db : DB) (entry : String × String) :
    Result DB :=
  match m.fieldByJSON entry with
  | none => Result.panicked nilDereference db
  | some fi =>
    let indexInDB := db.catalog.indexExists m.tableName (indexName m.tableName entry.1)
    if fi.index = true ∧ indexInDB = false then
      Result.done (createColumnIndex c m.tableName entry.1 db)
    else if fi.index = false ∧ indexInDB = true then
      Result.done (dropColumnIndex c m.tableName entry.1 db)
    else Result.done db

/-- Function `updateDBIndexes` creates or updates indexes based on the data of the given
Model (lines 432–443). -/
def updateDBIndexes (c : Collaborators) (m : Model) (db : DB) : Result DB :=
  forEach (updateDBIndex c m) m.fields.registryByJSON db

/-- The body of the second loop of `updateDBSequences` (lines 261–271). -/
def dropUnusedSequence (c : Collaborators) (st : State) (db : DB) (dbSeq : String) : DB :=
  if st.Registry.sequences.any (fun sequence => sequence.JSON == dbSeq) then db
  else dbExecuteNoTx c.adapter db (Statement.dropSequence dbSeq)

/-- Function `updateDBSequences` synchronizes sequences between the DB and the registry
(lines 253–273). -/
def updateDBSequences (c : Collaborators) (st : State) (db : DB) : DB :=
  let created := st.Registry.sequences.foldl
    (fun d sequence => dbExecuteNoTx c.adapter d (Statement.createSequence sequence.JSON)) db
  (created.catalog.sequencesLike c.adapter "%_manseq").foldl (dropUnusedSequence c st) created

/-- The body of the first loop of `SyncDatabase` (lines 209–221); `dbTables` is the map
read at line 206. -/
def syncTable (c : Collaborators) (st : State) (dbTables : List String) (db : DB)
    (entry : String × String) : Result DB :=
  match st.model entry.2 with
  | none => Result.panicked nilDereference db
  | some model =>
    if model.isMixin then Result.done db
    else if model.isManual then Result.done db
    else
      (updateDBColumns c st model
          (if entry.1 ∈ dbTables then db else createDBTable c model.tableName db)).andThen
        (updateDBIndexes c model)

/-- The body of the second loop of `SyncDatabase` (lines 225–228). -/
def syncForeignKeys (c : Collaborators) (st : State) (db : DB) (entry : String × String) :
    Result DB :=
  match st.model entry.2 with
  | none => Result.panicked nilDereference db
  | some model =>
    if model.isMixin then Result.done db
    else updateDBForeignKeyConstraints c st model db

/-- The inner loop of the third loop of `SyncDatabase` (lines 233–243): whether some model
that is not a mixin has the table; `none` is a nil dereference. -/
def modelExists (st : State) (dbTable : String) : List (String × String) → Option Bool
  | [] => some false
  | entry :: rest =>
    if dbTable ≠ entry.1 then modelExists st dbTable rest
    else
      match st.model entry.2 with
      | none => none
      | some model =>
        if model.isMixin then modelExists st dbTable rest else some true

/-- The body of the third loop of `SyncDatabase` (lines 232–246). -/
def dropUnknownTable (c : Collaborators) (st : State) (db : DB) (dbTable : String) :
    Result DB :=
  match modelExists st dbTable st.Registry.registryByTableName with
  | none => Result.panicked nilDereference db
  | some true => Result.done db
  | some false => Result.done (dropDBTable c dbTable db)

/-- A database on which no statement has been issued yet. -/
def DB.start (cat : Catalog) : DB := { catalog := cat, statements := [] }

/-- Function `SyncDatabase` creates or updates database tables with the data in the model
registry (lines 204–249). -/
def SyncDatabase (c : Collaborators) (st : State) (cat : Catalog) : Result DB :=
  (((forEach (syncTable c st cat.tableNames) st.Registry.registryByTableName
        (DB.start cat)).andThen
      (fun db => forEach (syncForeignKeys c st) st.Registry.registryByTableName db)).andThen
      (fun db => forEach (dropUnknownTable c st) db.catalog.tableNames db)).andThen
    (fun db => Result.done (updateDBSequences c st db))

/-! ## Vocabulary of the statements on schema synchronisation -/

/-- The database once the statements are executed, in order. -/
def DB.run (adapter : dbAdapter) (db : DB) (stmts : List Statement) : DB :=
  stmts.foldl (dbExecuteNoTx adapter) db

/-- The table and the column that a statement on a column is about. -/
def Statement.column : Statement → Option (String × String)
  | .addColumn tableName fi => some (tableName, fi.json)
  | .setDataType tableName column _ => some (tableName, column)
  | .setNotNull tableName column _ => some (tableName, column)
  | .setDefault tableName column _ => some (tableName, column)
  | .dropColumn tableName colName => some (tableName, colName)
  | _ => none

/-- The statements that one iteration of the first loop of `updateDBColumns` issues for a
stored field `fi` other than `id` (lines 304–318), in order, given the columns of the live
table: `ADD COLUMN` for a column that is missing, and the changes of type, of nullability
and of default where the live column, or the zero value that stands for a missing one,
differs from the field. -/
def columnStatements (c : Collaborators) (tableName : String)
    (dbColumns : List (String × ColumnData)) (col : String) (fi : Field) : List Statement :=
  (if (mapGet dbColumns col).isSome = false then [Statement.addColumn tableName fi] else []) ++
  (if ((mapGet dbColumns col).getD ColumnData.zero).DataType ≠ c.adapter.typeSQL fi then
    [Statement.setDataType tableName fi.json (c.adapter.typeSQL fi)] else []) ++
  (if (((mapGet dbColumns col).getD ColumnData.zero).IsNullable = "NO" ∧
        c.adapter.fieldIsNotNull fi = false) ∨
      (((mapGet dbColumns col).getD ColumnData.zero).IsNullable = "YES" ∧
        c.adapter.fieldIsNotNull fi = true) then
    [Statement.setNotNull tableName fi.json (c.adapter.fieldIsNotNull fi)] else []) ++
  (match ((mapGet dbColumns col).getD ColumnData.zero).ColumnDefault with
   | some s =>
     if s ≠ c.adapter.fieldSQLDefault fi then
       [Statement.setDefault tableName fi.json (c.adapter.fieldSQLDefault fi)]
     else []
   | none => [])

/-- The statements that one iteration of the first loop of `updateDBColumns` issues for an
entry of `registryByJSON`: none for `id` and for a field that is not stored. -/
def entryStatements (c : Collaborators) (st : State) (m : Model)
    (dbColumns : List (String × ColumnData)) (entry : String × String) : List Statement :=
  if entry.1 = "id" then []
  else
    match m.fieldByJSON entry with
    | none => []
    | some fi =>
      if c.isStored fi = false then []
      else columnStatements c ((ownerTable st fi).getD "") dbColumns entry.1 fi

/-- The pointers that `updateDBColumns` and `updateDBIndexes` follow from the columns of
model `m` designate a field, whose owning model is in the registry. -/
def Model.columnsResolve (st : State) (m : Model) : Bool :=
  m.fields.registryByJSON.all (fun entry =>
    match m.fieldByJSON entry with
    | some fi => (ownerTable st fi).isSome
    | none => false)

/-- The columns of model `m` are those of its fields: each column is registered once,
for a field that has it as its json name and that the model owns. -/
def Model.columnsOwned (st : State) (m : Model) : Bool :=
  decide (mapKeys m.fields.registryByJSON).Nodup &&
  m.fields.registryByJSON.all (fun entry =>
    match m.fieldByJSON entry with
    | some fi => fi.json == entry.1 && ownerTable st fi == some m.tableName
    | none => false)

/-- Every table of `registryByTableName` is the table of the model registered for it,
whose columns resolve. -/
def State.tablesResolve (st : State) : Bool :=
  st.Registry.registryByTableName.all (fun entry =>
    match st.model entry.2 with
    | some model => model.tableName == entry.1 && model.columnsResolve st
    | none => false)

/-- The statements that the second loop of `updateDBColumns` issues (lines 321–325): a
`DROP COLUMN` for each live column that `registryByJSON` does not have. -/
def dropStatements (m : Model) (dbColumns : List (String × ColumnData)) : List Statement :=
  (dbColumns.filter (fun col => (mapGet m.fields.registryByJSON col.1).isSome = false)).map
    (fun col => Statement.dropColumn m.tableName col.1)

/-- The map `registryByJSON` holds the json names of the fields of the model, and only
them: each of its keys is the json name of the field it designates, and the json name of
every field is one of its keys. -/
def fieldsCollection.columnsOfFields (fc : fieldsCollection) : Bool :=
  fc.registryByJSON.all (fun entry =>
    match mapGet fc.registryByName entry.2 with
    | some fi => fi.json == entry.1
    | none => false) &&
  fc.registryByName.all (fun e => (mapGet fc.registryByJSON e.2.json).isSome)

/-- The test of line 402: the field is of a relation type stored as a column, and is
stored. -/
def fieldIsFK (c : Collaborators) (fi : Field) : Bool :=
  c.IsFKRelationType fi.fieldType && c.isStored fi

/-- The statement that one iteration of the loop of `updateDBForeignKeyConstraints` issues
(lines 403–408), given the live catalog: the creation of the constraint of a foreign key
that has none, the drop of the constraint of a column that is not a foreign key, or
nothing. -/
def fkStatements (c : Collaborators) (st : State) (m : Model) (cat : Catalog)
    (entry : String × String) : List Statement :=
  match m.fieldByJSON entry with
  | none => []
  | some fi =>
    if fieldIsFK c fi = true ∧ cat.constraintExists (fkeyName m.tableName entry.1) = false then
      match fi.relatedModel.bind st.model with
      | none => []
      | some related =>
        [Statement.addConstraint m.tableName entry.1 related.tableName fi.onDelete]
    else if fieldIsFK c fi = false ∧
        cat.constraintExists (fkeyName m.tableName entry.1) = true then
      [Statement.dropConstraint m.tableName entry.1]
    else []

/-- The pointers that `updateDBForeignKeyConstraints` follows from the columns of model `m`
designate a field, and the related model of a stored foreign key is in the registry, as
`createModelLinks` leaves it. -/
def Model.foreignKeysResolve (c : Collaborators) (st : State) (m : Model) : Bool :=
  m.fields.registryByJSON.all (fun entry =>
    match m.fieldByJSON entry with
    | some fi => !fieldIsFK c fi || (fi.relatedModel.bind st.model).isSome
    | none => false)

/-- The constraints of the catalog that have the name of the foreign key of a column of
model `m` are constraints of the table of `m`. -/
def Catalog.ownsConstraints (cat : Catalog) (m : Model) : Bool :=
  cat.constraints.all (fun cn =>
    m.fields.registryByJSON.all (fun entry =>
      cn.2 != fkeyName m.tableName entry.1 || cn.1 == m.tableName))

/-- The kinds of statements that the schema synchroniser issues. -/
inductive StatementKind where
  | createTable
  | dropTable
  | column
  | foreignKey
  | index
  | sequence
  deriving DecidableEq, Repr

/-- The kind of a statement. -/
def Statement.kind : Statement → StatementKind
  | .createTable _ => StatementKind.createTable
  | .dropTable _ => StatementKind.dropTable
  | .addColumn _ _ => StatementKind.column
  | .setDataType _ _ _ => StatementKind.column
  | .setNotNull _ _ _ => StatementKind.column
  | .setDefault _ _ _ => StatementKind.column
  | .dropColumn _ _ => StatementKind.column
  | .addConstraint _ _ _ _ => StatementKind.foreignKey
  | .dropConstraint _ _ => StatementKind.foreignKey
  | .createIndex _ _ => StatementKind.index
  | .dropIndex _ _ => StatementKind.index
  | .createSequence _ => StatementKind.sequence
  | .dropSequence _ => StatementKind.sequence

/-- From `d` to `d2` the statements issued are statements of which `P` holds. -/
def Issues (P : Statement → Prop) (d d2 : DB) : Prop :=
  ∃ new, d2.statements = d.statements ++ new ∧ ∀ s ∈ new, P s

/-- A table of the registry that `SyncDatabase` is to create: the table of a model that is
neither a mixin nor a manual model, absent from the tables `dbTables` of the live
catalog. -/
def ToCreate (st : State) (dbTables : List String) (T : String) : Prop :=
  ∃ ptr model, (T, ptr) ∈ st.Registry.registryByTableName ∧ st.model ptr = some model ∧
    model.isMixin = false ∧ model.isManual = false ∧ T ∉ dbTables

/-- The pointers that the second loop of `SyncDatabase` follows resolve: every table of
`registryByTableName` is that of a model and, unless the model is a mixin, its foreign
keys resolve. -/
def State.foreignKeysResolve (c : Collaborators) (st : State) : Bool :=
  st.Registry.registryByTableName.all (fun entry =>
    match st.model entry.2 with
    | some model => model.isMixin || model.foreignKeysResolve c st
    | none => false)

/-- Every model of the registry is registered in `registryByTableName` under its table
name, as the registration of a model does. -/
def State.tablesIndexed (st : State) : Bool :=
  st.Registry.registryByName.all (fun e =>
    match st.model e.1 with
    | some model => mapGet st.Registry.registryByTableName model.tableName == some e.1
    | none => true)

/-- Some model of the registry that is not a mixin has `T` as its table name. -/
def HasTable (st : State) (T : String) : Prop :=
  ∃ name model, st.model name = some model ∧ model.isMixin = false ∧ model.tableName = T

/-- The catalog of `d` is the catalog `cat` on which the statements of `d` have been
executed, in order. -/
def DB.startedFrom (adapter : dbAdapter) (cat : Catalog) (d : DB) : Prop :=
  d = (DB.start cat).run adapter d.statements

/-- The table that a statement is issued against (none for a sequence). -/
def Statement.table : Statement → Option String
  | .createTable tableName => some tableName
  | .dropTable tableName => some tableName
  | .addColumn tableName _ => some tableName
  | .setDataType tableName _ _ => some tableName
  | .setNotNull tableName _ _ => some tableName
  | .setDefault tableName _ _ => some tableName
  | .dropColumn tableName _ => some tableName
  | .addConstraint tableName _ _ _ => some tableName
  | .dropConstraint tableName _ => some tableName
  | .createIndex tableName _ => some tableName
  | .dropIndex tableName _ => some tableName
  | .createSequence _ => none
  | .dropSequence _ => none

/-- The `mixins` relation is acyclic on the models `S`, a list closed under `mixins`: each
model of `S` is in the registry with well-formed methods, and each of its mixins is in `S`
with a lower rank. -/
def State.mixinsRanked (rank : String → Nat) (st : State) (S : List String) : Bool :=
  S.all (fun p =>
    match st.model p with
    | some m =>
      m.methods.wellFormed &&
        m.mixins.all (fun y => decide (y ∈ S) && decide (rank y < rank p))
    | none => false)

/-- The model is in the registry, with well-formed methods. -/
def State.ready (st : State) (a : String) : Bool :=
  match st.model a with
  | some m => m.methods.wellFormed
  | none => false

/-- The `mixins` relation has a cycle through the models `D`: each model of `D` is in the
registry and the first of its mixins is in `D`. -/
def State.firstMixinWithin (st : State) (D : List String) : Bool :=
  D.all (fun p =>
    match st.model p with
    | some m =>
      match m.mixins with
      | y :: _ => decide (y ∈ D)
      | [] => false
    | none => false)

/-- The invariant of the termination proof: the models of `W` are in the registry with
well-formed methods, and `rank` decreases from a model of `S` to each of its mixins, which
are in `S`; `S` is part of `W`. -/
def LocallyRanked (rank : String → Nat) (S W : String → Prop) (st : State) : Prop :=
  (∀ p, W p → ∃ m, st.model p = some m ∧ m.methods.wellFormed = true) ∧
  (∀ p, S p → W p ∧ ∀ m, st.model p = some m → ∀ y ∈ m.mixins, S y ∧ rank y < rank p)

/-- The progress of the injection of a mixin that has method `X`, one layer of function
`f`, into a model that does not declare `X`: either the couple is not recorded
(`mixedFlag` false) and the model is `m0`, as declared; or it is recorded and the chain of
`X` is one layer of function `f`, not flagged as mixed in. -/
def Received (X : String) (f : FuncValue) (m0 : Model) (mixedFlag : Bool)
    (model : Option Model) : Prop :=
  (mixedFlag = false ∧ model = some m0) ∨
  (mixedFlag = true ∧ ∃ e l1, model.bind (fun m => mapGet m.methods.registry X) = some e ∧
    e.invertedLayers = some [l1] ∧ l1.funcValue = f ∧ l1.mixedIn = false)

/-- The progress of the injection of two such mixins into a model that does not declare
`X`: no couple is recorded and the model is `m0`; or one is and the chain of `X` is one
layer of function `f`; or both are and the chain of `X` is two layers of function `f`. -/
def ReceivedTwice (X : String) (f : FuncValue) (m0 : Model) (flag1 flag2 : Bool)
    (model : Option Model) : Prop :=
  (flag1 = false ∧ flag2 = false ∧ model = some m0) ∨
  (flag1 ≠ flag2 ∧ ∃ e l1, model.bind (fun m => mapGet m.methods.registry X) = some e ∧
    e.invertedLayers = some [l1] ∧ l1.funcValue = f ∧ l1.mixedIn = false) ∨
  (flag1 = true ∧ flag2 = true ∧
    ∃ e l1 l2, model.bind (fun m => mapGet m.methods.registry X) = some e ∧
      e.invertedLayers = some [l1, l2] ∧ l1.funcValue = f ∧ l2.funcValue = f)

/-! ## Conditions and their serialization

The type `Condition` and its methods are declared outside the sources at hand; the tests
of `t04_queries_test.go` call them. -/

/-- Modelled from the spec: a value that a predicate compares a field with (the tests use
strings, integers and booleans). -/
inductive Value where
  | text (s : String)
  | number (n : Int)
  | boolean (b : Bool)
  deriving DecidableEq, Repr

/-- The text of a value as `fmt.Sprint` prints it. -/
def Value.Sprint : Value → String
  | .text s => s
  | .number n => toString n
  | .boolean b => if b then "true" else "false"

/-- Modelled from the spec: the operators of a predicate, "equality, inequality, ordering
comparisons, LIKE/ILIKE". -/
inductive DomainOperator where
  | equals
  | notEquals
  | greater
  | greaterOrEqual
  | lower
  | lowerOrEqual
  | like
  | ilike
  deriving DecidableEq, Repr

/-- The text of an operator in a serialized condition; the tests give `=`, `>` and
`ilike`. -/
def DomainOperator.text : DomainOperator → String
  | .equals => "="
  | .notEquals => "!="
  | .greater => ">"
  | .greaterOrEqual => ">="
  | .lower => "<"
  | .lowerOrEqual => "<="
  | .like => "like"
  | .ilike => "ilike"

/-- Modelled from the spec: a predicate "of the form (field-path, operator, value)"; the
path is "a sequence of field names". -/
structure condPredicate where
  exprs : List String
  operator : DomainOperator
  arg : Value
  deriving DecidableEq, Repr

/-- Modelled from the spec: a condition "is built incrementally: starting a fresh
condition, each leaf predicate is combined with the previous via an explicit AND or OR
combinator".  A condition is the fresh one, or a condition to which a predicate or a whole
condition has been combined, with `isOr` telling the combinator. -/
inductive Condition where
  | empty
  | leaf (previous : Condition) (isOr : Bool) (p : condPredicate)
  | cond (previous : Condition) (isOr : Bool) (sub : Condition)
  deriving DecidableEq, Repr

/-- Function `newCondition` of the tests: a fresh condition. -/
def newCondition : Condition := Condition.empty

/-- What `And()` and `Or()` return: the condition, and the combinator of the predicate to
come. -/
structure ConditionStart where
  cond : Condition
  nextIsOr : Bool
  deriving DecidableEq, Repr

/-- What `Field(name)` returns: the path is still to be given an operator and a value. -/
structure ConditionField where
  cs : ConditionStart
  exprs : List String
  deriving DecidableEq, Repr

/-- Method `And()` of the tests. -/
def Condition.And (c : Condition) : ConditionStart := { cond := c, nextIsOr := false }

/-- Method `Or()` of the tests. -/
def Condition.Or (c : Condition) : ConditionStart := { cond := c, nextIsOr := true }

/-- Method `AndCond(sub)` of the tests: the whole condition `sub` is combined by AND. -/
def Condition.AndCond (c sub : Condition) : Condition := Condition.cond c false sub

/-- Method `Field(name)` of the tests; the name is a path, its segments separated by
`ExprSep`. -/
def ConditionStart.Field (cs : ConditionStart) (name : String) : ConditionField :=
  { cs := cs, exprs := splitPath name }

/-- The predicate is combined to the condition. -/
def ConditionField.addOperator (cf : ConditionField) (op : DomainOperator) (arg : Value) :
    Condition :=
  Condition.leaf cf.cs.cond cf.cs.nextIsOr { exprs := cf.exprs, operator := op, arg := arg }

/-- Method `Equals(value)` of the tests. -/
def ConditionField.Equals (cf : ConditionField) (arg : Value) : Condition :=
  cf.addOperator DomainOperator.equals arg

/-- Method `Greater(value)` of the tests. -/
def ConditionField.Greater (cf : ConditionField) (arg : Value) : Condition :=
  cf.addOperator DomainOperator.greater arg

/-- Method `GreaterOrEqual(value)` of the tests. -/
def ConditionField.GreaterOrEqual (cf : ConditionField) (arg : Value) : Condition :=
  cf.addOperator DomainOperator.greaterOrEqual arg

/-- Method `Lower(value)` of the tests. -/
def ConditionField.Lower (cf : ConditionField) (arg : Value) : Condition :=
  cf.addOperator DomainOperator.lower arg

/-- Method `Like(value)` of the tests. -/
def ConditionField.Like (cf : ConditionField) (arg : Value) : Condition :=
  cf.addOperator DomainOperator.like arg

/-- Method `ILike(value)` of the tests. -/
def ConditionField.ILike (cf : ConditionField) (arg : Value) : Condition :=
  cf.addOperator DomainOperator.ilike arg

/-- An element of a serialized condition: an operator `&` or `|`, or a predicate. -/
inductive DomainTerm where
  | operator (s : String)
  | term (p : condPredicate)
  deriving DecidableEq, Repr

/-- Modelled from the spec: the combination of what is serialized so far with a new
operand, "an AND node serializes as `& <left> <right>`, an OR as `| <left> <right>`"; the
first operand of a condition comes alone, and the tests give the order of the operands:
the new one last under `&`, first under `|`. -/
def combineDomain (isOr : Bool) (previous new : List DomainTerm) : List DomainTerm :=
  match previous with
  | [] => new
  | _ :: _ =>
    if isOr then DomainTerm.operator "|" :: (new ++ previous)
    else DomainTerm.operator "&" :: (previous ++ new)

/-- Modelled from the spec: `Serialize` turns the condition into "a canonical prefix polish
form", folding the predicates left in construction order. -/
def Condition.Serialize : Condition → List DomainTerm
  | .empty => []
  | .leaf previous isOr p => combineDomain isOr previous.Serialize [DomainTerm.term p]
  | .cond previous isOr sub => combineDomain isOr previous.Serialize sub.Serialize

/-- The text of a predicate as `fmt.Sprint` prints it, `[field operator value]`. -/
def condPredicate.Sprint (p : condPredicate) : String :=
  "[" ++ ExprSep.intercalate p.exprs ++ " " ++ p.operator.text ++ " " ++ p.arg.Sprint ++ "]"

/-- The text of an element of a serialized condition. -/
def DomainTerm.Sprint : DomainTerm → String
  | .operator s => s
  | .term p => p.Sprint

/-- The text of a serialized condition as `fmt.Sprint` prints it: the elements between
brackets, separated by blanks. -/
def SprintDomain (dom : List DomainTerm) : String :=
  "[" ++ " ".intercalate (dom.map DomainTerm.Sprint) ++ "]"

/-- The prefix forms: a predicate; `&` followed by two prefix forms; `|` followed by two
prefix forms. -/
inductive PolishForm : List DomainTerm → Prop where
  | term (p : condPredicate) : PolishForm [DomainTerm.term p]
  | conj (l r : List DomainTerm) : PolishForm l → PolishForm r →
      PolishForm (DomainTerm.operator "&" :: (l ++ r))
  | disj (l r : List DomainTerm) : PolishForm l → PolishForm r →
      PolishForm (DomainTerm.operator "|" :: (l ++ r))

/-- The condition has no predicate. -/
def Condition.isEmpty : Condition → Bool
  | .empty => true
  | _ => false

/-- No empty condition has been combined to the condition as a whole. -/
def Condition.operandsGiven : Condition → Bool
  | .empty => true
  | .leaf previous _ _ => previous.operandsGiven
  | .cond previous _ sub => previous.operandsGiven && sub.operandsGiven && !sub.isEmpty

/-! ## Queries and their SQL

The type `Query` and its methods are declared outside the sources at hand; the tests of
`t04_queries_test.go` call `selectQuery` and give the statements they expect. -/

/-- Modelled from the spec: the field of a model that a segment of a path designates, by
its name or by the name of its column (the tests give paths "with database field names"
and "with struct field names"). -/
def lookupField (st : State) (mi name : String) : Option Field :=
  (st.model mi).bind (fun m =>
    match mapGet m.fields.registryByName name with
    | some fi => some fi
    | none =>
      (mapGet m.fields.registryByJSON name).bind (fun p => mapGet m.fields.registryByName p))

/-- Modelled from the spec: a join of the "join chain" of a path, `LEFT JOIN relationTable
aliasN ON parentAlias.fk_column = aliasN.id`, kept under the path of columns that leads
to the relation from the model of the query. -/
structure tableJoin where
  path : List String
  tableName : String
  tableAlias : String
  parentAlias : String
  column : String
  deriving DecidableEq, Repr

/-- Modelled from the spec: the joins of a path are added to those known so far.  "For each
subsequent relation hop the alias is `parentAlias__relationTableName`"; "aliases are
memoized by full path prefix so two field paths sharing a prefix reuse the same join".
`mi` is the model reached, `tableAlias` its alias, `pre` the columns gone through. -/
def addJoins (st : State) :
    String → String → List String → List tableJoin → List String → Option (List tableJoin)
  | _, _, _, _, [] => none
  | mi, tableAlias, pre, joins, name :: rest =>
    (lookupField st mi name).bind (fun fi =>
      if rest.isEmpty then some joins
      else
        fi.relatedModel.bind (fun r =>
          (st.model r).bind (fun related =>
            match joins.find? (fun j => j.path == pre ++ [fi.json]) with
            | some j => addJoins st r j.tableAlias (pre ++ [fi.json]) joins rest
            | none =>
              addJoins st r (tableAlias ++ "__" ++ related.tableName) (pre ++ [fi.json])
                (joins ++ [{ path := pre ++ [fi.json], tableName := related.tableName,
                             tableAlias := tableAlias ++ "__" ++ related.tableName,
                             parentAlias := tableAlias, column := fi.json }])
                rest)))

/-- Modelled from the spec: the alias of the table that holds the field at the end of a
path, with the path of its columns, read from the joins. -/
def columnOf (st : State) (joins : List tableJoin) :
    String → String → List String → List String → Option (String × List String)
  | _, _, _, [] => none
  | mi, tableAlias, pre, name :: rest =>
    (lookupField st mi name).bind (fun fi =>
      if rest.isEmpty then some (tableAlias, pre ++ [fi.json])
      else
        fi.relatedModel.bind (fun r =>
          (joins.find? (fun j => j.path == pre ++ [fi.json])).bind (fun j =>
            columnOf st joins r j.tableAlias (pre ++ [fi.json]) rest)))

/-- The path designates a field: each segment but the last is a relation field whose
related model is in the registry. -/
def pathResolves (st : State) : String → List String → Bool
  | _, [] => false
  | mi, name :: rest =>
    match lookupField st mi name with
    | none => false
    | some fi =>
      if rest.isEmpty then true
      else
        match fi.relatedModel with
        | none => false
        | some r => (st.model r).isSome && pathResolves st r rest

/-- Modelled from the spec: the column of a field in a statement, `alias.column`, which is
built outside the sources at hand; the tests give the alias quoted, as in
`"user__profile".age`. -/
def columnSQL (adapter : dbAdapter) (e : String × List String) : String :=
  adapter.quoteTableName e.1 ++ "." ++ e.2.getLast?.getD ""

/-- Modelled from the spec: a requested field is projected "as `alias.column AS
flattenedPathAlias` (path segments joined by an internal separator, not dots)". -/
def projectionSQL (adapter : dbAdapter) (e : String × List String) : String :=
  columnSQL adapter e ++ " AS " ++ "__".intercalate e.2

/-- Modelled from the spec: the text of a join, `LEFT JOIN relationTable aliasN ON
parentAlias.fk_column = aliasN.id`, which is built outside the sources at hand; quotes and
spaces are those of the statements that `TestConditions` expects. -/
def tableJoin.sqlString (adapter : dbAdapter) (j : tableJoin) : String :=
  "LEFT JOIN " ++ adapter.quoteTableName j.tableName ++ " " ++
    adapter.quoteTableName j.tableAlias ++ " ON " ++ adapter.quoteTableName j.parentAlias ++ "." ++
    j.column ++ "=" ++ adapter.quoteTableName j.tableAlias ++ ".id"

/-- Modelled from the spec: the text of an operator in a statement ("equality, inequality,
ordering comparisons, LIKE/ILIKE"), which is given outside the sources at hand; the tests
give `=`, `>=`, `<`, `LIKE` and `ILIKE`. -/
def DomainOperator.sql : DomainOperator → String
  | .equals => "="
  | .notEquals => "!="
  | .greater => ">"
  | .greaterOrEqual => ">="
  | .lower => "<"
  | .lowerOrEqual => "<="
  | .like => "LIKE"
  | .ilike => "ILIKE"

/-- Modelled from the spec: the value bound to the placeholder of a predicate; that of
`LIKE` and `ILIKE` is "auto-wrapped in `%...%`". -/
def condPredicate.sqlArg (p : condPredicate) : Value :=
  match p.operator, p.arg with
  | .like, .text s => Value.text ("%" ++ s ++ "%")
  | .ilike, .text s => Value.text ("%" ++ s ++ "%")
  | _, v => v

/-- Modelled from the spec: the "field path referenced" by each predicate of a condition,
in construction order. -/
def Condition.paths : Condition → List (List String)
  | .empty => []
  | .leaf previous _ p => previous.paths ++ [p.exprs]
  | .cond previous _ sub => previous.paths ++ sub.paths

/-- Modelled from the spec: operands are "joined by `AND`/`OR`": the combinator that
precedes an operand, unless it is the first. -/
def connectorParts (previous : List (String × Option Value)) (isOr : Bool) :
    List (String × Option Value) :=
  if previous.isEmpty then [] else [(if isOr then "OR " else "AND ", none)]

/-- Modelled from the spec: the WHERE clause is compiled "into `(lhs_sql op ? )` leaves
joined by `AND`/`OR`", "collecting bound parameter values in left-to-right tree order".
The clause is given in parts, in order, each with the value bound to its placeholder when
it has one; `lhs` gives the column of a path.  The parentheses are those of the statements
that `TestConditions` expects: around a condition combined as a whole (`Search`,
`AndCond`), and none around a predicate inside it. -/
def Condition.sqlParts (lhs : List String → Option String) :
    Condition → Option (List (String × Option Value))
  | .empty => some []
  | .leaf previous isOr p =>
    (previous.sqlParts lhs).bind (fun parts =>
      (lhs p.exprs).map (fun e =>
        parts ++ connectorParts parts isOr ++
          [(e ++ " " ++ p.operator.sql ++ " ? ", some p.sqlArg)]))
  | .cond previous isOr sub =>
    (previous.sqlParts lhs).bind (fun parts =>
      (sub.sqlParts lhs).map (fun subParts =>
        parts ++ connectorParts parts isOr ++ [("(", none)] ++ subParts ++ [(") ", none)]))

/-- Modelled from the spec: the WHERE clause of the statement; the test "query without
WHERE clause" gives nothing for a condition without predicate. -/
def whereSQL (parts : List (String × Option Value)) : String :=
  if parts.isEmpty then "" else "WHERE " ++ String.join (parts.map (fun part => part.1))

/-- Modelled from the spec: a query, "a Model reference, a Condition, an ordering (sequence
of (field path, ascending/descending)), and optional limit/offset".  A term of the
ordering is a path with `true` for descending; 0 stands for a limit or an offset that is
not set. -/
structure Query where
  model : String
  cond : Condition
  orders : List (String × Bool) := []
  limit : Nat
  offset : Nat
  deriving DecidableEq, Repr

/-- Modelled from the spec: method `Search(cond)` of the tests, "filtering a record set":
the condition is combined by AND to that of the query. -/
def Query.Search (q : Query) (cond : Condition) : Query :=
  { q with cond := q.cond.AndCond cond }

/-- Modelled from the spec: the condition with `field` put before the "field path" of each
of its predicates. -/
def Condition.under (field : String) : Condition → Condition
  | .empty => Condition.empty
  | .leaf previous isOr p =>
    Condition.leaf (previous.under field) isOr { p with exprs := splitPath field ++ p.exprs }
  | .cond previous isOr sub => Condition.cond (previous.under field) isOr (sub.under field)

/-- Modelled from the spec: method `FilteredOn(field, cond)` of the tests, the condition
`cond` on the model that `field` relates to. -/
def FilteredOn (field : String) (cond : Condition) : Condition := cond.under field

/-- The options of a list, when each is given. -/
def collect {α : Type} : List (Option α) → Option (List α)
  | [] => some []
  | none :: _ => none
  | some a :: rest => (collect rest).map (fun l => a :: l)

/-- Modelled from the spec: method `OrderBy` of the tests, which adds a term to the
ordering of a query. -/
def Query.OrderBy (q : Query) (field : String) (descending : Bool) : Query :=
  { q with orders := q.orders ++ [(field, descending)] }

/-- Modelled from the spec: method `Limit` of the tests, which sets the limit of a query. -/
def Query.Limit (q : Query) (limit : Nat) : Query := { q with limit := limit }

/-- Modelled from the spec: method `Offset` of the tests, which sets the offset of a
query. -/
def Query.Offset (q : Query) (offset : Nat) : Query := { q with offset := offset }

/-- Modelled from the spec: the ORDER BY clause, built outside the sources at hand:
"default: primary key ascending when unspecified", for which the tests give `ORDER BY id `;
otherwise the terms of the ordering, each the column of its path with its direction.
`terms` gives the columns, as `alias.column`, with `true` for descending. -/
def orderSQL (terms : List (String × Bool)) : String :=
  if terms.isEmpty then "ORDER BY id "
  else "ORDER BY " ++
    ", ".intercalate (terms.map (fun t => t.1 ++ (if t.2 then " DESC" else " ASC"))) ++ " "

/-- Modelled from the spec: the text of the statement, built outside the sources at hand:
"emit `SELECT DISTINCT` projecting each requested field", the table of the model under its
own name, the joins, "emit WHERE", "append `ORDER BY` ... then `LIMIT`/`OFFSET` clauses
when set".  Spaces and separators are those of the statements that `TestConditions`
expects. -/
def selectSQL (adapter : dbAdapter) (table : String) (joins : List tableJoin)
    (columns : List (String × List String)) (parts : List (String × Option Value))
    (terms : List (String × Bool)) (limit offset : Nat) : String :=
  "SELECT DISTINCT " ++ ", ".intercalate (columns.map (projectionSQL adapter)) ++
    " FROM " ++ adapter.quoteTableName table ++ " " ++ adapter.quoteTableName table ++ " " ++
    String.join (joins.map (fun j => j.sqlString adapter ++ " ")) ++
    " " ++ whereSQL parts ++ " " ++ orderSQL terms ++
    (if limit = 0 then "" else "LIMIT " ++ toString limit ++ " ") ++
    (if offset = 0 then "" else "OFFSET " ++ toString offset)

/-- Modelled from the spec: "every distinct field path referenced across selected fields,
the condition tree, and the ordering", in that order. -/
def Query.paths (q : Query) (fields : List String) : List (List String) :=
  fields.map splitPath ++ q.cond.paths ++ q.orders.map (fun o => splitPath o.1)

/-- Modelled from the spec: the joins of a query, those of each of its paths in turn. -/
def Query.joins (st : State) (q : Query) (table : String) (fields : List String) :
    Option (List tableJoin) :=
  (q.paths fields).foldlM (fun joins path => addJoins st q.model table [] joins path) []

/-- Modelled from the spec: `selectQuery` returns the statement that selects the requested
fields of the records of the query, and the values bound to its placeholders. -/
def Query.selectQuery (c : Collaborators) (st : State) (q : Query) (fields : List String) :
    Option (String × List Value) :=
  (st.model q.model).bind (fun root =>
    (q.joins st root.tableName fields).bind (fun joins =>
      (collect (fields.map (fun f =>
          columnOf st joins q.model root.tableName [] (splitPath f)))).bind (fun columns =>
        (q.cond.sqlParts (fun path =>
            (columnOf st joins q.model root.tableName [] path).map
              (columnSQL c.adapter))).bind (fun parts =>
          (collect (q.orders.map (fun o =>
              (columnOf st joins q.model root.tableName [] (splitPath o.1)).map
                (fun e => (columnSQL c.adapter e, o.2))))).map (fun terms =>
            (selectSQL c.adapter root.tableName joins columns parts terms q.limit q.offset,
              parts.filterMap (fun part => part.2)))))))

/-- Every path of the requested fields, of the condition and of the ordering designates a
field. -/
def Query.resolves (st : State) (q : Query) (fields : List String) : Bool :=
  (q.paths fields).all (fun path => pathResolves st q.model path)

/-- The table reached through the columns `pre` has the alias `al`: it is the table of the
model of the query, under its own name, or the table of the join kept under `pre`. -/
def JoinAt (root : String) (joins : List tableJoin) (pre : List String) (al : String) :
    Prop :=
  (pre = [] ∧ al = root) ∨ ∃ j ∈ joins, j.path = pre ∧ j.tableAlias = al

/-- The joins are kept under distinct paths; the alias of each is that of its parent,
`__`, and the name of its table; and its parent is the table of the model of the query or
the table of the join kept under the path without its last column. -/
def JoinsLinked (root : String) (joins : List tableJoin) : Prop :=
  (joins.map (fun j => j.path)).Nodup ∧
  ∀ j ∈ joins, j.tableAlias = j.parentAlias ++ "__" ++ j.tableName ∧ j.path ≠ [] ∧
    JoinAt root joins j.path.dropLast j.parentAlias

/-- The values bound to the placeholders of a condition: those of its predicates, in
construction order. -/
def Condition.args : Condition → List Value
  | .empty => []
  | .leaf previous _ p => previous.args ++ [p.sqlArg]
  | .cond previous _ sub => previous.args ++ sub.args

/-- A part of a WHERE clause: a combinator or a parenthesis, without placeholder, or a
predicate `lhs op ? ` with the value bound to its placeholder. -/
def WherePart (part : String × Option Value) : Prop :=
  (part.2 = none ∧ (part.1 = "AND " ∨ part.1 = "OR " ∨ part.1 = "(" ∨ part.1 = ") ")) ∨
  ∃ (lhs : String) (op : DomainOperator) (v : Value),
    part = (lhs ++ " " ++ op.sql ++ " ? ", some v)

/-! ## Vocabulary for the order of the injections -/

/-- The injection of `x` into `a` comes in its turn: `a` declares the mixin `x`, and the
mixins that `a` declares before it are recorded as injected into `a`. -/
def InTurn (s : State) (x a : String) : Prop :=
  ∃ ma pre post, s.model a = some ma ∧ ma.mixins = pre ++ x :: post ∧
    ∀ w ∈ pre, s.isMixed a w = true

/-- The chain of method `X` in model `A` reads, bottom to top, the mixed-in layers `B` and
then the layers `ts`, those that `A` declared; the method has the top layer, the model and
the name of `emi`, the method as declared. -/
def OwnChain (s : State) (A X : String) (emi : methodInfo) (ts B : List methodLayer) :
    Prop :=
  ∃ e, s.method A X = some e ∧ e.topLayer = emi.topLayer ∧ e.model = emi.model ∧
    e.name = emi.name ∧ e.invertedLayers = some (B ++ ts) ∧ ∀ l ∈ B, l.mixedIn = true

end Yep

/-! ## The test module (tests/testmodule/models.go)

The models that `declareModels` registers, as far as the tests of mixed-in models read
them: `Profile` and `User` with some of their fields, the mixins `AddressMixIn` and
`ActiveMixIn`, and `ModelMixin`, which `ActiveMixIn` is mixed into and which every model
mixes in (the test reads `Active` on `User` and on `Profile`). -/

namespace Yep
namespace testmodule

/-- A field as `AddCharField`, `AddIntegerField` and the like declare it. -/
def declareField (model name json kind : String) : Field :=
  { name := name, json := json, model := model,
    acl := ⟨[(security.GroupAdmin, 15)]⟩, fieldType := FieldType.scalar kind,
    relatedModelName := "", relatedModel := none, stored := false, structField := name,
    noCopy := false, relatedPath := "", embed := false, index := false, onDelete := "",
    compute := "", depends := [] }

/-- A method as `AddMethod` followed by `Extend` declares it: one layer per function, the
first one the base. -/
def declareMethod (model name : String) (layers : List FuncValue) : methodInfo :=
  layers.foldl (fun m f => m.addMethodLayer f "")
    { name := name, model := model, methodType := "", layers := [], topLayer := none,
      nextLayer := [], groups := [] }

/-- A model with the given mixins, fields and methods. -/
def declareModel (name : String) (kind : ModelKind) (mixins : List String)
    (fields : List Field) (methods : List (String × List FuncValue)) : Model :=
  { name := name, tableName := name, kind := kind, mixins := mixins,
    fields :=
      { registryByName := fields.map (fun f => (f.name, f)),
        registryByJSON := fields.map (fun f => (f.json, f.name)),
        bootstrapped := false },
    methods :=
      { registry := methods.map (fun e => (e.1, declareMethod name e.1 e.2)),
        bootstrapped := false } }

/-- Model `Profile` (models.go, lines 96–115 and 139). -/
def profile : Model :=
  declareModel "Profile" ModelKind.regular ["ModelMixin", "AddressMixIn"]
    [declareField "Profile" "Age" "age" "integer",
     declareField "Profile" "City" "city" "char",
     declareField "Profile" "Country" "country" "char"]
    [("PrintAddress", ["Profile.PrintAddress", "Profile.PrintAddress.Extend"])]

/-- Model `User`, with the fields and methods the mixin tests read. -/
def user : Model :=
  declareModel "User" ModelKind.regular ["ModelMixin"]
    [declareField "User" "Name" "name" "char",
     declareField "User" "Email" "email" "char"]
    [("DecorateEmail", ["User.DecorateEmail", "User.DecorateEmail.Extend"])]

/-- Mixin `AddressMixIn` (models.go, lines 135–158). -/
def addressMixIn : Model :=
  declareModel "AddressMixIn" ModelKind.mixin []
    [declareField "AddressMixIn" "Street" "street" "char",
     declareField "AddressMixIn" "Zip" "zip" "char",
     declareField "AddressMixIn" "City" "city" "char"]
    [("SayHello", ["AddressMixIn.SayHello"]),
     ("PrintAddress", ["AddressMixIn.PrintAddress", "AddressMixIn.PrintAddress.Extend"])]

/-- Mixin `ActiveMixIn` (models.go, lines 160–171). -/
def activeMixIn : Model :=
  declareModel "ActiveMixIn" ModelKind.mixin []
    [declareField "ActiveMixIn" "Active" "active" "boolean"]
    [("IsActivated", ["ActiveMixIn.IsActivated"])]

/-- Mixin `ModelMixin`, into which `ActiveMixIn` is mixed (models.go, line 162). -/
def modelMixin : Model :=
  declareModel "ModelMixin" ModelKind.mixin ["ActiveMixIn"] [] []

/-- The registry once `declareModels` has run, before `BootStrap`. -/
def declared : State :=
  { Registry :=
      { registryByName :=
          [("User", user), ("Profile", profile), ("AddressMixIn", addressMixIn),
           ("ActiveMixIn", activeMixIn), ("ModelMixin", modelMixin)],
        bootstrapped := false },
    mixed := [] }

/-- The functions that `declareModels` gives to `PrintAddress` and `SayHello`
(models.go, lines 104–115 and 142–158), on the profile of the test data: street
"165 5th Avenue", zip "0305", city "New York", country "USA". -/
def implementation (f : FuncValue) (callSuper : Option String) : Option String :=
  if f = "AddressMixIn.PrintAddress" then
    some ("165 5th Avenue" ++ ", " ++ "0305" ++ " " ++ "New York")
  else if f = "AddressMixIn.PrintAddress.Extend" then
    callSuper.map (fun res => "<" ++ res ++ ">")
  else if f = "Profile.PrintAddress" then
    callSuper.map (fun res => res ++ ", " ++ "USA")
  else if f = "Profile.PrintAddress.Extend" then
    callSuper.map (fun res => "[" ++ res ++ "]")
  else if f = "AddressMixIn.SayHello" then
    some "Hello !"
  else none

/-- The result of calling method `X` of model `A` in state `st`. -/
def callMethod (st : State) (A X : String) : Option String :=
  (st.model A).bind (fun m =>
    (mapGet m.methods.registry X).bind (fun meth => meth.call implementation))

/-- The implementations of method `X` of model `A` in state `st`, from the base layer up,
each with its `mixedIn` flag. -/
def layersOf (st : State) (A X : String) : Option (List (FuncValue × Bool)) :=
  (st.model A).bind (fun m =>
    (mapGet m.methods.registry X).bind (fun meth =>
      meth.invertedLayers.map (fun ls => ls.map (fun l => (l.funcValue, l.mixedIn)))))

/-- The registry once `ActiveMixIn` is injected into `ModelMixin`. -/
def activeInjected : State :=
  (injectMixInModel 1 declared "ActiveMixIn" "ModelMixin").getD declared

/-- Model `ModelMixin` once `ActiveMixIn` is injected into it. -/
def modelMixinInflated : Model :=
  (activeInjected.model "ModelMixin").getD modelMixin

end testmodule

/-! ## Other registries used as examples -/

namespace example1

/-- A registry with a many-to-many link model `UserTagRel` that declares the mixin
`ActiveMixIn`, next to a regular model `Tag` that declares it too. -/
def linked : State :=
  { Registry :=
      { registryByName :=
          [("UserTagRel", testmodule.declareModel "UserTagRel" ModelKind.m2mLink
              ["ActiveMixIn"] [testmodule.declareField "UserTagRel" "User" "user_id" "integer"]
              []),
           ("Tag", testmodule.declareModel "Tag" ModelKind.regular ["ActiveMixIn"]
              [testmodule.declareField "Tag" "Name" "name" "char"] []),
           ("ActiveMixIn", testmodule.activeMixIn)],
        bootstrapped := false },
    mixed := [] }

end example1

namespace example2

/-- A registry with a chain of mixins: `Contact` mixes in `PersonMixIn`, which mixes in
`NamedMixIn`, and each declares layers of its own for method `Describe`. -/
def nested : State :=
  { Registry :=
      { registryByName :=
          [("Contact", testmodule.declareModel "Contact" ModelKind.regular ["PersonMixIn"] []
              [("Describe", ["Contact.Describe", "Contact.Describe.Extend"])]),
           ("PersonMixIn", testmodule.declareModel "PersonMixIn" ModelKind.mixin
              ["NamedMixIn"] [] [("Describe", ["PersonMixIn.Describe"])]),
           ("NamedMixIn", testmodule.declareModel "NamedMixIn" ModelKind.mixin [] []
              [("Describe", ["NamedMixIn.Describe"])])],
        bootstrapped := false },
    mixed := [] }

/-- A rank of the models of `nested`, decreasing along the mixins. -/
def rank (p : String) : Nat :=
  if p = "Contact" then 2 else if p = "PersonMixIn" then 1 else 0

end example2

namespace example3

/-- A registry in which `Document` declares no layer of its own for method `Describe` and
mixes in `ArchiveMixIn` and then `AuditMixIn`, which both implement it. -/
def twoMixins : State :=
  { Registry :=
      { registryByName :=
          [("Document", testmodule.declareModel "Document" ModelKind.regular
              ["ArchiveMixIn", "AuditMixIn"] [] []),
           ("ArchiveMixIn", testmodule.declareModel "ArchiveMixIn" ModelKind.mixin [] []
              [("Describe", ["ArchiveMixIn.Describe"])]),
           ("AuditMixIn", testmodule.declareModel "AuditMixIn" ModelKind.mixin [] []
              [("Describe", ["AuditMixIn.Describe"])])],
        bootstrapped := false },
    mixed := [] }

/-- The same registry, `Document` declaring one layer of its own for `Describe`. -/
def twoMixinsOwn : State :=
  { Registry :=
      { registryByName :=
          [("Document", testmodule.declareModel "Document" ModelKind.regular
              ["ArchiveMixIn", "AuditMixIn"] [] [("Describe", ["Document.Describe"])]),
           ("ArchiveMixIn", testmodule.declareModel "ArchiveMixIn" ModelKind.mixin [] []
              [("Describe", ["ArchiveMixIn.Describe"])]),
           ("AuditMixIn", testmodule.declareModel "AuditMixIn" ModelKind.mixin [] []
              [("Describe", ["AuditMixIn.Describe"])])],
        bootstrapped := false },
    mixed := [] }

end example3

namespace example4

/-- External phases that leave the registry as it is and accept every signature. -/
def external : External :=
  { processDepends := fun models => Result.done models,
    checkComputeMethodsSignature := fun _ => none }

/-- A registry in which `Order` embeds its many-to-one field `Customer`, whose model
`Partner` mixes in `AddressMixIn` of the test module. -/
def orders : State :=
  { Registry :=
      { registryByName :=
          [("Order", testmodule.declareModel "Order" ModelKind.regular []
              [{ testmodule.declareField "Order" "Customer" "customer_id" "" with
                  fieldType := FieldType.many2one, relatedModelName := "Partner",
                  embed := true, stored := true }] []),
           ("Partner", testmodule.declareModel "Partner" ModelKind.regular ["AddressMixIn"]
              [testmodule.declareField "Partner" "Name" "name" "char"] []),
           ("AddressMixIn", testmodule.addressMixIn)],
        bootstrapped := false },
    mixed := [] }

end example4

namespace example5

/-- The registry `orders` without the model `Partner` that field `Customer` of `Order`
names. -/
def dangling : State :=
  { Registry :=
      { registryByName :=
          [("Order", testmodule.declareModel "Order" ModelKind.regular []
              [{ testmodule.declareField "Order" "Customer" "customer_id" "" with
                  fieldType := FieldType.many2one, relatedModelName := "Partner",
                  embed := true, stored := true }] [])],
        bootstrapped := false },
    mixed := [] }

end example5

namespace example6

/-- The many-to-one field `name` of `model`, linked to the model `related`. -/
def many2one (model name json related : String) : Field :=
  { testmodule.declareField model name json "" with
    fieldType := FieldType.many2one, relatedModelName := related,
    relatedModel := some related, stored := true }

/-- Field `Money` of `Profile` (models.go, line 98). -/
def money : Field := testmodule.declareField "Profile" "Money" "money" "float"

/-- Field `PMoney` of `User`, related to `Profile.Money` (models.go, line 38); here the
declaration authorises a group `manager` that the target field does not know. -/
def pMoney : Field :=
  { testmodule.declareField "User" "PMoney" "p_money" "float" with
    relatedPath := "Profile.Money", acl := ⟨[("manager", 3)]⟩ }

/-- The models `User` and `Profile` of the test module with the related field `PMoney`,
as linked by `createModelLinks`. -/
def related : State :=
  { Registry :=
      { registryByName :=
          [("User", testmodule.declareModel "User" ModelKind.regular []
              [many2one "User" "Profile" "profile_id" "Profile", pMoney] []),
           ("Profile", testmodule.declareModel "Profile" ModelKind.regular [] [money] [])],
        bootstrapped := true },
    mixed := [] }

/-- Field `Street` of `Address`. -/
def street : Field := testmodule.declareField "Address" "Street" "street" "char"

/-- A registry with nested embeddings, as `inflateEmbeddings` leaves it: `Order` embeds
`Customer`, whose model `Partner` embeds `Address`; `Partner` has the promoted field
`Street` of path `Address.Street`, and `Order` the promoted field `Street` of path
`Customer.Street`, whose target is that promoted field of `Partner`. -/
def chained : State :=
  { Registry :=
      { registryByName :=
          [("Order", testmodule.declareModel "Order" ModelKind.regular []
              [{ many2one "Order" "Customer" "customer_id" "Partner" with embed := true },
               embeddedField "Order" (many2one "Order" "Customer" "customer_id" "Partner")
                 "Street" (embeddedField "Partner"
                   (many2one "Partner" "Address" "address_id" "Address") "Street" street)]
              []),
           ("Partner", testmodule.declareModel "Partner" ModelKind.regular []
              [{ many2one "Partner" "Address" "address_id" "Address" with embed := true },
               embeddedField "Partner" (many2one "Partner" "Address" "address_id" "Address")
                 "Street" street] []),
           ("Address", testmodule.declareModel "Address" ModelKind.regular [] [street] [])],
        bootstrapped := true },
    mixed := [] }

end example6

namespace example7

/-- Field `Zip` of `Address`. -/
def zip : Field := testmodule.declareField "Address" "Zip" "zip" "char"

/-- A registry in which `Order` embeds two many-to-one fields, `Billing` and `Shipping`,
that both relate to `Address`. -/
def twoAddresses : State :=
  { Registry :=
      { registryByName :=
          [("Order", testmodule.declareModel "Order" ModelKind.regular []
              [{ example6.many2one "Order" "Billing" "billing_id" "Address" with embed := true },
               { example6.many2one "Order" "Shipping" "shipping_id" "Address" with
                 embed := true }] []),
           ("Address", testmodule.declareModel "Address" ModelKind.regular []
              [example6.street, zip] [])],
        bootstrapped := true },
    mixed := [] }

/-- Field `LastPost` of `User`, which embeds the model `Post` (models.go, line 39). -/
def lastPost : Field :=
  { example6.many2one "User" "LastPost" "last_post_id" "Post" with embed := true }

/-- Field `Title` of `Post` (models.go, line 119). -/
def title : Field := testmodule.declareField "Post" "Title" "title" "char"

/-- Field `Content` of `Post` (models.go, line 120). -/
def content : Field := testmodule.declareField "Post" "Content" "content" "text"

/-- The models `User` and `Post` of the test module with their primary key `ID`, as
linked by `createModelLinks`. -/
def blog : State :=
  { Registry :=
      { registryByName :=
          [("User", testmodule.declareModel "User" ModelKind.regular []
              [testmodule.declareField "User" "ID" "id" "integer", lastPost] []),
           ("Post", testmodule.declareModel "Post" ModelKind.regular []
              [testmodule.declareField "Post" "ID" "id" "integer", title, content] [])],
        bootstrapped := true },
    mixed := [] }

end example7

namespace example8

/-- SQL types of the field types, after the PostgreSQL adapter. -/
def typeSQL (fi : Field) : String :=
  match fi.fieldType with
  | FieldType.scalar "char" => "character varying"
  | FieldType.scalar "boolean" => "bool"
  | FieldType.scalar "float" => "numeric"
  | FieldType.scalar "text" => "text"
  | _ => "integer"

/-- Collaborators for the examples: an adapter that quotes table names, makes the
booleans `NOT NULL` with the default `false`, and takes a sequence for one to reconcile
when its name ends in `_manseq`; a field is stored unless it is a reverse relation or a
computed or related field without the `stored` flag; the relations stored as a column are
the many-to-one and the one-to-one. -/
def collaborators : Collaborators :=
  { adapter :=
      { quoteTableName := fun t => "\"" ++ t ++ "\"",
        typeSQL := typeSQL,
        fieldIsNotNull := fun fi => fi.fieldType == FieldType.scalar "boolean",
        fieldSQLDefault := fun fi =>
          if fi.fieldType = FieldType.scalar "boolean" then "false" else "",
        columnSQLDefinition := fun fi =>
          typeSQL fi ++
            (if fi.fieldType = FieldType.scalar "boolean" then " NOT NULL DEFAULT false"
             else ""),
        like := fun _ name => "_manseq".data.isSuffixOf name.data },
    isStored := fun fi =>
      !(fi.fieldType == FieldType.one2many || fi.fieldType == FieldType.many2many) &&
        !((fi.compute != "" || fi.isRelatedField) && !fi.stored),
    IsFKRelationType := fun t => t == FieldType.many2one || t == FieldType.one2one }

/-- A model of the examples: its table and its fields, each registered under its name and
under its column. -/
def table (name tableName : String) (kind : ModelKind) (fields : List Field) : Model :=
  { testmodule.declareModel name kind [] fields [] with tableName := tableName }

/-- The primary key that every model declares. -/
def pk (model : String) : Field := testmodule.declareField model "ID" "id" "integer"

/-- Model `User`, with its table `user`. -/
def user : Model :=
  table "User" "user" ModelKind.regular
    [pk "User", testmodule.declareField "User" "Name" "name" "char",
     testmodule.declareField "User" "IsStaff" "is_staff" "boolean",
     example6.many2one "User" "Profile" "profile_id" "Profile"]

/-- Model `Profile`, with its table `profile`. -/
def profile : Model :=
  table "Profile" "profile" ModelKind.regular
    [pk "Profile", testmodule.declareField "Profile" "Money" "money" "float"]

/-- The manual model `UserView` (models.go, lines 173–175), here with a stored
many-to-one field. -/
def userView : Model :=
  table "UserView" "user_view" ModelKind.manual
    [pk "UserView", testmodule.declareField "UserView" "Name" "name" "char",
     example6.many2one "UserView" "User" "user_id" "User"]

/-- A frozen registry after the test module: the regular models `User` and `Profile`, the
mixin `AddressMixIn`, the manual model `UserView`, and one sequence. -/
def frozen : State :=
  { Registry :=
      { registryByName :=
          [("User", user), ("Profile", profile),
           ("AddressMixIn", table "AddressMixIn" "address_mix_in" ModelKind.mixin
              [pk "AddressMixIn",
               testmodule.declareField "AddressMixIn" "Street" "street" "char"]),
           ("UserView", userView)],
        bootstrapped := true,
        registryByTableName :=
          [("user", "User"), ("profile", "Profile"), ("address_mix_in", "AddressMixIn"),
           ("user_view", "UserView")],
        sequences := [⟨"invoice_manseq"⟩] },
    mixed := [] }

/-- A live catalog: the table `user` with a column `name` of another type and a column
`login` that no field declares, and a table `legacy` that no model has. -/
def live : Catalog :=
  { tables :=
      [("user", [("id", serialColumn),
                 ("name", { DataType := "text", IsNullable := "YES", ColumnDefault := none }),
                 ("login", { DataType := "text", IsNullable := "YES", ColumnDefault := none })]),
       ("legacy", [("id", serialColumn)])],
    constraints := [],
    indexes := [],
    sequences := [] }

/-- Field `IsStaff` of `User` (models.go, line 33), a boolean, which the adapter of the
examples declares `NOT NULL DEFAULT false`. -/
def isStaff : Field := testmodule.declareField "User" "IsStaff" "is_staff" "boolean"

/-- A live catalog in which the table `user` has the column of every field of `User`, with
the type and the nullability that the adapter derives; the column `is_staff` has no
default. -/
def noDefault : Catalog :=
  { tables :=
      [("user",
        [("id", serialColumn),
         ("name", { DataType := "character varying", IsNullable := "YES",
                    ColumnDefault := none }),
         ("is_staff", { DataType := "bool", IsNullable := "NO", ColumnDefault := none }),
         ("profile_id", { DataType := "integer", IsNullable := "YES",
                          ColumnDefault := none })])],
    constraints := [],
    indexes := [],
    sequences := [] }

/-- The catalog `noDefault` with a foreign-key constraint on the column `name`, which is
not a foreign key. -/
def stale : Catalog :=
  { noDefault with constraints := [("user", "user_name_fkey")] }

end example8

namespace example8

/-- A frozen registry with the regular model `Profile` and one sequence. -/
def invoicing : State :=
  { Registry :=
      { registryByName := [("Profile", profile)],
        bootstrapped := true,
        registryByTableName := [("profile", "Profile")],
        sequences := [⟨"invoice_manseq"⟩] },
    mixed := [] }

/-- A database without any table, constraint, index or sequence. -/
def blank : Catalog :=
  { tables := [], constraints := [], indexes := [], sequences := [] }

/-- The catalog after the synchronisation of `blank` with the registry `invoicing`: the
table `profile` with its two columns, and the sequence. -/
def converged : Catalog :=
  { tables :=
      [("profile",
        [("id", serialColumn),
         ("money", { DataType := "numeric", IsNullable := "YES", ColumnDefault := none })])],
    constraints := [],
    indexes := [],
    sequences := ["invoice_manseq"] }

end example8

namespace example9

/-- A registry in which the mixin `Tagged` declares itself as its mixin, and `mixed`
already records every couple. -/
def looping : State :=
  { Registry :=
      { registryByName :=
          [("Note", testmodule.declareModel "Note" ModelKind.regular ["Tagged"] [] []),
           ("Tagged", testmodule.declareModel "Tagged" ModelKind.mixin ["Tagged"] []
              [("Describe", ["Tagged.Describe"])])],
        bootstrapped := false },
    mixed := [(⟨"Note", "Tagged"⟩, true), (⟨"Tagged", "Tagged"⟩, true)] }

end example9

namespace example10

/-- A diamond of mixins: `Invoice` mixes in `Dated` and `Numbered`, each of which mixes in
`Tracked`, the only model that declares method `Describe`, in one layer. -/
def diamond : State :=
  { Registry :=
      { registryByName :=
          [("Invoice", testmodule.declareModel "Invoice" ModelKind.regular
              ["Dated", "Numbered"] [] []),
           ("Dated", testmodule.declareModel "Dated" ModelKind.mixin ["Tracked"] [] []),
           ("Numbered", testmodule.declareModel "Numbered" ModelKind.mixin ["Tracked"] [] []),
           ("Tracked", testmodule.declareModel "Tracked" ModelKind.mixin [] []
              [("Describe", ["Tracked.Describe"])])],
        bootstrapped := false },
    mixed := [] }

/-- A rank of the models of `diamond`, decreasing along the mixins. -/
def rank (p : String) : Nat :=
  if p = "Invoice" then 2 else if p = "Tracked" then 0 else 1

end example10

namespace example11

/-- Models `User`, `Profile` and `Post` of the test module (models.go, lines 25–39, 96–101
and 117–121), with the fields that the tests of the queries read; their tables are `user`,
`profile` and `post`. -/
def registry : State :=
  { Registry :=
      { registryByName :=
          [("User", example8.table "User" "user" ModelKind.regular
              [example8.pk "User", testmodule.declareField "User" "Name" "name" "char",
               testmodule.declareField "User" "Email" "email" "char",
               testmodule.declareField "User" "IsStaff" "is_staff" "boolean",
               testmodule.declareField "User" "Nums" "nums" "integer",
               example6.many2one "User" "Profile" "profile_id" "Profile"]),
           ("Profile", example8.table "Profile" "profile" ModelKind.regular
              [example8.pk "Profile", testmodule.declareField "Profile" "Age" "age" "integer",
               testmodule.declareField "Profile" "Money" "money" "float",
               example6.many2one "Profile" "BestPost" "best_post_id" "Post"]),
           ("Post", example8.table "Post" "post" ModelKind.regular
              [example8.pk "Post", testmodule.declareField "Post" "Title" "title" "char",
               example6.many2one "Post" "User" "user_id" "User"])],
        bootstrapped := true },
    mixed := [] }

/-- The query of `TestConditions`: the users filtered on `Profile.BestPost.Title = "foo"`,
`rs.Search(rs.Model().FilteredOn("Profile", ... FilteredOn("BestPost", ...
Field("Title").Equals("foo"))))`. -/
def users : Query :=
  ({ model := "User", cond := newCondition, limit := 0, offset := 0 } : Query).Search
    (FilteredOn "Profile"
      (FilteredOn "BestPost" ((newCondition.And.Field "Title").Equals (Value.text "foo"))))

/-- A query with an ordering, after `env.Pool("User").OrderBy("Name")` of
`t13_methods_test.go`: all the users, by decreasing `Profile.Money`, then by `Name`. -/
def ranked : Query :=
  (({ model := "User", cond := newCondition, limit := 0, offset := 0 } : Query).OrderBy
    "Profile.Money" true).OrderBy "Name" false

end example11

namespace example12

/-- The registry `nested` in which `Contact` also declares `NamedMixIn`, after
`PersonMixIn`: `NamedMixIn` is a mixin of `Contact` and a mixin of its mixin. -/
def shared : State :=
  { Registry :=
      { registryByName :=
          [("Contact", testmodule.declareModel "Contact" ModelKind.regular
              ["PersonMixIn", "NamedMixIn"] []
              [("Describe", ["Contact.Describe", "Contact.Describe.Extend"])]),
           ("PersonMixIn", testmodule.declareModel "PersonMixIn" ModelKind.mixin
              ["NamedMixIn"] [] [("Describe", ["PersonMixIn.Describe"])]),
           ("NamedMixIn", testmodule.declareModel "NamedMixIn" ModelKind.mixin [] []
              [("Describe", ["NamedMixIn.Describe"])])],
        bootstrapped := false },
    mixed := [] }

/-- The registry `nested` in which `Contact` declares a second mixin, `StaffMixIn`, after
`PersonMixIn`, and both mix in `NamedMixIn`, which `Contact` does not declare. -/
def twice : State :=
  { Registry :=
      { registryByName :=
          [("Contact", testmodule.declareModel "Contact" ModelKind.regular
              ["PersonMixIn", "StaffMixIn"] []
              [("Describe", ["Contact.Describe", "Contact.Describe.Extend"])]),
           ("PersonMixIn", testmodule.declareModel "PersonMixIn" ModelKind.mixin
              ["NamedMixIn"] [] [("Describe", ["PersonMixIn.Describe"])]),
           ("StaffMixIn", testmodule.declareModel "StaffMixIn" ModelKind.mixin
              ["NamedMixIn"] [] [("Describe", ["StaffMixIn.Describe"])]),
           ("NamedMixIn", testmodule.declareModel "NamedMixIn" ModelKind.mixin [] []
              [("Describe", ["NamedMixIn.Describe"])])],
        bootstrapped := false },
    mixed := [] }

/-- A registry in which the mixins have mixins of their own: `Contact` declares
`TaggedMixIn` and then `PersonMixIn`; `PersonMixIn` declares `StampedMixIn`, `NamedMixIn`
and `TaggedMixIn`; `NamedMixIn` declares `StampedMixIn`.  All declare a layer for
`Describe`. -/
def crowded : State :=
  { Registry :=
      { registryByName :=
          [("Contact", testmodule.declareModel "Contact" ModelKind.regular
              ["TaggedMixIn", "PersonMixIn"] []
              [("Describe", ["Contact.Describe", "Contact.Describe.Extend"])]),
           ("PersonMixIn", testmodule.declareModel "PersonMixIn" ModelKind.mixin
              ["StampedMixIn", "NamedMixIn", "TaggedMixIn"] []
              [("Describe", ["PersonMixIn.Describe"])]),
           ("NamedMixIn", testmodule.declareModel "NamedMixIn" ModelKind.mixin
              ["StampedMixIn"] [] [("Describe", ["NamedMixIn.Describe"])]),
           ("TaggedMixIn", testmodule.declareModel "TaggedMixIn" ModelKind.mixin [] []
              [("Describe", ["TaggedMixIn.Describe"])]),
           ("StampedMixIn", testmodule.declareModel "StampedMixIn" ModelKind.mixin [] []
              [("Describe", ["StampedMixIn.Describe"])])],
        bootstrapped := false },
    mixed := [] }

/-- A rank of the models of `crowded`, decreasing along the mixins. -/
def rank (p : String) : Nat :=
  if p = "Contact" then 3 else if p = "PersonMixIn" then 2
  else if p = "NamedMixIn" then 1 else 0

end example12

/-! ## Lemmas on maps -/

theorem mapGet_mapSet_self {K V : Type} [DecidableEq K] (m : List (K × V)) (k : K) (v : V) :
    mapGet (mapSet m k v) k = some v := by
  induction m with
  | nil => simp [mapSet, mapGet]
  | cons e rest ih =>
    obtain ⟨k', v'⟩ := e
    by_cases h : k' = k
    · simp [mapSet, mapGet, h]
    · simp [mapSet, mapGet, h, ih]

theorem mapGet_mapSet_ne {K V : Type} [DecidableEq K] (m : List (K × V)) (k k2 : K) (v : V)
    (hne : k2 ≠ k) : mapGet (mapSet m k v) k2 = mapGet m k2 := by
  induction m with
  | nil =>
    have : ¬ k = k2 := fun h => hne h.symm
    simp [mapSet, mapGet, this]
  | cons e rest ih =>
    obtain ⟨k', v'⟩ := e
    by_cases h : k' = k
    · subst h
      have : ¬ k' = k2 := fun h => hne h.symm
      simp [mapSet, mapGet, this]
    · by_cases h2 : k' = k2
      · subst h2
        simp [mapSet, mapGet, h]
      · simp [mapSet, mapGet, h, h2, ih]

theorem mem_mapSet {K V : Type} [DecidableEq K] (m : List (K × V)) (k : K) (v : V)
    (e : K × V) (he : e ∈ mapSet m k v) : e ∈ m ∨ e = (k, v) := by
  induction m with
  | nil => simp [mapSet] at he; exact Or.inr he
  | cons e0 rest ih =>
    obtain ⟨k', v'⟩ := e0
    by_cases h : k' = k
    · simp [mapSet, h] at he
      rcases he with he | he
      · exact Or.inr he
      · exact Or.inl (List.mem_cons_of_mem _ he)
    · simp [mapSet, h] at he
      rcases he with he | he
      · exact Or.inl (by rw [he]; exact List.mem_cons_self _ _)
      · rcases ih he with h1 | h1
        · exact Or.inl (List.mem_cons_of_mem _ h1)
        · exact Or.inr h1

theorem mapGet_mem {K V : Type} [DecidableEq K] (m : List (K × V)) (k : K) (v : V)
    (h : mapGet m k = some v) : (k, v) ∈ m := by
  induction m with
  | nil => simp [mapGet] at h
  | cons e rest ih =>
    obtain ⟨k', v'⟩ := e
    by_cases hk : k' = k
    · simp [mapGet, hk] at h
      simp [hk, h]
    · simp [mapGet, hk] at h
      exact List.mem_cons_of_mem _ (ih h)

theorem mapGet_isSome_iff {K V : Type} [DecidableEq K] (m : List (K × V)) (k : K) :
    (mapGet m k).isSome = true ↔ k ∈ mapKeys m := by
  induction m with
  | nil => simp [mapGet, mapKeys]
  | cons e rest ih =>
    obtain ⟨k', v'⟩ := e
    by_cases hk : k' = k
    · simp [mapGet, mapKeys, hk]
    · have hk2 : ¬ k = k' := fun h => hk h.symm
      simp only [mapGet, hk, if_false, ih]
      simp [mapKeys, hk2]

theorem mapKeys_mapSet_of_mem {K V : Type} [DecidableEq K] (m : List (K × V)) (k : K) (v : V)
    (h : k ∈ mapKeys m) : mapKeys (mapSet m k v) = mapKeys m := by
  induction m with
  | nil => simp [mapKeys] at h
  | cons e rest ih =>
    obtain ⟨k', v'⟩ := e
    by_cases hk : k' = k
    · simp [mapSet, mapKeys, hk]
    · have hk2 : ¬ k = k' := fun h => hk h.symm
      have h3 : k ∈ mapKeys rest := by
        simp [mapKeys, hk2] at h
        simpa [mapKeys] using h
      have := ih h3
      simp only [mapKeys] at this
      simp [mapSet, mapKeys, hk, this]

theorem mapKeys_mapSet_of_not_mem {K V : Type} [DecidableEq K] (m : List (K × V)) (k : K)
    (v : V) (h : k ∉ mapKeys m) : mapKeys (mapSet m k v) = mapKeys m ++ [k] := by
  induction m with
  | nil => simp [mapKeys, mapSet]
  | cons e rest ih =>
    obtain ⟨k', v'⟩ := e
    have hk : ¬ k' = k := by
      intro hk; apply h; simp [mapKeys, hk]
    have h3 : k ∉ mapKeys rest := by
      intro h3; apply h
      simp only [mapKeys, List.map_cons, List.mem_cons]
      exact Or.inr h3
    have := ih h3
    simp only [mapKeys] at this
    simp [mapSet, mapKeys, hk, this]

/-! ## Lemmas on layer chains -/

theorem derefAll_eq_some_iff (m : methodInfo) (ps : List Nat) (ls : List methodLayer) :
    m.derefAll ps = some ls ↔ ps.map m.deref = ls.map some := by
  induction ps generalizing ls with
  | nil =>
    cases ls <;> simp [methodInfo.derefAll]
  | cons p ps ih =>
    cases hp : m.deref p with
    | none =>
      simp only [methodInfo.derefAll, hp, List.map_cons]
      constructor
      · intro h; cases h
      · intro h
        cases ls with
        | nil => simp at h
        | cons l ls => simp at h
    | some l =>
      cases hps : m.derefAll ps with
      | none =>
        simp only [methodInfo.derefAll, hp, hps, List.map_cons]
        constructor
        · intro h; cases h
        · intro h
          cases ls with
          | nil => simp at h
          | cons l2 ls2 =>
            simp only [List.map_cons, List.cons.injEq] at h
            have := (ih ls2).2 h.2
            rw [hps] at this; cases this
      | some ls1 =>
        simp only [methodInfo.derefAll, hp, hps, List.map_cons]
        have h1 := (ih ls1).1 hps
        constructor
        · intro h
          cases h
          simp [h1]
        · intro h
          cases ls with
          | nil => simp at h
          | cons l2 ls2 =>
            simp only [List.map_cons, List.cons.injEq, Option.some.injEq] at h
            have h3 := (ih ls2).2 h.2
            rw [hps] at h3
            cases h3
            rw [h.1]

theorem walk_length_le (m : methodInfo) :
    ∀ (f : Nat) (c : Option Nat) (ps : List Nat), m.walk f c = some ps → ps.length ≤ f := by
  intro f
  induction f with
  | zero =>
    intro c ps h
    cases c with
    | none => simp [methodInfo.walk] at h; subst h; simp
    | some p => simp [methodInfo.walk] at h
  | succ f ih =>
    intro c ps h
    cases c with
    | none => simp [methodInfo.walk] at h; subst h; simp
    | some p =>
      simp only [methodInfo.walk, Option.map_eq_some'] at h
      obtain ⟨r, hr, rfl⟩ := h
      have := ih _ _ hr
      simp; omega

theorem walk_mono (m : methodInfo) :
    ∀ (f g : Nat) (c : Option Nat) (ps : List Nat), m.walk f c = some ps → f ≤ g →
      m.walk g c = some ps := by
  intro f
  induction f with
  | zero =>
    intro g c ps h _
    cases c with
    | none =>
      cases g <;> simpa [methodInfo.walk] using h
    | some p => simp [methodInfo.walk] at h
  | succ f ih =>
    intro g c ps h hg
    cases c with
    | none =>
      cases g <;> simpa [methodInfo.walk] using h
    | some p =>
      cases g with
      | zero => omega
      | succ g =>
        simp only [methodInfo.walk, Option.map_eq_some'] at h ⊢
        obtain ⟨r, hr, rfl⟩ := h
        exact ⟨r, ih g _ _ hr (by omega), rfl⟩

theorem walk_det (m : methodInfo) (f g : Nat) (c : Option Nat) (ps qs : List Nat)
    (h1 : m.walk f c = some ps) (h2 : m.walk g c = some qs) : ps = qs := by
  have a := walk_mono m f (max f g) c ps h1 (le_max_left _ _)
  have b := walk_mono m g (max f g) c qs h2 (le_max_right _ _)
  rw [a] at b
  exact Option.some.inj b

theorem walk_congr (m m2 : methodInfo) :
    ∀ (f : Nat) (c : Option Nat) (ps : List Nat), m.walk f c = some ps →
      (∀ p ∈ ps, m2.getNextLayer (some p) = m.getNextLayer (some p)) →
      m2.walk f c = some ps := by
  intro f
  induction f with
  | zero =>
    intro c ps h _
    cases c with
    | none => simpa [methodInfo.walk] using h
    | some p => simp [methodInfo.walk] at h
  | succ f ih =>
    intro c ps h hag
    cases c with
    | none => simpa [methodInfo.walk] using h
    | some p =>
      simp only [methodInfo.walk, Option.map_eq_some'] at h ⊢
      obtain ⟨r, hr, rfl⟩ := h
      refine ⟨r, ?_, rfl⟩
      rw [hag p (List.mem_cons_self _ _)]
      exact ih _ _ hr (fun q hq => hag q (List.mem_cons_of_mem _ hq))

theorem walk_suffix (m : methodInfo) :
    ∀ (f : Nat) (c : Option Nat) (ps : List Nat), m.walk f c = some ps →
      ∀ q ∈ ps, ∃ s, m.walk f (some q) = some s ∧ s.length ≤ ps.length := by
  intro f
  induction f with
  | zero =>
    intro c ps h q hq
    cases c with
    | none => simp [methodInfo.walk] at h; subst h; simp at hq
    | some p => simp [methodInfo.walk] at h
  | succ f ih =>
    intro c ps h q hq
    cases c with
    | none => simp [methodInfo.walk] at h; subst h; simp at hq
    | some p =>
      have h0 := h
      simp only [methodInfo.walk, Option.map_eq_some'] at h
      obtain ⟨r, hr, rfl⟩ := h
      rcases List.mem_cons.1 hq with hqp | hqr
      · subst hqp
        exact ⟨_, h0, le_refl _⟩
      · obtain ⟨s, hs, hl⟩ := ih _ _ hr q hqr
        exact ⟨s, walk_mono m f (f + 1) _ _ hs (by omega), by simp; omega⟩

theorem walk_nodup (m : methodInfo) :
    ∀ (f : Nat) (c : Option Nat) (ps : List Nat), m.walk f c = some ps → ps.Nodup := by
  intro f
  induction f with
  | zero =>
    intro c ps h
    cases c with
    | none => simp [methodInfo.walk] at h; subst h; simp
    | some p => simp [methodInfo.walk] at h
  | succ f ih =>
    intro c ps h
    cases c with
    | none => simp [methodInfo.walk] at h; subst h; simp
    | some p =>
      have h0 := h
      simp only [methodInfo.walk, Option.map_eq_some'] at h
      obtain ⟨r, hr, rfl⟩ := h
      refine List.nodup_cons.2 ⟨?_, ih _ _ hr⟩
      intro hp
      obtain ⟨s, hs, hl⟩ := walk_suffix m f _ r hr p hp
      have := walk_det m _ _ _ _ _ h0 hs
      subst this
      simp at hl

theorem deref_lt (m : methodInfo) (p : Nat) (l : methodLayer) (h : m.deref p = some l) :
    p < m.layers.length := by
  unfold methodInfo.deref at h
  exact (List.getElem?_eq_some.1 h).1

theorem valid_of_map_deref (m : methodInfo) (ps : List Nat) (ls : List methodLayer)
    (h : ps.map m.deref = ls.map some) : ∀ p ∈ ps, p < m.layers.length := by
  induction ps generalizing ls with
  | nil => intro p hp; simp at hp
  | cons q qs ih =>
    cases ls with
    | nil => simp at h
    | cons l ls =>
      simp only [List.map_cons, List.cons.injEq] at h
      intro p hp
      rcases List.mem_cons.1 hp with rfl | hp
      · exact deref_lt m _ l h.1
      · exact ih ls h.2 p hp

theorem getNextLayer_set_self (m : methodInfo) (k v : Option Nat) :
    ({ m with nextLayer := mapSet m.nextLayer k v } : methodInfo).getNextLayer k = v := by
  simp [methodInfo.getNextLayer, mapGet_mapSet_self]

theorem getNextLayer_set_ne (m : methodInfo) (k k2 v : Option Nat) (h : k2 ≠ k) :
    ({ m with nextLayer := mapSet m.nextLayer k v } : methodInfo).getNextLayer k2
      = m.getNextLayer k2 := by
  simp [methodInfo.getNextLayer, mapGet_mapSet_ne _ _ _ _ h]

/-- The inverted layers, read through pointers. -/
theorem invertedLayers_eq_some_iff (m : methodInfo) (L : List methodLayer) :
    m.invertedLayers = some L ↔
      ∃ C, m.walk m.layers.length m.topLayer = some C ∧ C.reverse.map m.deref = L.map some := by
  unfold methodInfo.invertedLayers methodInfo.chain
  constructor
  · intro h
    cases hC : m.walk m.layers.length m.topLayer with
    | none => rw [hC] at h; simp at h
    | some C =>
      rw [hC] at h
      simp only [Option.some_bind] at h
      exact ⟨C, rfl, (derefAll_eq_some_iff _ _ _).1 h⟩
  · rintro ⟨C, hC, hd⟩
    rw [hC]
    simp only [Option.some_bind]
    exact (derefAll_eq_some_iff _ _ _).2 hd

theorem deref_append_left (m : methodInfo) (extra : List methodLayer) (p : Nat)
    (hp : p < m.layers.length) :
    ({ m with layers := m.layers ++ extra } : methodInfo).deref p = m.deref p := by
  simp [methodInfo.deref, List.getElem?_append_left hp]

theorem addMethodLayer_layers (m : methodInfo) (val : FuncValue) (doc : String) :
    (m.addMethodLayer val doc).layers = m.layers ++ [m.ownLayer val doc] := by
  unfold methodInfo.addMethodLayer methodInfo.alloc
  cases m.topLayer <;> rfl

theorem addMethodLayer_topLayer (m : methodInfo) (val : FuncValue) (doc : String) :
    (m.addMethodLayer val doc).topLayer = some m.layers.length := by
  unfold methodInfo.addMethodLayer methodInfo.alloc
  cases m.topLayer <;> rfl

theorem addMethodLayer_name (m : methodInfo) (val : FuncValue) (doc : String) :
    (m.addMethodLayer val doc).name = m.name ∧ (m.addMethodLayer val doc).model = m.model ∧
    (m.addMethodLayer val doc).groups = m.groups ∧
    (m.addMethodLayer val doc).methodType = m.methodType := by
  unfold methodInfo.addMethodLayer methodInfo.alloc
  cases m.topLayer <;> exact ⟨rfl, rfl, rfl, rfl⟩

theorem addMethodLayer_next_new (m : methodInfo) (val : FuncValue) (doc : String) :
    (m.addMethodLayer val doc).getNextLayer (some m.layers.length) =
      match m.topLayer with
      | some t => some t
      | none => m.getNextLayer (some m.layers.length) := by
  unfold methodInfo.addMethodLayer methodInfo.alloc
  cases m.topLayer with
  | none => rfl
  | some t => simp [methodInfo.getNextLayer, mapGet_mapSet_self]

theorem addMethodLayer_next_old (m : methodInfo) (val : FuncValue) (doc : String)
    (k : Option Nat) (hk : k ≠ some m.layers.length) :
    (m.addMethodLayer val doc).getNextLayer k = m.getNextLayer k := by
  unfold methodInfo.addMethodLayer methodInfo.alloc
  cases m.topLayer with
  | none => rfl
  | some t => simp [methodInfo.getNextLayer, mapGet_mapSet_ne _ _ _ _ hk]

theorem walk_none (m : methodInfo) (f : Nat) (C : List Nat)
    (h : m.walk f none = some C) : C = [] := by
  cases f <;> simp [methodInfo.walk] at h <;> exact h

theorem walk_none_eq (m : methodInfo) (f : Nat) : m.walk f none = some [] := by
  cases f <;> simp [methodInfo.walk]

theorem walk_succ (m : methodInfo) (f p : Nat) :
    m.walk (f + 1) (some p) = (m.walk f (m.getNextLayer (some p))).map (fun r => p :: r) := by
  simp [methodInfo.walk]

theorem addMethodLayer_inverted (m : methodInfo) (val : FuncValue) (doc : String)
    (L : List methodLayer) (h : m.invertedLayers = some L)
    (hfresh : m.topLayer = none → m.getNextLayer (some m.layers.length) = none) :
    (m.addMethodLayer val doc).invertedLayers = some (L ++ [m.ownLayer val doc]) := by
  obtain ⟨C, hC, hd⟩ := (invertedLayers_eq_some_iff m L).1 h
  have hvalid : ∀ p ∈ C, p < m.layers.length := by
    intro p hp
    exact valid_of_map_deref m C.reverse L hd p (List.mem_reverse.2 hp)
  rw [invertedLayers_eq_some_iff]
  refine ⟨m.layers.length :: C, ?_, ?_⟩
  · rw [addMethodLayer_layers, addMethodLayer_topLayer, List.length_append,
      List.length_singleton, walk_succ, addMethodLayer_next_new]
    have hw : (m.addMethodLayer val doc).walk m.layers.length m.topLayer = some C := by
      apply walk_congr m _ _ _ _ hC
      intro p hp
      apply addMethodLayer_next_old
      intro h
      have := hvalid p hp
      cases h
      omega
    cases ht : m.topLayer with
    | none =>
      rw [ht] at hw
      simp only [hfresh ht]
      rw [hw]; rfl
    | some t =>
      rw [ht] at hw
      simp only
      rw [hw]; rfl
  · have hlayers := addMethodLayer_layers m val doc
    have hderef_old : ∀ p, p < m.layers.length →
        (m.addMethodLayer val doc).deref p = m.deref p := by
      intro p hp
      simp [methodInfo.deref, hlayers, List.getElem?_append_left hp]
    have hderef_new : (m.addMethodLayer val doc).deref m.layers.length
        = some (m.ownLayer val doc) := by
      simp [methodInfo.deref, hlayers]
    simp only [List.reverse_cons, List.map_append, List.map_cons, List.map_nil, hderef_new]
    congr 1
    rw [← hd]
    apply List.map_congr_left
    intro p hp
    exact hderef_old p (hvalid p (List.mem_reverse.1 hp))

theorem walk_head (m : methodInfo) (f : Nat) (c : Option Nat) (p : Nat) (ps : List Nat)
    (h : m.walk f c = some (p :: ps)) :
    c = some p ∧ ∃ g, f = g + 1 ∧ m.walk g (m.getNextLayer (some p)) = some ps := by
  cases c with
  | none => have := walk_none m f _ h; cases this
  | some q =>
    cases f with
    | zero => simp [methodInfo.walk] at h
    | succ g =>
      rw [walk_succ] at h
      simp only [Option.map_eq_some'] at h
      obtain ⟨r, hr, he⟩ := h
      cases he
      exact ⟨rfl, g, rfl, hr⟩

theorem walk_nil (m : methodInfo) (f : Nat) (c : Option Nat)
    (h : m.walk f c = some []) : c = none := by
  cases c with
  | none => rfl
  | some q =>
    cases f with
    | zero => simp [methodInfo.walk] at h
    | succ g =>
      rw [walk_succ] at h
      simp at h

theorem walk_drop (m : methodInfo) :
    ∀ (O : List Nat) (f : Nat) (c : Option Nat) (B : List Nat),
      m.walk f c = some (O ++ B) → m.walk f B.head? = some B := by
  intro O
  induction O with
  | nil =>
    intro f c B h
    cases B with
    | nil => exact walk_none_eq m f
    | cons b B2 =>
      have := (walk_head m f c b B2 h).1
      subst this
      exact h
  | cons o O2 ih =>
    intro f c B h
    obtain ⟨_, g, hg, hw⟩ := walk_head m f c o (O2 ++ B) h
    subst hg
    exact walk_mono m g (g + 1) _ _ (ih g _ B hw) (by omega)

theorem copyLayers_fold (ms : List methodLayer) :
    ∀ (m : methodInfo) (L : List methodLayer), m.invertedLayers = some L →
      (m.topLayer = none → m.nextLayer = []) →
      (ms.foldl (fun m l => m.addMethodLayer l.funcValue l.doc) m).invertedLayers
          = some (L ++ ms.map (fun l => m.ownLayer l.funcValue l.doc)) ∧
      (ms.foldl (fun m l => m.addMethodLayer l.funcValue l.doc) m).name = m.name ∧
      (ms.foldl (fun m l => m.addMethodLayer l.funcValue l.doc) m).model = m.model ∧
      (ms.foldl (fun m l => m.addMethodLayer l.funcValue l.doc) m).groups = m.groups ∧
      (ms ≠ [] → (ms.foldl (fun m l => m.addMethodLayer l.funcValue l.doc) m).topLayer
          = some (m.layers.length + ms.length - 1)) := by
  induction ms with
  | nil =>
    intro m L h _
    simp [h]
  | cons l rest ih =>
    intro m L h hfresh
    have hadd := addMethodLayer_inverted m l.funcValue l.doc L h (by
      intro ht
      simp [methodInfo.getNextLayer, hfresh ht, mapGet])
    have htop := addMethodLayer_topLayer m l.funcValue l.doc
    obtain ⟨hn, hm, hg, _⟩ := addMethodLayer_name m l.funcValue l.doc
    obtain ⟨i1, i2, i3, i4, i5⟩ := ih (m.addMethodLayer l.funcValue l.doc) _ hadd (by
      intro ht; rw [htop] at ht; cases ht)
    have hown : ∀ (v : FuncValue) (d : String),
        (m.addMethodLayer l.funcValue l.doc).ownLayer v d = m.ownLayer v d := by
      intro v d
      simp [methodInfo.ownLayer, hn, hm]
    simp only [List.foldl_cons, List.map_cons]
    refine ⟨?_, ?_, ?_, ?_, ?_⟩
    · rw [i1]
      simp [hown]
    · rw [i2, hn]
    · rw [i3, hm]
    · rw [i4, hg]
    · intro _
      cases rest with
      | nil => simp [htop]
      | cons l2 rest2 =>
        rw [i5 (by simp), addMethodLayer_layers]
        simp
        omega

/-- The loop of lines 120–128 on a chain that reads, from `c` down, `O ++ B`, with no
mixed-in layer in `O` and a mixed-in layer at the head of `B`: it stops with
`lastImplLayer` on the last pointer of `last :: O` and `firstMixedLayer` on the head of
`B`. -/
theorem findFirstMixedLayer_spec (emi : methodInfo) :
    ∀ (O : List Nat) (fuel : Nat) (last c : Option Nat) (B : List Nat) (g : Nat),
      emi.walk g c = some (O ++ B) →
      (∀ p ∈ O, ∃ l, emi.deref p = some l ∧ l.mixedIn = false) →
      (∀ b, B.head? = some b → ∃ l, emi.deref b = some l ∧ l.mixedIn = true) →
      O.length + B.length ≤ fuel →
      findFirstMixedLayer emi fuel last c
        = some ((last :: O.map some).getLast (by simp), B.head?) := by
  intro O
  induction O with
  | nil =>
    intro fuel last c B g h _ hB hf
    cases B with
    | nil =>
      have := walk_nil emi g c h
      subst this
      cases fuel <;> simp [findFirstMixedLayer]
    | cons b B2 =>
      have := (walk_head emi g c b B2 h).1
      subst this
      obtain ⟨l, hl, hm⟩ := hB b rfl
      cases fuel with
      | zero => simp at hf
      | succ fuel => simp [findFirstMixedLayer, hl, hm]
  | cons o O2 ih =>
    intro fuel last c B g h hO hB hf
    obtain ⟨hc, g2, hg, hw⟩ := walk_head emi g c o (O2 ++ B) h
    subst hc
    obtain ⟨l, hl, hm⟩ := hO o (List.mem_cons_self _ _)
    cases fuel with
    | zero => simp at hf
    | succ fuel =>
      have := ih fuel (some o) _ B g2 hw (fun p hp => hO p (List.mem_cons_of_mem _ hp)) hB
        (by simp at hf; omega)
      simp only [findFirstMixedLayer, hl, hm, this]
      simp

theorem insertMixedLayer_fst (emi : methodInfo) (first : Option Nat) (lf : methodLayer) :
    (insertMixedLayer (emi, first) lf).1.layers = emi.layers ++ [emi.mixedLayer lf] ∧
    (insertMixedLayer (emi, first) lf).1.topLayer = emi.topLayer ∧
    (insertMixedLayer (emi, first) lf).1.name = emi.name ∧
    (insertMixedLayer (emi, first) lf).1.model = emi.model ∧
    (insertMixedLayer (emi, first) lf).1.groups = emi.groups ∧
    (insertMixedLayer (emi, first) lf).2 = some emi.layers.length ∧
    (insertMixedLayer (emi, first) lf).1.getNextLayer (some emi.layers.length) = first ∧
    (∀ k, k ≠ some emi.layers.length →
      (insertMixedLayer (emi, first) lf).1.getNextLayer k = emi.getNextLayer k) := by
  refine ⟨rfl, rfl, rfl, rfl, rfl, rfl, ?_, ?_⟩
  · simp [insertMixedLayer, methodInfo.alloc, methodInfo.getNextLayer, mapGet_mapSet_self]
  · intro k hk
    simp [insertMixedLayer, methodInfo.alloc, methodInfo.getNextLayer,
      mapGet_mapSet_ne _ _ _ _ hk]

theorem insert_fold (ms : List methodLayer) :
    ∀ (emi : methodInfo) (first : Option Nat) (f : Nat) (B : List Nat),
      emi.walk f first = some B → (∀ p ∈ B, p < emi.layers.length) →
      (ms.foldl insertMixedLayer (emi, first)).1.layers
          = emi.layers ++ ms.map emi.mixedLayer ∧
      (ms.foldl insertMixedLayer (emi, first)).1.topLayer = emi.topLayer ∧
      (ms.foldl insertMixedLayer (emi, first)).1.name = emi.name ∧
      (ms.foldl insertMixedLayer (emi, first)).1.model = emi.model ∧
      (ms.foldl insertMixedLayer (emi, first)).1.groups = emi.groups ∧
      (∀ k, (∀ i, i < ms.length → k ≠ some (emi.layers.length + i)) →
        (ms.foldl insertMixedLayer (emi, first)).1.getNextLayer k = emi.getNextLayer k) ∧
      (ms.foldl insertMixedLayer (emi, first)).1.walk (f + ms.length)
          (ms.foldl insertMixedLayer (emi, first)).2
        = some ((List.range' emi.layers.length ms.length).reverse ++ B) := by
  induction ms with
  | nil =>
    intro emi first f B h _
    simp [h]
  | cons lf rest ih =>
    intro emi first f B h hv
    obtain ⟨a1, a2, a3, a4, a5, a6, a7, a8⟩ := insertMixedLayer_fst emi first lf
    have hw1 : (insertMixedLayer (emi, first) lf).1.walk (f + 1) (some emi.layers.length)
        = some (emi.layers.length :: B) := by
      rw [walk_succ, a7]
      have : (insertMixedLayer (emi, first) lf).1.walk f first = some B := by
        apply walk_congr emi _ _ _ _ h
        intro p hp
        apply a8
        intro hk
        have := hv p hp
        cases hk
        omega
      rw [this]; rfl
    have hv1 : ∀ p ∈ emi.layers.length :: B,
        p < (insertMixedLayer (emi, first) lf).1.layers.length := by
      intro p hp
      rw [a1]
      simp only [List.length_append, List.length_singleton]
      rcases List.mem_cons.1 hp with rfl | hp
      · omega
      · have := hv p hp; omega
    have hpair : insertMixedLayer (emi, first) lf
        = ((insertMixedLayer (emi, first) lf).1, some emi.layers.length) := by
      rw [← a6]
    obtain ⟨i1, i2, i3, i4, i5, i6, i7⟩ :=
      ih (insertMixedLayer (emi, first) lf).1 (some emi.layers.length) (f + 1)
        (emi.layers.length :: B) hw1 hv1
    have hmixed : (insertMixedLayer (emi, first) lf).1.mixedLayer = emi.mixedLayer := by
      funext x
      simp [methodInfo.mixedLayer, a3, a4]
    simp only [List.foldl_cons, List.map_cons, List.length_cons]
    rw [hpair]
    refine ⟨?_, ?_, ?_, ?_, ?_, ?_, ?_⟩
    · rw [i1, a1, hmixed]; simp
    · rw [i2, a2]
    · rw [i3, a3]
    · rw [i4, a4]
    · rw [i5, a5]
    · intro k hk
      rw [i6 k ?_, a8 k ?_]
      · have := hk 0 (by omega)
        simpa using this
      · intro i hi
        rw [a1]
        have := hk (i + 1) (by omega)
        simp only [List.length_append, List.length_singleton]
        have e : emi.layers.length + 1 + i = emi.layers.length + (i + 1) := by omega
        rw [e]; exact this
    · have e : f + (rest.length + 1) = f + 1 + rest.length := by omega
      rw [e, i7, a1]
      simp only [List.length_append, List.length_singleton]
      rw [List.range'_succ]
      simp

theorem getLast_mem_cons_map (last : Option Nat) (O : List Nat) (t : Nat)
    (h : last = some t) :
    ∃ tl, (last :: O.map some).getLast (by simp) = some tl ∧ tl ∈ t :: O ∧
      (t :: O).getLast (by simp) = tl := by
  subst h
  induction O generalizing t with
  | nil => exact ⟨t, by simp, by simp, by simp⟩
  | cons o O2 ih =>
    obtain ⟨tl, h1, h2, h3⟩ := ih o
    refine ⟨tl, ?_, ?_, ?_⟩
    · simpa [List.getLast_cons] using h1
    · exact List.mem_cons_of_mem _ h2
    · simpa [List.getLast_cons] using h3

theorem walk_exact (m : methodInfo) :
    ∀ (ps : List Nat) (f : Nat) (c : Option Nat), m.walk f c = some ps →
      m.walk ps.length c = some ps := by
  intro ps
  induction ps with
  | nil =>
    intro f c h
    have := walk_nil m f c h
    subst this
    exact walk_none_eq m _
  | cons p ps ih =>
    intro f c h
    obtain ⟨hc, g, hg, hw⟩ := walk_head m f c p ps h
    subst hc
    simp only [List.length_cons]
    rw [walk_succ, ih g _ hw]
    rfl

theorem walk_fuel (m : methodInfo) (ps : List Nat) (f g : Nat) (c : Option Nat)
    (h : m.walk f c = some ps) (hg : ps.length ≤ g) : m.walk g c = some ps :=
  walk_mono m _ g c ps (walk_exact m ps f c h) hg

theorem walk_redirect (m m2 : methodInfo) :
    ∀ (init : List Nat) (f : Nat) (c : Option Nat) (tl : Nat) (ys : List Nat) (g : Nat)
      (c2 : Option Nat) (zs : List Nat),
      m.walk f c = some (init ++ tl :: ys) →
      (∀ p ∈ init, m2.getNextLayer (some p) = m.getNextLayer (some p)) →
      m2.getNextLayer (some tl) = c2 →
      m2.walk g c2 = some zs →
      m2.walk (init.length + 1 + g) c = some (init ++ tl :: zs) := by
  intro init
  induction init with
  | nil =>
    intro f c tl ys g c2 zs h _ htl hz
    obtain ⟨hc, _, _, _⟩ := walk_head m f c tl ys h
    subst hc
    have e : ([] : List Nat).length + 1 + g = g + 1 := by simp; omega
    rw [e, walk_succ, htl, hz]
    rfl
  | cons x init ih =>
    intro f c tl ys g c2 zs h hag htl hz
    obtain ⟨hc, f2, _, hw⟩ := walk_head m f c x (init ++ tl :: ys) h
    subst hc
    have e : (x :: init).length + 1 + g = (init.length + 1 + g) + 1 := by simp; omega
    rw [e, walk_succ, hag x (List.mem_cons_self _ _)]
    rw [ih f2 _ tl ys g c2 zs hw (fun p hp => hag p (List.mem_cons_of_mem _ hp)) htl hz]
    rfl

theorem spliceLayers_ptr (emi : methodInfo) (ms : List methodLayer) (t : Nat)
    (O B : List Nat)
    (hC : emi.walk emi.layers.length emi.topLayer = some (t :: O ++ B))
    (hvalid : ∀ p ∈ t :: O ++ B, p < emi.layers.length)
    (hO : ∀ p ∈ O, ∃ l, emi.deref p = some l ∧ l.mixedIn = false)
    (hB : ∀ b, B.head? = some b → ∃ l, emi.deref b = some l ∧ l.mixedIn = true) :
    ∃ emi2, spliceLayers emi ms = some emi2 ∧ emi2.topLayer = emi.topLayer ∧
      emi2.layers = emi.layers ++ ms.map emi.mixedLayer ∧
      emi2.walk emi2.layers.length emi2.topLayer
        = some (t :: O ++ ((List.range' emi.layers.length ms.length).reverse ++ B)) ∧
      emi2.name = emi.name ∧ emi2.model = emi.model ∧ emi2.groups = emi.groups := by
  have hnodup := walk_nodup emi _ _ _ hC
  have hlen := walk_length_le emi _ _ _ hC
  obtain ⟨htop, g, hg, hw⟩ := walk_head emi _ _ t (O ++ B) hC
  have hfind := findFirstMixedLayer_spec emi O emi.layers.length emi.topLayer
    (emi.getNextLayer emi.topLayer) B g (by rw [htop]; exact hw) hO hB (by
      simp at hlen; omega)
  obtain ⟨tl, htl1, htl2, htl3⟩ := getLast_mem_cons_map emi.topLayer O t htop
  rw [htl1] at hfind
  have hwB := walk_drop emi O g _ B hw
  have hvB : ∀ p ∈ B, p < emi.layers.length := by
    intro p hp
    exact hvalid p (by simp [hp])
  obtain ⟨i1, i2, i3, i4, i5, i6, i7⟩ := insert_fold ms emi B.head? g B hwB hvB
  refine ⟨_, by rw [spliceLayers, hfind]; rfl, ?_, ?_, ?_, ?_, ?_, ?_⟩
  · exact i2
  · exact i1
  · -- the chain
    have hsplit : t :: O = (t :: O).dropLast ++ [tl] := by
      rw [← htl3]
      exact (List.dropLast_append_getLast (by simp)).symm
    have hnd2 : (t :: O).Nodup ∧ B.Nodup ∧ ∀ a ∈ t :: O, a ∉ B := by
      have : (t :: O ++ B) = (t :: O) ++ B := by simp
      rw [this, List.nodup_append] at hnodup
      refine ⟨hnodup.1, hnodup.2.1, ?_⟩
      intro a ha hb
      exact hnodup.2.2 ha hb
    have htl_notin_init : tl ∉ (t :: O).dropLast := by
      have := hnd2.1
      rw [hsplit, List.nodup_append] at this
      intro hmem
      exact this.2.2 hmem (by simp)
    have htl_lt : tl < emi.layers.length := hvalid tl (by
      have : tl ∈ t :: O := htl2
      simp only [List.cons_append, List.mem_cons, List.mem_append]
      rcases List.mem_cons.1 this with h | h
      · exact Or.inl h
      · exact Or.inr (Or.inl h))
    -- next pointers of the result
    have hnext_tl : ({ (ms.foldl insertMixedLayer (emi, B.head?)).1 with
        nextLayer := mapSet (ms.foldl insertMixedLayer (emi, B.head?)).1.nextLayer (some tl)
          (ms.foldl insertMixedLayer (emi, B.head?)).2 } : methodInfo).getNextLayer (some tl)
        = (ms.foldl insertMixedLayer (emi, B.head?)).2 :=
      getNextLayer_set_self _ _ _
    have hnext_ne : ∀ k, k ≠ some tl →
        ({ (ms.foldl insertMixedLayer (emi, B.head?)).1 with
        nextLayer := mapSet (ms.foldl insertMixedLayer (emi, B.head?)).1.nextLayer (some tl)
          (ms.foldl insertMixedLayer (emi, B.head?)).2 } : methodInfo).getNextLayer k
        = (ms.foldl insertMixedLayer (emi, B.head?)).1.getNextLayer k :=
      fun k hk => getNextLayer_set_ne _ _ _ _ hk
    -- lower part
    have hlow := walk_congr (ms.foldl insertMixedLayer (emi, B.head?)).1
      ({ (ms.foldl insertMixedLayer (emi, B.head?)).1 with
        nextLayer := mapSet (ms.foldl insertMixedLayer (emi, B.head?)).1.nextLayer (some tl)
          (ms.foldl insertMixedLayer (emi, B.head?)).2 } : methodInfo) _ _ _ i7 (by
        intro p hp
        apply hnext_ne
        intro hk
        have hpt : p = tl := Option.some.inj hk
        rcases List.mem_append.1 hp with h | h
        · have := List.mem_reverse.1 h
          rw [List.mem_range'_1] at this
          omega
        · exact hnd2.2.2 p (hpt ▸ htl2) h)
    -- upper part
    have hCsplit : emi.walk emi.layers.length emi.topLayer
        = some ((t :: O).dropLast ++ tl :: B) := by
      rw [hC]
      congr 1
      have : t :: O ++ B = (t :: O) ++ B := by simp
      rw [this]
      conv_lhs => rw [hsplit]
      simp
    have hup := walk_redirect emi
      ({ (ms.foldl insertMixedLayer (emi, B.head?)).1 with
        nextLayer := mapSet (ms.foldl insertMixedLayer (emi, B.head?)).1.nextLayer (some tl)
          (ms.foldl insertMixedLayer (emi, B.head?)).2 } : methodInfo)
      (t :: O).dropLast _ _ tl B _ _ _ hCsplit (by
        intro p hp
        have hpne : p ≠ tl := fun h => htl_notin_init (h ▸ hp)
        rw [hnext_ne _ (by intro hk; exact hpne (Option.some.inj hk))]
        apply i6
        intro i _ hk
        have hpi : p = emi.layers.length + i := Option.some.inj hk
        have hpin : p ∈ t :: O := List.mem_of_mem_dropLast hp
        have := hvalid p (by
          simp only [List.cons_append, List.mem_cons, List.mem_append]
          rcases List.mem_cons.1 hpin with h | h
          · exact Or.inl h
          · exact Or.inr (Or.inl h))
        omega) hnext_tl hlow
    have hres : (t :: O).dropLast ++ tl :: ((List.range' emi.layers.length ms.length).reverse
        ++ B) = t :: O ++ ((List.range' emi.layers.length ms.length).reverse ++ B) := by
      have : t :: O ++ ((List.range' emi.layers.length ms.length).reverse ++ B)
          = (t :: O) ++ ((List.range' emi.layers.length ms.length).reverse ++ B) := by simp
      rw [this]
      conv_rhs => rw [hsplit]
      simp
    rw [hres] at hup
    show methodInfo.walk _ (List.length (ms.foldl insertMixedLayer (emi, B.head?)).1.layers)
      (ms.foldl insertMixedLayer (emi, B.head?)).1.topLayer = _
    rw [i2]
    apply walk_fuel _ _ _ _ _ hup
    rw [i1]
    simp only [List.length_cons, List.length_append, List.length_reverse, List.length_range',
      List.length_map] at hlen ⊢
    omega
  · exact i3
  · exact i4
  · exact i5

theorem map_deref_mem (m : methodInfo) (ps : List Nat) (ls : List methodLayer)
    (h : ps.map m.deref = ls.map some) : ∀ p ∈ ps, ∃ l ∈ ls, m.deref p = some l := by
  induction ps generalizing ls with
  | nil => intro p hp; simp at hp
  | cons q qs ih =>
    cases ls with
    | nil => simp at h
    | cons l ls =>
      simp only [List.map_cons, List.cons.injEq] at h
      intro p hp
      rcases List.mem_cons.1 hp with rfl | hp
      · exact ⟨l, List.mem_cons_self _ _, h.1⟩
      · obtain ⟨l2, hl2, hd⟩ := ih ls h.2 p hp
        exact ⟨l2, List.mem_cons_of_mem _ hl2, hd⟩

theorem map_getElem?_range' {α : Type} (l1 l2 : List α) :
    (List.range' l1.length l2.length).map (fun p => (l1 ++ l2)[p]?) = l2.map some := by
  apply List.ext_getElem?
  intro i
  by_cases hi : i < l2.length
  · simp [List.getElem?_range', hi, List.getElem?_append_right]
    rw [List.getElem_append_right (by omega)]
    simp
  · have h1 : l2.length ≤ i := by omega
    rw [List.getElem?_eq_none (by simp; omega), List.getElem?_eq_none (by simp; omega)]

theorem map_deref_old (m m2 : methodInfo) (extra : List methodLayer)
    (hl : m2.layers = m.layers ++ extra) (ps : List Nat) (hv : ∀ p ∈ ps, p < m.layers.length) :
    ps.map m2.deref = ps.map m.deref := by
  apply List.map_congr_left
  intro p hp
  simp [methodInfo.deref, hl, List.getElem?_append_left (hv p hp)]

theorem map_deref_new (m m2 : methodInfo) (extra : List methodLayer)
    (hl : m2.layers = m.layers ++ extra) :
    (List.range' m.layers.length extra.length).map m2.deref = extra.map some := by
  have := map_getElem?_range' m.layers extra
  rw [← this]
  apply List.map_congr_left
  intro p _
  simp [methodInfo.deref, hl]

/-- Splice of a mixin chain `ms` into a chain whose own layers `ts` sit above a band `bs`
of mixed-in layers: the inverted layers of the result. -/
theorem spliceLayers_inverted (emi : methodInfo) (ms bs ts : List methodLayer)
    (h : emi.invertedLayers = some (bs ++ ts)) (hts : ts ≠ [])
    (hO : ∀ l ∈ ts, l.mixedIn = false) (hB : ∀ l ∈ bs, l.mixedIn = true) :
    ∃ emi2, spliceLayers emi ms = some emi2 ∧ emi2.topLayer = emi.topLayer ∧
      emi2.invertedLayers = some (bs ++ ms.map emi.mixedLayer ++ ts) ∧
      emi2.name = emi.name ∧ emi2.model = emi.model ∧ emi2.groups = emi.groups := by
  obtain ⟨C, hC, hd⟩ := (invertedLayers_eq_some_iff emi _).1 h
  rw [List.map_append] at hd
  obtain ⟨X, Y, hXY, hX, hY⟩ := List.map_eq_append_iff.1 hd
  have hCeq : C = Y.reverse ++ X.reverse := by
    have := congrArg List.reverse hXY
    simpa using this
  have hYne : Y.reverse ≠ [] := by
    intro hy
    have hy2 : Y = [] := by simpa using hy
    rw [hy2] at hY
    cases ts with
    | nil => exact hts rfl
    | cons a b => simp at hY
  obtain ⟨t, O, htO⟩ := List.exists_cons_of_ne_nil hYne
  have hvalid : ∀ p ∈ C, p < emi.layers.length := by
    intro p hp
    have hd2 : C.reverse.map emi.deref = (bs ++ ts).map some := by
      rw [List.map_append, ← hX, ← hY, hXY]; simp
    exact valid_of_map_deref emi C.reverse _ hd2 p (List.mem_reverse.2 hp)
  have hC2 : C = t :: O ++ X.reverse := by rw [hCeq, htO]
  obtain ⟨emi2, h1, h2, h3, h4, h5, h6, h7⟩ := spliceLayers_ptr emi ms t O X.reverse
    (by rw [hC, hC2]) (by rw [← hC2]; exact hvalid)
    (by
      intro p hp
      have hpY : p ∈ Y := by
        have : p ∈ Y.reverse := by rw [htO]; exact List.mem_cons_of_mem _ hp
        exact List.mem_reverse.1 this
      obtain ⟨l, hl, hdl⟩ := map_deref_mem emi Y ts hY p hpY
      exact ⟨l, hdl, hO l hl⟩)
    (by
      intro b hb
      have hbX : b ∈ X := by
        have : b ∈ X.reverse := List.mem_of_mem_head? hb
        exact List.mem_reverse.1 this
      obtain ⟨l, hl, hdl⟩ := map_deref_mem emi X bs hX b hbX
      exact ⟨l, hdl, hB l hl⟩)
  refine ⟨emi2, h1, h2, ?_, h5, h6, h7⟩
  rw [invertedLayers_eq_some_iff]
  refine ⟨_, h4, ?_⟩
  have hvX : ∀ p ∈ X, p < emi.layers.length := fun p hp =>
    hvalid p (by rw [hCeq]; simp [hp])
  have hvY : ∀ p ∈ Y, p < emi.layers.length := fun p hp =>
    hvalid p (by rw [hCeq]; simp [hp])
  have e : (t :: O ++ ((List.range' emi.layers.length ms.length).reverse ++ X.reverse)).reverse
      = X ++ List.range' emi.layers.length ms.length ++ Y := by
    have : t :: O ++ ((List.range' emi.layers.length ms.length).reverse ++ X.reverse)
        = (t :: O) ++ ((List.range' emi.layers.length ms.length).reverse ++ X.reverse) := by
      simp
    rw [this, ← htO]
    simp
  rw [e]
  simp only [List.map_append]
  rw [map_deref_old emi emi2 _ h3 X hvX, map_deref_old emi emi2 _ h3 Y hvY, hX, hY]
  have := map_deref_new emi emi2 _ h3
  rw [List.length_map] at this
  rw [this]

theorem walk_eq_of_next (m1 m2 : methodInfo) (h : m1.nextLayer = m2.nextLayer) :
    ∀ (f : Nat) (c : Option Nat), m1.walk f c = m2.walk f c := by
  intro f
  induction f with
  | zero => intro c; cases c <;> simp [methodInfo.walk]
  | succ f ih =>
    intro c
    cases c with
    | none => simp [methodInfo.walk]
    | some p =>
      rw [walk_succ, walk_succ, ih]
      simp [methodInfo.getNextLayer, h]

theorem derefAll_eq_of_layers (m1 m2 : methodInfo) (h : m1.layers = m2.layers) :
    ∀ ps : List Nat, m1.derefAll ps = m2.derefAll ps := by
  intro ps
  induction ps with
  | nil => simp [methodInfo.derefAll]
  | cons p ps ih => simp [methodInfo.derefAll, methodInfo.deref, h, ih]

theorem invertedLayers_congr (m1 m2 : methodInfo) (h1 : m1.layers = m2.layers)
    (h2 : m1.topLayer = m2.topLayer) (h3 : m1.nextLayer = m2.nextLayer) :
    m1.invertedLayers = m2.invertedLayers := by
  unfold methodInfo.invertedLayers methodInfo.chain
  rw [walk_eq_of_next m1 m2 h3, h1, h2]
  congr 1
  funext ps
  exact derefAll_eq_of_layers m1 m2 h1 _

theorem copyGroups_proj (groups : List (security.Group × Bool)) :
    ∀ e : methodInfo, (copyGroups e groups).layers = e.layers ∧
      (copyGroups e groups).topLayer = e.topLayer ∧
      (copyGroups e groups).nextLayer = e.nextLayer ∧
      (copyGroups e groups).name = e.name ∧ (copyGroups e groups).model = e.model := by
  induction groups with
  | nil => intro e; exact ⟨rfl, rfl, rfl, rfl, rfl⟩
  | cons g rest ih =>
    intro e
    have := ih { e with groups := mapSet e.groups g.1 true }
    simpa [copyGroups] using this

theorem copyGroups_inverted (e : methodInfo) (groups : List (security.Group × Bool)) :
    (copyGroups e groups).invertedLayers = e.invertedLayers := by
  obtain ⟨h1, h2, h3, _, _⟩ := copyGroups_proj groups e
  exact invertedLayers_congr _ _ h1 h2 h3

theorem copyGroups_wellFormed (e : methodInfo) (groups : List (security.Group × Bool)) :
    (copyGroups e groups).wellFormed = e.wellFormed := by
  unfold methodInfo.wellFormed
  rw [copyGroups_inverted]

theorem wellFormed_iff (m : methodInfo) :
    m.wellFormed = true ↔ ∃ l ls, m.invertedLayers = some (l :: ls) := by
  unfold methodInfo.wellFormed
  cases h : m.invertedLayers with
  | none => simp
  | some L =>
    cases L with
    | nil => simp
    | cons l ls => simp

theorem exists_map_deref (m : methodInfo) (ps : List Nat)
    (hv : ∀ p ∈ ps, p < m.layers.length) :
    ∃ ls : List methodLayer, ps.map m.deref = ls.map some := by
  induction ps with
  | nil => exact ⟨[], rfl⟩
  | cons p ps ih =>
    obtain ⟨ls, hls⟩ := ih (fun q hq => hv q (List.mem_cons_of_mem _ hq))
    have hp := hv p (List.mem_cons_self _ _)
    refine ⟨m.layers[p] :: ls, ?_⟩
    simp [methodInfo.deref, List.getElem?_eq_getElem hp, hls]

theorem copyMethod_inverted (mi : String) (methInfo : methodInfo) :
    (copyMethod mi methInfo).invertedLayers = some [] := by
  simp [copyMethod, methodInfo.invertedLayers, methodInfo.chain, methodInfo.walk,
    methodInfo.derefAll]

theorem copyLayers_inverted (mi : String) (methInfo : methodInfo) (ms : List methodLayer) :
    (copyLayers mi methInfo ms).invertedLayers
      = some (ms.map (fun l => (copyMethod mi methInfo).ownLayer l.funcValue l.doc)) ∧
    (copyLayers mi methInfo ms).name = methInfo.name ∧
    (copyLayers mi methInfo ms).model = mi := by
  obtain ⟨h1, h2, h3, _, _⟩ := copyLayers_fold ms (copyMethod mi methInfo) []
    (copyMethod_inverted mi methInfo) (fun _ => rfl)
  refine ⟨?_, ?_, ?_⟩
  · simpa [copyLayers] using h1
  · simpa [copyLayers] using h2
  · simpa [copyLayers] using h3

theorem spliceLayers_wellFormed (emi : methodInfo) (ms : List methodLayer)
    (h : emi.wellFormed = true) :
    ∃ emi2, spliceLayers emi ms = some emi2 ∧ emi2.wellFormed = true ∧
      emi2.topLayer = emi.topLayer ∧ emi2.name = emi.name ∧ emi2.model = emi.model := by
  obtain ⟨l, ls, hL⟩ := (wellFormed_iff emi).1 h
  obtain ⟨C, hC, hd⟩ := (invertedLayers_eq_some_iff emi _).1 hL
  have hvalid : ∀ p ∈ C, p < emi.layers.length := fun p hp =>
    valid_of_map_deref emi C.reverse _ hd p (List.mem_reverse.2 hp)
  have hCne : C ≠ [] := by
    intro hc; subst hc; simp at hd
  obtain ⟨t, rest, hCt⟩ := List.exists_cons_of_ne_nil hCne
  let P : Nat → Bool := fun p =>
    match emi.deref p with
    | some l => !l.mixedIn
    | none => false
  have hsplit : C = t :: rest.takeWhile P ++ rest.dropWhile P := by
    rw [hCt]; simp
  obtain ⟨emi2, h1, h2, h3, h4, h5, h6, _⟩ := spliceLayers_ptr emi ms t (rest.takeWhile P)
    (rest.dropWhile P) (by rw [hC, hsplit]) (by rw [← hsplit]; exact hvalid)
    (by
      intro p hp
      have hP : P p = true := List.mem_takeWhile_imp hp
      simp only [P] at hP
      cases hd : emi.deref p with
      | none => rw [hd] at hP; simp at hP
      | some l => rw [hd] at hP; exact ⟨l, rfl, by simpa using hP⟩)
    (by
      intro b hb
      have hP := List.head?_dropWhile_not P rest
      rw [hb] at hP
      simp only [P] at hP
      have hbr : b ∈ rest := (List.dropWhile_sublist P).subset (List.mem_of_mem_head? hb)
      have hbC : b ∈ C := by
        rw [hCt]
        exact List.mem_cons_of_mem _ hbr
      have hblt := hvalid b hbC
      cases hd : emi.deref b with
      | none =>
        simp [methodInfo.deref] at hd
        omega
      | some l =>
        rw [hd] at hP
        exact ⟨l, rfl, by simpa using hP⟩)
  refine ⟨emi2, h1, ?_, h2, h5, h6⟩
  rw [wellFormed_iff]
  have hv2 : ∀ p ∈ (t :: rest.takeWhile P ++
      ((List.range' emi.layers.length ms.length).reverse ++ rest.dropWhile P)).reverse,
      p < emi2.layers.length := by
    intro p hp
    rw [h3]
    simp only [List.length_append, List.length_map]
    have hp2 := List.mem_reverse.1 hp
    simp only [List.cons_append, List.mem_cons, List.mem_append, List.mem_reverse,
      List.mem_range'_1] at hp2
    rcases hp2 with h | h | h | h
    · have := hvalid t (by rw [hCt]; simp)
      omega
    · have hin : p ∈ rest := (List.takeWhile_sublist P).subset h
      have := hvalid p (by rw [hCt]; exact List.mem_cons_of_mem _ hin)
      omega
    · omega
    · have hin : p ∈ rest := (List.dropWhile_sublist P).subset h
      have := hvalid p (by rw [hCt]; exact List.mem_cons_of_mem _ hin)
      omega
  obtain ⟨L2, hL2⟩ := exists_map_deref emi2 _ hv2
  cases L2 with
  | nil => simp at hL2
  | cons a rest2 =>
    exact ⟨a, rest2, (invertedLayers_eq_some_iff emi2 _).2 ⟨_, h4, hL2⟩⟩

theorem mixedInMethod_wellFormed (mi : String) (existing : Option methodInfo)
    (methInfo : methodInfo) (hm : methInfo.wellFormed = true)
    (he : ∀ emi, existing = some emi → emi.wellFormed = true) :
    ∃ r, mixedInMethod mi existing methInfo = some r ∧ r.wellFormed = true := by
  obtain ⟨l, ls, hL⟩ := (wellFormed_iff methInfo).1 hm
  unfold mixedInMethod
  rw [hL]
  simp only [Option.some_bind]
  cases existing with
  | none =>
    refine ⟨_, rfl, ?_⟩
    rw [copyGroups_wellFormed, wellFormed_iff]
    exact ⟨_, _, by rw [(copyLayers_inverted mi methInfo (l :: ls)).1]; rfl⟩
  | some emi =>
    obtain ⟨emi2, h1, h2, _⟩ := spliceLayers_wellFormed emi (l :: ls) (he emi rfl)
    refine ⟨copyGroups emi2 methInfo.groups, ?_, ?_⟩
    · simp [h1]
    · rw [copyGroups_wellFormed]; exact h2

theorem methods_set_get (mc : methodsCollection) (k : String) (v : methodInfo) :
    mapGet (mc.set k v).registry k = some v := by
  simp [methodsCollection.set, mapGet_mapSet_self]

theorem methods_set_get_ne (mc : methodsCollection) (k k2 : String) (v : methodInfo)
    (h : k2 ≠ k) : mapGet (mc.set k v).registry k2 = mapGet mc.registry k2 := by
  simp [methodsCollection.set, mapGet_mapSet_ne _ _ _ _ h]

theorem nodup_mapKeys_mapSet {K V : Type} [DecidableEq K] (m : List (K × V)) (k : K) (v : V)
    (h : (mapKeys m).Nodup) : (mapKeys (mapSet m k v)).Nodup := by
  by_cases hk : k ∈ mapKeys m
  · rw [mapKeys_mapSet_of_mem m k v hk]; exact h
  · rw [mapKeys_mapSet_of_not_mem m k v hk]
    rw [List.nodup_append]
    refine ⟨h, by simp, ?_⟩
    intro a ha hb
    simp at hb
    exact hk (hb ▸ ha)

theorem injectMethods_nil (mi : String) (methods : methodsCollection) :
    injectMethods mi methods [] = some methods := rfl

theorem injectMethods_cons (mi : String) (methods : methodsCollection)
    (e : String × methodInfo) (l : List (String × methodInfo)) :
    injectMethods mi methods (e :: l)
      = (injectMethod mi methods e).bind (fun m1 => injectMethods mi m1 l) := by
  simp [injectMethods, List.foldlM_cons]

theorem injectMethods_spec (mi : String) :
    ∀ (l : List (String × methodInfo)) (methods : methodsCollection),
      (mapKeys l).Nodup → (∀ e ∈ l, e.2.wellFormed = true) →
      (∀ e ∈ methods.registry, e.2.wellFormed = true) →
      ∃ methods2, injectMethods mi methods l = some methods2 ∧
        (∀ e ∈ methods2.registry, e.2.wellFormed = true) ∧
        methods2.bootstrapped = methods.bootstrapped ∧
        ((mapKeys methods.registry).Nodup → (mapKeys methods2.registry).Nodup) ∧
        (∀ k, k ∉ mapKeys l → mapGet methods2.registry k = mapGet methods.registry k) ∧
        (∀ k mI, (k, mI) ∈ l →
          mapGet methods2.registry k = mixedInMethod mi (mapGet methods.registry k) mI) := by
  intro l
  induction l with
  | nil =>
    intro methods _ _ hwf
    exact ⟨methods, rfl, hwf, rfl, id, fun _ _ => rfl, fun _ _ h => by simp at h⟩
  | cons e rest ih =>
    intro methods hnd hl hwf
    have hnd2 : e.1 ∉ mapKeys rest ∧ (mapKeys rest).Nodup := by
      simpa [mapKeys] using hnd
    obtain ⟨r, hr, hrwf⟩ := mixedInMethod_wellFormed mi (mapGet methods.registry e.1) e.2
      (hl e (List.mem_cons_self _ _)) (fun emi hemi => hwf (e.1, emi) (mapGet_mem _ _ _ hemi))
    have hstep : injectMethod mi methods e = some (methods.set e.1 r) := by
      simp [injectMethod, hr]
    have hwf1 : ∀ x ∈ (methods.set e.1 r).registry, x.2.wellFormed = true := by
      intro x hx
      rcases mem_mapSet _ _ _ _ hx with h | h
      · exact hwf x h
      · rw [h]; exact hrwf
    obtain ⟨m2, h1, h2, h3, h4, h5, h6⟩ := ih (methods.set e.1 r) hnd2.2
      (fun x hx => hl x (List.mem_cons_of_mem _ hx)) hwf1
    refine ⟨m2, ?_, h2, ?_, ?_, ?_, ?_⟩
    · rw [injectMethods_cons, hstep]; exact h1
    · rw [h3]; rfl
    · intro hn
      exact h4 (nodup_mapKeys_mapSet _ _ _ hn)
    · intro k hk
      have hk1 : k ≠ e.1 := by
        intro h; apply hk; simp [mapKeys, h]
      have hk2 : k ∉ mapKeys rest := by
        intro h; apply hk
        simp only [mapKeys, List.map_cons, List.mem_cons]
        exact Or.inr h
      rw [h5 k hk2, methods_set_get_ne _ _ _ _ hk1]
    · intro k mI hmem
      rcases List.mem_cons.1 hmem with h | h
      · have hk : k = e.1 := by rw [← h]
        have hm : mI = e.2 := by rw [← h]
        subst hk; subst hm
        rw [h5 _ hnd2.1, methods_set_get, hr]
      · have hkr : k ∈ mapKeys rest := by
          simp only [mapKeys, List.mem_map]
          exact ⟨(k, mI), h, rfl⟩
        have hk1 : k ≠ e.1 := fun hh => hnd2.1 (hh ▸ hkr)
        rw [h6 k mI h, methods_set_get_ne _ _ _ _ hk1]

/-! ## Lemmas on the injection of fields -/

theorem mapGet_eq_none_iff {K V : Type} [DecidableEq K] (m : List (K × V)) (k : K) :
    mapGet m k = none ↔ k ∉ mapKeys m := by
  rw [← mapGet_isSome_iff]
  cases mapGet m k <;> simp

theorem mapSet_of_not_mem {K V : Type} [DecidableEq K] (m : List (K × V)) (k : K) (v : V)
    (h : k ∉ mapKeys m) : mapSet m k v = m ++ [(k, v)] := by
  induction m with
  | nil => rfl
  | cons e rest ih =>
    obtain ⟨k', v'⟩ := e
    have hk : ¬ k' = k := by
      intro hk; apply h; simp [mapKeys, hk]
    have h3 : k ∉ mapKeys rest := by
      intro h3; apply h
      simp only [mapKeys, List.map_cons, List.mem_cons]
      exact Or.inr h3
    simp [mapSet, hk, ih h3]

theorem copyPermissions_append (perms : List (security.Group × security.Permission)) :
    ∀ acc : List (security.Group × security.Permission),
      (mapKeys acc ++ mapKeys perms).Nodup →
      copyPermissions ⟨acc⟩ perms = ⟨acc ++ perms⟩ := by
  induction perms with
  | nil => intro acc _; simp [copyPermissions]
  | cons gp rest ih =>
    intro acc hnd
    have hg : gp.1 ∉ mapKeys acc := by
      intro hmem
      rw [List.nodup_append] at hnd
      exact hnd.2.2 hmem (by simp [mapKeys])
    have hget : mapGet acc gp.1 = none := (mapGet_eq_none_iff _ _).2 hg
    have hstep : (security.AccessControlList.mk acc).AddPermission gp.1 gp.2
        = ⟨acc ++ [gp]⟩ := by
      simp [security.AccessControlList.AddPermission, hget, mapSet_of_not_mem _ _ _ hg]
    have hnd2 : (mapKeys (acc ++ [gp]) ++ mapKeys rest).Nodup := by
      have : mapKeys (acc ++ [gp]) ++ mapKeys rest = mapKeys acc ++ mapKeys (gp :: rest) := by
        simp [mapKeys]
      rw [this]; exact hnd
    have := ih (acc ++ [gp]) hnd2
    simp only [copyPermissions, List.foldl_cons] at this ⊢
    rw [hstep, this]
    simp

/-- The permissions copied into a fresh list are those of the source. -/
theorem copyPermissions_new (acl : security.AccessControlList)
    (h : (mapKeys acl.Permissions).Nodup) :
    copyPermissions security.NewAccessControlList acl.Permissions = acl := by
  have := copyPermissions_append acl.Permissions [] (by simpa [mapKeys] using h)
  simpa [security.NewAccessControlList, security.AccessControlList.Permissions] using this

theorem mixedInField_name (mi : String) (fi : Field) :
    (mixedInField mi fi).name = fi.name := rfl

theorem add_get_ne (fc : fieldsCollection) (fInfo : Field) (F : String)
    (h : F ≠ fInfo.name) :
    mapGet (fc.add fInfo).registryByName F = mapGet fc.registryByName F := by
  simp [fieldsCollection.add, mapGet_mapSet_ne _ _ _ _ h]

theorem add_get_self (fc : fieldsCollection) (fInfo : Field) :
    mapGet (fc.add fInfo).registryByName fInfo.name = some fInfo := by
  simp [fieldsCollection.add, mapGet_mapSet_self]

theorem injectField_get_ne (mi : String) (fields : fieldsCollection) (entry : String × Field)
    (F : String) (hname : entry.2.name = entry.1) (h : F ≠ entry.1) :
    mapGet (injectField mi fields entry).registryByName F = mapGet fields.registryByName F := by
  unfold injectField
  cases mapGet fields.registryByName entry.1 with
  | some _ => rfl
  | none =>
    simp only
    apply add_get_ne
    rw [mixedInField_name, hname]; exact h

theorem injectField_get_present (mi : String) (fields : fieldsCollection)
    (entry : String × Field) (F : String) (f : Field) (hname : entry.2.name = entry.1)
    (h : mapGet fields.registryByName F = some f) :
    mapGet (injectField mi fields entry).registryByName F = some f := by
  by_cases hF : F = entry.1
  · unfold injectField
    rw [← hF, h]
    exact h
  · rw [injectField_get_ne mi fields entry F hname hF, h]

theorem injectFields_get_present (mi : String) (F : String) (f : Field) :
    ∀ (l : List (String × Field)) (fields : fieldsCollection),
      (∀ e ∈ l, e.2.name = e.1) → mapGet fields.registryByName F = some f →
      mapGet (injectFields mi fields l).registryByName F = some f := by
  intro l
  induction l with
  | nil => intro fields _ h; exact h
  | cons e rest ih =>
    intro fields hk h
    simp only [injectFields, List.foldl_cons]
    exact ih _ (fun x hx => hk x (List.mem_cons_of_mem _ hx))
      (injectField_get_present mi fields e F f (hk e (List.mem_cons_self _ _)) h)

theorem injectFields_get_absent (mi : String) (F : String) :
    ∀ (l : List (String × Field)) (fields : fieldsCollection),
      (∀ e ∈ l, e.2.name = e.1) → F ∉ mapKeys l →
      mapGet (injectFields mi fields l).registryByName F = mapGet fields.registryByName F := by
  intro l
  induction l with
  | nil => intro fields _ _; rfl
  | cons e rest ih =>
    intro fields hk hF
    have h1 : F ≠ e.1 := by
      intro h; apply hF; simp [mapKeys, h]
    have h2 : F ∉ mapKeys rest := by
      intro h; apply hF
      simp only [mapKeys, List.map_cons, List.mem_cons]
      exact Or.inr h
    simp only [injectFields, List.foldl_cons]
    have := ih (injectField mi fields e) (fun x hx => hk x (List.mem_cons_of_mem _ hx)) h2
    simp only [injectFields] at this
    rw [this, injectField_get_ne mi fields e F (hk e (List.mem_cons_self _ _)) h1]

theorem injectFields_get_added (mi : String) (F : String) (fi : Field) :
    ∀ (l : List (String × Field)) (fields : fieldsCollection),
      (∀ e ∈ l, e.2.name = e.1) → mapGet l F = some fi →
      mapGet fields.registryByName F = none →
      mapGet (injectFields mi fields l).registryByName F = some (mixedInField mi fi) := by
  intro l
  induction l with
  | nil => intro fields _ h; simp [mapGet] at h
  | cons e rest ih =>
    intro fields hk hget hnone
    obtain ⟨k, f0⟩ := e
    have hname : f0.name = k := hk (k, f0) (List.mem_cons_self _ _)
    simp only [injectFields, List.foldl_cons]
    by_cases hkF : k = F
    · subst hkF
      simp only [mapGet, if_true, Option.some.injEq] at hget
      subst hget
      have hstep : mapGet (injectField mi fields (k, f0)).registryByName k
          = some (mixedInField mi f0) := by
        simp only [injectField, hnone]
        have := add_get_self fields (mixedInField mi f0)
        rw [mixedInField_name, hname] at this
        exact this
      exact injectFields_get_present mi k _ rest _
        (fun x hx => hk x (List.mem_cons_of_mem _ hx)) hstep
    · simp only [mapGet, hkF, if_false] at hget
      have hne : F ≠ k := fun h => hkF h.symm
      have := ih (injectField mi fields (k, f0))
        (fun x hx => hk x (List.mem_cons_of_mem _ hx)) hget
        (by rw [injectField_get_ne mi fields (k, f0) F hname hne]; exact hnone)
      simpa [injectFields] using this

theorem injectFields_keyed (mi : String) :
    ∀ (l : List (String × Field)) (fields : fieldsCollection),
      (∀ e ∈ l, e.2.name = e.1) → (∀ e ∈ fields.registryByName, e.2.name = e.1) →
      ∀ e ∈ (injectFields mi fields l).registryByName, e.2.name = e.1 := by
  intro l
  induction l with
  | nil => intro fields _ h; exact h
  | cons e0 rest ih =>
    intro fields hk hf
    simp only [injectFields, List.foldl_cons]
    apply ih _ (fun x hx => hk x (List.mem_cons_of_mem _ hx))
    intro e he
    unfold injectField at he
    cases hg : mapGet fields.registryByName e0.1 with
    | some _ => rw [hg] at he; exact hf e he
    | none =>
      rw [hg] at he
      simp only [fieldsCollection.add] at he
      rcases mem_mapSet _ _ _ _ he with h | h
      · exact hf e h
      · rw [h]

theorem injectFields_bootstrapped (mi : String) :
    ∀ (l : List (String × Field)) (fields : fieldsCollection),
      (injectFields mi fields l).bootstrapped = fields.bootstrapped := by
  intro l
  induction l with
  | nil => intro fields; rfl
  | cons e0 rest ih =>
    intro fields
    simp only [injectFields, List.foldl_cons]
    have := ih (injectField mi fields e0)
    simp only [injectFields] at this
    rw [this]
    unfold injectField
    cases mapGet fields.registryByName e0.1 <;> rfl

/-! ## Lemmas on the state -/

theorem model_setModel_self (st : State) (p : String) (m : Model) :
    (st.setModel p m).model p = some m := by
  simp [State.setModel, State.model, mapGet_mapSet_self]

theorem model_setModel_ne (st : State) (p q : String) (m : Model) (h : q ≠ p) :
    (st.setModel p m).model q = st.model q := by
  simp [State.setModel, State.model, mapGet_mapSet_ne _ _ _ _ h]

/-- The state that the body of `injectMixInModel` leaves. -/
theorem injectBody_eq (st : State) (x a : String) (st2 : State)
    (h : injectBody st x a = some st2) :
    ∃ mixIn target methods, st.model x = some mixIn ∧ st.model a = some target ∧
      injectMethods a target.methods mixIn.methods.registry = some methods ∧
      st2 = { (st.setModel a { target with
                fields := injectFields a target.fields mixIn.fields.registryByName,
                methods := methods }) with
              mixed := mapSet st.mixed ⟨a, x⟩ true } := by
  unfold injectBody at h
  cases hx : st.model x with
  | none => rw [hx] at h; simp at h
  | some mixIn =>
    cases ha : st.model a with
    | none => rw [hx, ha] at h; simp at h
    | some target =>
      rw [hx, ha] at h
      simp only [Option.some_bind, Option.map_eq_some'] at h
      obtain ⟨methods, hm, he⟩ := h
      exact ⟨mixIn, target, methods, rfl, rfl, hm, he.symm⟩

theorem injectBody_model_ne (st : State) (x a : String) (st2 : State)
    (h : injectBody st x a = some st2) (q : String) (hq : q ≠ a) :
    st2.model q = st.model q := by
  obtain ⟨mixIn, target, methods, _, _, _, he⟩ := injectBody_eq st x a st2 h
  subst he
  exact model_setModel_ne st a q _ hq

theorem injectBody_isMixed (st : State) (x a : String) (st2 : State)
    (h : injectBody st x a = some st2) :
    st2.isMixed a x = true ∧
    (∀ p q, (p, q) ≠ (a, x) → st2.isMixed p q = st.isMixed p q) := by
  obtain ⟨mixIn, target, methods, _, _, _, he⟩ := injectBody_eq st x a st2 h
  subst he
  constructor
  · simp [State.isMixed, State.setModel, mapGet_mapSet_self]
  · intro p q hpq
    have hne : (⟨p, q⟩ : modelCouple) ≠ ⟨a, x⟩ := by
      intro h
      apply hpq
      cases h
      rfl
    simp [State.isMixed, State.setModel, mapGet_mapSet_ne _ _ _ _ hne]

theorem Stable.refl (st : State) : Stable st st := ⟨fun _ _ h => h, fun _ => rfl⟩

theorem Stable.trans {s1 s2 s3 : State} (h1 : Stable s1 s2) (h2 : Stable s2 s3) :
    Stable s1 s3 :=
  ⟨fun a x h => h2.1 a x (h1.1 a x h), fun p => (h2.2 p).trans (h1.2 p)⟩

theorem injectBody_stable (st : State) (x a : String) (st2 : State)
    (h : injectBody st x a = some st2) : Stable st st2 := by
  obtain ⟨hm1, hm2⟩ := injectBody_isMixed st x a st2 h
  refine ⟨?_, ?_⟩
  · intro p q hpq
    by_cases he : (p, q) = (a, x)
    · cases he; exact hm1
    · rw [hm2 p q he]; exact hpq
  · intro p
    by_cases hp : p = a
    · subst hp
      obtain ⟨mixIn, target, methods, _, ht, _, he⟩ := injectBody_eq st x p st2 h
      subst he
      simp only [State.model] at ht ⊢
      simp [State.setModel, mapGet_mapSet_self, ht, Model.static]
    · rw [injectBody_model_ne st x a st2 h p hp]

theorem injectMixInModel_succ (fuel : Nat) (st : State) (x a : String) :
    injectMixInModel (fuel + 1) st x a =
      (st.model x).bind (fun mixIn =>
        (mixIn.mixins.foldlM (fun s mmm => injectMixInModel fuel s mmm x) st).bind
          (fun st1 => if st1.isMixed a x then some st1 else injectBody st1 x a)) := rfl

/-- Invariants of `injectMixInModel`: a property `I` of the state that every execution of
the body keeps is kept by the whole call; `D` restricts the couples (mixin, model) on
which the function is called. -/
theorem inject_ind (I : State → Prop) (D : String → String → Prop)
    (hrec : ∀ st x a mixIn mmm, I st → D x a → st.model x = some mixIn →
      mmm ∈ mixIn.mixins → D mmm x)
    (hbody : ∀ st x a st2, I st → D x a → st.isMixed a x = false →
      injectBody st x a = some st2 → I st2) :
    ∀ (fuel : Nat) (st : State) (x a : String) (st2 : State), I st → D x a →
      injectMixInModel fuel st x a = some st2 → I st2 := by
  intro fuel
  induction fuel with
  | zero => intro st x a st2 _ _ h; simp [injectMixInModel] at h
  | succ fuel ih =>
    intro st x a st2 hI hD h
    rw [injectMixInModel_succ] at h
    cases hx : st.model x with
    | none => rw [hx] at h; simp at h
    | some mixIn =>
      rw [hx] at h
      simp only [Option.some_bind] at h
      have hfold : ∀ (l : List String) (s s2 : State), I s → (∀ mmm ∈ l, D mmm x) →
          l.foldlM (fun s mmm => injectMixInModel fuel s mmm x) s = some s2 → I s2 := by
        intro l
        induction l with
        | nil =>
          intro s s2 hs _ hf
          simp at hf
          subst hf; exact hs
        | cons m rest ihl =>
          intro s s2 hs hd hf
          simp only [List.foldlM_cons] at hf
          cases h1 : injectMixInModel fuel s m x with
          | none => rw [h1] at hf; simp at hf
          | some s1 =>
            rw [h1] at hf
            simp only [Option.bind_eq_bind, Option.some_bind] at hf
            exact ihl s1 s2 (ih s m x s1 hs (hd m (List.mem_cons_self _ _)) h1)
              (fun mmm hm => hd mmm (List.mem_cons_of_mem _ hm)) hf
      cases hf : mixIn.mixins.foldlM (fun s mmm => injectMixInModel fuel s mmm x) st with
      | none => rw [hf] at h; simp at h
      | some st1 =>
        rw [hf] at h
        simp only [Option.some_bind] at h
        have hI1 := hfold mixIn.mixins st st1 hI
          (fun mmm hm => hrec st x a mixIn mmm hI hD hx hm) hf
        by_cases hmx : st1.isMixed a x = true
        · rw [if_pos hmx] at h
          cases h
          exact hI1
        · rw [if_neg hmx] at h
          exact hbody st1 x a st2 hI1 hD (by simpa using hmx) h

theorem injectMixInModel_stable (fuel : Nat) (st : State) (x a : String) (st2 : State)
    (h : injectMixInModel fuel st x a = some st2) : Stable st st2 :=
  inject_ind (fun s => Stable st s) (fun _ _ => True)
    (fun _ _ _ _ _ _ _ _ _ => trivial)
    (fun s x a s2 hs _ _ hb => hs.trans (injectBody_stable s x a s2 hb))
    fuel st x a st2 (Stable.refl st) trivial h

theorem foldlM_inv {α σ : Type} (f : σ → α → Option σ) (I : σ → Prop) :
    ∀ (l : List α), (∀ s a s2, a ∈ l → I s → f s a = some s2 → I s2) →
      ∀ s s2, I s → l.foldlM f s = some s2 → I s2 := by
  intro l
  induction l with
  | nil =>
    intro _ s s2 hs hf
    simp at hf
    subst hf; exact hs
  | cons a rest ih =>
    intro hstep s s2 hs hf
    simp only [List.foldlM_cons] at hf
    cases h1 : f s a with
    | none => rw [h1] at hf; simp at hf
    | some s1 =>
      rw [h1] at hf
      simp only [Option.bind_eq_bind, Option.some_bind] at hf
      exact ih (fun s a s2 ha => hstep s a s2 (List.mem_cons_of_mem _ ha)) s1 s2
        (hstep s a s1 (List.mem_cons_self _ _) hs h1) hf

theorem Stable.model_some {st s : State} (h : Stable st s) (p : String) (m : Model)
    (hm : st.model p = some m) : ∃ m2, s.model p = some m2 ∧ m2.static = m.static := by
  have := h.2 p
  rw [hm] at this
  cases hs : s.model p with
  | none => rw [hs] at this; simp at this
  | some m2 =>
    rw [hs] at this
    simp only [Option.map_some', Option.some.injEq] at this
    exact ⟨m2, rfl, this⟩

theorem Stable.model_some_rev {st s : State} (h : Stable st s) (p : String) (m : Model)
    (hm : s.model p = some m) : ∃ m2, st.model p = some m2 ∧ m2.static = m.static := by
  have := h.2 p
  rw [hm] at this
  cases hs : st.model p with
  | none => rw [hs] at this; simp at this
  | some m2 =>
    rw [hs] at this
    simp only [Option.map_some', Option.some.injEq] at this
    exact ⟨m2, rfl, this.symm⟩

theorem static_mixins {m m2 : Model} (h : m2.static = m.static) : m2.mixins = m.mixins := by
  simp only [Model.static, Prod.mk.injEq] at h
  exact h.2.2.2

theorem static_isM2MLink {m m2 : Model} (h : m2.static = m.static) :
    m2.isM2MLink = m.isM2MLink := by
  simp only [Model.static, Prod.mk.injEq] at h
  simp [Model.isM2MLink, h.2.2.1]

theorem inject_fold_stable (fuel : Nat) (x : String) (l : List String) (s s2 : State)
    (h : l.foldlM (fun s mmm => injectMixInModel fuel s mmm x) s = some s2) : Stable s s2 :=
  foldlM_inv (fun s mmm => injectMixInModel fuel s mmm x) (fun t => Stable s t) l
    (fun t a t2 _ ht hf => ht.trans (injectMixInModel_stable fuel t a x t2 hf)) s s2
    (Stable.refl s) h

/-- What a call of `injectMixInModel` that returns went through. -/
theorem injectMixInModel_some (fuel : Nat) (st : State) (x a : String) (st2 : State)
    (h : injectMixInModel (fuel + 1) st x a = some st2) :
    ∃ mixIn st1, st.model x = some mixIn ∧
      mixIn.mixins.foldlM (fun s mmm => injectMixInModel fuel s mmm x) st = some st1 ∧
      ((st1.isMixed a x = true ∧ st2 = st1) ∨
        (st1.isMixed a x = false ∧ injectBody st1 x a = some st2)) := by
  rw [injectMixInModel_succ] at h
  cases hx : st.model x with
  | none => rw [hx] at h; simp at h
  | some mixIn =>
    rw [hx] at h
    simp only [Option.some_bind] at h
    cases hf : mixIn.mixins.foldlM (fun s mmm => injectMixInModel fuel s mmm x) st with
    | none => rw [hf] at h; simp at h
    | some st1 =>
      rw [hf] at h
      simp only [Option.some_bind] at h
      refine ⟨mixIn, st1, rfl, hf, ?_⟩
      by_cases hmx : st1.isMixed a x = true
      · rw [if_pos hmx] at h
        cases h
        exact Or.inl ⟨hmx, rfl⟩
      · rw [if_neg hmx] at h
        exact Or.inr ⟨by simpa using hmx, h⟩

theorem injectMixInModel_isMixed (fuel : Nat) (st : State) (x a : String) (st2 : State)
    (h : injectMixInModel fuel st x a = some st2) : st2.isMixed a x = true := by
  cases fuel with
  | zero => simp [injectMixInModel] at h
  | succ fuel =>
    obtain ⟨mixIn, st1, _, _, hc⟩ := injectMixInModel_some fuel st x a st2 h
    rcases hc with ⟨hm, he⟩ | ⟨_, hb⟩
    · rw [he]; exact hm
    · exact (injectBody_isMixed st1 x a st2 hb).1

/-- A call that has returned is recorded: made again in a state that records at least as
much, it returns that state unchanged. -/
theorem injectMixInModel_again :
    ∀ (fuel : Nat) (st : State) (x a : String) (st2 : State),
      injectMixInModel fuel st x a = some st2 →
      ∀ s, Stable st2 s → injectMixInModel fuel s x a = some s := by
  intro fuel
  induction fuel with
  | zero => intro st x a st2 h; simp [injectMixInModel] at h
  | succ fuel ih =>
    intro st x a st2 h s hs
    have hmixed := injectMixInModel_isMixed _ st x a st2 h
    have hst := injectMixInModel_stable _ st x a st2 h
    obtain ⟨mixIn, st1, hx, hf, hc⟩ := injectMixInModel_some fuel st x a st2 h
    have h12 : Stable st1 st2 := by
      rcases hc with ⟨_, he⟩ | ⟨_, hb⟩
      · rw [he]; exact Stable.refl _
      · exact injectBody_stable st1 x a st2 hb
    obtain ⟨mx, hmx, hstat⟩ := (hst.trans hs).model_some x mixIn hx
    have hfold : ∀ (l : List String) (s0 s1 : State),
        l.foldlM (fun s mmm => injectMixInModel fuel s mmm x) s0 = some s1 →
        Stable s1 s → l.foldlM (fun s mmm => injectMixInModel fuel s mmm x) s = some s := by
      intro l
      induction l with
      | nil => intro _ _ _ _; rfl
      | cons m rest ihl =>
        intro s0 s1 hf0 h1s
        simp only [List.foldlM_cons] at hf0 ⊢
        cases h1 : injectMixInModel fuel s0 m x with
        | none => rw [h1] at hf0; simp at hf0
        | some s0b =>
          rw [h1] at hf0
          simp only [Option.bind_eq_bind, Option.some_bind] at hf0
          have hstab := inject_fold_stable fuel x rest s0b s1 hf0
          rw [ih s0 m x s0b h1 s (hstab.trans h1s)]
          simp only [Option.bind_eq_bind, Option.some_bind]
          exact ihl s0b s1 hf0 h1s
    rw [injectMixInModel_succ, hmx]
    simp only [Option.some_bind]
    rw [static_mixins hstat, hfold mixIn.mixins st st1 hf (h12.trans hs)]
    simp only [Option.some_bind]
    rw [if_pos (hs.1 a x hmixed)]

theorem inject_fold_isMixed (fuel : Nat) (x : String) :
    ∀ (l : List String) (s s2 : State),
      l.foldlM (fun s mmm => injectMixInModel fuel s mmm x) s = some s2 →
      ∀ mmm ∈ l, s2.isMixed x mmm = true := by
  intro l
  induction l with
  | nil => intro _ _ _ mmm hm; simp at hm
  | cons m rest ih =>
    intro s s2 hf mmm hm
    simp only [List.foldlM_cons] at hf
    cases h1 : injectMixInModel fuel s m x with
    | none => rw [h1] at hf; simp at hf
    | some s1 =>
      rw [h1] at hf
      simp only [Option.bind_eq_bind, Option.some_bind] at hf
      rcases List.mem_cons.1 hm with he | hr
      · subst he
        exact (inject_fold_stable fuel x rest s1 s2 hf).1 x mmm
          (injectMixInModel_isMixed fuel s mmm x s1 h1)
      · exact ih s1 s2 hf mmm hr

/-- Invariants of `injectMixInModel`, second form: when the body runs for the couple
(`x`, `a`), every mixin of `x` is already recorded as injected into `x`. -/
theorem inject_ind2 (I : State → Prop) (D : String → String → Prop)
    (hrec : ∀ st x a mixIn mmm, I st → D x a → st.model x = some mixIn →
      mmm ∈ mixIn.mixins → D mmm x)
    (hbody : ∀ st x a st2, I st → D x a → st.isMixed a x = false →
      (∀ mixIn, st.model x = some mixIn → ∀ mmm ∈ mixIn.mixins, st.isMixed x mmm = true) →
      injectBody st x a = some st2 → I st2) :
    ∀ (fuel : Nat) (st : State) (x a : String) (st2 : State), I st → D x a →
      injectMixInModel fuel st x a = some st2 → I st2 := by
  intro fuel
  induction fuel with
  | zero => intro st x a st2 _ _ h; simp [injectMixInModel] at h
  | succ fuel ih =>
    intro st x a st2 hI hD h
    obtain ⟨mixIn, st1, hx, hf, hc⟩ := injectMixInModel_some fuel st x a st2 h
    have hI1 : I st1 := by
      refine foldlM_inv (fun s mmm => injectMixInModel fuel s mmm x) I mixIn.mixins ?_
        st st1 hI hf
      intro s mmm s2 hm hs hfs
      exact ih s mmm x s2 hs (hrec st x a mixIn mmm hI hD hx hm) hfs
    rcases hc with ⟨_, he⟩ | ⟨hnm, hb⟩
    · rw [he]; exact hI1
    · refine hbody st1 x a st2 hI1 hD hnm ?_ hb
      intro mixIn1 hx1 mmm hm
      obtain ⟨mx, hmx, hstat⟩ :=
        (inject_fold_stable fuel x mixIn.mixins st st1 hf).model_some_rev x mixIn1 hx1
      rw [hx] at hmx
      cases hmx
      exact inject_fold_isMixed fuel x mixIn.mixins st st1 hf mmm
        (by rw [static_mixins hstat]; exact hm)

theorem foldlM_mem {α σ : Type} (f : σ → α → Option σ) (I Q : σ → Prop) (a : α) :
    ∀ (l : List α), a ∈ l →
      (∀ s b s2, b ∈ l → I s → f s b = some s2 → I s2) →
      (∀ s s2, I s → f s a = some s2 → Q s2) →
      (∀ s b s2, b ∈ l → I s → Q s → f s b = some s2 → Q s2) →
      ∀ s s2, I s → l.foldlM f s = some s2 → Q s2 := by
  intro l
  induction l with
  | nil => intro ha; simp at ha
  | cons b rest ih =>
    intro ha hI hQ hQs s s2 hs hf
    simp only [List.foldlM_cons] at hf
    cases h1 : f s b with
    | none => rw [h1] at hf; simp at hf
    | some s1 =>
      rw [h1] at hf
      simp only [Option.bind_eq_bind, Option.some_bind] at hf
      have hI1 : I s1 := hI s b s1 (List.mem_cons_self _ _) hs h1
      by_cases hab : b = a
      · subst hab
        have hQ1 : Q s1 := hQ s s1 hs h1
        have := foldlM_inv f (fun t => I t ∧ Q t) rest
          (fun t c t2 hc ht hft =>
            ⟨hI t c t2 (List.mem_cons_of_mem _ hc) ht.1 hft,
             hQs t c t2 (List.mem_cons_of_mem _ hc) ht.1 ht.2 hft⟩) s1 s2 ⟨hI1, hQ1⟩ hf
        exact this.2
      · have har : a ∈ rest := by
          rcases List.mem_cons.1 ha with h | h
          · exact absurd h.symm hab
          · exact h
        exact ih har (fun t c t2 hc => hI t c t2 (List.mem_cons_of_mem _ hc)) hQ
          (fun t c t2 hc => hQs t c t2 (List.mem_cons_of_mem _ hc)) s1 s2 hI1 hf

theorem methodsWellFormed_iff (mc : methodsCollection) :
    mc.wellFormed = true ↔
      (∀ e ∈ mc.registry, e.2.wellFormed = true) ∧ (mapKeys mc.registry).Nodup := by
  simp [methodsCollection.wellFormed, List.all_eq_true]

/-- The body of `injectMixInModel` returns when the methods of the mixin and of the target
are well formed; what it leaves in the target. -/
theorem injectBody_total (st : State) (x a : String) (mixIn target : Model)
    (hx : st.model x = some mixIn) (ha : st.model a = some target)
    (hwfx : mixIn.methods.wellFormed = true) (hwfa : target.methods.wellFormed = true) :
    ∃ st2 methods, injectBody st x a = some st2 ∧
      st2.model a = some { target with
        fields := injectFields a target.fields mixIn.fields.registryByName,
        methods := methods } ∧
      methods.wellFormed = true ∧
      (∀ k, k ∉ mapKeys mixIn.methods.registry →
        mapGet methods.registry k = mapGet target.methods.registry k) ∧
      (∀ k mI, mapGet mixIn.methods.registry k = some mI →
        mapGet methods.registry k = mixedInMethod a (mapGet target.methods.registry k) mI) := by
  obtain ⟨hx1, hx2⟩ := (methodsWellFormed_iff _).1 hwfx
  obtain ⟨ha1, ha2⟩ := (methodsWellFormed_iff _).1 hwfa
  obtain ⟨methods, h1, h2, _, h4, h5, h6⟩ :=
    injectMethods_spec a mixIn.methods.registry target.methods hx2 hx1 ha1
  have hb : injectBody st x a = some
      { (st.setModel a { target with
          fields := injectFields a target.fields mixIn.fields.registryByName,
          methods := methods }) with
        mixed := mapSet st.mixed ⟨a, x⟩ true } := by
    simp only [injectBody, hx, ha, h1, Option.some_bind, Option.map_some']
    rfl
  refine ⟨_, methods, hb, ?_, ?_, h5, ?_⟩
  · simp only [State.model, State.setModel, mapGet_mapSet_self]
  · exact (methodsWellFormed_iff _).2 ⟨h2, h4 ha2⟩
  · intro k mI hk
    exact h6 k mI (mapGet_mem _ _ _ hk)

theorem inflateMixIns_inv (I : State → Prop) (fuel : Nat) (st st2 : State)
    (hstep : ∀ s mi m mixInMI s2, I s → s.model mi = some m → m.isM2MLink = false →
      mixInMI ∈ m.mixins → injectMixInModel fuel s mixInMI mi = some s2 → I s2)
    (hI : I st) (h : inflateMixIns fuel st = some st2) : I st2 := by
  unfold inflateMixIns at h
  refine foldlM_inv (inflateModel fuel) I _ ?_ st st2 hI h
  intro s mi s2 _ hs hf
  unfold inflateModel at hf
  cases hm : s.model mi with
  | none => rw [hm] at hf; simp at hf
  | some m =>
    rw [hm] at hf
    simp only [Option.some_bind] at hf
    by_cases hl : m.isM2MLink = true
    · rw [if_pos hl] at hf
      cases hf; exact hs
    · rw [if_neg hl] at hf
      have hl2 : m.isM2MLink = false := by simpa using hl
      -- the model `mi` keeps its mixins and its kind during the loop
      refine foldlM_inv (fun s mixInMI => injectMixInModel fuel s mixInMI mi)
        (fun t => I t ∧ Stable s t) m.mixins ?_ s s2 ⟨hs, Stable.refl s⟩ hf |>.1
      intro t mixInMI t2 hmem ht hft
      obtain ⟨mt, hmt, hstat⟩ := ht.2.model_some mi m hm
      refine ⟨hstep t mi mt mixInMI t2 ht.1 hmt ?_ ?_ hft,
        ht.2.trans (injectMixInModel_stable fuel t mixInMI mi t2 hft)⟩
      · rw [static_isM2MLink hstat]; exact hl2
      · rw [static_mixins hstat]; exact hmem

/-! ## Termination of the injection on an acyclic mixin graph -/

theorem wellFormed_WFp (rank : String → Nat) (st : State)
    (h : st.wellFormed rank = true) : WFp rank st := by
  intro p m hm
  have hin := mapGet_mem _ _ _ hm
  simp only [State.wellFormed, List.all_eq_true, Bool.and_eq_true, decide_eq_true_eq] at h
  exact ⟨(h (p, m) hin).1, fun x hx => (h (p, m) hin).2 x hx⟩

theorem Stable.isSome {st s : State} (h : Stable st s) (p : String)
    (hp : (st.model p).isSome = true) : (s.model p).isSome = true := by
  obtain ⟨m, hm⟩ := Option.isSome_iff_exists.1 hp
  obtain ⟨m2, hm2, _⟩ := h.model_some p m hm
  rw [hm2]; rfl

theorem injectBody_WFp (rank : String → Nat) (st : State) (x a : String)
    (hwf : WFp rank st) (hx : (st.model x).isSome = true) (ha : (st.model a).isSome = true) :
    ∃ st2, injectBody st x a = some st2 ∧ WFp rank st2 := by
  obtain ⟨mixIn, hmx⟩ := Option.isSome_iff_exists.1 hx
  obtain ⟨target, hma⟩ := Option.isSome_iff_exists.1 ha
  obtain ⟨st2, methods, hb, hmod, hmwf, _, _⟩ :=
    injectBody_total st x a mixIn target hmx hma (hwf x mixIn hmx).1 (hwf a target hma).1
  refine ⟨st2, hb, ?_⟩
  have hst := injectBody_stable st x a st2 hb
  intro p m hm
  by_cases hpa : p = a
  · subst hpa
    rw [hmod] at hm
    cases hm
    refine ⟨hmwf, ?_⟩
    intro y hy
    exact ⟨hst.isSome y ((hwf p target hma).2 y hy).1, ((hwf p target hma).2 y hy).2⟩
  · rw [injectBody_model_ne st x a st2 hb p hpa] at hm
    refine ⟨(hwf p m hm).1, ?_⟩
    intro y hy
    exact ⟨hst.isSome y ((hwf p m hm).2 y hy).1, ((hwf p m hm).2 y hy).2⟩

/-- On a well-formed registry `injectMixInModel` returns as soon as the fuel exceeds the
rank of the mixin. -/
theorem injectMixInModel_total (rank : String → Nat) :
    ∀ (fuel : Nat) (st : State) (x a : String), WFp rank st → rank x < fuel →
      (st.model x).isSome = true → (st.model a).isSome = true →
      ∃ st2, injectMixInModel fuel st x a = some st2 ∧ WFp rank st2 := by
  intro fuel
  induction fuel with
  | zero => intro st x a _ hr; omega
  | succ fuel ih =>
    intro st x a hwf hr hx ha
    obtain ⟨mixIn, hmx⟩ := Option.isSome_iff_exists.1 hx
    have hfold : ∀ (l : List String) (s : State), (∀ y ∈ l, y ∈ mixIn.mixins) →
        WFp rank s → Stable st s →
        ∃ s2, l.foldlM (fun s mmm => injectMixInModel fuel s mmm x) s = some s2 ∧
          WFp rank s2 ∧ Stable st s2 := by
      intro l
      induction l with
      | nil => intro s _ hs hst; exact ⟨s, rfl, hs, hst⟩
      | cons y rest ihl =>
        intro s hsub hs hst
        have hy := (hwf x mixIn hmx).2 y (hsub y (List.mem_cons_self _ _))
        obtain ⟨s1, h1, hwf1⟩ := ih s y x hs (by omega) (hst.isSome y hy.1) (hst.isSome x hx)
        obtain ⟨s2, h2, hwf2, hst2⟩ := ihl s1
          (fun z hz => hsub z (List.mem_cons_of_mem _ hz)) hwf1
          (hst.trans (injectMixInModel_stable fuel s y x s1 h1))
        refine ⟨s2, ?_, hwf2, hst2⟩
        simp only [List.foldlM_cons, h1, Option.bind_eq_bind, Option.some_bind]
        exact h2
    obtain ⟨st1, hf, hwf1, hst1⟩ := hfold mixIn.mixins st (fun _ h => h) hwf (Stable.refl st)
    rw [injectMixInModel_succ, hmx]
    simp only [Option.some_bind, hf]
    by_cases hmixed : st1.isMixed a x = true
    · rw [if_pos hmixed]
      exact ⟨st1, rfl, hwf1⟩
    · rw [if_neg hmixed]
      exact injectBody_WFp rank st1 x a hwf1 (hst1.isSome x hx) (hst1.isSome a ha)

theorem rankedBelow_model (rank : String → Nat) (st : State) (n : Nat)
    (h : st.rankedBelow rank n = true) (p : String) (m : Model) (hm : st.model p = some m) :
    rank p ≤ n := by
  have hin := mapGet_mem _ _ _ hm
  simp only [State.rankedBelow, List.all_eq_true, decide_eq_true_eq] at h
  exact h (p, m) hin

/-- On a well-formed registry `inflateMixIns` returns as soon as the fuel is at least the
rank of every model. -/
theorem inflateMixIns_total (rank : String → Nat) (fuel : Nat) (st : State)
    (hwf : st.wellFormed rank = true) (hr : st.rankedBelow rank fuel = true) :
    ∃ st2, inflateMixIns fuel st = some st2 := by
  have hwfp := wellFormed_WFp rank st hwf
  have hfold : ∀ (l : List String) (s : State), (∀ p ∈ l, (st.model p).isSome = true) →
      WFp rank s → Stable st s →
      ∃ s2, l.foldlM (inflateModel fuel) s = some s2 := by
    intro l
    induction l with
    | nil => intro s _ _ _; exact ⟨s, rfl⟩
    | cons mi rest ihl =>
      intro s hsub hs hst
      have hmi := hsub mi (List.mem_cons_self _ _)
      obtain ⟨m0, hm0⟩ := Option.isSome_iff_exists.1 hmi
      obtain ⟨m, hm, hstat⟩ := hst.model_some mi m0 hm0
      have hstep : ∃ s1, inflateModel fuel s mi = some s1 ∧ WFp rank s1 ∧ Stable st s1 := by
        unfold inflateModel
        rw [hm]
        simp only [Option.some_bind]
        by_cases hl : m.isM2MLink = true
        · rw [if_pos hl]; exact ⟨s, rfl, hs, hst⟩
        · rw [if_neg hl]
          have hinner : ∀ (l2 : List String) (t : State), (∀ y ∈ l2, y ∈ m.mixins) →
              WFp rank t → Stable st t →
              ∃ t2, l2.foldlM (fun s mixInMI => injectMixInModel fuel s mixInMI mi) t
                = some t2 ∧ WFp rank t2 ∧ Stable st t2 := by
            intro l2
            induction l2 with
            | nil => intro t _ ht htst; exact ⟨t, rfl, ht, htst⟩
            | cons y rest2 ih2 =>
              intro t hsub2 ht htst
              have hy := (hwfp mi m0 hm0).2 y (by
                rw [← static_mixins hstat]; exact hsub2 y (List.mem_cons_self _ _))
              have hrk := rankedBelow_model rank st fuel hr mi m0 hm0
              obtain ⟨t1, h1, hwf1⟩ := injectMixInModel_total rank fuel t y mi ht (by omega)
                (htst.isSome y hy.1) (htst.isSome mi hmi)
              obtain ⟨t2, h2, hwf2, hst2⟩ := ih2 t1
                (fun z hz => hsub2 z (List.mem_cons_of_mem _ hz)) hwf1
                (htst.trans (injectMixInModel_stable fuel t y mi t1 h1))
              refine ⟨t2, ?_, hwf2, hst2⟩
              simp only [List.foldlM_cons, h1, Option.bind_eq_bind, Option.some_bind]
              exact h2
          exact hinner m.mixins s (fun _ h => h) hs hst
      obtain ⟨s1, h1, hwf1, hst1⟩ := hstep
      obtain ⟨s2, h2⟩ := ihl s1 (fun p hp => hsub p (List.mem_cons_of_mem _ hp)) hwf1 hst1
      refine ⟨s2, ?_⟩
      simp only [List.foldlM_cons, h1, Option.bind_eq_bind, Option.some_bind]
      exact h2
  unfold inflateMixIns
  exact hfold _ st (fun p hp => (mapGet_isSome_iff _ _).2 hp) hwfp (Stable.refl st)

theorem inflateModel_cases (fuel : Nat) (s : State) (mi : String) (s2 : State)
    (h : inflateModel fuel s mi = some s2) :
    ∃ m, s.model mi = some m ∧
      ((m.isM2MLink = true ∧ s2 = s) ∨
       (m.isM2MLink = false ∧
        m.mixins.foldlM (fun s mixInMI => injectMixInModel fuel s mixInMI mi) s = some s2)) := by
  unfold inflateModel at h
  cases hm : s.model mi with
  | none => rw [hm] at h; simp at h
  | some m =>
    rw [hm] at h
    simp only [Option.some_bind] at h
    refine ⟨m, rfl, ?_⟩
    by_cases hl : m.isM2MLink = true
    · rw [if_pos hl] at h
      cases h
      exact Or.inl ⟨hl, rfl⟩
    · rw [if_neg hl] at h
      exact Or.inr ⟨by simpa using hl, h⟩

theorem inflateModel_stable (fuel : Nat) (s : State) (mi : String) (s2 : State)
    (h : inflateModel fuel s mi = some s2) : Stable s s2 := by
  obtain ⟨m, _, hc⟩ := inflateModel_cases fuel s mi s2 h
  rcases hc with ⟨_, he⟩ | ⟨_, hf⟩
  · rw [he]; exact Stable.refl _
  · exact foldlM_inv (fun s mixInMI => injectMixInModel fuel s mixInMI mi)
      (fun t => Stable s t) m.mixins
      (fun t a t2 _ ht hft => ht.trans (injectMixInModel_stable fuel t a mi t2 hft)) s s2
      (Stable.refl s) hf

/-- An invariant of the bodies run for declared couples is an invariant of one iteration
of `inflateMixIns`. -/
theorem inflateModel_inv (st : State) (I : State → Prop)
    (hstable : ∀ s, I s → Stable st s)
    (hbody : ∀ s x a s2, I s → Declared st x a → s.isMixed a x = false →
      (∀ mixIn, s.model x = some mixIn → ∀ mmm ∈ mixIn.mixins, s.isMixed x mmm = true) →
      injectBody s x a = some s2 → I s2)
    (fuel : Nat) (s : State) (mi : String) (s2 : State) (hs : I s)
    (h : inflateModel fuel s mi = some s2) : I s2 := by
  obtain ⟨m, hm, hc⟩ := inflateModel_cases fuel s mi s2 h
  rcases hc with ⟨_, he⟩ | ⟨_, hf⟩
  · rw [he]; exact hs
  · obtain ⟨m0, hm0, hstat⟩ := (hstable s hs).model_some_rev mi m hm
    refine foldlM_inv (fun s mixInMI => injectMixInModel fuel s mixInMI mi) I m.mixins ?_
      s s2 hs hf
    intro t y t2 hy ht hft
    refine inject_ind2 I (Declared st) ?_ hbody fuel t y mi t2 ht
      ⟨m0, hm0, by rw [static_mixins hstat]; exact hy⟩ hft
    intro u x a mixIn mmm hu _ hx hmmm
    obtain ⟨mx, hmx, hstx⟩ := (hstable u hu).model_some_rev x mixIn hx
    exact ⟨mx, hmx, by rw [static_mixins hstx]; exact hmmm⟩

theorem injectBody_det (rank : String → Nat) (s : State) (x a : String) (s2 : State)
    (hwf : WFp rank s) (hb : injectBody s x a = some s2) :
    WFp rank s2 ∧ ∃ mx ma methods, s.model x = some mx ∧ s.model a = some ma ∧
      s2.model a = some { ma with
        fields := injectFields a ma.fields mx.fields.registryByName, methods := methods } ∧
      (∀ k mI, mapGet mx.methods.registry k = some mI →
        mapGet methods.registry k = mixedInMethod a (mapGet ma.methods.registry k) mI) := by
  obtain ⟨mx, ma, _, hx, ha, _, _⟩ := injectBody_eq s x a s2 hb
  obtain ⟨s3, hb3, hwf3⟩ := injectBody_WFp rank s x a hwf (by rw [hx]; rfl) (by rw [ha]; rfl)
  obtain ⟨s4, methods, hb4, hmod, _, _, hget⟩ :=
    injectBody_total s x a mx ma hx ha (hwf x mx hx).1 (hwf a ma ha).1
  rw [hb] at hb3 hb4
  cases hb3
  cases hb4
  exact ⟨hwf3, mx, ma, methods, hx, ha, hmod, hget⟩

/-! ## Lemmas on `BootStrap` -/

theorem andThen_holds {σ : Type} (P : σ → Prop) (r : Result σ) (f : σ → Result σ)
    (hr : r.holds P) (hf : ∀ s, P s → (f s).holds P) : (r.andThen f).holds P := by
  cases r with
  | done s => exact hf s hr
  | panicked msg s => exact hr
  | diverged => trivial

theorem forEach_holds {α σ : Type} (P : σ → Prop) (body : σ → α → Result σ)
    (hb : ∀ s a, P s → (body s a).holds P) :
    ∀ (l : List α) (s : σ), P s → (forEach body l s).holds P := by
  intro l
  induction l with
  | nil => intro s hs; exact hs
  | cons a rest ih =>
    intro s hs
    exact andThen_holds P _ _ (hb s a hs) (fun s1 h1 => ih s1 h1)

theorem setModel_bootstrapped (st : State) (p : String) (m : Model) :
    (st.setModel p m).Registry.bootstrapped = st.Registry.bootstrapped := rfl

theorem setField_bootstrapped (st : State) (mi fi : String) (f : Field) :
    (st.setField mi fi f).Registry.bootstrapped = st.Registry.bootstrapped := by
  unfold State.setField
  cases st.model mi <;> rfl

/-- No phase resets the flag `Registry.bootstrapped`: `createModelLinks`. -/
theorem createModelLinks_flag (st : State) (h : st.Registry.bootstrapped = true) :
    (createModelLinks st).holds (fun s => s.Registry.bootstrapped = true) := by
  unfold createModelLinks
  refine forEach_holds _ _ ?_ _ st h
  intro s mi hs
  unfold linkModel
  cases hm : s.model mi with
  | none => exact hs
  | some m =>
    refine andThen_holds _ _ _ ?_ ?_
    · refine forEach_holds _ _ ?_ _ s hs
      intro s2 fi hs2
      unfold linkField
      cases s2.field mi fi with
      | none => exact hs2
      | some f =>
        simp only
        by_cases hrel : f.fieldType.IsRelationType = true
        · rw [if_pos hrel]
          cases s2.Registry.Get f.relatedModelName with
          | none => exact hs2
          | some r =>
            show (s2.setField mi fi _).Registry.bootstrapped = true
            rw [setField_bootstrapped]; exact hs2
        · rw [if_neg hrel]
          show (s2.setField mi fi _).Registry.bootstrapped = true
          rw [setField_bootstrapped]; exact hs2
    · intro s3 hs3
      cases s3.model mi with
      | none => exact hs3
      | some m1 => exact hs3

theorem inflateEmbeddings_flag (st : State) (h : st.Registry.bootstrapped = true) :
    (inflateEmbeddings st).holds (fun s => s.Registry.bootstrapped = true) := by
  unfold inflateEmbeddings
  refine forEach_holds _ _ ?_ _ st h
  intro s mi hs
  cases hm : s.model mi with
  | none => exact hs
  | some m =>
    simp only
    refine forEach_holds _ _ ?_ _ s hs
    intro s2 fi hs2
    unfold embedField
    cases s2.field mi fi with
    | none => exact hs2
    | some f =>
      simp only
      by_cases hemb : f.embed = true
      · rw [if_pos hemb]
        cases f.relatedModel.bind s2.model with
        | none => exact hs2
        | some related =>
          refine forEach_holds _ _ ?_ _ s2 hs2
          intro s3 entry hs3
          unfold promoteField
          cases s3.model mi with
          | none => exact hs3
          | some m3 =>
            simp only
            cases m3.fields.get entry.1 with
            | none => exact hs3
            | some _ => exact hs3
      · rw [if_neg hemb]; exact hs2

theorem syncRelatedFieldInfo_flag (st : State) (h : st.Registry.bootstrapped = true) :
    (syncRelatedFieldInfo st).holds (fun s => s.Registry.bootstrapped = true) := by
  unfold syncRelatedFieldInfo
  refine forEach_holds _ _ ?_ _ st h
  intro s mi hs
  cases hm : s.model mi with
  | none => exact hs
  | some m =>
    simp only
    refine forEach_holds _ _ ?_ _ s hs
    intro s2 fi hs2
    unfold syncField
    cases s2.field mi fi with
    | none => exact hs2
    | some f =>
      simp only
      by_cases hrel : f.isRelatedField = true
      · rw [if_pos hrel]
        cases getRelatedFieldInfo s2 mi (splitPath f.relatedPath) with
        | none => exact hs2
        | some target =>
          show (s2.setField mi fi _).Registry.bootstrapped = true
          rw [setField_bootstrapped]; exact hs2
      · rw [if_neg hrel]; exact hs2

theorem foldl_inv {α σ : Type} (P : σ → Prop) (f : σ → α → σ)
    (hf : ∀ s a, P s → P (f s a)) : ∀ (l : List α) (s : σ), P s → P (l.foldl f s) := by
  intro l
  induction l with
  | nil => intro s hs; exact hs
  | cons a rest ih => intro s hs; exact ih _ (hf s a hs)

theorem bootStrapMethods_flag (st : State) (h : st.Registry.bootstrapped = true) :
    (bootStrapMethods st).Registry.bootstrapped = true := by
  unfold bootStrapMethods
  refine foldl_inv (fun s => s.Registry.bootstrapped = true) _ ?_ _ st h
  intro s mi hs
  cases s.model mi with
  | none => exact hs
  | some m => exact hs

theorem setupSecurity_flag (st : State) (h : st.Registry.bootstrapped = true) :
    (setupSecurity st).Registry.bootstrapped = true := by
  unfold setupSecurity
  refine foldl_inv (fun s => s.Registry.bootstrapped = true) _ ?_ _ st h
  intro s mi hs
  cases s.model mi with
  | none => exact hs
  | some m => exact hs

theorem inflateMixIns_flag (fuel : Nat) (st st2 : State)
    (h : st.Registry.bootstrapped = true) (hinf : inflateMixIns fuel st = some st2) :
    st2.Registry.bootstrapped = true := by
  refine inflateMixIns_inv (fun s => s.Registry.bootstrapped = true) fuel st st2 ?_ h hinf
  intro s mi _ mixInMI s2 hs _ _ _ hf
  refine inject_ind (fun s => s.Registry.bootstrapped = true) (fun _ _ => True)
    (fun _ _ _ _ _ _ _ _ _ => trivial) ?_ fuel s mixInMI mi s2 hs trivial hf
  intro t x a t2 ht _ _ hb
  obtain ⟨_, _, _, _, _, _, he⟩ := injectBody_eq t x a t2 hb
  rw [he]
  exact ht

theorem call_holds (P : State → Prop) (r : Run) (name : String)
    (phase : State → Result State) (hr : r.result.holds P)
    (hp : ∀ s, P s → (phase s).holds P) : (r.call name phase).result.holds P := by
  unfold Run.call
  cases hres : r.result with
  | done s =>
    rw [hres] at hr
    exact hp s hr
  | panicked msg s => simp only; rw [hres]; rw [hres] at hr; exact hr
  | diverged => simp only; rw [hres]; trivial

theorem call_done (r : Run) (name : String) (phase : State → Result State) (st2 : State)
    (h : (r.call name phase).result = Result.done st2) :
    ∃ s, r.result = Result.done s ∧ phase s = Result.done st2 := by
  unfold Run.call at h
  cases hres : r.result with
  | done s =>
    rw [hres] at h
    exact ⟨s, rfl, h⟩
  | panicked msg s =>
    rw [hres] at h
    simp only at h
    rw [hres] at h
    cases h
  | diverged =>
    rw [hres] at h
    simp only at h
    rw [hres] at h
    cases h

theorem BootStrap_eq_foldl (ext : External) (fuel : Nat) (st : State)
    (h : st.Registry.bootstrapped = false) :
    BootStrap ext fuel st =
      (phaseList ext fuel).foldl (fun r p => r.call p.1 p.2)
        (Run.start (Result.done st.setBootstrapped)) := by
  unfold BootStrap
  rw [if_neg (by rw [h]; simp)]
  rfl

theorem call_of_not_done (r : Run) (name : String) (phase : State → Result State)
    (h : ∀ s, r.result ≠ Result.done s) : r.call name phase = r := by
  unfold Run.call
  cases hres : r.result with
  | done s => exact absurd hres (h s)
  | panicked msg s => rfl
  | diverged => rfl

theorem call_of_done (r : Run) (name : String) (phase : State → Result State) (s : State)
    (h : r.result = Result.done s) :
    r.call name phase = { result := phase s, trace := r.trace ++ [name] } := by
  unfold Run.call
  rw [h]

/-- The trace of a sequence of calls: the names of the phases entered, in order. -/
theorem calls_trace (ps : List (String × (State → Result State))) :
    ∀ r : Run,
      (∃ k, (ps.foldl (fun r p => r.call p.1 p.2) r).trace
          = r.trace ++ (ps.map Prod.fst).take k) ∧
      (∀ s, (ps.foldl (fun r p => r.call p.1 p.2) r).result = Result.done s →
        (ps.foldl (fun r p => r.call p.1 p.2) r).trace = r.trace ++ ps.map Prod.fst) := by
  induction ps with
  | nil =>
    intro r
    exact ⟨⟨0, by simp⟩, fun s _ => by simp⟩
  | cons p rest ih =>
    intro r
    simp only [List.foldl_cons, List.map_cons]
    by_cases hd : ∃ s, r.result = Result.done s
    · obtain ⟨s, hs⟩ := hd
      rw [call_of_done r p.1 p.2 s hs]
      obtain ⟨⟨k, hk⟩, h2⟩ := ih { result := p.2 s, trace := r.trace ++ [p.1] }
      refine ⟨⟨k + 1, ?_⟩, ?_⟩
      · rw [hk]; simp
      · intro s2 hs2
        rw [h2 s2 hs2]; simp
    · have hnd : ∀ s, r.result ≠ Result.done s := fun s hs => hd ⟨s, hs⟩
      have hrest : ∀ (l : List (String × (State → Result State))),
          l.foldl (fun r p => r.call p.1 p.2) r = r := by
        intro l
        induction l with
        | nil => rfl
        | cons q l2 ihl =>
          simp only [List.foldl_cons]
          rw [call_of_not_done r q.1 q.2 hnd]
          exact ihl
      rw [call_of_not_done r p.1 p.2 hnd, hrest rest]
      refine ⟨⟨0, by simp⟩, ?_⟩
      intro s hs
      exact absurd hs (hnd s)

theorem mixedInMethod_splice (a : String) (emi methInfo : methodInfo)
    (ms ts : List methodLayer) (hms : methInfo.invertedLayers = some ms)
    (hch : emi.invertedLayers = some ts) (hts : ts ≠ [])
    (hown : ∀ l ∈ ts, l.mixedIn = false) :
    ∃ e2, mixedInMethod a (some emi) methInfo = some e2 ∧ e2.topLayer = emi.topLayer ∧
      e2.invertedLayers = some (ms.map emi.mixedLayer ++ ts) := by
  obtain ⟨e1, h1, h2, h3, _, _, _⟩ := spliceLayers_inverted emi ms [] ts
    (by simpa using hch) hts hown (by intro l hl; simp at hl)
  refine ⟨copyGroups e1 methInfo.groups, ?_, ?_, ?_⟩
  · simp [mixedInMethod, hms, h1]
  · rw [(copyGroups_proj _ _).2.1, h2]
  · rw [copyGroups_inverted, h3]; simp

/-! ## Loops that may panic -/

/-- A `range` loop under an invariant `I`: either it returns, each element `a` having
established `Q a`, or it panics in a state of which `B` holds.  What is established is
kept by the iterations that follow (`Q`, and any family `K` that each iteration keeps). -/
theorem forEach_spec {α σ ι : Type} (body : σ → α → Result σ) (I : σ → Prop)
    (Q : α → σ → Prop) (K : ι → σ → Prop) (B : String → σ → Prop) :
    ∀ (l : List α),
    (∀ s a, a ∈ l → I s →
      (∃ s2, body s a = Result.done s2 ∧ I s2 ∧ Q a s2 ∧ (∀ b, Q b s → Q b s2) ∧
        (∀ i, K i s → K i s2)) ∨
      (∃ msg s2, body s a = Result.panicked msg s2 ∧ B msg s2)) →
    ∀ s, I s →
      (∃ s2, forEach body l s = Result.done s2 ∧ I s2 ∧ (∀ a ∈ l, Q a s2) ∧
        (∀ b, Q b s → Q b s2) ∧ (∀ i, K i s → K i s2)) ∨
      (∃ msg s2, forEach body l s = Result.panicked msg s2 ∧ B msg s2) := by
  intro l
  induction l with
  | nil =>
    intro _ s hs
    exact Or.inl ⟨s, rfl, hs, by simp, fun _ h => h, fun _ h => h⟩
  | cons a rest ih =>
    intro hstep s hs
    rcases hstep s a (List.mem_cons_self _ _) hs with
      ⟨s1, h1, hI1, hQ1, hk1, hK1⟩ | ⟨msg, s1, h1, hB⟩
    · have hrest := ih (fun s a ha => hstep s a (List.mem_cons_of_mem _ ha)) s1 hI1
      rcases hrest with ⟨s2, h2, hI2, hQ2, hk2, hK2⟩ | ⟨msg, s2, h2, hB⟩
      · refine Or.inl ⟨s2, ?_, hI2, ?_, fun b hb => hk2 b (hk1 b hb),
          fun i hi => hK2 i (hK1 i hi)⟩
        · simp only [forEach, h1, Result.andThen]; exact h2
        · intro b hb
          rcases List.mem_cons.mp hb with rfl | hb
          · exact hk2 _ hQ1
          · exact hQ2 b hb
      · refine Or.inr ⟨msg, s2, ?_, hB⟩
        simp only [forEach, h1, Result.andThen]; exact h2
    · refine Or.inr ⟨msg, s1, ?_, hB⟩
      simp only [forEach, h1, Result.andThen]

/-! ## Lemmas on the fields of the state -/

theorem field_setModel_ne (st : State) (p q fi : String) (m : Model) (h : q ≠ p) :
    (st.setModel p m).field q fi = st.field q fi := by
  simp [State.field, model_setModel_ne _ _ _ _ h]

theorem field_setModel_self (st : State) (p fi : String) (m : Model) :
    (st.setModel p m).field p fi = mapGet m.fields.registryByName fi := by
  simp [State.field, model_setModel_self]

theorem field_setField_self (st : State) (mi fi : String) (f : Field)
    (h : (st.model mi).isSome = true) : (st.setField mi fi f).field mi fi = some f := by
  unfold State.setField
  cases hm : st.model mi with
  | none => rw [hm] at h; simp at h
  | some m => simp [field_setModel_self, mapGet_mapSet_self]

theorem field_setField_ne (st : State) (mi fi : String) (f : Field) (p q : String)
    (h : p ≠ mi ∨ q ≠ fi) : (st.setField mi fi f).field p q = st.field p q := by
  unfold State.setField
  cases hm : st.model mi with
  | none => rfl
  | some m =>
    by_cases hp : p = mi
    · subst hp
      have hq : q ≠ fi := by
        rcases h with h | h
        · exact absurd rfl h
        · exact h
      rw [field_setModel_self]
      simp [mapGet_mapSet_ne _ _ _ _ hq, State.field, hm]
    · simp [field_setModel_ne _ _ _ _ _ hp]

theorem model_isSome_setModel (st : State) (p : String) (m : Model) (n : String)
    (h : (st.model p).isSome = true) :
    ((st.setModel p m).model n).isSome = (st.model n).isSome := by
  by_cases hn : n = p
  · subst hn; rw [model_setModel_self, h]; rfl
  · rw [model_setModel_ne _ _ _ _ hn]

theorem model_isSome_setField (st : State) (mi fi : String) (f : Field) (n : String) :
    ((st.setField mi fi f).model n).isSome = (st.model n).isSome := by
  unfold State.setField
  cases hm : st.model mi with
  | none => rfl
  | some m => exact model_isSome_setModel st mi _ n (by rw [hm]; rfl)

theorem Get_eq (st : State) (n : String) :
    st.Registry.Get n = if (st.model n).isSome then some n else none := by
  unfold modelCollection.Get State.model
  cases mapGet st.Registry.registryByName n <;> rfl

theorem Get_congr (s st : State) (h : ∀ n, (s.model n).isSome = (st.model n).isSome)
    (n : String) : s.Registry.Get n = st.Registry.Get n := by
  rw [Get_eq, Get_eq, h]

theorem field_isSome_iff (st : State) (mi : String) (m : Model) (hm : st.model mi = some m)
    (fi : String) : (st.field mi fi).isSome = true ↔ fi ∈ mapKeys m.fields.registryByName := by
  simp only [State.field, hm, Option.bind]
  exact mapGet_isSome_iff _ _

theorem model_isSome_iff (st : State) (mi : String) :
    (st.model mi).isSome = true ↔ mi ∈ mapKeys st.Registry.registryByName :=
  mapGet_isSome_iff _ _

/-! ## Lemmas on `createModelLinks` -/

theorem field_setModel_fields (st : State) (p : String) (m1 m : Model)
    (hm : st.model p = some m1)
    (hf : m.fields.registryByName = m1.fields.registryByName) (q fi : String) :
    (st.setModel p m).field q fi = st.field q fi := by
  by_cases hq : q = p
  · subst hq; rw [field_setModel_self, hf]; simp [State.field, hm]
  · exact field_setModel_ne _ _ _ _ _ hq

theorem Linking.linking_isSome {st s : State} (h : Linking st s) (p q : String) :
    (s.field p q).isSome = (st.field p q).isSome := by
  rcases h.2 p q with h1 | h1 <;> rw [h1]
  cases st.field p q <;> rfl

theorem Linking.model_of_field {st : State} (p q : String) (f : Field)
    (h : st.field p q = some f) : (st.model p).isSome = true := by
  unfold State.field at h
  cases hm : st.model p with
  | none => rw [hm] at h; simp at h
  | some m => rfl

theorem linkedField_idem (st : State) (f : Field) (r : Option String) :
    ({ linkedField st f with relatedModel := r } : Field) = { f with relatedModel := r } := rfl

theorem linkedField_fieldType (st : State) (f : Field) :
    (linkedField st f).fieldType = f.fieldType := rfl

theorem linkedField_relatedModelName (st : State) (f : Field) :
    (linkedField st f).relatedModelName = f.relatedModelName := rfl

/-- One iteration of the inner loop of `createModelLinks`. -/
theorem linkField_spec (st s : State) (mi fi : String) (hI : Linking st s)
    (hfi : (s.field mi fi).isSome = true) :
    (∃ f0, st.field mi fi = some f0 ∧
      linkField mi s fi = Result.done (s.setField mi fi (linkedField st f0)) ∧
      (f0.fieldType.IsRelationType = true → (st.model f0.relatedModelName).isSome = true)) ∨
    (linkField mi s fi = Result.panicked "Unknown related model in field declaration" s ∧
      UnknownRelatedModel st) := by
  have hsome : (st.field mi fi).isSome = true := by rw [← hI.linking_isSome]; exact hfi
  obtain ⟨f0, hf0⟩ := Option.isSome_iff_exists.mp hsome
  obtain ⟨f, hf⟩ := Option.isSome_iff_exists.mp hfi
  have hty : f.fieldType = f0.fieldType ∧ f.relatedModelName = f0.relatedModelName ∧
      ∀ r, ({ f with relatedModel := r } : Field) = { f0 with relatedModel := r } := by
    rcases hI.2 mi fi with h1 | h1
    · rw [hf, hf0] at h1; cases h1; exact ⟨rfl, rfl, fun _ => rfl⟩
    · rw [hf, hf0] at h1
      simp only [Option.map_some', Option.some.injEq] at h1
      subst h1
      exact ⟨rfl, rfl, fun _ => rfl⟩
  obtain ⟨hty1, hty2, hty3⟩ := hty
  have hget : s.Registry.Get f.relatedModelName = st.Registry.Get f0.relatedModelName := by
    rw [hty2]; exact Get_congr s st hI.1 _
  unfold linkField
  rw [hf]
  simp only
  by_cases hrel : f0.fieldType.IsRelationType = true
  · have hrel2 : f.fieldType.IsRelationType = true := by rw [hty1]; exact hrel
    rw [if_pos hrel2, hget]
    cases hg : st.Registry.Get f0.relatedModelName with
    | none =>
      right
      refine ⟨rfl, mi, fi, f0, hf0, hrel, ?_⟩
      rw [Get_eq] at hg
      cases hm : st.model f0.relatedModelName with
      | none => rfl
      | some m => rw [hm] at hg; simp at hg
    | some r =>
      left
      refine ⟨f0, hf0, ?_, ?_⟩
      · simp only [hty3, linkedField, if_pos hrel, hg]
      · intro _
        rw [Get_eq] at hg
        by_contra hc
        rw [if_neg hc] at hg
        simp at hg
  · have hrel2 : ¬ f.fieldType.IsRelationType = true := by rw [hty1]; exact hrel
    rw [if_neg hrel2]
    left
    refine ⟨f0, hf0, ?_, fun h => absurd h hrel⟩
    simp only [hty3, linkedField, if_neg hrel]

theorem Linking.linking_setField {st s : State} (h : Linking st s) (mi fi : String) (f0 : Field)
    (hf0 : st.field mi fi = some f0) :
    Linking st (s.setField mi fi (linkedField st f0)) := by
  have hm : (s.model mi).isSome = true := by
    rw [h.1]; exact Linking.model_of_field mi fi f0 hf0
  refine ⟨fun n => ?_, fun p q => ?_⟩
  · rw [model_isSome_setField]; exact h.1 n
  · by_cases hpq : p = mi ∧ q = fi
    · obtain ⟨rfl, rfl⟩ := hpq
      right
      rw [field_setField_self _ _ _ _ hm, hf0]; rfl
    · have hne : p ≠ mi ∨ q ≠ fi := by
        by_contra hc
        push_neg at hc
        exact hpq hc
      rw [field_setField_ne _ _ _ _ _ _ hne]
      exact h.2 p q

theorem Linked.linked_setField {st s : State} (hI : Linking st s) (mi fi : String) (f0 : Field)
    (hf0 : st.field mi fi = some f0) (i : String × String) (hi : Linked st i s) :
    Linked st i (s.setField mi fi (linkedField st f0)) := by
  have hm : (s.model mi).isSome = true := by
    rw [hI.1]; exact Linking.model_of_field mi fi f0 hf0
  intro f hf
  by_cases hpq : i.1 = mi ∧ i.2 = fi
  · obtain ⟨h1, h2⟩ := hpq
    rw [h1, h2] at hf ⊢
    rw [hf0] at hf
    cases hf
    exact ⟨field_setField_self _ _ _ _ hm, by
      have := (hi f0 (by rw [h1, h2]; exact hf0)).2
      exact this⟩
  · have hne : i.1 ≠ mi ∨ i.2 ≠ fi := by
      by_contra hc
      push_neg at hc
      exact hpq hc
    rw [field_setField_ne _ _ _ _ _ _ hne]
    exact hi f hf

theorem Linked.of_setField_self {st s : State} (hI : Linking st s) (mi fi : String)
    (f0 : Field) (hf0 : st.field mi fi = some f0)
    (hrel : f0.fieldType.IsRelationType = true → (st.model f0.relatedModelName).isSome = true) :
    Linked st (mi, fi) (s.setField mi fi (linkedField st f0)) := by
  have hm : (s.model mi).isSome = true := by
    rw [hI.1]; exact Linking.model_of_field mi fi f0 hf0
  intro f hf
  have hff : f = f0 := by
    have h2 : st.field mi fi = some f := hf
    rw [hf0] at h2
    exact (Option.some.inj h2).symm
  subst hff
  exact ⟨field_setField_self _ _ _ _ hm, hrel⟩

/-- One iteration of the outer loop of `createModelLinks`. -/
theorem linkModel_spec (st s : State) (mi : String) (hI : Linking st s)
    (hmi : (st.model mi).isSome = true) :
    (∃ s2, linkModel s mi = Result.done s2 ∧ Linking st s2 ∧
      (∀ q, Linked st (mi, q) s2) ∧ (∀ i, Linked st i s → Linked st i s2)) ∨
    (∃ msg s2, linkModel s mi = Result.panicked msg s2 ∧
      msg = "Unknown related model in field declaration" ∧ UnknownRelatedModel st) := by
  have hsm : (s.model mi).isSome = true := by rw [hI.1]; exact hmi
  obtain ⟨m, hm⟩ := Option.isSome_iff_exists.mp hsm
  have hloop := forEach_spec (linkField mi) (Linking st) (fun q => Linked st (mi, q))
    (Linked st)
    (fun msg _ => msg = "Unknown related model in field declaration" ∧
      UnknownRelatedModel st)
    (mapKeys m.fields.registryByName)
    (by
      intro s1 a ha hI1
      have hsome : (s1.field mi a).isSome = true := by
        rw [hI1.linking_isSome, ← hI.linking_isSome]
        exact (field_isSome_iff s mi m hm a).mpr ha
      rcases linkField_spec st s1 mi a hI1 hsome with ⟨f0, hf0, hdone, hrel⟩ | ⟨hp, hb⟩
      · left
        exact ⟨_, hdone, hI1.linking_setField mi a f0 hf0,
          Linked.of_setField_self hI1 mi a f0 hf0 hrel,
          fun b hb => Linked.linked_setField hI1 mi a f0 hf0 (mi, b) hb,
          fun i hi => Linked.linked_setField hI1 mi a f0 hf0 i hi⟩
      · right
        exact ⟨_, _, hp, rfl, hb⟩) s hI
  unfold linkModel
  rw [hm]
  simp only
  rcases hloop with ⟨s2, h2, hI2, hQ2, _, hK2⟩ | ⟨msg, s2, h2, hB⟩
  · left
    rw [h2]
    simp only [Result.andThen]
    have hsm2 : (s2.model mi).isSome = true := by rw [hI2.1]; exact hmi
    obtain ⟨m1, hm1⟩ := Option.isSome_iff_exists.mp hsm2
    rw [hm1]
    simp only
    have hfield : ∀ p q, (s2.setModel mi
        { m1 with fields := { m1.fields with bootstrapped := true } }).field p q =
        s2.field p q := fun p q =>
      field_setModel_fields s2 mi m1
        { m1 with fields := { m1.fields with bootstrapped := true } } hm1 rfl p q
    refine ⟨_, rfl, ⟨fun n => ?_, fun p q => ?_⟩, fun q => ?_, fun i hi => ?_⟩
    · rw [model_isSome_setModel _ _ _ _ hsm2]; exact hI2.1 n
    · rw [hfield]; exact hI2.2 p q
    · intro f hf
      rw [hfield]
      have hq : q ∈ mapKeys m.fields.registryByName := by
        rw [← field_isSome_iff s mi m hm q, hI.linking_isSome]
        have h3 : st.field mi q = some f := hf
        rw [h3]; rfl
      exact hQ2 q hq f hf
    · intro f hf
      rw [hfield]
      exact hK2 i hi f hf
  · right
    rw [h2]
    exact ⟨msg, s2, rfl, hB⟩

theorem Linking.linking_refl (st : State) : Linking st st :=
  ⟨fun _ => rfl, fun _ _ => Or.inl rfl⟩

/-- What `createModelLinks` does: it returns with every field linked, or it panics, some
field of relation type naming a model that the registry does not have. -/
theorem createModelLinks_spec (st : State) :
    (∃ s2, createModelLinks st = Result.done s2 ∧ Linking st s2 ∧
      ∀ p q, Linked st (p, q) s2) ∨
    (∃ msg s2, createModelLinks st = Result.panicked msg s2 ∧
      msg = "Unknown related model in field declaration" ∧ UnknownRelatedModel st) := by
  have hloop := forEach_spec linkModel (Linking st) (fun p s => ∀ q, Linked st (p, q) s)
    (Linked st)
    (fun msg _ => msg = "Unknown related model in field declaration" ∧
      UnknownRelatedModel st)
    (mapKeys st.Registry.registryByName)
    (by
      intro s1 a ha hI1
      have hmi : (st.model a).isSome = true := (model_isSome_iff st a).mpr ha
      rcases linkModel_spec st s1 a hI1 hmi with ⟨s2, h2, hI2, hQ2, hK2⟩ | h
      · left
        exact ⟨s2, h2, hI2, hQ2, fun b hb q => hK2 (b, q) (hb q), hK2⟩
      · right
        exact h) st (Linking.linking_refl st)
  unfold createModelLinks
  rcases hloop with ⟨s2, h2, hI2, hQ2, _, _⟩ | h
  · left
    refine ⟨s2, h2, hI2, fun p q f hf => ?_⟩
    have hp : p ∈ mapKeys st.Registry.registryByName :=
      (model_isSome_iff st p).mp (Linking.model_of_field p q f hf)
    exact hQ2 p hp q f hf
  · right
    exact h

/-! ## Lemmas on `setupSecurity` -/

/-- A `range` loop that cannot panic, under an invariant `I`: each element `a` establishes
`Q a`, and what is established is kept. -/
theorem foldl_spec {α σ ι : Type} (f : σ → α → σ) (I : σ → Prop)
    (Q : α → σ → Prop) (K : ι → σ → Prop) :
    ∀ (l : List α),
    (∀ s a, a ∈ l → I s →
      I (f s a) ∧ Q a (f s a) ∧ (∀ b, Q b s → Q b (f s a)) ∧ (∀ i, K i s → K i (f s a))) →
    ∀ s, I s →
      I (l.foldl f s) ∧ (∀ a ∈ l, Q a (l.foldl f s)) ∧
        (∀ b, Q b s → Q b (l.foldl f s)) ∧ (∀ i, K i s → K i (l.foldl f s)) := by
  intro l
  induction l with
  | nil =>
    intro _ s hs
    exact ⟨hs, by simp, fun _ h => h, fun _ h => h⟩
  | cons a rest ih =>
    intro hstep s hs
    obtain ⟨hI1, hQ1, hk1, hK1⟩ := hstep s a (List.mem_cons_self _ _) hs
    obtain ⟨hI2, hQ2, hk2, hK2⟩ :=
      ih (fun s a ha => hstep s a (List.mem_cons_of_mem _ ha)) (f s a) hI1
    refine ⟨hI2, ?_, fun b hb => hk2 b (hk1 b hb), fun i hi => hK2 i (hK1 i hi)⟩
    intro b hb
    rcases List.mem_cons.mp hb with rfl | hb
    · exact hk2 _ hQ1
    · exact hQ2 b hb

theorem grantedMethod_idem (m : methodInfo) :
    grantedMethod (grantedMethod m) = grantedMethod m := by
  have h : ∀ (g : List (security.Group × Bool)) (k : security.Group),
      mapSet (mapSet g k true) k true = mapSet g k true := by
    intro g k
    induction g with
    | nil => simp [mapSet]
    | cons e rest ih =>
      by_cases he : e.1 = k
      · simp [mapSet, he]
      · simp [mapSet, he, ih]
  simp only [grantedMethod, h]

/-- The inner loop of `setupSecurity` grants every method of the registry. -/
theorem grantAdmin_get (mc : methodsCollection) (X : String) :
    mapGet (grantAdmin mc).registry X = (mapGet mc.registry X).map grantedMethod := by
  have hloop := foldl_spec
    (fun (c : methodsCollection) name =>
      match mapGet c.registry name with
      | none => c
      | some meth =>
        c.set name { meth with groups := mapSet meth.groups security.GroupAdmin true })
    (fun c => ∀ Y, mapGet c.registry Y = mapGet mc.registry Y ∨
      mapGet c.registry Y = (mapGet mc.registry Y).map grantedMethod)
    (fun Y c => mapGet c.registry Y = (mapGet mc.registry Y).map grantedMethod)
    (fun (_ : Unit) _ => True) (mapKeys mc.registry)
    (by
      intro c a _ hI
      beta_reduce
      cases hc : mapGet c.registry a with
      | none =>
        simp only
        refine ⟨hI, ?_, fun _ h => h, fun _ h => h⟩
        rcases hI a with h1 | h1
        · show mapGet c.registry a = _
          rw [h1]; rw [h1] at hc; rw [hc]; rfl
        · exact h1
      | some meth =>
        simp only
        have hnew : ({ meth with groups := mapSet meth.groups security.GroupAdmin true }
            : methodInfo) = grantedMethod meth := rfl
        rw [hnew]
        have hg : some (grantedMethod meth) = (mapGet mc.registry a).map grantedMethod := by
          rcases hI a with h1 | h1
          · rw [← h1, hc]; rfl
          · rw [hc] at h1
            cases hmc : mapGet mc.registry a with
            | none => rw [hmc] at h1; simp at h1
            | some m =>
              rw [hmc] at h1
              simp only [Option.map_some', Option.some.injEq] at h1
              rw [h1, grantedMethod_idem]; rfl
        have hset : ∀ Y, mapGet (c.set a (grantedMethod meth)).registry Y =
            if Y = a then some (grantedMethod meth) else mapGet c.registry Y := by
          intro Y
          by_cases hY : Y = a
          · subst hY; rw [if_pos rfl]; exact mapGet_mapSet_self _ _ _
          · rw [if_neg hY]; exact mapGet_mapSet_ne _ _ _ _ hY
        refine ⟨fun Y => ?_, ?_, fun b hb => ?_, fun _ h => h⟩
        · rw [hset]
          by_cases hY : Y = a
          · subst hY; rw [if_pos rfl]; exact Or.inr hg
          · rw [if_neg hY]; exact hI Y
        · show mapGet (c.set a (grantedMethod meth)).registry a = _
          rw [hset, if_pos rfl]; exact hg
        · show mapGet (c.set a (grantedMethod meth)).registry b = _
          rw [hset]
          by_cases hY : b = a
          · subst hY; rw [if_pos rfl]; exact hg
          · rw [if_neg hY]; exact hb) mc (fun _ => Or.inl rfl)
  obtain ⟨hI, hQ, _, _⟩ := hloop
  unfold grantAdmin
  cases hmc : mapGet mc.registry X with
  | none =>
    rcases hI X with h1 | h1
    · exact h1.trans hmc
    · rw [hmc] at h1; exact h1
  | some m =>
    have hX : X ∈ mapKeys mc.registry := by
      rw [← mapGet_isSome_iff, hmc]; rfl
    have h := hQ X hX
    beta_reduce at h
    rw [hmc] at h
    exact h

theorem method_setModel_self (st : State) (p X : String) (m : Model) :
    (st.setModel p m).method p X = mapGet m.methods.registry X := by
  simp [State.method, model_setModel_self]

theorem method_setModel_ne (st : State) (p q X : String) (m : Model) (h : q ≠ p) :
    (st.setModel p m).method q X = st.method q X := by
  simp [State.method, model_setModel_ne _ _ _ _ h]

theorem method_model_isSome (st : State) (A X : String) (m : methodInfo)
    (h : st.method A X = some m) : (st.model A).isSome = true := by
  unfold State.method at h
  cases hm : st.model A with
  | none => rw [hm] at h; simp at h
  | some _ => rfl

/-- The state that `setupSecurity` returns: every method of every model, granted. -/
theorem setupSecurity_method (st : State) (A X : String) :
    (setupSecurity st).method A X = (st.method A X).map grantedMethod := by
  have hloop := foldl_spec
    (fun (s : State) mi =>
      match s.model mi with
      | none => s
      | some m => s.setModel mi { m with methods := grantAdmin m.methods })
    (fun s => (∀ n, (s.model n).isSome = (st.model n).isSome) ∧
      ∀ B Y, s.method B Y = st.method B Y ∨
        s.method B Y = (st.method B Y).map grantedMethod)
    (fun B s => ∀ Y, s.method B Y = (st.method B Y).map grantedMethod)
    (fun (_ : Unit) _ => True) (mapKeys st.Registry.registryByName)
    (by
      intro s a ha hI
      beta_reduce
      have hsome : (s.model a).isSome = true := by
        rw [hI.1]; exact (model_isSome_iff st a).mpr ha
      obtain ⟨m, hm⟩ := Option.isSome_iff_exists.mp hsome
      rw [hm]
      simp only
      have hnew : ∀ Y, (s.setModel a { m with methods := grantAdmin m.methods }).method a Y
          = (st.method a Y).map grantedMethod := by
        intro Y
        rw [method_setModel_self]
        show mapGet (grantAdmin m.methods).registry Y = _
        rw [grantAdmin_get]
        have hs : s.method a Y = mapGet m.methods.registry Y := by
          simp [State.method, hm]
        rw [← hs]
        rcases hI.2 a Y with h1 | h1
        · rw [h1]
        · rw [h1]
          cases st.method a Y with
          | none => rfl
          | some m0 => simp [grantedMethod_idem]
      refine ⟨⟨fun n => ?_, fun B Y => ?_⟩, hnew, fun b hb Y => ?_, fun _ h => h⟩
      · rw [model_isSome_setModel _ _ _ _ hsome]; exact hI.1 n
      · by_cases hB : B = a
        · subst hB; exact Or.inr (hnew Y)
        · rw [method_setModel_ne _ _ _ _ _ hB]; exact hI.2 B Y
      · by_cases hB : b = a
        · subst hB; exact hnew Y
        · rw [method_setModel_ne _ _ _ _ _ hB]; exact hb Y)
    st ⟨fun _ => rfl, fun _ _ => Or.inl rfl⟩
  obtain ⟨hI, hQ, _, _⟩ := hloop
  unfold setupSecurity
  cases hm : st.method A X with
  | none =>
    rcases hI.2 A X with h1 | h1
    · exact h1.trans hm
    · rw [hm] at h1; exact h1
  | some m =>
    have hA : A ∈ mapKeys st.Registry.registryByName :=
      (model_isSome_iff st A).mp (method_model_isSome st A X m hm)
    have h := hQ A hA X
    beta_reduce at h
    rw [hm] at h
    exact h

theorem grantedMethod_admin (m : methodInfo) :
    mapGet (grantedMethod m).groups security.GroupAdmin = some true :=
  mapGet_mapSet_self _ _ _

theorem grantedMethod_keeps (m : methodInfo) (g : security.Group) (b : Bool)
    (h : mapGet m.groups g = some b) (hb : b = true) :
    mapGet (grantedMethod m).groups g = some true := by
  by_cases hg : g = security.GroupAdmin
  · subst hg; exact grantedMethod_admin m
  · show mapGet (mapSet m.groups security.GroupAdmin true) g = some true
    rw [mapGet_mapSet_ne _ _ _ _ hg, h, hb]

/-! ## Lemmas on `syncRelatedFieldInfo` -/

theorem getRelatedFieldInfo_cons2 (st : State) (mi name r : String) (rs : List String) :
    getRelatedFieldInfo st mi (name :: r :: rs) =
      (st.field mi name).bind (fun f =>
        f.relatedModel.bind (fun related => getRelatedFieldInfo st related (r :: rs))) := by
  simp [getRelatedFieldInfo]

theorem plainPath_cons2 (st : State) (mi name r : String) (rs : List String) :
    plainPath st mi (name :: r :: rs) =
      (match st.field mi name with
       | some f =>
         !f.isRelatedField &&
           (match f.relatedModel with
            | some related => plainPath st related (r :: rs)
            | none => false)
       | none => false) := by
  simp [plainPath]

/-- A plain path resolves, in every state that `syncRelatedFieldInfo` goes through, to the
field it resolves to at the start, which is a field of the registry and not a related
field. -/
theorem plainPath_resolves (st s : State) (hI : Syncing st s) :
    ∀ (segs : List String) (mi : String), plainPath st mi segs = true →
      ∃ t, getRelatedFieldInfo st mi segs = some t ∧
        getRelatedFieldInfo s mi segs = some t ∧
        t.isRelatedField = false ∧ ∃ p n, st.field p n = some t := by
  intro segs
  induction segs with
  | nil => intro mi h; simp [plainPath] at h
  | cons name rest ih =>
    intro mi h
    cases rest with
    | nil =>
      simp only [plainPath] at h
      cases hf : st.field mi name with
      | none => rw [hf] at h; simp at h
      | some f =>
        rw [hf] at h
        have hnr : f.isRelatedField = false := by simpa using h
        refine ⟨f, ?_, ?_, hnr, mi, name, hf⟩
        · simp [getRelatedFieldInfo, hf]
        · simp [getRelatedFieldInfo, hI.2.2.1 mi name f hf hnr]
    | cons r rs =>
      rw [plainPath_cons2] at h
      cases hf : st.field mi name with
      | none => rw [hf] at h; simp at h
      | some f =>
        rw [hf] at h
        simp only [Bool.and_eq_true, Bool.not_eq_true'] at h
        obtain ⟨hnr, hrest⟩ := h
        cases hrm : f.relatedModel with
        | none => rw [hrm] at hrest; simp at hrest
        | some related =>
          rw [hrm] at hrest
          obtain ⟨t, ht1, ht2, ht3, ht4⟩ := ih related hrest
          refine ⟨t, ?_, ?_, ht3, ht4⟩
          · rw [getRelatedFieldInfo_cons2, hf]
            simp [hrm, ht1]
          · rw [getRelatedFieldInfo_cons2, hI.2.2.1 mi name f hf hnr]
            simp [hrm, ht2]

theorem Syncing.syncing_refl (st : State) : Syncing st st := by
  refine ⟨fun _ => rfl, fun _ _ h => h, fun _ _ _ h _ => h, fun p q f h _ => ?_⟩
  exact ⟨f, h, rfl, rfl, rfl, rfl⟩

theorem Syncing.syncing_isSome {st s : State} (h : Syncing st s) (p q : String) :
    (s.field p q).isSome = (st.field p q).isSome := by
  cases hf : st.field p q with
  | none => rw [h.2.1 p q hf]
  | some f =>
    cases hr : f.isRelatedField with
    | false => rw [h.2.2.1 p q f hf hr]
    | true =>
      obtain ⟨g, hg, _⟩ := h.2.2.2 p q f hf hr
      rw [hg]; rfl

theorem isRelatedField_congr (f g : Field) (h : g.relatedPath = f.relatedPath) :
    g.isRelatedField = f.isRelatedField := by
  unfold Field.isRelatedField; rw [h]

theorem Syncing.syncing_setField {st s : State} (hI : Syncing st s) (mi fi : String) (f0 g : Field)
    (hf0 : st.field mi fi = some f0) (hrel : f0.isRelatedField = true)
    (h1 : g.name = f0.name) (h2 : g.json = f0.json) (h3 : g.relatedPath = f0.relatedPath)
    (h4 : g.stored = f0.stored) : Syncing st (s.setField mi fi g) := by
  have hm : (s.model mi).isSome = true := by
    rw [hI.1]; exact Linking.model_of_field mi fi f0 hf0
  have hne : ∀ p q, ¬ (p = mi ∧ q = fi) → (s.setField mi fi g).field p q = s.field p q := by
    intro p q hpq
    refine field_setField_ne _ _ _ _ _ _ ?_
    by_contra hc
    push_neg at hc
    exact hpq hc
  refine ⟨fun n => ?_, fun p q hn => ?_, fun p q f hf hr => ?_, fun p q f hf hr => ?_⟩
  · rw [model_isSome_setField]; exact hI.1 n
  · rw [hne p q (by rintro ⟨rfl, rfl⟩; rw [hf0] at hn; cases hn)]
    exact hI.2.1 p q hn
  · rw [hne p q (by
      rintro ⟨rfl, rfl⟩
      rw [hf0] at hf; cases hf
      rw [hrel] at hr; cases hr)]
    exact hI.2.2.1 p q f hf hr
  · by_cases hpq : p = mi ∧ q = fi
    · obtain ⟨rfl, rfl⟩ := hpq
      rw [hf0] at hf; cases hf
      exact ⟨g, field_setField_self _ _ _ _ hm, h1, h2, h3, h4⟩
    · rw [hne p q hpq]
      exact hI.2.2.2 p q f hf hr

/-- One iteration of the inner loop of `syncRelatedFieldInfo`. -/
theorem syncField_spec (st s : State) (mi fi : String) (hI : Syncing st s)
    (hfi : (s.field mi fi).isSome = true) :
    (∃ s2, syncField mi s fi = Result.done s2 ∧ Syncing st s2 ∧ Synced st (mi, fi) s2 ∧
      ∀ i, Synced st i s → Synced st i s2) ∨
    (∃ msg s2, syncField mi s fi = Result.panicked msg s2 ∧ ChainedRelatedField st) := by
  have hsome : (st.field mi fi).isSome = true := by rw [← hI.syncing_isSome]; exact hfi
  obtain ⟨f0, hf0⟩ := Option.isSome_iff_exists.mp hsome
  have hm : (s.model mi).isSome = true := by
    rw [hI.1]; exact Linking.model_of_field mi fi f0 hf0
  unfold syncField
  cases hr : f0.isRelatedField with
  | false =>
    have hg := hI.2.2.1 mi fi f0 hf0 hr
    rw [hg]
    simp only [hr]
    left
    refine ⟨s, rfl, hI, ?_, fun _ h => h⟩
    intro f t hf hrel _ _
    have hf2 : st.field mi fi = some f := hf
    rw [hf0] at hf2; cases hf2
    rw [hr] at hrel; cases hrel
  | true =>
    obtain ⟨g, hg, h1, h2, h3, h4⟩ := hI.2.2.2 mi fi f0 hf0 hr
    have hgr : g.isRelatedField = true := by rw [isRelatedField_congr f0 g h3]; exact hr
    rw [hg]
    simp only [hgr, if_true]
    cases hres : getRelatedFieldInfo s mi (splitPath g.relatedPath) with
    | none =>
      right
      refine ⟨_, _, rfl, mi, fi, f0, hf0, hr, ?_⟩
      by_contra hc
      have hp : plainPath st mi (splitPath f0.relatedPath) = true := by
        cases hpp : plainPath st mi (splitPath f0.relatedPath) with
        | true => rfl
        | false => exact absurd hpp hc
      obtain ⟨t, _, ht2, _⟩ := plainPath_resolves st s hI _ mi hp
      rw [← h3, hres] at ht2
      cases ht2
    | some target =>
      left
      have hnew : ({ target with
            name := g.name, json := g.json, relatedPath := g.relatedPath, stored := g.stored,
            model := mi, noCopy := true } : Field) = syncedField mi f0 target := by
        simp only [syncedField, h1, h2, h3, h4]
      simp only [hnew]
      have hI2 : Syncing st (s.setField mi fi (syncedField mi f0 target)) :=
        hI.syncing_setField mi fi f0 _ hf0 hr rfl rfl rfl rfl
      have hself : ∀ f t, st.field mi fi = some f → f.isRelatedField = true →
          plainPath st mi (splitPath f.relatedPath) = true →
          getRelatedFieldInfo st mi (splitPath f.relatedPath) = some t →
          (s.setField mi fi (syncedField mi f0 target)).field mi fi
            = some (syncedField mi f t) := by
        intro f t hf _ hp ht
        rw [hf0] at hf; cases hf
        obtain ⟨t2, ht1, ht2, _⟩ := plainPath_resolves st s hI _ mi hp
        rw [ht] at ht1; cases ht1
        rw [← h3, hres] at ht2; cases ht2
        exact field_setField_self _ _ _ _ hm
      refine ⟨_, rfl, hI2, hself, fun i hi => ?_⟩
      obtain ⟨p, q⟩ := i
      by_cases hpq : p = mi ∧ q = fi
      · obtain ⟨e1, e2⟩ := hpq
        subst e1 e2
        exact hself
      · intro f t hf hrel hp ht
        have hne : p ≠ mi ∨ q ≠ fi := by
          by_contra hc
          push_neg at hc
          exact hpq hc
        show (s.setField mi fi (syncedField mi f0 target)).field p q = _
        rw [field_setField_ne _ _ _ _ _ _ hne]
        exact hi f t hf hrel hp ht

/-- What `syncRelatedFieldInfo` does: it returns with every related field of a plain path
synchronised, or it panics, some related field having a path that is not plain. -/
theorem syncRelatedFieldInfo_spec (st : State) :
    (∃ s2, syncRelatedFieldInfo st = Result.done s2 ∧ Syncing st s2 ∧
      ∀ p q, Synced st (p, q) s2) ∨
    (∃ msg s2, syncRelatedFieldInfo st = Result.panicked msg s2 ∧ ChainedRelatedField st) := by
  have hloop := forEach_spec
    (fun s mi =>
      match s.model mi with
      | none => Result.panicked nilDereference s
      | some m => forEach (syncField mi) (mapKeys m.fields.registryByName) s)
    (Syncing st) (fun p s => ∀ q, Synced st (p, q) s)
    (Synced st) (fun _ _ => ChainedRelatedField st) (mapKeys st.Registry.registryByName)
    (by
      intro s mi hmi hI
      beta_reduce
      have hsm : (s.model mi).isSome = true := by
        rw [hI.1]; exact (model_isSome_iff st mi).mpr hmi
      obtain ⟨m, hm⟩ := Option.isSome_iff_exists.mp hsm
      rw [hm]
      simp only
      have hinner := forEach_spec (syncField mi) (Syncing st) (fun q => Synced st (mi, q))
        (Synced st) (fun _ _ => ChainedRelatedField st) (mapKeys m.fields.registryByName)
        (by
          intro s1 a ha hI1
          have hsome : (s1.field mi a).isSome = true := by
            rw [hI1.syncing_isSome, ← hI.syncing_isSome]
            exact (field_isSome_iff s mi m hm a).mpr ha
          rcases syncField_spec st s1 mi a hI1 hsome with ⟨s2, h2, hI2, hQ2, hK2⟩ | h
          · left
            exact ⟨s2, h2, hI2, hQ2, fun b hb => hK2 (mi, b) hb, hK2⟩
          · right
            exact h) s hI
      rcases hinner with ⟨s2, h2, hI2, hQ2, _, hK2⟩ | h
      · left
        refine ⟨s2, h2, hI2, fun q => ?_, fun b hb q => hK2 (b, q) (hb q), hK2⟩
        intro f t hf hrel hp ht
        have hq : q ∈ mapKeys m.fields.registryByName := by
          rw [← field_isSome_iff s mi m hm q, hI.syncing_isSome]
          have h3 : st.field mi q = some f := hf
          rw [h3]; rfl
        exact hQ2 q hq f t hf hrel hp ht
      · right
        exact h) st (Syncing.syncing_refl st)
  unfold syncRelatedFieldInfo
  rcases hloop with ⟨s2, h2, hI2, hQ2, _, _⟩ | h
  · left
    refine ⟨s2, h2, hI2, fun p q f t hf hrel hp ht => ?_⟩
    have hp2 : p ∈ mapKeys st.Registry.registryByName :=
      (model_isSome_iff st p).mp (Linking.model_of_field p q f hf)
    exact hQ2 p hp2 q f t hf hrel hp ht
  · right
    exact h

/-! ## Lemmas on `inflateEmbeddings` -/

/-- A `range` loop under an invariant `I`, each iteration knowing what the iterations
before it have established. -/
theorem forEach_prefix {α σ : Type} (body : σ → α → Result σ) (I : σ → Prop)
    (Q : α → σ → Prop) (B : String → σ → Prop) :
    ∀ (l pre : List α),
    (∀ s p a q, pre ++ l = p ++ a :: q → I s → (∀ b ∈ p, Q b s) →
      (∃ s2, body s a = Result.done s2 ∧ I s2 ∧ Q a s2 ∧ (∀ b, Q b s → Q b s2)) ∨
      (∃ msg s2, body s a = Result.panicked msg s2 ∧ B msg s2)) →
    ∀ s, I s → (∀ b ∈ pre, Q b s) →
      (∃ s2, forEach body l s = Result.done s2 ∧ I s2 ∧ (∀ b ∈ pre ++ l, Q b s2)) ∨
      (∃ msg s2, forEach body l s = Result.panicked msg s2 ∧ B msg s2) := by
  intro l
  induction l with
  | nil =>
    intro pre _ s hs hpre
    exact Or.inl ⟨s, rfl, hs, by simpa using hpre⟩
  | cons a rest ih =>
    intro pre hstep s hs hpre
    rcases hstep s pre a rest rfl hs hpre with ⟨s1, h1, hI1, hQ1, hk1⟩ | ⟨msg, s1, h1, hB⟩
    · have hrest := ih (pre ++ [a])
        (fun s p b q hsplit => hstep s p b q (by rw [← hsplit]; simp)) s1 hI1
        (by
          intro b hb
          rcases List.mem_append.mp hb with hb | hb
          · exact hk1 b (hpre b hb)
          · rw [List.mem_singleton.mp hb]; exact hQ1)
      rcases hrest with ⟨s2, h2, hI2, hQ2⟩ | ⟨msg, s2, h2, hB⟩
      · refine Or.inl ⟨s2, ?_, hI2, ?_⟩
        · simp only [forEach, h1, Result.andThen]; exact h2
        · intro b hb
          exact hQ2 b (by simpa using hb)
      · refine Or.inr ⟨msg, s2, ?_, hB⟩
        simp only [forEach, h1, Result.andThen]; exact h2
    · refine Or.inr ⟨msg, s1, ?_, hB⟩
      simp only [forEach, h1, Result.andThen]

/-- The first binding of a key is the one that a lookup returns. -/
theorem mapGet_append_first {K V : Type} [DecidableEq K] (p q : List (K × V)) (k : K) (v : V)
    (h : ∀ b ∈ p, b.1 ≠ k) : mapGet (p ++ (k, v) :: q) k = some v := by
  induction p with
  | nil => simp [mapGet]
  | cons e rest ih =>
    have he : e.1 ≠ k := h e (List.mem_cons_self _ _)
    have hrest := ih (fun b hb => h b (List.mem_cons_of_mem _ hb))
    obtain ⟨k0, v0⟩ := e
    simp only [List.cons_append, mapGet]
    rw [if_neg he]
    exact hrest

theorem FieldsKept.kept_refl (s : State) : FieldsKept s s := fun _ _ _ h => h

theorem FieldsKept.kept_trans {s1 s2 s3 : State} (h1 : FieldsKept s1 s2) (h2 : FieldsKept s2 s3) :
    FieldsKept s1 s3 := fun p q g h => h2 p q g (h1 p q g h)

theorem Embedding.embedding_refl (st : State) : Embedding st st :=
  ⟨fun _ => rfl, FieldsKept.kept_refl st, fun _ _ _ h => Or.inl h⟩

theorem Embedding.field_none {st s : State} (h : Embedding st s) (p q : String)
    (hn : s.field p q = none) : st.field p q = none := by
  cases hf : st.field p q with
  | none => rfl
  | some f => rw [h.2.1 p q f hf] at hn; cases hn

theorem embeddedField_embed (mi : String) (fi : Field) (relName : String) (relFI : Field) :
    (embeddedField mi fi relName relFI).embed = false := rfl

theorem embeddedField_name (mi : String) (fi : Field) (relName : String) (relFI : Field) :
    (embeddedField mi fi relName relFI).name = relName := rfl

/-- An embedding that a state of `inflateEmbeddings` has is one of the registry at the
start. -/
theorem Embedding.embed_field {st s : State} (h : Embedding st s) (p q : String) (g : Field)
    (hg : s.field p q = some g) (he : g.embed = true) : st.field p q = some g := by
  rcases h.2.2 p q g hg with h1 | ⟨_, e, E, r, relFI, _, _, _, _, hgE⟩
  · exact h1
  · rw [hgE, embeddedField_embed] at he; cases he

theorem FieldsKept.kept_isSome {s s2 : State} (h : FieldsKept s s2) (p q : String)
    (hs : (s.field p q).isSome = true) : (s2.field p q).isSome = true := by
  obtain ⟨g, hg⟩ := Option.isSome_iff_exists.mp hs
  rw [h p q g hg]; rfl

theorem field_of_model (s : State) (p : String) (m : Model) (hm : s.model p = some m)
    (q : String) : s.field p q = mapGet m.fields.registryByName q := by
  simp [State.field, hm]

/-- The fields of the state once a field is added to model `mi`. -/
theorem field_add (s : State) (mi : String) (m : Model) (f : Field) (p q : String) :
    (s.setModel mi { m with fields := m.fields.add f }).field p q =
      if p = mi then (if q = f.name then some f else mapGet m.fields.registryByName q)
      else s.field p q := by
  by_cases hp : p = mi
  · subst hp
    rw [if_pos rfl, field_setModel_self]
    show mapGet (mapSet m.fields.registryByName f.name f) q = _
    by_cases hq : q = f.name
    · subst hq; rw [if_pos rfl]; exact mapGet_mapSet_self _ _ _
    · rw [if_neg hq]; exact mapGet_mapSet_ne _ _ _ _ hq
  · rw [if_neg hp]; exact field_setModel_ne _ _ _ _ _ hp

/-- One iteration of the innermost loop of `inflateEmbeddings`, on the entry `a` of the
fields of the related model: `L` is the map the loop ranges over, read in state `s0`. -/
theorem promoteField_spec (st s0 s : State) (mi e r : String) (E : Field) (related : Model)
    (hE : st.field mi e = some E) (hemb : E.embed = true) (hr : E.relatedModel = some r)
    (h0 : s0.model r = some related)
    (p q : List (String × Field)) (a : String × Field)
    (hL : related.fields.registryByName = p ++ a :: q)
    (hI : Embedding st s) (hkept : FieldsKept s0 s)
    (hpre : ∀ b ∈ p, (s.field mi b.1).isSome = true) :
    ∃ s2, promoteField mi E s a = Result.done s2 ∧ Embedding st s2 ∧ FieldsKept s s2 ∧
      (s2.field mi a.1).isSome = true := by
  have hmi : (s.model mi).isSome = true := by
    rw [hI.1]; exact Linking.model_of_field mi e E hE
  obtain ⟨m, hm⟩ := Option.isSome_iff_exists.mp hmi
  obtain ⟨n, v⟩ := a
  unfold promoteField
  rw [hm]
  simp only [fieldsCollection.get]
  have hget : mapGet m.fields.registryByName n = s.field mi n := (field_of_model s mi m hm n).symm
  cases hn : mapGet m.fields.registryByName n with
  | some f0 =>
    simp only
    refine ⟨s, rfl, hI, FieldsKept.kept_refl s, ?_⟩
    show (s.field mi n).isSome = true
    rw [← hget, hn]; rfl
  | none =>
    simp only
    have hsn : s.field mi n = none := by rw [← hget, hn]
    have hfield : ∀ p1 q1,
        (s.setModel mi { m with fields := m.fields.add (embeddedField mi E n v) }).field p1 q1
          = if p1 = mi ∧ q1 = n then some (embeddedField mi E n v) else s.field p1 q1 := by
      intro p1 q1
      rw [field_add, embeddedField_name]
      by_cases hp : p1 = mi
      · subst hp
        rw [if_pos rfl]
        by_cases hq : q1 = n
        · subst hq; rw [if_pos rfl, if_pos ⟨rfl, rfl⟩]
        · rw [if_neg hq, if_neg (fun h => hq h.2), field_of_model s p1 m hm]
      · rw [if_neg hp, if_neg (fun h => hp h.1)]
    have hfirst : ∀ b ∈ p, b.1 ≠ n := by
      intro b hb hbn
      have := hpre b hb
      rw [hbn, hsn] at this
      cases this
    have hv0 : s0.field r n = some v := by
      rw [field_of_model s0 r related h0, hL]
      exact mapGet_append_first p q n v hfirst
    have hv : s.field r n = some v := hkept r n v hv0
    have hk : FieldsKept s
        (s.setModel mi { m with fields := m.fields.add (embeddedField mi E n v) }) := by
      intro p1 q1 g hg
      rw [hfield]
      by_cases hpq : p1 = mi ∧ q1 = n
      · obtain ⟨rfl, rfl⟩ := hpq
        rw [hsn] at hg; cases hg
      · rw [if_neg hpq]; exact hg
    refine ⟨_, rfl, ⟨fun k => ?_, hI.2.1.kept_trans hk, fun p1 q1 g hg => ?_⟩, hk, ?_⟩
    · rw [model_isSome_setModel _ _ _ _ hmi]; exact hI.1 k
    · rw [hfield] at hg
      by_cases hpq : p1 = mi ∧ q1 = n
      · obtain ⟨rfl, rfl⟩ := hpq
        rw [if_pos ⟨rfl, rfl⟩] at hg
        right
        refine ⟨hI.field_none _ _ hsn, e, E, r, v, hE, hemb, hr, hk r _ v hv, ?_⟩
        exact (Option.some.inj hg).symm
      · rw [if_neg hpq] at hg
        rcases hI.2.2 p1 q1 g hg with h1 | ⟨h1, e2, E2, r2, relFI2, h2, h3, h4, h5, h6⟩
        · exact Or.inl h1
        · exact Or.inr ⟨h1, e2, E2, r2, relFI2, h2, h3, h4, hk r2 q1 relFI2 h5, h6⟩
    · show (State.field _ mi n).isSome = true
      rw [hfield, if_pos ⟨rfl, rfl⟩]; rfl

theorem Promoted.kept {st s s2 : State} (hk : FieldsKept s s2) (i : String × String)
    (h : Promoted st i s) : Promoted st i s2 :=
  fun E r n hE hemb hr hn => hk.kept_isSome _ _ (h E r n hE hemb hr hn)

/-- One iteration of the loop of `inflateEmbeddings` over the fields of model `mi`. -/
theorem embedField_spec (st s : State) (mi e : String) (hI : Embedding st s)
    (he : (s.field mi e).isSome = true) :
    (∃ s2, embedField mi s e = Result.done s2 ∧ Embedding st s2 ∧ FieldsKept s s2 ∧
      Promoted st (mi, e) s2) ∨
    (∃ msg s2, embedField mi s e = Result.panicked msg s2 ∧ UnresolvedEmbedding st) := by
  obtain ⟨g, hg⟩ := Option.isSome_iff_exists.mp he
  unfold embedField
  rw [hg]
  simp only
  cases hemb : g.embed with
  | false =>
    left
    simp only [Bool.false_eq_true, if_false]
    refine ⟨s, rfl, hI, FieldsKept.kept_refl s, ?_⟩
    intro E r n hE hembE _ _
    have h1 := hI.2.1 mi e E hE
    rw [hg] at h1
    cases h1
    rw [hemb] at hembE
    cases hembE
  | true =>
    simp only [if_true]
    have hst : st.field mi e = some g := hI.embed_field mi e g hg hemb
    cases hrel : g.relatedModel.bind s.model with
    | none =>
      right
      refine ⟨_, _, rfl, mi, e, g, hst, hemb, ?_⟩
      cases hrm : g.relatedModel with
      | none => rfl
      | some r =>
        rw [hrm] at hrel
        simp only [Option.bind] at hrel
        have h1 := hI.1 r
        rw [hrel] at h1
        simp only [Option.bind]
        cases h2 : st.model r with
        | none => rfl
        | some _ => rw [h2] at h1; cases h1
    | some related =>
      left
      simp only
      cases hrm : g.relatedModel with
      | none => rw [hrm] at hrel; cases hrel
      | some r =>
        rw [hrm] at hrel
        have hr0 : s.model r = some related := hrel
        have hloop := forEach_prefix (promoteField mi g)
          (fun s1 => Embedding st s1 ∧ FieldsKept s s1)
          (fun b s1 => (s1.field mi b.1).isSome = true) (fun _ _ => False)
          related.fields.registryByName []
          (by
            intro s1 p a q hsplit hI1 hpre
            left
            obtain ⟨s2, h2, hI2, hk2, hQ2⟩ := promoteField_spec st s s1 mi e r g related
              hst hemb hrm hr0 p q a (by simpa using hsplit) hI1.1 hI1.2 hpre
            exact ⟨s2, h2, ⟨hI2, hI1.2.kept_trans hk2⟩, hQ2, fun b hb => hk2.kept_isSome _ _ hb⟩)
          s ⟨hI, FieldsKept.kept_refl s⟩ (by simp)
        rcases hloop with ⟨s2, h2, hI2, hQ2⟩ | ⟨_, _, _, hfalse⟩
        · refine ⟨s2, h2, hI2.1, hI2.2, ?_⟩
          intro E r2 n hE _ hr2 hn
          have hE2 : st.field mi e = some E := hE
          rw [hst] at hE2
          cases hE2
          rw [hrm] at hr2
          cases hr2
          obtain ⟨f, hf⟩ := Option.isSome_iff_exists.mp hn
          have hf2 : s.field r n = some f := hI.2.1 r n f hf
          rw [field_of_model s r related hr0] at hf2
          exact hQ2 (n, f) (by simpa using mapGet_mem _ _ _ hf2)
        · exact absurd hfalse id

/-- What `inflateEmbeddings` does: it returns, every model having a field for every field
of the models it embeds, or it panics, some embedding having no related model. -/
theorem inflateEmbeddings_spec (st : State) :
    (∃ s2, inflateEmbeddings st = Result.done s2 ∧ Embedding st s2 ∧
      ∀ p e, Promoted st (p, e) s2) ∨
    (∃ msg s2, inflateEmbeddings st = Result.panicked msg s2 ∧ UnresolvedEmbedding st) := by
  have hloop := forEach_spec
    (fun s mi =>
      match s.model mi with
      | none => Result.panicked nilDereference s
      | some m => forEach (embedField mi) (mapKeys m.fields.registryByName) s)
    (Embedding st) (fun p s => ∀ e, Promoted st (p, e) s)
    (fun (_ : Unit) _ => True) (fun _ _ => UnresolvedEmbedding st)
    (mapKeys st.Registry.registryByName)
    (by
      intro s mi hmi hI
      beta_reduce
      have hsm : (s.model mi).isSome = true := by
        rw [hI.1]; exact (model_isSome_iff st mi).mpr hmi
      obtain ⟨m, hm⟩ := Option.isSome_iff_exists.mp hsm
      rw [hm]
      simp only
      have hinner := forEach_spec (embedField mi)
        (fun s1 => Embedding st s1 ∧ FieldsKept s s1)
        (fun e => Promoted st (mi, e)) (fun (_ : Unit) _ => True)
        (fun _ _ => UnresolvedEmbedding st) (mapKeys m.fields.registryByName)
        (by
          intro s1 a ha hI1
          have hsome : (s1.field mi a).isSome = true :=
            hI1.2.kept_isSome _ _ ((field_isSome_iff s mi m hm a).mpr ha)
          rcases embedField_spec st s1 mi a hI1.1 hsome with ⟨s2, h2, hI2, hk2, hQ2⟩ | h
          · left
            exact ⟨s2, h2, ⟨hI2, hI1.2.kept_trans hk2⟩, hQ2,
              fun b hb => Promoted.kept hk2 (mi, b) hb, fun _ h => h⟩
          · right
            exact h) s ⟨hI, FieldsKept.kept_refl s⟩
      rcases hinner with ⟨s2, h2, hI2, hQ2, _, _⟩ | h
      · left
        refine ⟨s2, h2, hI2.1, fun e => ?_, fun b hb e => Promoted.kept hI2.2 (b, e) (hb e),
          fun _ h => h⟩
        intro E r n hE hemb hr hn
        have he : e ∈ mapKeys m.fields.registryByName := by
          rw [← field_isSome_iff s mi m hm e]
          have h3 : st.field mi e = some E := hE
          rw [hI.2.1 mi e E h3]; rfl
        exact hQ2 e he E r n hE hemb hr hn
      · right
        exact h) st (Embedding.embedding_refl st)
  unfold inflateEmbeddings
  rcases hloop with ⟨s2, h2, hI2, hQ2, _, _⟩ | h
  · left
    refine ⟨s2, h2, hI2, fun p e E r n hE hemb hr hn => ?_⟩
    have hp : p ∈ mapKeys st.Registry.registryByName :=
      (model_isSome_iff st p).mp (Linking.model_of_field p e E hE)
    exact hQ2 p hp e E r n hE hemb hr hn
  · right
    exact h

theorem embedsResolved_not_unresolved (st : State) (h : st.embedsResolved = true) :
    ¬ UnresolvedEmbedding st := by
  rintro ⟨p, q, f, hf, hemb, hnone⟩
  unfold State.field at hf
  cases hm : st.model p with
  | none => rw [hm] at hf; simp at hf
  | some m =>
    rw [hm] at hf
    have h1 := mapGet_mem _ _ _ hm
    have h2 := mapGet_mem _ _ _ hf
    unfold State.embedsResolved at h
    rw [List.all_eq_true] at h
    have h3 := h _ h1
    rw [List.all_eq_true] at h3
    have h4 := h3 _ h2
    simp only [hemb, hnone] at h4
    simp at h4

theorem embeddedField_isRelatedField (mi : String) (fi : Field) (relName : String)
    (relFI : Field) : (embeddedField mi fi relName relFI).isRelatedField = true := by
  have hne : fi.name ++ ExprSep ++ relName ≠ "" := by
    intro h
    have hl := congrArg String.length h
    simp [String.length_append, ExprSep] at hl
    exact absurd hl.1.2 (by decide)
  simp only [Field.isRelatedField, embeddedField, bne_iff_ne, ne_eq]
  exact hne

/-- The fields of a model once `inflateEmbeddings` has returned. -/
theorem inflateEmbeddings_field (st : State) (A e n R : String) (E relFI : Field)
    (hE : st.field A e = some E) (hemb : E.embed = true) (hR : E.relatedModel = some R)
    (hn : st.field R n = some relFI) :
    (∀ s, inflateEmbeddings st = Result.done s →
      (∀ f0, st.field A n = some f0 → s.field A n = some f0) ∧
      (st.field A n = none →
        (∃ e2 E2 R2 relFI2, st.field A e2 = some E2 ∧ E2.embed = true ∧
          E2.relatedModel = some R2 ∧ s.field R2 n = some relFI2 ∧
          s.field A n = some (embeddedField A E2 n relFI2)) ∧
        ((∀ e2 E2 R2, e2 ≠ e → st.field A e2 = some E2 → E2.embed = true →
            E2.relatedModel = some R2 → s.field R2 n = none) →
          s.field A n = some (embeddedField A E n relFI)))) ∧
    (st.embedsResolved = true → ∃ s, inflateEmbeddings st = Result.done s) := by
  refine ⟨fun s hs => ?_, fun hall => ?_⟩
  · rcases inflateEmbeddings_spec st with ⟨s2, h2, hI2, hQ2⟩ | ⟨msg, s2, h2, _⟩
    · rw [hs] at h2; cases h2
      refine ⟨fun f0 h0 => hI2.2.1 A n f0 h0, fun hnone => ?_⟩
      have hsome : (s.field A n).isSome = true :=
        hQ2 A e E R n hE hemb hR (by rw [hn]; rfl)
      obtain ⟨g, hg⟩ := Option.isSome_iff_exists.mp hsome
      have hex : ∃ e2 E2 R2 relFI2, st.field A e2 = some E2 ∧ E2.embed = true ∧
          E2.relatedModel = some R2 ∧ s.field R2 n = some relFI2 ∧
          s.field A n = some (embeddedField A E2 n relFI2) := by
        rcases hI2.2.2 A n g hg with h1 | ⟨_, e2, E2, R2, relFI2, h2, h3, h4, h5, h6⟩
        · rw [hnone] at h1; cases h1
        · exact ⟨e2, E2, R2, relFI2, h2, h3, h4, h5, by rw [hg, h6]⟩
      refine ⟨hex, fun huniq => ?_⟩
      obtain ⟨e2, E2, R2, relFI2, h2, h3, h4, h5, h6⟩ := hex
      by_cases he : e2 = e
      · subst he
        rw [hE] at h2; cases h2
        rw [hR] at h4; cases h4
        rw [hI2.2.1 R n relFI hn] at h5; cases h5
        exact h6
      · have := huniq e2 E2 R2 he h2 h3 h4
        rw [this] at h5; cases h5
    · rw [hs] at h2; cases h2
  · rcases inflateEmbeddings_spec st with ⟨s2, h2, _⟩ | ⟨msg, s2, _, hbad⟩
    · exact ⟨s2, h2⟩
    · exact absurd hbad (embedsResolved_not_unresolved st hall)

/-! ## Lemmas on the statements issued -/

theorem run_statements (adapter : dbAdapter) (stmts : List Statement) :
    ∀ db : DB, (db.run adapter stmts).statements = db.statements ++ stmts := by
  induction stmts with
  | nil => intro db; simp [DB.run]
  | cons s rest ih =>
    intro db
    have h := ih (dbExecuteNoTx adapter db s)
    simp only [DB.run, List.foldl_cons] at h ⊢
    rw [h]
    simp [dbExecuteNoTx]

theorem run_nil (adapter : dbAdapter) (db : DB) : db.run adapter [] = db := rfl

theorem run_append (adapter : dbAdapter) (db : DB) (l1 l2 : List Statement) :
    db.run adapter (l1 ++ l2) = (db.run adapter l1).run adapter l2 := by
  simp [DB.run, List.foldl_append]

theorem run_singleton (adapter : dbAdapter) (db : DB) (s : Statement) :
    db.run adapter [s] = dbExecuteNoTx adapter db s := rfl

/-- One iteration of the first loop of `updateDBColumns`, for a stored field. -/
theorem updateDBColumn_stored (c : Collaborators) (st : State) (m : Model)
    (dbColumns : List (String × ColumnData)) (db : DB) (entry : String × String)
    (fi : Field) (T : String) (hid : entry.1 ≠ "id") (hfi : m.fieldByJSON entry = some fi)
    (hs : c.isStored fi = true) (hT : ownerTable st fi = some T) :
    updateDBColumn c st m dbColumns db entry =
      Result.done (db.run c.adapter (columnStatements c T dbColumns entry.1 fi)) := by
  unfold updateDBColumn
  rw [if_neg hid, hfi]
  simp only [hs, Bool.true_eq_false, if_false]
  unfold columnStatements
  simp only [run_append]
  have h1 : ∀ d : DB, createDBColumn c st fi d =
      Result.done (d.run c.adapter [Statement.addColumn T fi]) := by
    intro d; simp [createDBColumn, hs, hT, run_singleton]
  have h2 : ∀ d : DB, updateDBColumnDataType c st fi d =
      Result.done (d.run c.adapter [Statement.setDataType T fi.json (c.adapter.typeSQL fi)]) := by
    intro d; simp [updateDBColumnDataType, hT, run_singleton]
  have h3 : ∀ d : DB, updateDBColumnNullable c st fi d =
      Result.done (d.run c.adapter
        [Statement.setNotNull T fi.json (c.adapter.fieldIsNotNull fi)]) := by
    intro d; simp [updateDBColumnNullable, hT, run_singleton]
  have h4 : ∀ d : DB, updateDBColumnDefault c st fi d =
      Result.done (d.run c.adapter
        [Statement.setDefault T fi.json (c.adapter.fieldSQLDefault fi)]) := by
    intro d; simp [updateDBColumnDefault, hT, run_singleton]
  simp only [h1, h2, h3, h4]
  split_ifs <;> simp only [Result.andThen, run_nil] <;>
    (split <;> (try split_ifs) <;> simp only [Result.andThen, run_nil])

/-- A loop whose iterations execute statements executes them all. -/
theorem forEach_run {α : Type} (adapter : dbAdapter) (body : DB → α → Result DB)
    (f : α → List Statement) :
    ∀ (l : List α), (∀ a ∈ l, ∀ d, body d a = Result.done (d.run adapter (f a))) →
      ∀ d, forEach body l d = Result.done (d.run adapter (l.flatMap f)) := by
  intro l
  induction l with
  | nil => intro _ d; rfl
  | cons a rest ih =>
    intro h d
    simp only [forEach, h a (List.mem_cons_self _ _) d, Result.andThen]
    rw [ih (fun b hb => h b (List.mem_cons_of_mem _ hb))]
    simp [List.flatMap_cons, run_append]

theorem foldl_run {α : Type} (adapter : dbAdapter) (g : DB → α → DB)
    (f : α → List Statement) :
    ∀ (l : List α), (∀ a ∈ l, ∀ d, g d a = d.run adapter (f a)) →
      ∀ d, l.foldl g d = d.run adapter (l.flatMap f) := by
  intro l
  induction l with
  | nil => intro _ d; rfl
  | cons a rest ih =>
    intro h d
    simp only [List.foldl_cons, h a (List.mem_cons_self _ _) d]
    rw [ih (fun b hb => h b (List.mem_cons_of_mem _ hb))]
    simp [List.flatMap_cons, run_append]

theorem columnsResolve_entry (st : State) (m : Model) (h : m.columnsResolve st = true)
    (entry : String × String) (he : entry ∈ m.fields.registryByJSON) :
    ∃ fi T, m.fieldByJSON entry = some fi ∧ ownerTable st fi = some T := by
  unfold Model.columnsResolve at h
  rw [List.all_eq_true] at h
  have h1 := h entry he
  cases hf : m.fieldByJSON entry with
  | none => rw [hf] at h1; simp at h1
  | some fi =>
    rw [hf] at h1
    simp only at h1
    obtain ⟨T, hT⟩ := Option.isSome_iff_exists.mp h1
    exact ⟨fi, T, rfl, hT⟩

/-- One iteration of the first loop of `updateDBColumns`. -/
theorem updateDBColumn_entry (c : Collaborators) (st : State) (m : Model)
    (dbColumns : List (String × ColumnData)) (hres : m.columnsResolve st = true)
    (entry : String × String) (he : entry ∈ m.fields.registryByJSON) (db : DB) :
    updateDBColumn c st m dbColumns db entry =
      Result.done (db.run c.adapter (entryStatements c st m dbColumns entry)) := by
  by_cases hid : entry.1 = "id"
  · simp [updateDBColumn, entryStatements, hid, run_nil]
  · obtain ⟨fi, T, hfi, hT⟩ := columnsResolve_entry st m hres entry he
    cases hs : c.isStored fi with
    | false => simp [updateDBColumn, entryStatements, hid, hfi, hs, run_nil]
    | true =>
      rw [updateDBColumn_stored c st m dbColumns db entry fi T hid hfi hs hT]
      simp [entryStatements, hid, hfi, hs, hT]

theorem dropStatements_eq_flatMap (m : Model) (dbColumns : List (String × ColumnData)) :
    dropStatements m dbColumns =
      dbColumns.flatMap (fun col =>
        if (mapGet m.fields.registryByJSON col.1).isSome = false then
          [Statement.dropColumn m.tableName col.1] else []) := by
  unfold dropStatements
  induction dbColumns with
  | nil => rfl
  | cons col rest ih =>
    by_cases h : (mapGet m.fields.registryByJSON col.1).isSome = false
    · simp only [List.filter_cons, h, decide_True, if_true, List.map_cons, List.flatMap_cons,
        List.singleton_append]
      rw [ih]
    · have h2 : (mapGet m.fields.registryByJSON col.1).isSome = true := by
        cases hh : (mapGet m.fields.registryByJSON col.1).isSome with
        | true => rfl
        | false => exact absurd hh h
      simp only [List.filter_cons, h2, List.flatMap_cons, Bool.true_eq_false, decide_False,
        if_false, List.nil_append, Bool.false_eq_true]
      rw [ih]

/-- The statements that `updateDBColumns` issues for a model whose columns resolve. -/
theorem updateDBColumns_eq (c : Collaborators) (st : State) (m : Model) (db : DB)
    (hres : m.columnsResolve st = true) :
    updateDBColumns c st m db =
      Result.done (db.run c.adapter
        (m.fields.registryByJSON.flatMap
            (entryStatements c st m (db.catalog.columns m.tableName)) ++
          dropStatements m (db.catalog.columns m.tableName))) := by
  unfold updateDBColumns
  rw [forEach_run c.adapter _ (entryStatements c st m (db.catalog.columns m.tableName)) _
    (fun a ha d => updateDBColumn_entry c st m _ hres a ha d)]
  simp only [Result.andThen]
  rw [foldl_run c.adapter (dropUnknownColumn c m)
    (fun col => if (mapGet m.fields.registryByJSON col.1).isSome = false then
      [Statement.dropColumn m.tableName col.1] else []) _
    (by
      intro col _ d
      unfold dropUnknownColumn
      beta_reduce
      split_ifs with h
      · rfl
      · rfl)]
  rw [run_append, dropStatements_eq_flatMap]

theorem mem_columnStatements (c : Collaborators) (T : String)
    (dbColumns : List (String × ColumnData)) (col : String) (fi : Field) (s : Statement)
    (h : s ∈ columnStatements c T dbColumns col fi) :
    s = Statement.addColumn T fi ∨
    s = Statement.setDataType T fi.json (c.adapter.typeSQL fi) ∨
    s = Statement.setNotNull T fi.json (c.adapter.fieldIsNotNull fi) ∨
    s = Statement.setDefault T fi.json (c.adapter.fieldSQLDefault fi) := by
  unfold columnStatements at h
  simp only [List.mem_append] at h
  rcases h with ((h | h) | h) | h
  · split_ifs at h
    · left; simpa using h
    · simp at h
  · split_ifs at h
    · right; left; simpa using h
    · simp at h
  · split_ifs at h
    · right; right; left; simpa using h
    · simp at h
  · split at h
    · split_ifs at h
      · right; right; right; simpa using h
      · simp at h
    · simp at h

theorem mem_entryStatements (c : Collaborators) (st : State) (m : Model)
    (dbColumns : List (String × ColumnData)) (entry : String × String) (s : Statement)
    (h : s ∈ entryStatements c st m dbColumns entry) :
    ∃ fi, m.fieldByJSON entry = some fi ∧ entry.1 ≠ "id" ∧ c.isStored fi = true ∧
      s ∈ columnStatements c ((ownerTable st fi).getD "") dbColumns entry.1 fi := by
  unfold entryStatements at h
  by_cases hid : entry.1 = "id"
  · rw [if_pos hid] at h; simp at h
  · rw [if_neg hid] at h
    cases hf : m.fieldByJSON entry with
    | none => rw [hf] at h; simp at h
    | some fi =>
      rw [hf] at h
      cases hs : c.isStored fi with
      | false => simp [hs] at h
      | true =>
        simp only [hs, Bool.true_eq_false, if_false] at h
        exact ⟨fi, rfl, hid, hs, h⟩

theorem mem_dropStatements (m : Model) (dbColumns : List (String × ColumnData))
    (s : Statement) :
    s ∈ dropStatements m dbColumns ↔
      ∃ col, s = Statement.dropColumn m.tableName col ∧ col ∈ mapKeys dbColumns ∧
        mapGet m.fields.registryByJSON col = none := by
  unfold dropStatements mapKeys
  simp only [List.mem_map, List.mem_filter, decide_eq_true_eq]
  constructor
  · rintro ⟨col, ⟨hmem, hnone⟩, rfl⟩
    refine ⟨col.1, rfl, ⟨col, hmem, rfl⟩, ?_⟩
    cases hg : mapGet m.fields.registryByJSON col.1 with
    | none => rfl
    | some _ => rw [hg] at hnone; simp at hnone
  · rintro ⟨col, rfl, ⟨e, hmem, rfl⟩, hnone⟩
    exact ⟨e, ⟨hmem, by rw [hnone]; rfl⟩, rfl⟩

theorem columnsOfFields_iff (fc : fieldsCollection) (h : fc.columnsOfFields = true)
    (col : String) :
    mapGet fc.registryByJSON col = none ↔
      ¬ ∃ name fi, mapGet fc.registryByName name = some fi ∧ fi.json = col := by
  unfold fieldsCollection.columnsOfFields at h
  rw [Bool.and_eq_true, List.all_eq_true, List.all_eq_true] at h
  obtain ⟨h1, h2⟩ := h
  constructor
  · rintro hnone ⟨name, fi, hfi, rfl⟩
    have h3 := h2 _ (mapGet_mem _ _ _ hfi)
    simp only at h3
    rw [hnone] at h3
    simp at h3
  · intro hno
    cases hg : mapGet fc.registryByJSON col with
    | none => rfl
    | some ptr =>
      exfalso
      have h3 := h1 _ (mapGet_mem _ _ _ hg)
      simp only at h3
      cases hf : mapGet fc.registryByName ptr with
      | none => rw [hf] at h3; simp at h3
      | some fi =>
        rw [hf] at h3
        exact hno ⟨ptr, fi, hf, by simpa using h3⟩

/-- The statements of one element, among those that a loop over a list without
repetition issues. -/
theorem filter_flatMap_unique {α β : Type} (f : α → List β) (P : β → Bool) (a : α) :
    ∀ (l : List α), l.Nodup → a ∈ l → (∀ s ∈ f a, P s = true) →
      (∀ e ∈ l, e ≠ a → ∀ s ∈ f e, P s = false) →
      (l.flatMap f).filter P = f a := by
  intro l
  induction l with
  | nil => intro _ ha; cases ha
  | cons e rest ih =>
    intro hn ha h1 h2
    have hnone : ∀ (r : List α), (∀ x ∈ r, x ≠ a → ∀ s ∈ f x, P s = false) → a ∉ r →
        (r.flatMap f).filter P = [] := by
      intro r hr har
      rw [List.filter_eq_nil_iff]
      intro s hs
      obtain ⟨x, hx, hsx⟩ := List.mem_flatMap.mp hs
      have hxa : x ≠ a := fun h => har (h ▸ hx)
      rw [hr x hx hxa s hsx]
      simp
    rw [List.flatMap_cons, List.filter_append]
    rw [List.nodup_cons] at hn
    by_cases hea : e = a
    · subst hea
      rw [hnone rest (fun x hx => h2 x (List.mem_cons_of_mem _ hx)) hn.1]
      rw [List.append_nil, List.filter_eq_self]
      exact h1
    · have har : a ∈ rest := by
        rcases List.mem_cons.mp ha with h | h
        · exact absurd h.symm hea
        · exact h
      rw [ih hn.2 har h1 (fun x hx => h2 x (List.mem_cons_of_mem _ hx))]
      have : (f e).filter P = [] := by
        rw [List.filter_eq_nil_iff]
        intro s hs
        rw [h2 e (List.mem_cons_self _ _) hea s hs]
        simp
      rw [this, List.nil_append]

theorem columnsOwned_entry (st : State) (m : Model) (h : m.columnsOwned st = true)
    (entry : String × String) (he : entry ∈ m.fields.registryByJSON) :
    ∃ fi, m.fieldByJSON entry = some fi ∧ fi.json = entry.1 ∧
      ownerTable st fi = some m.tableName := by
  unfold Model.columnsOwned at h
  rw [Bool.and_eq_true, List.all_eq_true] at h
  have h1 := h.2 entry he
  cases hf : m.fieldByJSON entry with
  | none => rw [hf] at h1; simp at h1
  | some fi =>
    rw [hf] at h1
    simp only [Bool.and_eq_true, beq_iff_eq] at h1
    exact ⟨fi, rfl, h1.1, h1.2⟩

theorem columnsOwned_nodup (st : State) (m : Model) (h : m.columnsOwned st = true) :
    (mapKeys m.fields.registryByJSON).Nodup ∧ m.fields.registryByJSON.Nodup := by
  unfold Model.columnsOwned at h
  rw [Bool.and_eq_true, decide_eq_true_eq] at h
  exact ⟨h.1, List.Nodup.of_map _ h.1⟩

theorem columnsOwned_resolve (st : State) (m : Model) (h : m.columnsOwned st = true) :
    m.columnsResolve st = true := by
  unfold Model.columnsResolve
  rw [List.all_eq_true]
  intro entry he
  obtain ⟨fi, hfi, _, hT⟩ := columnsOwned_entry st m h entry he
  rw [hfi]
  simp [hT]

theorem columnStatements_column (c : Collaborators) (T : String)
    (dbColumns : List (String × ColumnData)) (col : String) (fi : Field) (s : Statement)
    (h : s ∈ columnStatements c T dbColumns col fi) : s.column = some (T, fi.json) := by
  rcases mem_columnStatements c T dbColumns col fi s h with h1 | h1 | h1 | h1 <;>
    rw [h1] <;> rfl

/-- The statements about the column of a stored field, among those that `updateDBColumns`
issues. -/
theorem updateDBColumns_column (c : Collaborators) (st : State) (m : Model) (db : DB)
    (howned : m.columnsOwned st = true) (col ptr : String) (fi : Field)
    (hentry : (col, ptr) ∈ m.fields.registryByJSON)
    (hfi : m.fieldByJSON (col, ptr) = some fi) (hid : col ≠ "id")
    (hs : c.isStored fi = true) :
    ∃ db2 new, updateDBColumns c st m db = Result.done db2 ∧
      db2.statements = db.statements ++ new ∧
      new.filter (fun s => s.column == some (m.tableName, col)) =
        columnStatements c m.tableName (db.catalog.columns m.tableName) col fi := by
  refine ⟨_, _, updateDBColumns_eq c st m db (columnsOwned_resolve st m howned),
    run_statements _ _ _, ?_⟩
  obtain ⟨hnk, hnl⟩ := columnsOwned_nodup st m howned
  obtain ⟨fi2, hfi2, hjson, hT⟩ := columnsOwned_entry st m howned _ hentry
  rw [hfi] at hfi2
  cases hfi2
  have hjson2 : fi.json = col := hjson
  rw [List.filter_append]
  have hdrop : (dropStatements m (db.catalog.columns m.tableName)).filter
      (fun s => s.column == some (m.tableName, col)) = [] := by
    rw [List.filter_eq_nil_iff]
    intro s hs
    obtain ⟨col2, rfl, _, hnone⟩ := (mem_dropStatements m _ _).mp hs
    have hne : col2 ≠ col := by
      rintro rfl
      have : (mapGet m.fields.registryByJSON col2).isSome = true :=
        (mapGet_isSome_iff _ _).mpr (List.mem_map.mpr ⟨_, hentry, rfl⟩)
      rw [hnone] at this
      cases this
    simp [Statement.column, hne]
  rw [hdrop, List.append_nil]
  have hmine : entryStatements c st m (db.catalog.columns m.tableName) (col, ptr) =
      columnStatements c m.tableName (db.catalog.columns m.tableName) col fi := by
    simp [entryStatements, hid, hfi, hs, hT]
  rw [← hmine]
  refine filter_flatMap_unique _ _ (col, ptr) _ hnl hentry ?_ ?_
  · intro s hs
    rw [hmine] at hs
    rw [columnStatements_column c _ _ _ fi s hs, hjson2]
    simp
  · intro e he hne s hs
    obtain ⟨fi3, hfi3, _, _, hcs⟩ := mem_entryStatements c st m _ e s hs
    obtain ⟨fi4, hfi4, hjson4, _⟩ := columnsOwned_entry st m howned e he
    rw [hfi3] at hfi4
    cases hfi4
    rw [columnStatements_column c _ _ _ fi3 s hcs, hjson4]
    have hkey : e.1 ≠ col := by
      intro hk
      have h1 : e ∈ m.fields.registryByJSON := he
      have := List.inj_on_of_nodup_map hnk he hentry hk
      exact hne this
    simp [hkey]

/-! ## Lemmas on `updateDBForeignKeyConstraints` -/

theorem fkeyName_injective (T c1 c2 : String) (h : fkeyName T c1 = fkeyName T c2) :
    c1 = c2 := by
  unfold fkeyName at h
  have hd := congrArg String.data h
  simp only [String.data_append] at hd
  have h1 := List.append_cancel_right hd
  have h2 := List.append_cancel_left h1
  exact String.ext h2

theorem constraintExists_add (adapter : dbAdapter) (cat : Catalog)
    (T col target ondelete name : String) :
    (cat.exec adapter (Statement.addConstraint T col target ondelete)).constraintExists name =
      (cat.constraintExists name || name == fkeyName T col) := by
  simp only [Catalog.exec, Catalog.constraintExists]
  split_ifs with hc
  · by_cases hn : name = fkeyName T col
    · subst hn
      have : cat.constraints.any (fun c => c.2 == fkeyName T col) = true := by
        rw [List.any_eq_true]
        exact ⟨(T, fkeyName T col), by simpa using hc, by simp⟩
      rw [this]; simp
    · simp [hn]
  · rw [List.any_append]
    by_cases hn : name = fkeyName T col
    · subst hn; simp
    · have : (fkeyName T col == name) = false := by
        simp; exact fun h => hn h.symm
      simp [hn, this]

theorem constraints_drop (adapter : dbAdapter) (cat : Catalog) (T col : String) :
    (cat.exec adapter (Statement.dropConstraint T col)).constraints =
      cat.constraints.filter (fun c => c != (T, fkeyName T col)) := rfl

theorem constraintExists_drop (adapter : dbAdapter) (cat : Catalog) (T col name : String)
    (hown : ∀ cn ∈ cat.constraints, cn.2 = fkeyName T col → cn.1 = T) :
    (cat.exec adapter (Statement.dropConstraint T col)).constraintExists name =
      (cat.constraintExists name && name != fkeyName T col) := by
  simp only [Catalog.constraintExists, constraints_drop]
  by_cases hn : name = fkeyName T col
  · subst hn
    simp only [bne_self_eq_false, Bool.and_false]
    rw [List.any_eq_false]
    intro cn hcn
    rw [List.mem_filter] at hcn
    obtain ⟨hmem, hne⟩ := hcn
    intro h2
    have h3 : cn.2 = fkeyName T col := by simpa using h2
    have h4 := hown cn hmem h3
    have : cn = (T, fkeyName T col) := Prod.ext h4 h3
    rw [this] at hne
    simp at hne
  · have hb : (name != fkeyName T col) = true := by simpa using hn
    rw [hb, Bool.and_true]
    rw [Bool.eq_iff_iff, List.any_eq_true, List.any_eq_true]
    constructor
    · rintro ⟨cn, hcn, h2⟩
      exact ⟨cn, (List.mem_filter.mp hcn).1, h2⟩
    · rintro ⟨cn, hcn, h2⟩
      refine ⟨cn, List.mem_filter.mpr ⟨hcn, ?_⟩, h2⟩
      have h3 : cn.2 = name := by simpa using h2
      simp only [bne_iff_ne, ne_eq, decide_eq_true_eq]
      intro h4
      rw [h4] at h3
      exact hn h3.symm

theorem foreignKeysResolve_entry (c : Collaborators) (st : State) (m : Model)
    (h : m.foreignKeysResolve c st = true) (entry : String × String)
    (he : entry ∈ m.fields.registryByJSON) :
    ∃ fi, m.fieldByJSON entry = some fi ∧
      (fieldIsFK c fi = true → ∃ related, fi.relatedModel.bind st.model = some related) := by
  unfold Model.foreignKeysResolve at h
  rw [List.all_eq_true] at h
  have h1 := h entry he
  cases hf : m.fieldByJSON entry with
  | none => rw [hf] at h1; simp at h1
  | some fi =>
    rw [hf] at h1
    refine ⟨fi, rfl, fun hfk => ?_⟩
    simp only [hfk, Bool.not_true, Bool.false_or] at h1
    exact Option.isSome_iff_exists.mp h1

/-- One iteration of the loop of `updateDBForeignKeyConstraints`. -/
theorem updateDBForeignKeyConstraint_eq (c : Collaborators) (st : State) (m : Model)
    (db : DB) (entry : String × String) (fi : Field) (hfi : m.fieldByJSON entry = some fi)
    (hres : fieldIsFK c fi = true → ∃ related, fi.relatedModel.bind st.model = some related) :
    updateDBForeignKeyConstraint c st m db entry =
      Result.done (db.run c.adapter (fkStatements c st m db.catalog entry)) := by
  unfold updateDBForeignKeyConstraint fkStatements
  rw [hfi]
  simp only
  have hfk : (c.IsFKRelationType fi.fieldType && c.isStored fi) = fieldIsFK c fi := rfl
  rw [hfk]
  by_cases h1 : fieldIsFK c fi = true ∧
      db.catalog.constraintExists (fkeyName m.tableName entry.1) = false
  · rw [if_pos h1, if_pos h1]
    obtain ⟨related, hrel⟩ := hres h1.1
    rw [hrel]
    rfl
  · rw [if_neg h1, if_neg h1]
    by_cases h2 : fieldIsFK c fi = false ∧
        db.catalog.constraintExists (fkeyName m.tableName entry.1) = true
    · rw [if_pos h2, if_pos h2]; rfl
    · rw [if_neg h2, if_neg h2]; rfl

/-- The catalog after one iteration of the loop of `updateDBForeignKeyConstraints`: the
constraint of the column exists if and only if the field is a stored foreign key, and the
other constraints are as they were. -/
theorem fkStatements_catalog (c : Collaborators) (st : State) (m : Model) (db : DB)
    (entry : String × String) (fi : Field) (hfi : m.fieldByJSON entry = some fi)
    (hres : fieldIsFK c fi = true → ∃ related, fi.relatedModel.bind st.model = some related)
    (hown : ∀ cn ∈ db.catalog.constraints,
      cn.2 = fkeyName m.tableName entry.1 → cn.1 = m.tableName) :
    (∀ name, (db.run c.adapter (fkStatements c st m db.catalog entry)).catalog.constraintExists
        name =
      if name = fkeyName m.tableName entry.1 then fieldIsFK c fi
      else db.catalog.constraintExists name) ∧
    (∀ cn ∈ (db.run c.adapter (fkStatements c st m db.catalog entry)).catalog.constraints,
      cn ∈ db.catalog.constraints ∨ cn.1 = m.tableName) := by
  unfold fkStatements
  rw [hfi]
  simp only
  by_cases h1 : fieldIsFK c fi = true ∧
      db.catalog.constraintExists (fkeyName m.tableName entry.1) = false
  · rw [if_pos h1]
    obtain ⟨related, hrel⟩ := hres h1.1
    rw [hrel]
    simp only [run_singleton, dbExecuteNoTx]
    refine ⟨fun name => ?_, fun cn hcn => ?_⟩
    · rw [constraintExists_add]
      by_cases hn : name = fkeyName m.tableName entry.1
      · subst hn; simp [h1.1]
      · simp [hn]
    · simp only [Catalog.exec] at hcn
      split_ifs at hcn
      · exact Or.inl hcn
      · rcases List.mem_append.mp hcn with h | h
        · exact Or.inl h
        · right
          simp at h
          rw [h]
  · rw [if_neg h1]
    by_cases h2 : fieldIsFK c fi = false ∧
        db.catalog.constraintExists (fkeyName m.tableName entry.1) = true
    · rw [if_pos h2]
      simp only [run_singleton, dbExecuteNoTx]
      refine ⟨fun name => ?_, fun cn hcn => ?_⟩
      · rw [constraintExists_drop _ _ _ _ _ hown]
        by_cases hn : name = fkeyName m.tableName entry.1
        · subst hn; simp [h2.1]
        · simp [hn]
      · rw [constraints_drop] at hcn
        exact Or.inl (List.mem_filter.mp hcn).1
    · rw [if_neg h2]
      simp only [run_nil]
      refine ⟨fun name => ?_, fun cn hcn => Or.inl hcn⟩
      by_cases hn : name = fkeyName m.tableName entry.1
      · subst hn
        rw [if_pos rfl]
        cases hfk : fieldIsFK c fi <;>
          cases hex : db.catalog.constraintExists (fkeyName m.tableName entry.1) <;>
          simp [hfk, hex] at h1 h2 ⊢
      · rw [if_neg hn]

theorem flatMap_congr_mem {α β : Type} (f g : α → List β) :
    ∀ (l : List α), (∀ a ∈ l, f a = g a) → l.flatMap f = l.flatMap g := by
  intro l
  induction l with
  | nil => intro _; rfl
  | cons a rest ih =>
    intro h
    rw [List.flatMap_cons, List.flatMap_cons, h a (List.mem_cons_self _ _),
      ih (fun b hb => h b (List.mem_cons_of_mem _ hb))]

theorem fkStatements_congr (c : Collaborators) (st : State) (m : Model) (cat1 cat2 : Catalog)
    (entry : String × String)
    (h : cat1.constraintExists (fkeyName m.tableName entry.1) =
      cat2.constraintExists (fkeyName m.tableName entry.1)) :
    fkStatements c st m cat1 entry = fkStatements c st m cat2 entry := by
  unfold fkStatements
  rw [h]

/-- The loop of `updateDBForeignKeyConstraints`, over a part `l` of the columns of the
model. -/
theorem updateDBForeignKeyConstraints_loop (c : Collaborators) (st : State) (m : Model)
    (hres : m.foreignKeysResolve c st = true) :
    ∀ (l : List (String × String)), (∀ e ∈ l, e ∈ m.fields.registryByJSON) →
      (mapKeys l).Nodup → ∀ db : DB,
      (∀ cn ∈ db.catalog.constraints, ∀ entry ∈ m.fields.registryByJSON,
        cn.2 = fkeyName m.tableName entry.1 → cn.1 = m.tableName) →
      forEach (updateDBForeignKeyConstraint c st m) l db =
        Result.done (db.run c.adapter (l.flatMap (fkStatements c st m db.catalog))) ∧
      (∀ e ∈ l, ∀ fi, m.fieldByJSON e = some fi →
        (db.run c.adapter (l.flatMap (fkStatements c st m db.catalog))).catalog.constraintExists
          (fkeyName m.tableName e.1) = fieldIsFK c fi) ∧
      (∀ name, (∀ e ∈ l, name ≠ fkeyName m.tableName e.1) →
        (db.run c.adapter (l.flatMap (fkStatements c st m db.catalog))).catalog.constraintExists
          name = db.catalog.constraintExists name) := by
  intro l
  induction l with
  | nil =>
    intro _ _ db _
    refine ⟨rfl, ?_, fun _ _ => rfl⟩
    intro e he
    cases he
  | cons e rest ih =>
    intro hsub hnodup db hown
    obtain ⟨fi, hfi, hfk⟩ := foreignKeysResolve_entry c st m hres e
      (hsub e (List.mem_cons_self _ _))
    have hbody := updateDBForeignKeyConstraint_eq c st m db e fi hfi hfk
    obtain ⟨hcat1, hcons1⟩ := fkStatements_catalog c st m db e fi hfi hfk
      (fun cn hcn => hown cn hcn e (hsub e (List.mem_cons_self _ _)))
    have hnd : e.1 ∉ mapKeys rest ∧ (mapKeys rest).Nodup := by
      have : (e.1 :: mapKeys rest).Nodup := hnodup
      exact List.nodup_cons.mp this
    have hsub2 : ∀ e2 ∈ rest, e2 ∈ m.fields.registryByJSON :=
      fun e2 h2 => hsub e2 (List.mem_cons_of_mem _ h2)
    have hown1 : ∀ cn ∈ (db.run c.adapter (fkStatements c st m db.catalog e)).catalog.constraints,
        ∀ entry ∈ m.fields.registryByJSON,
        cn.2 = fkeyName m.tableName entry.1 → cn.1 = m.tableName := by
      intro cn hcn entry hentry hname
      rcases hcons1 cn hcn with h | h
      · exact hown cn h entry hentry hname
      · exact h
    have hne : ∀ e2 ∈ rest, fkeyName m.tableName e2.1 ≠ fkeyName m.tableName e.1 := by
      intro e2 h2 heq
      have := fkeyName_injective _ _ _ heq
      exact hnd.1 (this ▸ List.mem_map.mpr ⟨e2, h2, rfl⟩)
    have hsame : rest.flatMap
        (fkStatements c st m (db.run c.adapter (fkStatements c st m db.catalog e)).catalog) =
        rest.flatMap (fkStatements c st m db.catalog) := by
      refine flatMap_congr_mem _ _ rest (fun e2 h2 => ?_)
      refine fkStatements_congr c st m _ _ e2 ?_
      rw [hcat1, if_neg (hne e2 h2)]
    obtain ⟨ih1, ih2, ih3⟩ := ih hsub2 hnd.2
      (db.run c.adapter (fkStatements c st m db.catalog e)) hown1
    rw [hsame] at ih1 ih2 ih3
    have hrun : db.run c.adapter ((e :: rest).flatMap (fkStatements c st m db.catalog)) =
        (db.run c.adapter (fkStatements c st m db.catalog e)).run c.adapter
          (rest.flatMap (fkStatements c st m db.catalog)) := by
      rw [List.flatMap_cons, run_append]
    rw [hrun]
    refine ⟨?_, ?_, ?_⟩
    · simp only [forEach, hbody, Result.andThen]
      exact ih1
    · intro e2 h2 fi2 hfi2
      rcases List.mem_cons.mp h2 with rfl | h2
      · rw [ih3 _ (fun e3 h3 => (hne e3 h3).symm), hcat1, if_pos rfl]
        rw [hfi] at hfi2
        cases hfi2
        rfl
      · exact ih2 e2 h2 fi2 hfi2
    · intro name hname
      rw [ih3 name (fun e3 h3 => hname e3 (List.mem_cons_of_mem _ h3)), hcat1,
        if_neg (hname e (List.mem_cons_self _ _))]

theorem ownsConstraints_iff (cat : Catalog) (m : Model) (h : cat.ownsConstraints m = true) :
    ∀ cn ∈ cat.constraints, ∀ entry ∈ m.fields.registryByJSON,
      cn.2 = fkeyName m.tableName entry.1 → cn.1 = m.tableName := by
  intro cn hcn entry hentry hname
  unfold Catalog.ownsConstraints at h
  rw [List.all_eq_true] at h
  have h1 := h cn hcn
  rw [List.all_eq_true] at h1
  have h2 := h1 entry hentry
  simp only [hname, bne_self_eq_false, Bool.false_or, beq_iff_eq] at h2
  exact h2

/-- The statements that `updateDBForeignKeyConstraints` issues and the constraints it
leaves. -/
theorem updateDBForeignKeyConstraints_eq (c : Collaborators) (st : State) (m : Model)
    (db : DB) (hnodup : (mapKeys m.fields.registryByJSON).Nodup)
    (hres : m.foreignKeysResolve c st = true) (hown : db.catalog.ownsConstraints m = true) :
    updateDBForeignKeyConstraints c st m db =
      Result.done (db.run c.adapter
        (m.fields.registryByJSON.flatMap (fkStatements c st m db.catalog))) ∧
    (∀ e ∈ m.fields.registryByJSON, ∀ fi, m.fieldByJSON e = some fi →
      (db.run c.adapter
        (m.fields.registryByJSON.flatMap
          (fkStatements c st m db.catalog))).catalog.constraintExists
        (fkeyName m.tableName e.1) = fieldIsFK c fi) := by
  obtain ⟨h1, h2, _⟩ := updateDBForeignKeyConstraints_loop c st m hres
    m.fields.registryByJSON (fun _ h => h) hnodup db (ownsConstraints_iff _ m hown)
  exact ⟨h1, h2⟩

theorem mem_fkStatements (c : Collaborators) (st : State) (m : Model) (cat : Catalog)
    (entry : String × String) (s : Statement) (h : s ∈ fkStatements c st m cat entry) :
    ∃ fi, m.fieldByJSON entry = some fi ∧
      ((fieldIsFK c fi = true ∧ cat.constraintExists (fkeyName m.tableName entry.1) = false ∧
          ∃ related, fi.relatedModel.bind st.model = some related ∧
            s = Statement.addConstraint m.tableName entry.1 related.tableName fi.onDelete) ∨
        (fieldIsFK c fi = false ∧
          cat.constraintExists (fkeyName m.tableName entry.1) = true ∧
          s = Statement.dropConstraint m.tableName entry.1)) := by
  unfold fkStatements at h
  cases hf : m.fieldByJSON entry with
  | none => rw [hf] at h; simp at h
  | some fi =>
    rw [hf] at h
    simp only at h
    refine ⟨fi, rfl, ?_⟩
    split_ifs at h with h1 h2
    · cases hr : fi.relatedModel.bind st.model with
      | none => rw [hr] at h; simp at h
      | some related =>
        rw [hr] at h
        left
        exact ⟨h1.1, h1.2, related, rfl, by simpa using h⟩
    · right
      exact ⟨h2.1, h2.2, by simpa using h⟩
    · simp at h

/-! ## Lemmas on `SyncDatabase` -/

theorem Issues.same (P : Statement → Prop) (d : DB) : Issues P d d :=
  ⟨[], by simp, fun _ h => by cases h⟩

theorem Issues.seq {P : Statement → Prop} {d1 d2 d3 : DB} (h1 : Issues P d1 d2)
    (h2 : Issues P d2 d3) : Issues P d1 d3 := by
  obtain ⟨n1, e1, p1⟩ := h1
  obtain ⟨n2, e2, p2⟩ := h2
  refine ⟨n1 ++ n2, by rw [e2, e1, List.append_assoc], fun s hs => ?_⟩
  rcases List.mem_append.mp hs with h | h
  · exact p1 s h
  · exact p2 s h

theorem Issues.weaken {P Q : Statement → Prop} {d1 d2 : DB} (h : Issues P d1 d2)
    (hPQ : ∀ s, P s → Q s) : Issues Q d1 d2 := by
  obtain ⟨n, e, p⟩ := h
  exact ⟨n, e, fun s hs => hPQ s (p s hs)⟩

theorem Issues.run (P : Statement → Prop) (adapter : dbAdapter) (d : DB)
    (stmts : List Statement) (h : ∀ s ∈ stmts, P s) : Issues P d (d.run adapter stmts) :=
  ⟨stmts, run_statements adapter stmts d, h⟩

theorem Issues.execute (P : Statement → Prop) (adapter : dbAdapter) (d : DB) (s : Statement)
    (h : P s) : Issues P d (dbExecuteNoTx adapter d s) :=
  ⟨[s], rfl, fun s2 h2 => by rw [List.mem_singleton.mp h2]; exact h⟩

/-- A loop whose iterations issue statements of which `P` holds issues such statements
only, whether it returns or panics. -/
theorem forEach_issues_holds {α : Type} (P : Statement → Prop) (body : DB → α → Result DB)
    (hb : ∀ d a, (body d a).holds (Issues P d)) :
    ∀ (l : List α) (d : DB), (forEach body l d).holds (Issues P d) := by
  intro l d
  exact forEach_holds (Issues P d) body
    (fun s a hs => by
      have h := hb s a
      cases hr : body s a with
      | done s2 => rw [hr] at h; exact hs.seq h
      | panicked msg s2 => rw [hr] at h; exact hs.seq h
      | diverged => trivial) l d (Issues.same P d)

theorem foldl_issues {α : Type} (P : Statement → Prop) (g : DB → α → DB)
    (hg : ∀ d a, Issues P d (g d a)) :
    ∀ (l : List α) (d : DB), Issues P d (l.foldl g d) := by
  intro l
  induction l with
  | nil => intro d; exact Issues.same P d
  | cons a rest ih =>
    intro d
    exact (hg d a).seq (ih (g d a))

theorem andThen_ne_diverged {σ : Type} (r : Result σ) (f : σ → Result σ)
    (hr : r ≠ Result.diverged) (hf : ∀ s, f s ≠ Result.diverged) :
    r.andThen f ≠ Result.diverged := by
  cases r with
  | done s => exact hf s
  | panicked msg s => intro h; cases h
  | diverged => exact absurd rfl hr

theorem forEach_ne_diverged {α σ : Type} (body : σ → α → Result σ)
    (hb : ∀ s a, body s a ≠ Result.diverged) :
    ∀ (l : List α) (s : σ), forEach body l s ≠ Result.diverged := by
  intro l
  induction l with
  | nil => intro s h; cases h
  | cons a rest ih =>
    intro s
    exact andThen_ne_diverged _ _ (hb s a) (fun s1 => ih s1)

/-- A loop whose iterations return and issue statements of which `P` holds returns, and
issues such statements only. -/
theorem forEach_issues_done {α : Type} (P : Statement → Prop) (body : DB → α → Result DB) :
    ∀ (l : List α), (∀ a ∈ l, ∀ d, ∃ d2, body d a = Result.done d2 ∧ Issues P d d2) →
      ∀ d, ∃ d2, forEach body l d = Result.done d2 ∧ Issues P d d2 := by
  intro l
  induction l with
  | nil => intro _ d; exact ⟨d, rfl, Issues.same P d⟩
  | cons a rest ih =>
    intro hb d
    obtain ⟨d1, h1, i1⟩ := hb a (List.mem_cons_self _ _) d
    obtain ⟨d2, h2, i2⟩ := ih (fun b hb2 => hb b (List.mem_cons_of_mem _ hb2)) d1
    refine ⟨d2, ?_, i1.seq i2⟩
    simp only [forEach, h1, Result.andThen]
    exact h2

/-- The statements of the kind `K` that a loop issues, when each iteration returns: those
that its iterations issue. -/
theorem forEach_member {α : Type} (K : Statement → Prop) (M : α → Statement → Prop)
    (body : DB → α → Result DB) :
    ∀ (l : List α),
      (∀ a ∈ l, ∀ d, ∃ d2 new, body d a = Result.done d2 ∧
        d2.statements = d.statements ++ new ∧ ∀ s, K s → (s ∈ new ↔ M a s)) →
      ∀ d, ∃ d2 new, forEach body l d = Result.done d2 ∧
        d2.statements = d.statements ++ new ∧ ∀ s, K s → (s ∈ new ↔ ∃ a ∈ l, M a s) := by
  intro l
  induction l with
  | nil =>
    intro _ d
    exact ⟨d, [], rfl, by simp, fun s _ => by simp⟩
  | cons a rest ih =>
    intro hb d
    obtain ⟨d1, n1, h1, e1, m1⟩ := hb a (List.mem_cons_self _ _) d
    obtain ⟨d2, n2, h2, e2, m2⟩ := ih (fun b hb2 => hb b (List.mem_cons_of_mem _ hb2)) d1
    refine ⟨d2, n1 ++ n2, ?_, by rw [e2, e1, List.append_assoc], fun s hK => ?_⟩
    · simp only [forEach, h1, Result.andThen]
      exact h2
    · rw [List.mem_append, m1 s hK, m2 s hK]
      constructor
      · rintro (h | ⟨b, hb2, hM⟩)
        · exact ⟨a, List.mem_cons_self _ _, h⟩
        · exact ⟨b, List.mem_cons_of_mem _ hb2, hM⟩
      · rintro ⟨b, hb2, hM⟩
        rcases List.mem_cons.mp hb2 with rfl | hb3
        · exact Or.inl hM
        · exact Or.inr ⟨b, hb3, hM⟩

theorem columnStatements_kind (c : Collaborators) (T : String)
    (dbColumns : List (String × ColumnData)) (col : String) (fi : Field) (s : Statement)
    (h : s ∈ columnStatements c T dbColumns col fi) : s.kind = StatementKind.column := by
  rcases mem_columnStatements c T dbColumns col fi s h with h1 | h1 | h1 | h1 <;>
    rw [h1] <;> rfl

/-- Function `updateDBColumns` issues statements on columns only. -/
theorem updateDBColumns_issues (c : Collaborators) (st : State) (m : Model) (db : DB)
    (hres : m.columnsResolve st = true) :
    ∃ d2, updateDBColumns c st m db = Result.done d2 ∧
      Issues (fun s => s.kind = StatementKind.column) db d2 := by
  refine ⟨_, updateDBColumns_eq c st m db hres, Issues.run _ _ _ _ ?_⟩
  intro s hs
  rcases List.mem_append.mp hs with h | h
  · obtain ⟨entry, _, hse⟩ := List.mem_flatMap.mp h
    obtain ⟨fi, _, _, _, hcs⟩ := mem_entryStatements c st m _ entry s hse
    exact columnStatements_kind c _ _ _ fi s hcs
  · obtain ⟨col, rfl, _, _⟩ := (mem_dropStatements m _ s).mp h
    rfl

/-- Function `updateDBIndexes` issues statements on indexes only. -/
theorem updateDBIndexes_issues (c : Collaborators) (st : State) (m : Model) (db : DB)
    (hres : m.columnsResolve st = true) :
    ∃ d2, updateDBIndexes c m db = Result.done d2 ∧
      Issues (fun s => s.kind = StatementKind.index) db d2 := by
  unfold updateDBIndexes
  refine forEach_issues_done _ _ _ (fun entry he d => ?_) db
  obtain ⟨fi, T, hfi, _⟩ := columnsResolve_entry st m hres entry he
  unfold updateDBIndex
  rw [hfi]
  simp only
  split_ifs
  · exact ⟨_, rfl, Issues.execute _ _ _ _ rfl⟩
  · exact ⟨_, rfl, Issues.execute _ _ _ _ rfl⟩
  · exact ⟨_, rfl, Issues.same _ _⟩

/-- Function `updateDBForeignKeyConstraints` issues statements on foreign keys only,
whether it returns or panics. -/
theorem updateDBForeignKeyConstraints_issues (c : Collaborators) (st : State) (m : Model)
    (db : DB) :
    (updateDBForeignKeyConstraints c st m db).holds
      (Issues (fun s => s.kind = StatementKind.foreignKey) db) := by
  unfold updateDBForeignKeyConstraints
  refine forEach_issues_holds _ _ (fun d entry => ?_) _ db
  unfold updateDBForeignKeyConstraint
  cases m.fieldByJSON entry with
  | none => exact Issues.same _ _
  | some fi =>
    simp only
    split_ifs
    · cases fi.relatedModel.bind st.model with
      | none => exact Issues.same _ _
      | some related => exact Issues.execute _ _ _ _ rfl
    · exact Issues.execute _ _ _ _ rfl
    · exact Issues.same _ _

/-- The second loop of `SyncDatabase` issues statements on foreign keys only. -/
theorem syncForeignKeys_issues (c : Collaborators) (st : State) (db : DB)
    (entry : String × String) :
    (syncForeignKeys c st db entry).holds
      (Issues (fun s => s.kind = StatementKind.foreignKey) db) := by
  unfold syncForeignKeys
  cases st.model entry.2 with
  | none => exact Issues.same _ _
  | some model =>
    simp only
    split_ifs
    · exact Issues.same _ _
    · exact updateDBForeignKeyConstraints_issues c st model db

/-- The third loop of `SyncDatabase` issues `DROP TABLE` statements only. -/
theorem dropUnknownTable_issues (c : Collaborators) (st : State) (db : DB) (dbTable : String) :
    (dropUnknownTable c st db dbTable).holds
      (Issues (fun s => s.kind = StatementKind.dropTable) db) := by
  unfold dropUnknownTable
  cases modelExists st dbTable st.Registry.registryByTableName with
  | none => exact Issues.same _ _
  | some b =>
    cases b with
    | true => exact Issues.same _ _
    | false => exact Issues.execute _ _ _ _ rfl

/-- Function `updateDBSequences` issues statements on sequences only. -/
theorem updateDBSequences_issues (c : Collaborators) (st : State) (db : DB) :
    Issues (fun s => s.kind = StatementKind.sequence) db (updateDBSequences c st db) := by
  unfold updateDBSequences
  refine (foldl_issues _ _ (fun d sequence => ?_) _ db).seq
    (foldl_issues _ _ (fun d dbSeq => ?_) _ _)
  · exact Issues.execute _ _ _ _ rfl
  · unfold dropUnusedSequence
    split_ifs
    · exact Issues.same _ _
    · exact Issues.execute _ _ _ _ rfl

/-- What follows the first loop of `SyncDatabase` issues statements on foreign keys, `DROP
TABLE` statements and statements on sequences only. -/
theorem SyncDatabase_tail_issues (c : Collaborators) (st : State) (db : DB) :
    ((((Result.done db).andThen
        (fun d => forEach (syncForeignKeys c st) st.Registry.registryByTableName d)).andThen
        (fun d => forEach (dropUnknownTable c st) d.catalog.tableNames d)).andThen
        (fun d => Result.done (updateDBSequences c st d))).holds
      (Issues (fun s => s.kind = StatementKind.foreignKey ∨
        s.kind = StatementKind.dropTable ∨ s.kind = StatementKind.sequence) db) := by
  refine andThen_holds _ _ _ (andThen_holds _ _ _ ?_ ?_) ?_
  · exact (forEach_holds _ _
      (fun d a hd => by
        have h := syncForeignKeys_issues c st d a
        cases hr : syncForeignKeys c st d a with
        | done d2 => rw [hr] at h; exact hd.seq (h.weaken (fun s hs => Or.inl hs))
        | panicked msg d2 => rw [hr] at h; exact hd.seq (h.weaken (fun s hs => Or.inl hs))
        | diverged => trivial) _ db (Issues.same _ db))
  · intro d hd
    exact (forEach_holds _ _
      (fun d1 a hd1 => by
        have h := dropUnknownTable_issues c st d1 a
        cases hr : dropUnknownTable c st d1 a with
        | done d2 => rw [hr] at h; exact hd1.seq (h.weaken (fun s hs => Or.inr (Or.inl hs)))
        | panicked msg d2 =>
          rw [hr] at h; exact hd1.seq (h.weaken (fun s hs => Or.inr (Or.inl hs)))
        | diverged => trivial) _ d hd)
  · intro d hd
    exact hd.seq ((updateDBSequences_issues c st d).weaken (fun s hs => Or.inr (Or.inr hs)))

theorem tablesResolve_entry (st : State) (h : st.tablesResolve = true)
    (entry : String × String) (he : entry ∈ st.Registry.registryByTableName) :
    ∃ model, st.model entry.2 = some model ∧ model.tableName = entry.1 ∧
      model.columnsResolve st = true := by
  unfold State.tablesResolve at h
  rw [List.all_eq_true] at h
  have h1 := h entry he
  cases hm : st.model entry.2 with
  | none => rw [hm] at h1; simp at h1
  | some model =>
    rw [hm] at h1
    simp only [Bool.and_eq_true, beq_iff_eq] at h1
    exact ⟨model, rfl, h1.1, h1.2⟩

/-- One iteration of the first loop of `SyncDatabase`: it returns, and the `CREATE TABLE`
it issues is the one of the table of the entry, for a model that is neither a mixin nor a
manual model and a table that the database does not have. -/
theorem syncTable_member (c : Collaborators) (st : State) (dbTables : List String)
    (entry : String × String) (model : Model) (hm : st.model entry.2 = some model)
    (hT : model.tableName = entry.1) (hres : model.columnsResolve st = true) (d : DB) :
    ∃ d2 new, syncTable c st dbTables d entry = Result.done d2 ∧
      d2.statements = d.statements ++ new ∧
      ∀ s, s.kind = StatementKind.createTable →
        (s ∈ new ↔ s = Statement.createTable entry.1 ∧ model.isMixin = false ∧
          model.isManual = false ∧ entry.1 ∉ dbTables) := by
  unfold syncTable
  rw [hm]
  simp only
  cases hmix : model.isMixin with
  | true =>
    refine ⟨d, [], by simp, by simp, fun s _ => ?_⟩
    simp
  | false =>
    cases hman : model.isManual with
    | true =>
      refine ⟨d, [], by simp, by simp, fun s _ => ?_⟩
      simp
    | false =>
      simp only [Bool.false_eq_true, if_false]
      have hrest : ∀ d1 : DB, ∃ d2,
          (updateDBColumns c st model d1).andThen (updateDBIndexes c model) = Result.done d2 ∧
          Issues (fun s => s.kind ≠ StatementKind.createTable) d1 d2 := by
        intro d1
        obtain ⟨d2, h2, i2⟩ := updateDBColumns_issues c st model d1 hres
        obtain ⟨d3, h3, i3⟩ := updateDBIndexes_issues c st model d2 hres
        refine ⟨d3, by rw [h2]; exact h3, ?_⟩
        exact (i2.weaken (fun s hs => by rw [hs]; decide)).seq
          (i3.weaken (fun s hs => by rw [hs]; decide))
      by_cases hin : entry.1 ∈ dbTables
      · rw [if_pos hin]
        obtain ⟨d2, h2, new, e2, p2⟩ := hrest d
        refine ⟨d2, new, h2, e2, fun s hs => ?_⟩
        constructor
        · intro hmem
          exact absurd hs (p2 s hmem)
        · rintro ⟨_, _, _, hnot⟩
          exact absurd hin hnot
      · rw [if_neg hin]
        obtain ⟨d2, h2, new, e2, p2⟩ := hrest (createDBTable c model.tableName d)
        refine ⟨d2, Statement.createTable entry.1 :: new, h2, ?_, fun s hs => ?_⟩
        · rw [e2, hT]
          simp [createDBTable, dbExecuteNoTx]
        · constructor
          · intro hmem
            rcases List.mem_cons.mp hmem with h | h
            · exact ⟨h, trivial, trivial, hin⟩
            · exact absurd hs (p2 s h)
          · rintro ⟨rfl, _⟩
            exact List.mem_cons_self _ _

/-- The first loop of `SyncDatabase` returns, and the `CREATE TABLE` statements it issues
are those of the tables to create. -/
theorem SyncDatabase_first_loop (c : Collaborators) (st : State) (cat : Catalog)
    (htab : st.tablesResolve = true) :
    ∃ d1, forEach (syncTable c st cat.tableNames) st.Registry.registryByTableName
        (DB.start cat) = Result.done d1 ∧
      ∀ T, Statement.createTable T ∈ d1.statements ↔ ToCreate st cat.tableNames T := by
  obtain ⟨d1, new, h1, e1, m1⟩ := forEach_member
    (fun s => s.kind = StatementKind.createTable)
    (fun entry s => ∃ model, st.model entry.2 = some model ∧
      s = Statement.createTable entry.1 ∧ model.isMixin = false ∧ model.isManual = false ∧
      entry.1 ∉ cat.tableNames)
    (syncTable c st cat.tableNames) st.Registry.registryByTableName
    (by
      intro entry he d
      obtain ⟨model, hm, hT, hres⟩ := tablesResolve_entry st htab entry he
      obtain ⟨d2, new, h2, e2, m2⟩ :=
        syncTable_member c st cat.tableNames entry model hm hT hres d
      refine ⟨d2, new, h2, e2, fun s hs => ?_⟩
      rw [m2 s hs]
      constructor
      · rintro ⟨h3, h4, h5, h6⟩
        exact ⟨model, hm, h3, h4, h5, h6⟩
      · rintro ⟨model2, hm2, h3, h4, h5, h6⟩
        rw [hm] at hm2
        cases hm2
        exact ⟨h3, h4, h5, h6⟩) (DB.start cat)
  refine ⟨d1, h1, fun T => ?_⟩
  have hst : d1.statements = new := by rw [e1]; rfl
  rw [hst, m1 (Statement.createTable T) rfl]
  constructor
  · rintro ⟨entry, he, model, hm, heq, h4, h5, h6⟩
    cases heq
    exact ⟨entry.2, model, he, hm, h4, h5, h6⟩
  · rintro ⟨ptr, model, he, hm, h4, h5, h6⟩
    exact ⟨(T, ptr), he, model, hm, rfl, h4, h5, h6⟩

theorem syncForeignKeys_ne_diverged (c : Collaborators) (st : State) (db : DB)
    (entry : String × String) : syncForeignKeys c st db entry ≠ Result.diverged := by
  unfold syncForeignKeys
  cases st.model entry.2 with
  | none => intro h; cases h
  | some model =>
    simp only
    split_ifs
    · intro h; cases h
    · unfold updateDBForeignKeyConstraints
      refine forEach_ne_diverged _ (fun d e => ?_) _ _
      unfold updateDBForeignKeyConstraint
      cases model.fieldByJSON e with
      | none => intro h; cases h
      | some fi =>
        simp only
        split_ifs
        · cases fi.relatedModel.bind st.model with
          | none => intro h; cases h
          | some related => intro h; cases h
        · intro h; cases h
        · intro h; cases h

theorem dropUnknownTable_ne_diverged (c : Collaborators) (st : State) (db : DB)
    (dbTable : String) : dropUnknownTable c st db dbTable ≠ Result.diverged := by
  unfold dropUnknownTable
  cases modelExists st dbTable st.Registry.registryByTableName with
  | none => intro h; cases h
  | some b => cases b <;> (intro h; cases h)

/-- The first loop of `updateDBSequences` (lines 256–258) issues a `createSequence` for
every sequence of the registry, whatever the database has. -/
theorem createSequences_statements (adapter : dbAdapter) (sequences : List Sequence) :
    ∀ d : DB,
      (sequences.foldl
        (fun d sequence => dbExecuteNoTx adapter d (Statement.createSequence sequence.JSON))
        d).statements =
      d.statements ++ sequences.map (fun sequence => Statement.createSequence sequence.JSON) := by
  induction sequences with
  | nil => intro d; simp
  | cons a rest ih =>
    intro d
    rw [List.foldl_cons, ih]
    simp [dbExecuteNoTx]

/-- Function `updateDBSequences` issues a `createSequence` for every sequence of the
registry, whatever the database has. -/
theorem updateDBSequences_creates (c : Collaborators) (st : State) (db : DB)
    (sequence : Sequence) (h : sequence ∈ st.Registry.sequences) :
    Statement.createSequence sequence.JSON ∈ (updateDBSequences c st db).statements := by
  unfold updateDBSequences
  obtain ⟨new, e, _⟩ := foldl_issues (fun _ => True) (dropUnusedSequence c st)
    (fun d dbSeq => by
      unfold dropUnusedSequence
      split_ifs
      · exact Issues.same _ _
      · exact Issues.execute _ _ _ _ trivial)
    ((st.Registry.sequences.foldl
      (fun d sequence => dbExecuteNoTx c.adapter d (Statement.createSequence sequence.JSON))
      db).catalog.sequencesLike c.adapter "%_manseq")
    (st.Registry.sequences.foldl
      (fun d sequence => dbExecuteNoTx c.adapter d (Statement.createSequence sequence.JSON)) db)
  simp only
  rw [e, createSequences_statements]
  exact List.mem_append_left _
    (List.mem_append_right _ (List.mem_map.mpr ⟨sequence, h, rfl⟩))

/-- A run of `SyncDatabase` that returns has been through `updateDBSequences`. -/
theorem SyncDatabase_done (c : Collaborators) (st : State) (cat : Catalog) (db2 : DB)
    (h : SyncDatabase c st cat = Result.done db2) :
    ∃ d, db2 = updateDBSequences c st d := by
  unfold SyncDatabase at h
  generalize ((forEach (syncTable c st cat.tableNames) st.Registry.registryByTableName
      (DB.start cat)).andThen
      (fun db => forEach (syncForeignKeys c st) st.Registry.registryByTableName db)).andThen
      (fun db => forEach (dropUnknownTable c st) db.catalog.tableNames db) = r at h
  cases r with
  | done d =>
    simp only [Result.andThen, Result.done.injEq] at h
    exact ⟨d, h.symm⟩
  | panicked msg d => cases h
  | diverged => cases h

/-! ## The order of the statements of `SyncDatabase` -/

theorem Issues.andThen {P : Statement → Prop} {d : DB} (r : Result DB) (f : DB → Result DB)
    (hr : r.holds (Issues P d)) (hf : ∀ d1, (f d1).holds (Issues P d1)) :
    (r.andThen f).holds (Issues P d) := by
  cases r with
  | done d1 =>
    have h := hf d1
    show (f d1).holds (Issues P d)
    cases hr2 : f d1 with
    | done d2 => rw [hr2] at h; exact Issues.seq hr h
    | panicked msg d2 => rw [hr2] at h; exact Issues.seq hr h
    | diverged => trivial
  | panicked msg d1 => exact hr
  | diverged => trivial

/-- A function that returns or panics after one statement at most. -/
theorem holds_of_cases {P : Statement → Prop} {d : DB} (r : Result DB)
    (h : r = Result.done d ∨ (∃ msg, r = Result.panicked msg d) ∨
      ∃ adapter s, P s ∧ r = Result.done (dbExecuteNoTx adapter d s)) :
    r.holds (Issues P d) := by
  rcases h with h | ⟨msg, h⟩ | ⟨adapter, s, hs, h⟩
  · rw [h]; exact Issues.same P d
  · rw [h]; exact Issues.same P d
  · rw [h]; exact Issues.execute P adapter d s hs

theorem createDBColumn_issues (c : Collaborators) (st : State) (fi : Field) (d : DB) :
    (createDBColumn c st fi d).holds (Issues (fun s => s.kind = StatementKind.column) d) := by
  unfold createDBColumn
  split_ifs
  · exact Issues.same _ _
  · cases ownerTable st fi with
    | none => exact Issues.same _ _
    | some T => exact Issues.execute _ _ _ _ rfl

theorem updateDBColumnDataType_issues (c : Collaborators) (st : State) (fi : Field) (d : DB) :
    (updateDBColumnDataType c st fi d).holds
      (Issues (fun s => s.kind = StatementKind.column) d) := by
  unfold updateDBColumnDataType
  cases ownerTable st fi with
  | none => exact Issues.same _ _
  | some T => exact Issues.execute _ _ _ _ rfl

theorem updateDBColumnNullable_issues (c : Collaborators) (st : State) (fi : Field) (d : DB) :
    (updateDBColumnNullable c st fi d).holds
      (Issues (fun s => s.kind = StatementKind.column) d) := by
  unfold updateDBColumnNullable
  cases ownerTable st fi with
  | none => exact Issues.same _ _
  | some T => exact Issues.execute _ _ _ _ rfl

theorem updateDBColumnDefault_issues (c : Collaborators) (st : State) (fi : Field) (d : DB) :
    (updateDBColumnDefault c st fi d).holds
      (Issues (fun s => s.kind = StatementKind.column) d) := by
  unfold updateDBColumnDefault
  cases ownerTable st fi with
  | none => exact Issues.same _ _
  | some T => exact Issues.execute _ _ _ _ rfl

theorem holds_ite {Q : DB → Prop} (p : Prop) [Decidable p] (a b : Result DB)
    (ha : a.holds Q) (hb : b.holds Q) : (if p then a else b).holds Q := by
  split_ifs
  · exact ha
  · exact hb

theorem ite_ne_diverged (p : Prop) [Decidable p] (a b : Result DB)
    (ha : a ≠ Result.diverged) (hb : b ≠ Result.diverged) :
    (if p then a else b) ≠ Result.diverged := by
  split_ifs
  · exact ha
  · exact hb

/-- One iteration of the first loop of `updateDBColumns` issues statements on columns
only, whether it returns or panics. -/
theorem updateDBColumn_issues (c : Collaborators) (st : State) (m : Model)
    (dbColumns : List (String × ColumnData)) (d : DB) (entry : String × String) :
    (updateDBColumn c st m dbColumns d entry).holds
      (Issues (fun s => s.kind = StatementKind.column) d) := by
  unfold updateDBColumn
  refine holds_ite _ _ _ (Issues.same _ _) ?_
  cases m.fieldByJSON entry with
  | none => exact Issues.same _ _
  | some fi =>
    simp only
    refine holds_ite _ _ _ (Issues.same _ _) ?_
    refine Issues.andThen _ _ (Issues.andThen _ _ (Issues.andThen _ _ ?_ ?_) ?_) ?_
    · exact holds_ite _ _ _ (createDBColumn_issues c st fi d) (Issues.same _ _)
    · intro d1
      exact holds_ite _ _ _ (updateDBColumnDataType_issues c st fi d1) (Issues.same _ _)
    · intro d1
      exact holds_ite _ _ _ (updateDBColumnNullable_issues c st fi d1) (Issues.same _ _)
    · intro d1
      split
      · exact holds_ite _ _ _ (updateDBColumnDefault_issues c st fi d1) (Issues.same _ _)
      · exact Issues.same _ _

/-- Function `updateDBColumns` issues statements on columns only, whether it returns or
panics. -/
theorem updateDBColumns_issues_holds (c : Collaborators) (st : State) (m : Model) (d : DB) :
    (updateDBColumns c st m d).holds (Issues (fun s => s.kind = StatementKind.column) d) := by
  unfold updateDBColumns
  refine Issues.andThen _ _ (forEach_issues_holds _ _ (fun d1 e => ?_) _ d) (fun d1 => ?_)
  · exact updateDBColumn_issues c st m _ d1 e
  · refine foldl_issues _ _ (fun d2 col => ?_) _ d1
    unfold dropUnknownColumn
    split_ifs
    · exact Issues.execute _ _ _ _ rfl
    · exact Issues.same _ _

/-- Function `updateDBIndexes` issues statements on indexes only, whether it returns or
panics. -/
theorem updateDBIndexes_issues_holds (c : Collaborators) (m : Model) (d : DB) :
    (updateDBIndexes c m d).holds (Issues (fun s => s.kind = StatementKind.index) d) := by
  unfold updateDBIndexes
  refine forEach_issues_holds _ _ (fun d1 e => ?_) _ d
  unfold updateDBIndex
  cases m.fieldByJSON e with
  | none => exact Issues.same _ _
  | some fi =>
    simp only
    split_ifs
    · exact Issues.execute _ _ _ _ rfl
    · exact Issues.execute _ _ _ _ rfl
    · exact Issues.same _ _

theorem holds_weaken {P Q : Statement → Prop} {d : DB} (r : Result DB)
    (h : r.holds (Issues P d)) (hPQ : ∀ s, P s → Q s) : r.holds (Issues Q d) := by
  cases r with
  | done d1 => exact Issues.weaken h hPQ
  | panicked msg d1 => exact Issues.weaken h hPQ
  | diverged => trivial

/-- One iteration of the first loop of `SyncDatabase` issues `CREATE TABLE` statements and
statements on columns and on indexes only, whether it returns or panics. -/
theorem syncTable_issues (c : Collaborators) (st : State) (dbTables : List String) (d : DB)
    (entry : String × String) :
    (syncTable c st dbTables d entry).holds
      (Issues (fun s => s.kind = StatementKind.createTable ∨ s.kind = StatementKind.column ∨
        s.kind = StatementKind.index) d) := by
  unfold syncTable
  cases st.model entry.2 with
  | none => exact Issues.same _ _
  | some model =>
    simp only
    split_ifs with h1 h2 h3
    · exact Issues.same _ _
    · exact Issues.same _ _
    · exact Issues.andThen _ _
        (holds_weaken _ (updateDBColumns_issues_holds c st model d) (fun s hs => Or.inr (Or.inl hs)))
        (fun d1 => holds_weaken _ (updateDBIndexes_issues_holds c model d1)
          (fun s hs => Or.inr (Or.inr hs)))
    · have hstart : Issues (fun s => s.kind = StatementKind.createTable ∨
          s.kind = StatementKind.column ∨ s.kind = StatementKind.index) d
          (createDBTable c model.tableName d) := Issues.execute _ _ _ _ (Or.inl rfl)
      have hcols := holds_weaken _
        (updateDBColumns_issues_holds c st model (createDBTable c model.tableName d))
        (fun s hs => (Or.inr (Or.inl hs) : s.kind = StatementKind.createTable ∨
          s.kind = StatementKind.column ∨ s.kind = StatementKind.index))
      have hboth : (updateDBColumns c st model (createDBTable c model.tableName d)).holds
          (Issues (fun s => s.kind = StatementKind.createTable ∨
            s.kind = StatementKind.column ∨ s.kind = StatementKind.index) d) := by
        revert hcols
        cases updateDBColumns c st model (createDBTable c model.tableName d) with
        | done d1 => exact fun h => hstart.seq h
        | panicked msg d1 => exact fun h => hstart.seq h
        | diverged => exact fun _ => trivial
      exact Issues.andThen _ _ hboth
        (fun d1 => holds_weaken _ (updateDBIndexes_issues_holds c model d1)
          (fun s hs => Or.inr (Or.inr hs)))

theorem updateDBColumns_ne_diverged (c : Collaborators) (st : State) (m : Model) (d : DB) :
    updateDBColumns c st m d ≠ Result.diverged := by
  have hdone : ∀ d2 : DB, (Result.done d2 : Result DB) ≠ Result.diverged :=
    fun d2 h => by cases h
  have hown : ∀ (fi : Field) (d2 : DB) (f : String → Statement),
      (match ownerTable st fi with
        | none => Result.panicked nilDereference d2
        | some tableName => Result.done (dbExecuteNoTx c.adapter d2 (f tableName)))
        ≠ Result.diverged := by
    intro fi d2 f
    cases ownerTable st fi <;> (intro h; cases h)
  unfold updateDBColumns
  refine andThen_ne_diverged _ _ (forEach_ne_diverged _ (fun d1 e => ?_) _ _)
    (fun d1 => hdone _)
  unfold updateDBColumn
  refine ite_ne_diverged _ _ _ (hdone _) ?_
  cases m.fieldByJSON e with
  | none => intro h; cases h
  | some fi =>
    simp only
    refine ite_ne_diverged _ _ _ (hdone _) ?_
    refine andThen_ne_diverged _ _ (andThen_ne_diverged _ _ (andThen_ne_diverged _ _ ?_ ?_)
      ?_) ?_
    · refine ite_ne_diverged _ _ _ ?_ (hdone _)
      unfold createDBColumn
      refine ite_ne_diverged _ _ _ (by intro h; cases h) (hown fi d1 _)
    · intro d2
      exact ite_ne_diverged _ _ _ (hown fi d2 _) (hdone _)
    · intro d2
      exact ite_ne_diverged _ _ _ (hown fi d2 _) (hdone _)
    · intro d2
      split
      · exact ite_ne_diverged _ _ _ (hown fi d2 _) (hdone _)
      · exact hdone _

theorem updateDBIndexes_ne_diverged (c : Collaborators) (m : Model) (d : DB) :
    updateDBIndexes c m d ≠ Result.diverged := by
  unfold updateDBIndexes
  refine forEach_ne_diverged _ (fun d1 e => ?_) _ _
  unfold updateDBIndex
  cases m.fieldByJSON e with
  | none => intro h; cases h
  | some fi =>
    simp only
    split_ifs <;> (intro h; cases h)

theorem syncTable_ne_diverged (c : Collaborators) (st : State) (dbTables : List String)
    (d : DB) (entry : String × String) :
    syncTable c st dbTables d entry ≠ Result.diverged := by
  unfold syncTable
  cases st.model entry.2 with
  | none => intro h; cases h
  | some model =>
    simp only
    split_ifs
    · intro h; cases h
    · intro h; cases h
    · exact andThen_ne_diverged _ _ (updateDBColumns_ne_diverged c st model _)
        (fun d1 => updateDBIndexes_ne_diverged c model d1)
    · exact andThen_ne_diverged _ _ (updateDBColumns_ne_diverged c st model _)
        (fun d1 => updateDBIndexes_ne_diverged c model d1)

/-- Function `SyncDatabase` comes to an end on every registry and every catalog: it
returns or it panics. -/
theorem SyncDatabase_ne_diverged (c : Collaborators) (st : State) (cat : Catalog) :
    SyncDatabase c st cat ≠ Result.diverged := by
  unfold SyncDatabase
  exact andThen_ne_diverged _ _
    (andThen_ne_diverged _ _
      (andThen_ne_diverged _ _ (forEach_ne_diverged _ (syncTable_ne_diverged c st _) _ _)
        (fun d => forEach_ne_diverged _ (syncForeignKeys_ne_diverged c st) _ d))
      (fun d => forEach_ne_diverged _ (dropUnknownTable_ne_diverged c st) _ d))
    (fun d => by intro h; cases h)

/-- The statements of a run of `SyncDatabase` are those of its first loop, which are
`CREATE TABLE` statements and statements on columns and on indexes, followed by those of
the rest of the function, which are statements on foreign keys, `DROP TABLE` statements and
statements on sequences. -/
theorem SyncDatabase_phases (c : Collaborators) (st : State) (cat : Catalog) :
    (SyncDatabase c st cat).holds (fun db => ∃ first rest,
      db.statements = first ++ rest ∧
      (∀ s ∈ first, s.kind = StatementKind.createTable ∨ s.kind = StatementKind.column ∨
        s.kind = StatementKind.index) ∧
      (∀ s ∈ rest, s.kind = StatementKind.foreignKey ∨ s.kind = StatementKind.dropTable ∨
        s.kind = StatementKind.sequence)) := by
  have h1 := forEach_issues_holds _ _ (fun d e => syncTable_issues c st cat.tableNames d e)
    st.Registry.registryByTableName (DB.start cat)
  unfold SyncDatabase
  revert h1
  cases forEach (syncTable c st cat.tableNames) st.Registry.registryByTableName
      (DB.start cat) with
  | done d1 =>
    intro h1
    obtain ⟨first, e1, p1⟩ := h1
    have htail := SyncDatabase_tail_issues c st d1
    revert htail
    generalize (((Result.done d1).andThen
        (fun d => forEach (syncForeignKeys c st) st.Registry.registryByTableName d)).andThen
        (fun d => forEach (dropUnknownTable c st) d.catalog.tableNames d)).andThen
        (fun d => Result.done (updateDBSequences c st d)) = r
    intro htail
    have e1b : d1.statements = first := by rw [e1]; rfl
    cases r with
    | done d2 =>
      obtain ⟨rest, e2, p2⟩ := htail
      exact ⟨first, rest, by rw [e2, e1b], p1, p2⟩
    | panicked msg d2 =>
      obtain ⟨rest, e2, p2⟩ := htail
      exact ⟨first, rest, by rw [e2, e1b], p1, p2⟩
    | diverged => trivial
  | panicked msg d1 =>
    intro h1
    obtain ⟨first, e1, p1⟩ := h1
    refine ⟨first, [], ?_, p1, fun s hs => by cases hs⟩
    show d1.statements = first ++ []
    rw [e1]
    simp [DB.start]
  | diverged => intro _; trivial

/-! ## Properties of the database that every statement keeps -/

theorem kept_andThen {J : DB → Prop} (r : Result DB) (f : DB → Result DB)
    (hr : r.holds J) (hf : ∀ d1, J d1 → (f d1).holds J) : (r.andThen f).holds J :=
  andThen_holds J r f hr hf

theorem kept_ite {J : DB → Prop} (p : Prop) [Decidable p] (a b : Result DB)
    (ha : a.holds J) (hb : b.holds J) : (if p then a else b).holds J := by
  split_ifs
  · exact ha
  · exact hb

theorem kept_owner (c : Collaborators) (st : State) (J : DB → Prop)
    (hJ : ∀ d s, J d → J (dbExecuteNoTx c.adapter d s)) (fi : Field) (d : DB)
    (f : String → Statement) (hd : J d) :
    (match ownerTable st fi with
      | none => Result.panicked nilDereference d
      | some tableName => Result.done (dbExecuteNoTx c.adapter d (f tableName))).holds J := by
  cases ownerTable st fi with
  | none => exact hd
  | some T => exact hJ d _ hd

/-- Function `updateDBColumns` keeps every property of the database that the execution of
a statement keeps. -/
theorem updateDBColumns_kept (c : Collaborators) (st : State) (J : DB → Prop)
    (hJ : ∀ d s, J d → J (dbExecuteNoTx c.adapter d s)) (m : Model) (d : DB) (hd : J d) :
    (updateDBColumns c st m d).holds J := by
  unfold updateDBColumns
  refine kept_andThen _ _ (forEach_holds J _ (fun d1 e h1 => ?_) _ d hd) (fun d1 h1 => ?_)
  · unfold updateDBColumn
    refine kept_ite _ _ _ h1 ?_
    cases m.fieldByJSON e with
    | none => exact h1
    | some fi =>
      simp only
      refine kept_ite _ _ _ h1 ?_
      refine kept_andThen _ _ (kept_andThen _ _ (kept_andThen _ _ ?_ ?_) ?_) ?_
      · refine kept_ite _ _ _ ?_ h1
        unfold createDBColumn
        exact kept_ite _ _ _ h1 (kept_owner c st J hJ fi d1 _ h1)
      · intro d2 h2
        exact kept_ite _ _ _ (kept_owner c st J hJ fi d2 _ h2) h2
      · intro d2 h2
        exact kept_ite _ _ _ (kept_owner c st J hJ fi d2 _ h2) h2
      · intro d2 h2
        split
        · exact kept_ite _ _ _ (kept_owner c st J hJ fi d2 _ h2) h2
        · exact h2
  · show J _
    have : ∀ (l : List (String × ColumnData)) (d2 : DB), J d2 →
        J (l.foldl (dropUnknownColumn c m) d2) := by
      intro l
      induction l with
      | nil => intro d2 h2; exact h2
      | cons a rest ih =>
        intro d2 h2
        refine ih _ ?_
        unfold dropUnknownColumn
        split_ifs
        · exact hJ _ _ h2
        · exact h2
    exact this _ d1 h1

/-- Function `updateDBIndexes` keeps every property of the database that the execution of
a statement keeps. -/
theorem updateDBIndexes_kept (c : Collaborators) (J : DB → Prop)
    (hJ : ∀ d s, J d → J (dbExecuteNoTx c.adapter d s)) (m : Model) (d : DB) (hd : J d) :
    (updateDBIndexes c m d).holds J := by
  unfold updateDBIndexes
  refine forEach_holds J _ (fun d1 e h1 => ?_) _ d hd
  unfold updateDBIndex
  cases m.fieldByJSON e with
  | none => exact h1
  | some fi =>
    simp only
    split_ifs
    · exact hJ _ _ h1
    · exact hJ _ _ h1
    · exact h1

/-- The first loop of `SyncDatabase` keeps every property of the database that the
execution of a statement keeps. -/
theorem syncTable_kept (c : Collaborators) (st : State) (J : DB → Prop)
    (hJ : ∀ d s, J d → J (dbExecuteNoTx c.adapter d s)) (dbTables : List String) (d : DB)
    (entry : String × String) (hd : J d) : (syncTable c st dbTables d entry).holds J := by
  unfold syncTable
  cases st.model entry.2 with
  | none => exact hd
  | some model =>
    simp only
    refine kept_ite _ _ _ hd (kept_ite _ _ _ hd ?_)
    refine kept_andThen _ _ (updateDBColumns_kept c st J hJ model _ ?_)
      (fun d1 h1 => updateDBIndexes_kept c J hJ model d1 h1)
    split_ifs
    · exact hd
    · exact hJ _ _ hd

/-- The second loop of `SyncDatabase` keeps every property of the database that the
execution of a statement keeps. -/
theorem syncForeignKeys_kept (c : Collaborators) (st : State) (J : DB → Prop)
    (hJ : ∀ d s, J d → J (dbExecuteNoTx c.adapter d s)) (d : DB)
    (entry : String × String) (hd : J d) : (syncForeignKeys c st d entry).holds J := by
  unfold syncForeignKeys
  cases st.model entry.2 with
  | none => exact hd
  | some model =>
    simp only
    refine kept_ite _ _ _ hd ?_
    unfold updateDBForeignKeyConstraints
    refine forEach_holds J _ (fun d1 e h1 => ?_) _ d hd
    unfold updateDBForeignKeyConstraint
    cases model.fieldByJSON e with
    | none => exact h1
    | some fi =>
      simp only
      split_ifs
      · cases fi.relatedModel.bind st.model with
        | none => exact h1
        | some related => exact hJ _ _ h1
      · exact hJ _ _ h1
      · exact h1

theorem startedFrom_start (adapter : dbAdapter) (cat : Catalog) :
    DB.startedFrom adapter cat (DB.start cat) := rfl

theorem startedFrom_execute (adapter : dbAdapter) (cat : Catalog) (d : DB) (s : Statement)
    (h : DB.startedFrom adapter cat d) : DB.startedFrom adapter cat (dbExecuteNoTx adapter d s) := by
  unfold DB.startedFrom at h ⊢
  show dbExecuteNoTx adapter d s = (DB.start cat).run adapter (d.statements ++ [s])
  rw [run_append, ← h]
  rfl

/-- The tables of the catalog once a statement is executed. -/
theorem exec_tableNames (adapter : dbAdapter) (cat : Catalog) (s : Statement)
    (hs : s.kind ≠ StatementKind.dropTable) (T : String) :
    T ∈ (cat.exec adapter s).tableNames ↔ T ∈ cat.tableNames ∨ s = Statement.createTable T := by
  have halter : ∀ (tableName column : String) (change : ColumnData → ColumnData),
      (cat.alterColumn tableName column change).tableNames = cat.tableNames := by
    intro tableName column change
    unfold Catalog.alterColumn
    cases h1 : mapGet cat.tables tableName with
    | none => rfl
    | some cols =>
      simp only
      cases h2 : mapGet cols column with
      | none => rfl
      | some data =>
        simp only [Catalog.tableNames]
        exact mapKeys_mapSet_of_mem _ _ _ ((mapGet_isSome_iff _ _).1 (by rw [h1]; rfl))
  cases s with
  | createTable T2 =>
    simp only [Catalog.exec]
    by_cases h : (mapGet cat.tables T2).isSome = true
    · rw [if_pos h]
      constructor
      · exact Or.inl
      · rintro (h2 | h2)
        · exact h2
        · cases h2
          exact (mapGet_isSome_iff _ _).1 h
    · rw [if_neg h]
      have h3 : T2 ∉ mapKeys cat.tables := fun hm => h ((mapGet_isSome_iff _ _).2 hm)
      simp only [Catalog.tableNames, mapKeys_mapSet_of_not_mem _ _ _ h3, List.mem_append,
        List.mem_singleton, Statement.createTable.injEq]
      constructor
      · rintro (h2 | h2)
        · exact Or.inl h2
        · exact Or.inr h2.symm
      · rintro (h2 | h2)
        · exact Or.inl h2
        · exact Or.inr h2.symm
  | dropTable T2 => exact absurd rfl hs
  | addColumn T2 fi =>
    simp only [Catalog.exec]
    cases h1 : mapGet cat.tables T2 with
    | none => simp
    | some cols =>
      simp only
      split_ifs
      · simp
      · simp only [Catalog.tableNames]
        rw [mapKeys_mapSet_of_mem _ _ _ ((mapGet_isSome_iff _ _).1 (by rw [h1]; rfl))]
        simp
  | setDataType T2 col ty => simp [Catalog.exec, halter]
  | setNotNull T2 col b => simp [Catalog.exec, halter]
  | setDefault T2 col v => simp [Catalog.exec, halter]
  | dropColumn T2 col =>
    simp only [Catalog.exec]
    cases h1 : mapGet cat.tables T2 with
    | none => simp
    | some cols =>
      simp only [Catalog.tableNames]
      rw [mapKeys_mapSet_of_mem _ _ _ ((mapGet_isSome_iff _ _).1 (by rw [h1]; rfl))]
      simp
  | addConstraint T2 col target ondelete =>
    simp only [Catalog.exec]
    split_ifs <;> simp [Catalog.tableNames]
  | dropConstraint T2 col => simp [Catalog.exec, Catalog.tableNames]
  | createIndex T2 col =>
    simp only [Catalog.exec]
    split_ifs <;> simp [Catalog.tableNames]
  | dropIndex T2 col => simp [Catalog.exec, Catalog.tableNames]
  | createSequence name =>
    simp only [Catalog.exec]
    split_ifs <;> simp [Catalog.tableNames]
  | dropSequence name => simp [Catalog.exec, Catalog.tableNames]

/-- The tables of the catalog once statements are executed, none of which is a `DROP
TABLE`: those it had, and those created. -/
theorem run_tableNames (adapter : dbAdapter) (stmts : List Statement)
    (hs : ∀ s ∈ stmts, s.kind ≠ StatementKind.dropTable) (T : String) :
    ∀ d : DB, T ∈ (d.run adapter stmts).catalog.tableNames ↔
      T ∈ d.catalog.tableNames ∨ Statement.createTable T ∈ stmts := by
  induction stmts with
  | nil => intro d; simp [DB.run]
  | cons s rest ih =>
    intro d
    have h := ih (fun s2 h2 => hs s2 (List.mem_cons_of_mem _ h2)) (dbExecuteNoTx adapter d s)
    have e : d.run adapter (s :: rest) = (dbExecuteNoTx adapter d s).run adapter rest := rfl
    rw [e, h]
    have h2 := exec_tableNames adapter d.catalog s (hs s (List.mem_cons_self _ _)) T
    have e2 : (dbExecuteNoTx adapter d s).catalog = d.catalog.exec adapter s := rfl
    rw [e2, h2, List.mem_cons]
    constructor
    · rintro ((h3 | h3) | h3)
      · exact Or.inl h3
      · exact Or.inr (Or.inl h3.symm)
      · exact Or.inr (Or.inr h3)
    · rintro (h3 | h3 | h3)
      · exact Or.inl (Or.inl h3)
      · exact Or.inl (Or.inr h3.symm)
      · exact Or.inr h3

/-! ## The tables that `SyncDatabase` drops -/

/-- Function `updateDBForeignKeyConstraints` returns on a model whose foreign keys
resolve, and issues statements on foreign keys only. -/
theorem updateDBForeignKeyConstraints_done (c : Collaborators) (st : State) (m : Model)
    (hres : m.foreignKeysResolve c st = true) (d : DB) :
    ∃ d2, updateDBForeignKeyConstraints c st m d = Result.done d2 ∧
      Issues (fun s => s.kind = StatementKind.foreignKey) d d2 := by
  unfold updateDBForeignKeyConstraints
  refine forEach_issues_done _ _ _ (fun entry he d1 => ?_) d
  obtain ⟨fi, hfi, hrel⟩ := foreignKeysResolve_entry c st m hres entry he
  unfold updateDBForeignKeyConstraint
  rw [hfi]
  simp only
  split_ifs with h1 h2
  · obtain ⟨related, hr⟩ := hrel h1.1
    rw [hr]
    exact ⟨_, rfl, Issues.execute _ _ _ _ rfl⟩
  · exact ⟨_, rfl, Issues.execute _ _ _ _ rfl⟩
  · exact ⟨_, rfl, Issues.same _ _⟩

theorem state_foreignKeysResolve_entry (c : Collaborators) (st : State)
    (h : st.foreignKeysResolve c = true) (entry : String × String)
    (he : entry ∈ st.Registry.registryByTableName) :
    ∃ model, st.model entry.2 = some model ∧
      (model.isMixin = false → model.foreignKeysResolve c st = true) := by
  unfold State.foreignKeysResolve at h
  rw [List.all_eq_true] at h
  have h1 := h entry he
  cases hm : st.model entry.2 with
  | none => rw [hm] at h1; simp at h1
  | some model =>
    rw [hm] at h1
    simp only [Bool.or_eq_true] at h1
    refine ⟨model, rfl, fun hmix => ?_⟩
    rcases h1 with h2 | h2
    · rw [hmix] at h2; cases h2
    · exact h2

/-- The second loop of `SyncDatabase` returns when the foreign keys resolve, and issues
statements on foreign keys only. -/
theorem SyncDatabase_second_loop (c : Collaborators) (st : State)
    (hfk : st.foreignKeysResolve c = true) (d : DB) :
    ∃ d2, forEach (syncForeignKeys c st) st.Registry.registryByTableName d = Result.done d2 ∧
      Issues (fun s => s.kind = StatementKind.foreignKey) d d2 := by
  refine forEach_issues_done _ _ _ (fun entry he d1 => ?_) d
  obtain ⟨model, hm, hres⟩ := state_foreignKeysResolve_entry c st hfk entry he
  unfold syncForeignKeys
  rw [hm]
  simp only
  cases hmix : model.isMixin with
  | true => exact ⟨d1, by simp, Issues.same _ _⟩
  | false =>
    simp only [Bool.false_eq_true, if_false]
    exact updateDBForeignKeyConstraints_done c st model (hres hmix) d1

/-- The inner loop of the third loop of `SyncDatabase`, when every table of the list is
that of a model: it finds a model if and only if some entry of the list has the table as
its key and designates a model that is not a mixin. -/
theorem modelExists_spec (st : State) (T : String) :
    ∀ l : List (String × String), (∀ entry ∈ l, (st.model entry.2).isSome = true) →
      ∃ b, modelExists st T l = some b ∧
        (b = true ↔ ∃ ptr model, (T, ptr) ∈ l ∧ st.model ptr = some model ∧
          model.isMixin = false) := by
  intro l
  induction l with
  | nil =>
    intro _
    refine ⟨false, rfl, ?_⟩
    simp
  | cons entry rest ih =>
    intro hl
    obtain ⟨b, hb, hiff⟩ := ih (fun e he => hl e (List.mem_cons_of_mem _ he))
    obtain ⟨k, ptr⟩ := entry
    by_cases hk : T = k
    · subst hk
      have hsome := hl (T, ptr) (List.mem_cons_self _ _)
      cases hm : st.model ptr with
      | none => rw [hm] at hsome; cases hsome
      | some model =>
        cases hmix : model.isMixin with
        | true =>
          refine ⟨b, ?_, ?_⟩
          · simp [modelExists, hm, hmix, hb]
          · rw [hiff]
            constructor
            · rintro ⟨p2, m2, h1, h2, h3⟩
              exact ⟨p2, m2, List.mem_cons_of_mem _ h1, h2, h3⟩
            · rintro ⟨p2, m2, h1, h2, h3⟩
              rcases List.mem_cons.mp h1 with h4 | h4
              · cases h4
                rw [hm] at h2
                cases h2
                rw [hmix] at h3
                cases h3
              · exact ⟨p2, m2, h4, h2, h3⟩
        | false =>
          refine ⟨true, ?_, ?_⟩
          · simp [modelExists, hm, hmix]
          · simp only [true_iff]
            exact ⟨ptr, model, List.mem_cons_self _ _, hm, hmix⟩
    · refine ⟨b, ?_, ?_⟩
      · simp [modelExists, hk, hb]
      · rw [hiff]
        constructor
        · rintro ⟨p2, m2, h1, h2, h3⟩
          exact ⟨p2, m2, List.mem_cons_of_mem _ h1, h2, h3⟩
        · rintro ⟨p2, m2, h1, h2, h3⟩
          rcases List.mem_cons.mp h1 with h4 | h4
          · cases h4
            exact absurd rfl hk
          · exact ⟨p2, m2, h4, h2, h3⟩

/-- The third loop of `SyncDatabase`, over the tables `tables`, returns when every table
of the registry is that of a model, and the tables it drops are those of `tables` for
which the registry has no model that is not a mixin. -/
theorem SyncDatabase_third_loop (c : Collaborators) (st : State)
    (hres : ∀ entry ∈ st.Registry.registryByTableName, (st.model entry.2).isSome = true)
    (tables : List String) (d : DB) :
    ∃ d2 new, forEach (dropUnknownTable c st) tables d = Result.done d2 ∧
      d2.statements = d.statements ++ new ∧
      ∀ s, s ∈ new ↔ ∃ T ∈ tables, s = Statement.dropTable T ∧
        ¬ ∃ ptr model, (T, ptr) ∈ st.Registry.registryByTableName ∧
          st.model ptr = some model ∧ model.isMixin = false := by
  obtain ⟨d2, new, h1, e1, m1⟩ := forEach_member
    (fun _ => True)
    (fun (T : String) s => s = Statement.dropTable T ∧
      ¬ ∃ ptr model, (T, ptr) ∈ st.Registry.registryByTableName ∧
        st.model ptr = some model ∧ model.isMixin = false)
    (dropUnknownTable c st) tables
    (by
      intro T _ d1
      obtain ⟨b, hb, hiff⟩ := modelExists_spec st T st.Registry.registryByTableName hres
      unfold dropUnknownTable
      rw [hb]
      cases b with
      | true =>
        refine ⟨d1, [], rfl, by simp, fun s _ => ?_⟩
        have := hiff.mp rfl
        simp only [List.not_mem_nil, false_iff, not_and, not_not]
        exact fun _ => this
      | false =>
        refine ⟨_, [Statement.dropTable T], rfl, rfl, fun s _ => ?_⟩
        have hno : ¬ ∃ ptr model, (T, ptr) ∈ st.Registry.registryByTableName ∧
            st.model ptr = some model ∧ model.isMixin = false := by
          intro h
          have := hiff.mpr h
          cases this
        simp only [List.mem_singleton]
        exact ⟨fun h => ⟨h, hno⟩, fun h => h.1⟩) d
  exact ⟨d2, new, h1, e1, fun s => m1 s trivial⟩

/-- On a registry whose tables resolve and are indexed, the models that
`registryByTableName` has for a table are the models of that table. -/
theorem hasTable_iff (st : State) (htab : st.tablesResolve = true)
    (hidx : st.tablesIndexed = true) (T : String) :
    (∃ ptr model, (T, ptr) ∈ st.Registry.registryByTableName ∧
      st.model ptr = some model ∧ model.isMixin = false) ↔ HasTable st T := by
  constructor
  · rintro ⟨ptr, model, he, hm, hmix⟩
    obtain ⟨model2, hm2, hT, _⟩ := tablesResolve_entry st htab (T, ptr) he
    rw [hm] at hm2
    cases hm2
    exact ⟨ptr, model, hm, hmix, hT⟩
  · rintro ⟨name, model, hm, hmix, hT⟩
    have hkey : name ∈ mapKeys st.Registry.registryByName :=
      (mapGet_isSome_iff _ _).1 (by
        have : mapGet st.Registry.registryByName name = some model := hm
        rw [this]; rfl)
    obtain ⟨e, he, hname⟩ := List.mem_map.mp hkey
    unfold State.tablesIndexed at hidx
    rw [List.all_eq_true] at hidx
    have h1 := hidx e he
    rw [hname, hm] at h1
    simp only [beq_iff_eq] at h1
    rw [hT] at h1
    exact ⟨name, model, mapGet_mem _ _ _ h1, hm, hmix⟩

/-! ## Termination of `injectMixInModel` on the part of the mixin graph that it visits -/

theorem injectBody_locallyRanked (rank : String → Nat) (S W : String → Prop) (st : State)
    (x a : String) (h : LocallyRanked rank S W st) (hx : W x) (ha : W a) :
    ∃ st2, injectBody st x a = some st2 ∧ LocallyRanked rank S W st2 := by
  obtain ⟨mixIn, hmx, hwx⟩ := h.1 x hx
  obtain ⟨target, hma, hwa⟩ := h.1 a ha
  obtain ⟨st2, methods, hb, hmod, hmwf, _, _⟩ :=
    injectBody_total st x a mixIn target hmx hma hwx hwa
  refine ⟨st2, hb, ?_, ?_⟩
  · intro p hp
    by_cases hpa : p = a
    · subst hpa
      exact ⟨_, hmod, hmwf⟩
    · rw [injectBody_model_ne st x a st2 hb p hpa]
      exact h.1 p hp
  · intro p hp
    refine ⟨(h.2 p hp).1, ?_⟩
    intro m hm y hy
    by_cases hpa : p = a
    · subst hpa
      rw [hmod] at hm
      cases hm
      exact (h.2 p hp).2 target hma y hy
    · rw [injectBody_model_ne st x a st2 hb p hpa] at hm
      exact (h.2 p hp).2 m hm y hy

/-- On a part of the registry on which `rank` decreases along `mixins`, `injectMixInModel`
returns as soon as the fuel exceeds the rank of the mixin. -/
theorem injectMixInModel_locally_total (rank : String → Nat) (S W : String → Prop) :
    ∀ (fuel : Nat) (st : State) (x a : String), LocallyRanked rank S W st → S x → W a →
      rank x < fuel →
      ∃ st2, injectMixInModel fuel st x a = some st2 ∧ LocallyRanked rank S W st2 := by
  intro fuel
  induction fuel with
  | zero => intro st x a _ _ _ hr; omega
  | succ fuel ih =>
    intro st x a hwf hx ha hr
    obtain ⟨mixIn, hmx, _⟩ := hwf.1 x (hwf.2 x hx).1
    have hfold : ∀ (l : List String) (s : State), (∀ y ∈ l, y ∈ mixIn.mixins) →
        LocallyRanked rank S W s → Stable st s →
        ∃ s2, l.foldlM (fun s mmm => injectMixInModel fuel s mmm x) s = some s2 ∧
          LocallyRanked rank S W s2 ∧ Stable st s2 := by
      intro l
      induction l with
      | nil => intro s _ hs hst; exact ⟨s, rfl, hs, hst⟩
      | cons y rest ihl =>
        intro s hsub hs hst
        have hy := (hwf.2 x hx).2 mixIn hmx y (hsub y (List.mem_cons_self _ _))
        obtain ⟨s1, h1, hwf1⟩ := ih s y x hs hy.1 (hwf.2 x hx).1 (by omega)
        obtain ⟨s2, h2, hwf2, hst2⟩ := ihl s1
          (fun z hz => hsub z (List.mem_cons_of_mem _ hz)) hwf1
          (hst.trans (injectMixInModel_stable fuel s y x s1 h1))
        refine ⟨s2, ?_, hwf2, hst2⟩
        simp only [List.foldlM_cons, h1, Option.bind_eq_bind, Option.some_bind]
        exact h2
    obtain ⟨st1, hf, hwf1, _⟩ := hfold mixIn.mixins st (fun _ h => h) hwf (Stable.refl st)
    rw [injectMixInModel_succ, hmx]
    simp only [Option.some_bind, hf]
    by_cases hmixed : st1.isMixed a x = true
    · rw [if_pos hmixed]
      exact ⟨st1, rfl, hwf1⟩
    · rw [if_neg hmixed]
      exact injectBody_locallyRanked rank S W st1 x a hwf1 (hwf.2 x hx).1 ha

theorem foldlM_congr_some {α σ : Type} (f g : σ → α → Option σ) :
    ∀ (l : List α), (∀ s a s2, a ∈ l → f s a = some s2 → g s a = some s2) →
      ∀ s s2, l.foldlM f s = some s2 → l.foldlM g s = some s2 := by
  intro l
  induction l with
  | nil => intro _ s s2 h; exact h
  | cons a rest ih =>
    intro hfg s s2 h
    simp only [List.foldlM_cons, Option.bind_eq_bind] at h ⊢
    cases h1 : f s a with
    | none => rw [h1] at h; simp at h
    | some s1 =>
      rw [h1] at h
      rw [hfg s a s1 (List.mem_cons_self _ _) h1]
      exact ih (fun s a s2 ha => hfg s a s2 (List.mem_cons_of_mem _ ha)) s1 s2 h

/-- More fuel does not change what `injectMixInModel` returns. -/
theorem injectMixInModel_fuel_succ :
    ∀ (fuel : Nat) (st : State) (x a : String) (st2 : State),
      injectMixInModel fuel st x a = some st2 →
      injectMixInModel (fuel + 1) st x a = some st2 := by
  intro fuel
  induction fuel with
  | zero => intro st x a st2 h; cases h
  | succ fuel ih =>
    intro st x a st2 h
    rw [injectMixInModel_succ] at h ⊢
    cases hmx : st.model x with
    | none => rw [hmx] at h; simp at h
    | some mixIn =>
      rw [hmx] at h
      simp only [Option.some_bind] at h ⊢
      cases hf : mixIn.mixins.foldlM (fun s mmm => injectMixInModel fuel s mmm x) st with
      | none => rw [hf] at h; simp at h
      | some st1 =>
        rw [hf] at h
        rw [foldlM_congr_some _ (fun s mmm => injectMixInModel (fuel + 1) s mmm x) mixIn.mixins
          (fun s y s2 _ hy => ih s y x s2 hy) st st1 hf]
        exact h

theorem injectMixInModel_fuel_le (fuel fuel2 : Nat) (hle : fuel ≤ fuel2) (st : State)
    (x a : String) (st2 : State) (h : injectMixInModel fuel st x a = some st2) :
    injectMixInModel fuel2 st x a = some st2 := by
  induction hle with
  | refl => exact h
  | step _ ih => exact injectMixInModel_fuel_succ _ st x a st2 ih

/-- A call of `injectMixInModel` on a model whose first mixin leads back to it, through
first mixins, does not return, whatever the fuel and whatever `mixed` records: it makes
the recursive call before anything else. -/
theorem injectMixInModel_cycle (s : State) (D : List String)
    (hD : s.firstMixinWithin D = true) :
    ∀ (fuel : Nat) (y : String), y ∈ D → ∀ b, injectMixInModel fuel s y b = none := by
  intro fuel
  induction fuel with
  | zero => intro y _ b; rfl
  | succ fuel ih =>
    intro y hy b
    unfold State.firstMixinWithin at hD
    rw [List.all_eq_true] at hD
    have h1 := hD y hy
    rw [injectMixInModel_succ]
    cases hm : s.model y with
    | none => rfl
    | some m =>
      rw [hm] at h1
      simp only at h1
      cases hmix : m.mixins with
      | nil => rw [hmix] at h1; simp at h1
      | cons z rest =>
        rw [hmix] at h1
        simp only [decide_eq_true_eq] at h1
        simp only [Option.some_bind, hmix, List.foldlM_cons, Option.bind_eq_bind]
        rw [ih z h1 y]
        rfl

theorem mixinsRanked_locallyRanked (rank : String → Nat) (st : State) (S : List String)
    (a : String) (hS : st.mixinsRanked rank S = true) (ha : st.ready a = true) :
    LocallyRanked rank (fun p => p ∈ S) (fun p => p ∈ S ∨ p = a) st := by
  unfold State.mixinsRanked at hS
  rw [List.all_eq_true] at hS
  have hmem : ∀ p ∈ S, ∃ m, st.model p = some m ∧ m.methods.wellFormed = true ∧
      ∀ y ∈ m.mixins, y ∈ S ∧ rank y < rank p := by
    intro p hp
    have h1 := hS p hp
    cases hm : st.model p with
    | none => rw [hm] at h1; simp at h1
    | some m =>
      rw [hm] at h1
      simp only [Bool.and_eq_true, List.all_eq_true, decide_eq_true_eq] at h1
      exact ⟨m, rfl, h1.1, h1.2⟩
  refine ⟨?_, ?_⟩
  · rintro p (hp | rfl)
    · obtain ⟨m, hm, hw, _⟩ := hmem p hp
      exact ⟨m, hm, hw⟩
    · unfold State.ready at ha
      cases hm : st.model p with
      | none => rw [hm] at ha; simp at ha
      | some m =>
        rw [hm] at ha
        exact ⟨m, rfl, ha⟩
  · intro p hp
    refine ⟨Or.inl hp, ?_⟩
    intro m hm y hy
    obtain ⟨m2, hm2, _, h3⟩ := hmem p hp
    rw [hm] at hm2
    cases hm2
    exact h3 y hy

/-! ## A mixin received through two mixins -/

/-- The branch "the method does not exist in the target": the chain of the target is a
copy of the chain of the mixin, layer by layer, not flagged as mixed in. -/
theorem mixedInMethod_copy (a : String) (methInfo : methodInfo) (ms : List methodLayer)
    (hms : methInfo.invertedLayers = some ms) :
    ∃ e2, mixedInMethod a none methInfo = some e2 ∧
      e2.invertedLayers = some (ms.map (fun l =>
        { funcValue := l.funcValue, mixedIn := false, method := (a, methInfo.name),
          doc := l.doc })) := by
  refine ⟨copyGroups (copyLayers a methInfo ms) methInfo.groups, ?_, ?_⟩
  · simp [mixedInMethod, hms]
  · rw [copyGroups_inverted, (copyLayers_inverted a methInfo ms).1]
    rfl

/-! ## Lemmas on the serialization of conditions -/

theorem polishForm_ne_nil (l : List DomainTerm) (h : PolishForm l) : l ≠ [] := by
  cases h <;> simp

theorem combineDomain_cons (isOr : Bool) (t : DomainTerm) (previous new : List DomainTerm) :
    combineDomain isOr (t :: previous) new =
      if isOr then DomainTerm.operator "|" :: (new ++ (t :: previous))
      else DomainTerm.operator "&" :: ((t :: previous) ++ new) := rfl

theorem combineDomain_polishForm (isOr : Bool) (previous new : List DomainTerm)
    (hp : previous = [] ∨ PolishForm previous) (hn : PolishForm new) :
    PolishForm (combineDomain isOr previous new) := by
  cases previous with
  | nil => exact hn
  | cons t rest =>
    have hp2 : PolishForm (t :: rest) := by
      rcases hp with h | h
      · cases h
      · exact h
    rw [combineDomain_cons]
    cases isOr with
    | true => exact PolishForm.disj _ _ hn hp2
    | false => exact PolishForm.conj _ _ hp2 hn

/-- The serialization of a condition to which no empty condition has been combined is
empty, for the fresh condition, or a prefix form. -/
theorem Serialize_empty_or_polishForm :
    ∀ c : Condition, c.operandsGiven = true →
      (c.isEmpty = true ∧ c.Serialize = []) ∨ (c.isEmpty = false ∧ PolishForm c.Serialize) := by
  intro c
  induction c with
  | empty => intro _; exact Or.inl ⟨rfl, rfl⟩
  | leaf previous isOr p ih =>
    intro h
    have hprev := ih h
    refine Or.inr ⟨rfl, ?_⟩
    show PolishForm (combineDomain isOr previous.Serialize [DomainTerm.term p])
    refine combineDomain_polishForm _ _ _ ?_ (PolishForm.term p)
    rcases hprev with ⟨_, h1⟩ | ⟨_, h1⟩
    · exact Or.inl h1
    · exact Or.inr h1
  | cond previous isOr sub ih1 ih2 =>
    intro h
    simp only [Condition.operandsGiven, Bool.and_eq_true, Bool.not_eq_true'] at h
    have hprev := ih1 h.1.1
    have hsub := ih2 h.1.2
    refine Or.inr ⟨rfl, ?_⟩
    show PolishForm (combineDomain isOr previous.Serialize sub.Serialize)
    refine combineDomain_polishForm _ _ _ ?_ ?_
    · rcases hprev with ⟨_, h1⟩ | ⟨_, h1⟩
      · exact Or.inl h1
      · exact Or.inr h1
    · rcases hsub with ⟨h1, _⟩ | ⟨_, h1⟩
      · rw [h.2] at h1; cases h1
      · exact h1

theorem combineDomain_of_ne_nil (isOr : Bool) (previous new : List DomainTerm)
    (h : previous ≠ []) :
    combineDomain isOr previous new =
      if isOr then DomainTerm.operator "|" :: (new ++ previous)
      else DomainTerm.operator "&" :: (previous ++ new) := by
  cases previous with
  | nil => exact absurd rfl h
  | cons t rest => rfl

/-! ## Lemmas on the joins of a query -/

theorem find_path_some (joins : List tableJoin) (p : List String) (j : tableJoin)
    (h : joins.find? (fun j => j.path == p) = some j) : j ∈ joins ∧ j.path = p := by
  refine ⟨List.mem_of_find?_eq_some h, ?_⟩
  have := List.find?_some h
  simpa using this

theorem find_path_none (joins : List tableJoin) (p : List String)
    (h : joins.find? (fun j => j.path == p) = none) : ∀ j ∈ joins, j.path ≠ p := by
  intro j hj he
  rw [List.find?_eq_none] at h
  have := h j hj
  simp [he] at this

theorem find_path_append (joins ext : List tableJoin) (p : List String) (j : tableJoin)
    (h : joins.find? (fun j => j.path == p) = some j) :
    (joins ++ ext).find? (fun j => j.path == p) = some j := by
  rw [List.find?_append, h]
  rfl

theorem find_path_new (joins ext : List tableJoin) (j : tableJoin)
    (h : joins.find? (fun j2 => j2.path == j.path) = none) :
    (joins ++ [j] ++ ext).find? (fun j2 => j2.path == j.path) = some j := by
  rw [List.append_assoc, List.find?_append, h]
  simp

theorem JoinAt.at_append {root : String} {joins : List tableJoin} {pre : List String}
    {al : String} (h : JoinAt root joins pre al) (ext : List tableJoin) :
    JoinAt root (joins ++ ext) pre al := by
  rcases h with h | ⟨j, hj, h1, h2⟩
  · exact Or.inl h
  · exact Or.inr ⟨j, List.mem_append_left _ hj, h1, h2⟩

theorem isPrefix_dropLast {l1 l2 : List String} (h : l1 <+: l2) (hne : l1 ≠ l2) :
    l1 <+: l2.dropLast := by
  obtain ⟨t, rfl⟩ := h
  have ht : t ≠ [] := by
    intro h0
    apply hne
    rw [h0, List.append_nil]
  rw [List.dropLast_append_of_ne_nil _ ht]
  exact List.prefix_append _ _

/-- The read of a column does not change when joins are added. -/
theorem columnOf_append (st : State) (joins ext : List tableJoin) :
    ∀ (path : List String) (mi al : String) (pre : List String) (e : String × List String),
      columnOf st joins mi al pre path = some e →
      columnOf st (joins ++ ext) mi al pre path = some e := by
  intro path
  induction path with
  | nil => intro mi al pre e h; cases h
  | cons name rest ih =>
    intro mi al pre e h
    simp only [columnOf] at h ⊢
    cases hf : lookupField st mi name with
    | none => rw [hf] at h; cases h
    | some fi =>
      rw [hf] at h
      simp only [Option.some_bind] at h ⊢
      by_cases hr : rest.isEmpty = true
      · rw [if_pos hr] at h ⊢
        exact h
      · rw [if_neg hr] at h ⊢
        cases hrel : fi.relatedModel with
        | none => rw [hrel] at h; cases h
        | some r =>
          rw [hrel] at h
          simp only [Option.some_bind] at h ⊢
          cases hfind : joins.find? (fun j => j.path == pre ++ [fi.json]) with
          | none => rw [hfind] at h; cases h
          | some j =>
            rw [hfind] at h
            rw [find_path_append joins ext _ j hfind]
            simp only [Option.some_bind] at h ⊢
            exact ih r j.tableAlias (pre ++ [fi.json]) e h

/-- The joins of a path: what `addJoins` returns keeps the joins it was given, adds joins
for columns of the path only, under paths not yet known, each linked to its parent, and
the column at the end of the path can be read from them. -/
theorem addJoins_spec (st : State) (root : String) :
    ∀ (path : List String) (mi al : String) (pre : List String) (joins joins2 : List tableJoin),
      JoinsLinked root joins → JoinAt root joins pre al →
      addJoins st mi al pre joins path = some joins2 →
      JoinsLinked root joins2 ∧
      ∃ ext e, joins2 = joins ++ ext ∧
        columnOf st joins2 mi al pre path = some e ∧
        JoinAt root joins2 e.2.dropLast e.1 ∧ pre <+: e.2 ∧ e.2 ≠ pre ∧
        ∀ j ∈ ext, j.path <+: e.2.dropLast := by
  intro path
  induction path with
  | nil => intro mi al pre joins joins2 _ _ h; cases h
  | cons name rest ih =>
    intro mi al pre joins joins2 hl hat h
    simp only [addJoins] at h
    cases hf : lookupField st mi name with
    | none => rw [hf] at h; cases h
    | some fi =>
      rw [hf] at h
      simp only [Option.some_bind] at h
      by_cases hr : rest.isEmpty = true
      · rw [if_pos hr] at h
        cases h
        refine ⟨hl, [], (al, pre ++ [fi.json]), by simp, ?_, ?_, ?_, ?_, ?_⟩
        · simp [columnOf, hf, hr]
        · simpa using hat
        · exact List.prefix_append _ _
        · simp
        · intro j hj; cases hj
      · rw [if_neg hr] at h
        cases hrel : fi.relatedModel with
        | none => rw [hrel] at h; cases h
        | some r =>
          rw [hrel] at h
          simp only [Option.some_bind] at h
          cases hm : st.model r with
          | none => rw [hm] at h; cases h
          | some related =>
            rw [hm] at h
            simp only [Option.some_bind] at h
            cases hfind : joins.find? (fun j => j.path == pre ++ [fi.json]) with
            | some j =>
              rw [hfind] at h
              simp only at h
              obtain ⟨hjmem, hjpath⟩ := find_path_some joins _ j hfind
              obtain ⟨hl2, ext, e, he, hcol, hat2, hpre, hne, hext⟩ :=
                ih r j.tableAlias (pre ++ [fi.json]) joins joins2 hl
                  (Or.inr ⟨j, hjmem, hjpath, rfl⟩) h
              refine ⟨hl2, ext, e, he, ?_, hat2, ?_, ?_, hext⟩
              · simp only [columnOf, hf, Option.some_bind, hr, if_false, hrel]
                rw [he, find_path_append joins ext _ j hfind]
                simp only [Option.some_bind]
                rw [← he]
                exact hcol
              · exact (List.prefix_append _ _).trans hpre
              · intro h0
                rw [h0] at hpre
                have := hpre.length_le
                simp at this
            | none =>
              rw [hfind] at h
              simp only at h
              have hnone := find_path_none joins _ hfind
              have hl1 : JoinsLinked root
                  (joins ++ [{ path := pre ++ [fi.json], tableName := related.tableName,
                               tableAlias := al ++ "__" ++ related.tableName,
                               parentAlias := al, column := fi.json }]) := by
                refine ⟨?_, ?_⟩
                · rw [List.map_append, List.nodup_append]
                  refine ⟨hl.1, by simp, ?_⟩
                  intro p hp1 hp2
                  simp only [List.map_cons, List.map_nil, List.mem_singleton] at hp2
                  obtain ⟨j, hj, hjp⟩ := List.mem_map.mp hp1
                  exact hnone j hj (hjp.trans hp2)
                · intro j hj
                  rcases List.mem_append.mp hj with hj1 | hj1
                  · obtain ⟨h1, h2, h3⟩ := hl.2 j hj1
                    exact ⟨h1, h2, h3.at_append _⟩
                  · simp only [List.mem_singleton] at hj1
                    subst hj1
                    refine ⟨rfl, by simp, ?_⟩
                    simpa using hat.at_append _
              obtain ⟨hl2, ext, e, he, hcol, hat2, hpre, hne, hext⟩ :=
                ih r (al ++ "__" ++ related.tableName) (pre ++ [fi.json]) _ joins2 hl1
                  (Or.inr ⟨_, List.mem_append_right _ (List.mem_singleton.mpr rfl), rfl, rfl⟩) h
              refine ⟨hl2,
                ({ path := pre ++ [fi.json], tableName := related.tableName,
                   tableAlias := al ++ "__" ++ related.tableName,
                   parentAlias := al, column := fi.json } : tableJoin) :: ext,
                e, by rw [he]; simp, ?_, hat2, ?_, ?_, ?_⟩
              · simp only [columnOf, hf, Option.some_bind, hr, if_false, hrel]
                rw [he]
                have := find_path_new joins ext
                  { path := pre ++ [fi.json], tableName := related.tableName,
                    tableAlias := al ++ "__" ++ related.tableName,
                    parentAlias := al, column := fi.json } hfind
                rw [this]
                simp only [Option.some_bind]
                rw [← he]
                exact hcol
              · exact (List.prefix_append _ _).trans hpre
              · intro h0
                rw [h0] at hpre
                have := hpre.length_le
                simp at this
              · intro j hj
                rcases List.mem_cons.mp hj with hj1 | hj1
                · subst hj1
                  exact isPrefix_dropLast hpre (fun h0 => hne h0.symm)
                · exact hext j hj1

/-- A path that designates a field has joins. -/
theorem addJoins_total (st : State) :
    ∀ (path : List String) (mi : String), pathResolves st mi path = true →
      ∀ (al : String) (pre : List String) (joins : List tableJoin),
        ∃ joins2, addJoins st mi al pre joins path = some joins2 := by
  intro path
  induction path with
  | nil => intro mi h; cases h
  | cons name rest ih =>
    intro mi h al pre joins
    simp only [pathResolves] at h
    simp only [addJoins]
    cases hf : lookupField st mi name with
    | none => rw [hf] at h; cases h
    | some fi =>
      rw [hf] at h
      simp only at h
      simp only [Option.some_bind]
      by_cases hr : rest.isEmpty = true
      · rw [if_pos hr]
        exact ⟨joins, rfl⟩
      · rw [if_neg hr] at h ⊢
        cases hrel : fi.relatedModel with
        | none => rw [hrel] at h; cases h
        | some r =>
          rw [hrel] at h
          simp only [Bool.and_eq_true] at h
          simp only [Option.some_bind]
          cases hm : st.model r with
          | none => rw [hm] at h; simp at h
          | some related =>
            simp only [Option.some_bind]
            cases joins.find? (fun j => j.path == pre ++ [fi.json]) with
            | some j =>
              simp only
              exact ih r h.2 _ _ _
            | none =>
              simp only
              exact ih r h.2 _ _ _

theorem joinsLinked_nil (root : String) : JoinsLinked root [] :=
  ⟨by simp, fun j hj => by cases hj⟩

/-- The joins of a list of paths: distinct, linked, and such that the column at the end of
each path can be read from them; each join is on the way of one of the paths. -/
theorem joins_fold_spec (st : State) (root mi : String) :
    ∀ (paths : List (List String)) (joins joins2 : List tableJoin),
      JoinsLinked root joins →
      paths.foldlM (fun js path => addJoins st mi root [] js path) joins = some joins2 →
      JoinsLinked root joins2 ∧
      ∃ ext, joins2 = joins ++ ext ∧
        (∀ p ∈ paths, ∃ e, columnOf st joins2 mi root [] p = some e ∧
          JoinAt root joins2 e.2.dropLast e.1) ∧
        (∀ j ∈ ext, ∃ p ∈ paths, ∃ e, columnOf st joins2 mi root [] p = some e ∧
          j.path <+: e.2.dropLast) := by
  intro paths
  induction paths with
  | nil =>
    intro joins joins2 hl h
    simp only [List.foldlM_nil, Option.pure_def, Option.some.injEq] at h
    subst h
    exact ⟨hl, [], by simp, fun p hp => (by cases hp), fun j hj => (by cases hj)⟩
  | cons p rest ih =>
    intro joins joins2 hl h
    simp only [List.foldlM_cons, Option.bind_eq_bind] at h
    cases h1 : addJoins st mi root [] joins p with
    | none => rw [h1] at h; cases h
    | some joins1 =>
      rw [h1] at h
      simp only [Option.some_bind] at h
      obtain ⟨hl1, ext1, e, he1, hcol, hat, _, _, hext1⟩ :=
        addJoins_spec st root p mi root [] joins joins1 hl (Or.inl ⟨rfl, rfl⟩) h1
      obtain ⟨hl2, ext2, he2, hpaths, hext2⟩ := ih joins1 joins2 hl1 h
      have hcol2 : columnOf st joins2 mi root [] p = some e := by
        rw [he2]
        exact columnOf_append st joins1 ext2 p mi root [] e hcol
      refine ⟨hl2, ext1 ++ ext2, by rw [he2, he1, List.append_assoc], ?_, ?_⟩
      · intro p2 hp2
        rcases List.mem_cons.mp hp2 with h3 | h3
        · subst h3
          refine ⟨e, hcol2, ?_⟩
          rw [he2]
          exact hat.at_append _
        · exact hpaths p2 h3
      · intro j hj
        rcases List.mem_append.mp hj with h3 | h3
        · exact ⟨p, List.mem_cons_self _ _, e, hcol2, hext1 j h3⟩
        · obtain ⟨p2, hp2, e2, h4, h5⟩ := hext2 j h3
          exact ⟨p2, List.mem_cons_of_mem _ hp2, e2, h4, h5⟩

theorem joins_fold_total (st : State) (root mi : String) :
    ∀ (paths : List (List String)), (∀ p ∈ paths, pathResolves st mi p = true) →
      ∀ joins : List tableJoin,
        ∃ joins2, paths.foldlM (fun js path => addJoins st mi root [] js path) joins
          = some joins2 := by
  intro paths
  induction paths with
  | nil => intro _ joins; exact ⟨joins, rfl⟩
  | cons p rest ih =>
    intro h joins
    obtain ⟨joins1, h1⟩ := addJoins_total st p mi (h p (List.mem_cons_self _ _)) root [] joins
    obtain ⟨joins2, h2⟩ := ih (fun p2 hp2 => h p2 (List.mem_cons_of_mem _ hp2)) joins1
    refine ⟨joins2, ?_⟩
    simp only [List.foldlM_cons, Option.bind_eq_bind, h1, Option.some_bind]
    exact h2

/-- Every column of the path of a join has a join. -/
theorem joins_closed (root : String) (joins : List tableJoin) (hl : JoinsLinked root joins) :
    ∀ (n : Nat), ∀ j ∈ joins, j.path.length ≤ n → ∀ pre, pre <+: j.path → pre ≠ [] →
      ∃ j2 ∈ joins, j2.path = pre := by
  intro n
  induction n with
  | zero =>
    intro j hj hlen pre _ _
    have := (hl.2 j hj).2.1
    have h0 : j.path = [] := List.length_eq_zero.mp (Nat.le_zero.mp hlen)
    exact absurd h0 this
  | succ n ih =>
    intro j hj hlen pre hpre hne
    by_cases heq : pre = j.path
    · exact ⟨j, hj, heq.symm⟩
    · have hp2 := isPrefix_dropLast hpre heq
      rcases (hl.2 j hj).2.2 with ⟨h0, _⟩ | ⟨j0, hj0, hpath0, _⟩
      · rw [h0] at hp2
        exact absurd (List.prefix_nil.mp hp2) hne
      · refine ih j0 hj0 ?_ pre (by rw [hpath0]; exact hp2) hne
        rw [hpath0, List.length_dropLast]
        omega

theorem collect_map {α β : Type} (f : α → Option β) :
    ∀ l : List α, (∀ a ∈ l, ∃ b, f a = some b) →
      ∃ bs, collect (l.map f) = some bs ∧ l.map f = bs.map some := by
  intro l
  induction l with
  | nil => intro _; exact ⟨[], rfl, rfl⟩
  | cons a rest ih =>
    intro h
    obtain ⟨b, hb⟩ := h a (List.mem_cons_self _ _)
    obtain ⟨bs, h1, h2⟩ := ih (fun a2 ha2 => h a2 (List.mem_cons_of_mem _ ha2))
    refine ⟨b :: bs, ?_, ?_⟩
    · simp only [List.map_cons, hb, collect, h1, Option.map_some']
    · simp only [List.map_cons, hb, h2]

theorem connectorParts_spec (previous : List (String × Option Value)) (isOr : Bool) :
    (connectorParts previous isOr).filterMap (fun part => part.2) = [] ∧
    ∀ part ∈ connectorParts previous isOr, WherePart part := by
  unfold connectorParts
  by_cases hp : previous.isEmpty = true
  · rw [if_pos hp]
    exact ⟨rfl, fun part h => (by cases h)⟩
  · rw [if_neg hp]
    refine ⟨rfl, fun part h => ?_⟩
    simp only [List.mem_singleton] at h
    subst h
    cases isOr with
    | true => exact Or.inl ⟨rfl, Or.inr (Or.inl rfl)⟩
    | false => exact Or.inl ⟨rfl, Or.inl rfl⟩

/-- The WHERE clause of a condition whose paths have a column: its parts are combinators,
parentheses and predicates with one placeholder each, and the values bound are those of
the predicates, in the order of the placeholders. -/
theorem sqlParts_spec (lhs : List String → Option String) :
    ∀ c : Condition, (∀ p ∈ c.paths, ∃ e, lhs p = some e) →
      ∃ parts, c.sqlParts lhs = some parts ∧
        parts.filterMap (fun part => part.2) = c.args ∧ ∀ part ∈ parts, WherePart part := by
  intro c
  induction c with
  | empty => intro _; exact ⟨[], rfl, rfl, fun part h => (by cases h)⟩
  | leaf previous isOr p ih =>
    intro h
    obtain ⟨parts, h1, h2, h3⟩ := ih (fun p2 hp2 => h p2 (by
      simp only [Condition.paths, List.mem_append]; exact Or.inl hp2))
    obtain ⟨e, he⟩ := h p.exprs (by simp [Condition.paths])
    obtain ⟨hc1, hc2⟩ := connectorParts_spec parts isOr
    refine ⟨parts ++ connectorParts parts isOr ++
        [(e ++ " " ++ p.operator.sql ++ " ? ", some p.sqlArg)],
      by simp only [Condition.sqlParts, h1, Option.some_bind, he, Option.map_some'], ?_, ?_⟩
    · simp only [List.filterMap_append, h2, hc1, List.append_nil, Condition.args]
      rfl
    · intro part hpart
      simp only [List.mem_append, List.mem_singleton] at hpart
      rcases hpart with (h4 | h4) | h4
      · exact h3 part h4
      · exact hc2 part h4
      · exact Or.inr ⟨e, p.operator, p.sqlArg, h4⟩
  | cond previous isOr sub ih1 ih2 =>
    intro h
    obtain ⟨parts, h1, h2, h3⟩ := ih1 (fun p2 hp2 => h p2 (by
      simp only [Condition.paths, List.mem_append]; exact Or.inl hp2))
    obtain ⟨subParts, s1, s2, s3⟩ := ih2 (fun p2 hp2 => h p2 (by
      simp only [Condition.paths, List.mem_append]; exact Or.inr hp2))
    obtain ⟨hc1, hc2⟩ := connectorParts_spec parts isOr
    refine ⟨parts ++ connectorParts parts isOr ++ [("(", none)] ++ subParts ++ [(") ", none)],
      by simp only [Condition.sqlParts, h1, Option.some_bind, s1, Option.map_some'], ?_, ?_⟩
    · simp only [List.filterMap_append, h2, hc1, s2, List.append_nil, Condition.args]
      simp
    · intro part hpart
      simp only [List.mem_append, List.mem_singleton] at hpart
      rcases hpart with (((h4 | h4) | h4) | h4) | h4
      · exact h3 part h4
      · exact hc2 part h4
      · subst h4; exact Or.inl ⟨rfl, Or.inr (Or.inr (Or.inl rfl))⟩
      · exact s3 part h4
      · subst h4; exact Or.inl ⟨rfl, Or.inr (Or.inr (Or.inr rfl))⟩

/-! ## The order of the injections -/

/-- A loop that may fail, followed with the elements it has gone through. -/
theorem foldlM_turns {α σ : Type} (f : σ → α → Option σ) (Q : List α → σ → Prop) :
    ∀ (post pre : List α) (s s2 : σ), Q pre s →
      (∀ pre2 y post2 t t2, pre ++ post = pre2 ++ y :: post2 → Q pre2 t → f t y = some t2 →
        Q (pre2 ++ [y]) t2) →
      post.foldlM f s = some s2 → Q (pre ++ post) s2 := by
  intro post
  induction post with
  | nil =>
    intro pre s s2 hs _ hf
    simp at hf
    subst hf
    simpa using hs
  | cons a rest ih =>
    intro pre s s2 hs hstep hf
    simp only [List.foldlM_cons] at hf
    cases h1 : f s a with
    | none => rw [h1] at hf; simp at hf
    | some s1 =>
      rw [h1] at hf
      simp only [Option.bind_eq_bind, Option.some_bind] at hf
      have hs1 : Q (pre ++ [a]) s1 := hstep pre a rest s s1 rfl hs h1
      have := ih (pre ++ [a]) s1 s2 hs1
        (fun pre2 y post2 t t2 he => hstep pre2 y post2 t t2 (by simpa using he)) hf
      simpa using this

theorem InTurn.mono {s s2 : State} {x a : String} (h : InTurn s x a) (hst : Stable s s2) :
    InTurn s2 x a := by
  obtain ⟨ma, pre, post, hm, hmix, hpre⟩ := h
  obtain ⟨m2, hm2, hstat⟩ := hst.model_some a ma hm
  exact ⟨m2, pre, post, hm2, by rw [static_mixins hstat]; exact hmix,
    fun w hw => hst.1 a w (hpre w hw)⟩

/-- The calls of a loop over the mixins that a model declares come each in its turn. -/
theorem inject_fold_turns (fuel : Nat) (I : State → Prop)
    (hcall : ∀ s x a s2, I s → InTurn s x a → injectMixInModel fuel s x a = some s2 → I s2)
    (a : String) (m : Model) (s s2 : State) (hm : s.model a = some m) (hs : I s)
    (hf : m.mixins.foldlM (fun t y => injectMixInModel fuel t y a) s = some s2) :
    I s2 ∧ Stable s s2 := by
  have := foldlM_turns (fun t y => injectMixInModel fuel t y a)
    (fun pre t => I t ∧ Stable s t ∧ ∀ w ∈ pre, t.isMixed a w = true)
    m.mixins [] s s2 ⟨hs, Stable.refl s, fun w hw => by cases hw⟩
    (fun pre2 y post2 t t2 he ht hft => by
      obtain ⟨hIt, hst, hfl⟩ := ht
      obtain ⟨mt, hmt, hstat⟩ := hst.model_some a m hm
      have hst2 := injectMixInModel_stable fuel t y a t2 hft
      refine ⟨hcall t y a t2 hIt ⟨mt, pre2, post2, hmt, ?_, hfl⟩ hft, hst.trans hst2, ?_⟩
      · rw [static_mixins hstat]; simpa using he
      · intro w hw
        rcases List.mem_append.mp hw with h | h
        · exact hst2.1 a w (hfl w h)
        · rw [List.mem_singleton.mp h]
          exact injectMixInModel_isMixed fuel t y a t2 hft) hf
  exact ⟨this.1, this.2.1⟩

/-- Invariants of `injectMixInModel`, third form: when the body runs for the couple
(`x`, `a`), every mixin of `x` is recorded as injected into `x`, and so is into `a` every
mixin that `a` declares before `x`. -/
theorem inject_turns (I : State → Prop)
    (hbody : ∀ s x a s2, I s → InTurn s x a → s.isMixed a x = false →
      (∀ mixIn, s.model x = some mixIn → ∀ mmm ∈ mixIn.mixins, s.isMixed x mmm = true) →
      injectBody s x a = some s2 → I s2) :
    ∀ (fuel : Nat) (s : State) (x a : String) (s2 : State), I s → InTurn s x a →
      injectMixInModel fuel s x a = some s2 → I s2 := by
  intro fuel
  induction fuel with
  | zero => intro s x a s2 _ _ h; simp [injectMixInModel] at h
  | succ fuel ih =>
    intro s x a s2 hI hT h
    obtain ⟨mixIn, s1, hx, hf, hc⟩ := injectMixInModel_some fuel s x a s2 h
    obtain ⟨hI1, hst1⟩ := inject_fold_turns fuel I ih x mixIn s s1 hx hI hf
    rcases hc with ⟨_, he⟩ | ⟨hnm, hb⟩
    · rw [he]; exact hI1
    · refine hbody s1 x a s2 hI1 (hT.mono hst1) hnm ?_ hb
      intro mixIn1 hx1 mmm hm
      obtain ⟨mx, hmx, hstat⟩ := hst1.model_some_rev x mixIn1 hx1
      rw [hx] at hmx
      cases hmx
      exact inject_fold_isMixed fuel x mixIn.mixins s s1 hf mmm
        (by rw [static_mixins hstat]; exact hm)

/-- An invariant of the bodies that run in their turn is an invariant of one iteration of
`inflateMixIns`. -/
theorem inflateModel_turns (I : State → Prop)
    (hbody : ∀ s x a s2, I s → InTurn s x a → s.isMixed a x = false →
      (∀ mixIn, s.model x = some mixIn → ∀ mmm ∈ mixIn.mixins, s.isMixed x mmm = true) →
      injectBody s x a = some s2 → I s2)
    (fuel : Nat) (s : State) (mi : String) (s2 : State) (hs : I s)
    (h : inflateModel fuel s mi = some s2) : I s2 := by
  obtain ⟨m, hm, hc⟩ := inflateModel_cases fuel s mi s2 h
  rcases hc with ⟨_, he⟩ | ⟨_, hf⟩
  · rw [he]; exact hs
  · exact (inject_fold_turns fuel I (inject_turns I hbody fuel) mi m s s2 hm hs hf).1

/-! ## The chain of a method that its model declares, under injections -/

theorem mixedLayer_congr (e emi : methodInfo) (h1 : e.model = emi.model)
    (h2 : e.name = emi.name) : e.mixedLayer = emi.mixedLayer := by
  funext l
  simp [methodInfo.mixedLayer, h1, h2]

theorem mixedLayer_mixedLayer (e e2 : methodInfo) (l : methodLayer) :
    e.mixedLayer (e2.mixedLayer l) = e.mixedLayer l := rfl

theorem mixedLayer_mixedIn (e : methodInfo) (l : methodLayer) :
    (e.mixedLayer l).mixedIn = true := rfl

/-- Splice of the chain `ms` of a mixin into a method with layers of its own `ts` above a
band `bs` of mixed-in layers. -/
theorem mixedInMethod_band (a : String) (emi methInfo : methodInfo)
    (ms bs ts : List methodLayer) (hms : methInfo.invertedLayers = some ms)
    (hch : emi.invertedLayers = some (bs ++ ts)) (hts : ts ≠ [])
    (hown : ∀ l ∈ ts, l.mixedIn = false) (hB : ∀ l ∈ bs, l.mixedIn = true) :
    ∃ e2, mixedInMethod a (some emi) methInfo = some e2 ∧ e2.topLayer = emi.topLayer ∧
      e2.model = emi.model ∧ e2.name = emi.name ∧
      e2.invertedLayers = some (bs ++ ms.map emi.mixedLayer ++ ts) := by
  obtain ⟨e1, h1, h2, h3, h4, h5, _⟩ := spliceLayers_inverted emi ms bs ts hch hts hown hB
  obtain ⟨_, p2, _, p4, p5⟩ := copyGroups_proj methInfo.groups e1
  refine ⟨copyGroups e1 methInfo.groups, ?_, ?_, ?_, ?_, ?_⟩
  · simp [mixedInMethod, hms, h1]
  · rw [p2, h2]
  · rw [p5, h5]
  · rw [p4, h4]
  · rw [copyGroups_inverted, h3]

theorem OwnChain.congr {s s2 : State} {A X : String} {emi : methodInfo}
    {ts B : List methodLayer} (h : OwnChain s A X emi ts B) (hm : s2.model A = s.model A) :
    OwnChain s2 A X emi ts B := by
  obtain ⟨e, he, hrest⟩ := h
  exact ⟨e, by unfold State.method at he ⊢; rw [hm]; exact he, hrest⟩

/-- What the body of `injectMixInModel` does to the chain of a method of the target that
has layers of its own: the chain of the mixin's method, if it has that method, goes above
the band of the mixed-in layers and below the layers that the target declared. -/
theorem injectBody_ownChain (rank : String → Nat) (s : State) (x a : String) (s2 : State)
    (X : String) (emi : methodInfo) (ts B : List methodLayer) (hwf : WFp rank s)
    (hb : injectBody s x a = some s2) (hch : OwnChain s a X emi ts B) (hts : ts ≠ [])
    (hown : ∀ l ∈ ts, l.mixedIn = false) :
    ∃ B2, OwnChain s2 a X emi ts B2 ∧
      ((s.method x X = none ∧ B2 = B) ∨
        ∃ ex ms, s.method x X = some ex ∧ ex.invertedLayers = some ms ∧
          B2 = B ++ ms.map emi.mixedLayer) := by
  obtain ⟨mx, ma, _, hx, ha, _, _⟩ := injectBody_eq s x a s2 hb
  obtain ⟨s4, methods, hb4, hmod, _, habs, hget⟩ :=
    injectBody_total s x a mx ma hx ha (hwf x mx hx).1 (hwf a ma ha).1
  rw [hb] at hb4
  cases hb4
  obtain ⟨e, he, htop, hmodel, hname, hinv, hB⟩ := hch
  have he2 : mapGet ma.methods.registry X = some e := by
    unfold State.method at he
    rw [ha] at he
    exact he
  cases hmx : mapGet mx.methods.registry X with
  | none =>
    refine ⟨B, ⟨e, ?_, htop, hmodel, hname, hinv, hB⟩, Or.inl ⟨?_, rfl⟩⟩
    · unfold State.method
      rw [hmod]
      simp only [Option.some_bind]
      rw [habs X ((mapGet_eq_none_iff _ _).1 hmx)]
      exact he2
    · unfold State.method
      rw [hx]
      exact hmx
  | some ex =>
    have hwfx : ex.wellFormed = true :=
      ((methodsWellFormed_iff _).1 (hwf x mx hx).1).1 (X, ex) (mapGet_mem _ _ _ hmx)
    obtain ⟨l, ls, hms⟩ := (wellFormed_iff ex).1 hwfx
    obtain ⟨e2, h1, h2, h3, h4, h5⟩ :=
      mixedInMethod_band a e ex (l :: ls) B ts hms hinv hts hown hB
    refine ⟨B ++ (l :: ls).map emi.mixedLayer, ⟨e2, ?_, ?_, ?_, ?_, ?_, ?_⟩,
      Or.inr ⟨ex, l :: ls, ?_, hms, rfl⟩⟩
    · unfold State.method
      rw [hmod]
      simp only [Option.some_bind]
      rw [hget X ex hmx, he2, h1]
    · rw [h2, htop]
    · rw [h3, hmodel]
    · rw [h4, hname]
    · rw [h5, mixedLayer_congr e emi hmodel hname]
    · intro l2 hl2
      rcases List.mem_append.mp hl2 with h | h
      · exact hB l2 h
      · obtain ⟨l3, _, hl3⟩ := List.mem_map.mp h
        rw [← hl3]
        rfl
    · unfold State.method
      rw [hx]
      exact hmx

/-- The body of `injectMixInModel` leaves the models other than its target as they are,
with the injections recorded for them. -/
theorem injectBody_other (s : State) (x a : String) (s2 : State)
    (hb : injectBody s x a = some s2) (P : String) (hP : P ≠ a) :
    s2.model P = s.model P ∧ ∀ q, s2.isMixed P q = s.isMixed P q :=
  ⟨injectBody_model_ne s x a s2 hb P hP,
    fun q => (injectBody_isMixed s x a s2 hb).2 P q (by intro h; cases h; exact hP rfl)⟩

/-- A list that ends with `y` and has `y` nowhere else is cut at `y` in one way only. -/
theorem append_singleton_cut {α : Type} (pre pre2 post2 : List α) (y : α) (hy : y ∉ pre)
    (h : pre ++ [y] = pre2 ++ y :: post2) : pre2 = pre ∧ post2 = [] := by
  rcases List.eq_nil_or_concat post2 with h0 | ⟨L, b, hL⟩
  · subst h0
    exact ⟨(List.append_cancel_right h).symm, rfl⟩
  · exfalso
    rw [hL] at h
    have h2 : pre ++ [y] = (pre2 ++ y :: L) ++ [b] := by rw [h]; simp
    have := (List.append_inj' h2 rfl).1
    exact hy (by rw [this]; simp)

/-! ## The claims -/

theorem fieldsKeyed_iff (st : State) :
    st.fieldsKeyed = true ↔
      ∀ e ∈ st.Registry.registryByName, ∀ x ∈ e.2.fields.registryByName, x.2.name = x.1 := by
  simp [State.fieldsKeyed, List.all_eq_true]

theorem fieldsKeyed_model (st : State) (h : st.fieldsKeyed = true) (p : String) (m : Model)
    (hm : st.model p = some m) : ∀ x ∈ m.fields.registryByName, x.2.name = x.1 :=
  (fieldsKeyed_iff st).1 h (p, m) (mapGet_mem _ _ _ hm)

theorem injectBody_fieldsKeyed (st : State) (x a : String) (st2 : State)
    (hk : st.fieldsKeyed = true) (h : injectBody st x a = some st2) :
    st2.fieldsKeyed = true := by
  obtain ⟨mixIn, target, methods, hx, ha, _, he⟩ := injectBody_eq st x a st2 h
  subst he
  rw [fieldsKeyed_iff]
  intro e he
  simp only [State.setModel] at he
  rcases mem_mapSet _ _ _ _ he with h1 | h1
  · exact (fieldsKeyed_iff st).1 hk e h1
  · rw [h1]
    exact injectFields_keyed a _ _ (fieldsKeyed_model st hk x mixIn hx)
      (fieldsKeyed_model st hk a target ha)

theorem injectBody_field_kept (st : State) (x a : String) (st2 : State)
    (hk : st.fieldsKeyed = true) (h : injectBody st x a = some st2)
    (A F : String) (f : Field)
    (hA : ∃ m, st.model A = some m ∧ mapGet m.fields.registryByName F = some f) :
    ∃ m, st2.model A = some m ∧ mapGet m.fields.registryByName F = some f := by
  obtain ⟨m, hm, hf⟩ := hA
  by_cases hAa : A = a
  · subst hAa
    obtain ⟨mixIn, target, methods, hx, ha, _, he⟩ := injectBody_eq st x A st2 h
    subst he
    rw [hm] at ha
    cases ha
    refine ⟨_, model_setModel_self _ _ _, ?_⟩
    exact injectFields_get_present A F f _ _ (fieldsKeyed_model st hk x mixIn hx) hf
  · rw [injectBody_model_ne st x a st2 h A hAa]
    exact ⟨m, hm, hf⟩

/-- C1. A field that the target model has before the injection of a mixin is kept as it
is: if model `A` has the field `F` with descriptor `f`, then after
`injectMixInModel(M, A)`, and after `inflateMixIns` as a whole, `A` still binds `F` to
`f`, whatever the mixins declare under that name.  Every field of the registry is
registered under its own name (`fieldsKeyed`), as `fields.add` registers it. -/
theorem injectMixInModel_keeps_target_field (fuel : Nat) (st : State) (M A F : String)
    (a : Model) (f : Field) (hkeyed : st.fieldsKeyed = true) (hA : st.model A = some a)
    (hF : mapGet a.fields.registryByName F = some f) :
    (∀ st2, injectMixInModel fuel st M A = some st2 →
      ∃ a2, st2.model A = some a2 ∧ mapGet a2.fields.registryByName F = some f) ∧
    (∀ st2, inflateMixIns fuel st = some st2 →
      ∃ a2, st2.model A = some a2 ∧ mapGet a2.fields.registryByName F = some f) := by
  have hinj : ∀ (s : State) (x t : String) (s2 : State),
      (s.fieldsKeyed = true ∧
        ∃ m, s.model A = some m ∧ mapGet m.fields.registryByName F = some f) →
      injectMixInModel fuel s x t = some s2 →
      (s2.fieldsKeyed = true ∧
        ∃ m, s2.model A = some m ∧ mapGet m.fields.registryByName F = some f) := by
    intro s x t s2 hs h
    exact inject_ind
      (fun s => s.fieldsKeyed = true ∧
        ∃ m, s.model A = some m ∧ mapGet m.fields.registryByName F = some f)
      (fun _ _ => True) (fun _ _ _ _ _ _ _ _ _ => trivial)
      (fun s x t s2 hs _ _ hb =>
        ⟨injectBody_fieldsKeyed s x t s2 hs.1 hb,
         injectBody_field_kept s x t s2 hs.1 hb A F f hs.2⟩)
      fuel s x t s2 hs trivial h
  constructor
  · intro st2 h
    exact (hinj st M A st2 ⟨hkeyed, a, hA, hF⟩ h).2
  · intro st2 h
    exact (inflateMixIns_inv
      (fun s => s.fieldsKeyed = true ∧
        ∃ m, s.model A = some m ∧ mapGet m.fields.registryByName F = some f)
      fuel st st2 (fun s mi _ mixInMI s2 hs _ _ _ hf => hinj s mixInMI mi s2 hs hf)
      ⟨hkeyed, a, hA, hF⟩ h).2

/-- Witness of C1: `Profile` and `AddressMixIn` both declare `City`; after the injection
of `AddressMixIn`, and after `inflateMixIns`, `Profile.City` is the field `Profile`
declared. -/
theorem injectMixInModel_keeps_target_field_witness :
    (∃ st2 a2, injectMixInModel 2 testmodule.declared "AddressMixIn" "Profile" = some st2 ∧
      st2.model "Profile" = some a2 ∧
      mapGet a2.fields.registryByName "City"
        = some (testmodule.declareField "Profile" "City" "city" "char")) ∧
    (∃ st2 a2, inflateMixIns 3 testmodule.declared = some st2 ∧
      st2.model "Profile" = some a2 ∧
      mapGet a2.fields.registryByName "City"
        = some (testmodule.declareField "Profile" "City" "city" "char")) := by
  have h1 : (injectMixInModel 2 testmodule.declared "AddressMixIn" "Profile").isSome = true := by
    decide
  have h2 : (inflateMixIns 3 testmodule.declared).isSome = true := by decide
  obtain ⟨s1, hs1⟩ := Option.isSome_iff_exists.1 h1
  obtain ⟨s2, hs2⟩ := Option.isSome_iff_exists.1 h2
  constructor
  · have := (injectMixInModel_keeps_target_field 2 testmodule.declared "AddressMixIn"
      "Profile" "City" testmodule.profile
      (testmodule.declareField "Profile" "City" "city" "char")
      (by decide) (by decide) (by decide)).1 s1 hs1
    obtain ⟨a2, ha2, hf⟩ := this
    exact ⟨s1, a2, hs1, ha2, hf⟩
  · have := (injectMixInModel_keeps_target_field 3 testmodule.declared "AddressMixIn"
      "Profile" "City" testmodule.profile
      (testmodule.declareField "Profile" "City" "city" "char")
      (by decide) (by decide) (by decide)).2 s2 hs2
    obtain ⟨a2, ha2, hf⟩ := this
    exact ⟨s2, a2, hs2, ha2, hf⟩

/-- C7. `injectMixInModel` is idempotent per (model, mixin) couple: once a call
`injectMixInModel(M, A)` has returned the state `st2`, the couple is recorded in `mixed`
and the same call made again returns `st2` itself, so that the fields and the method
chains of `A` and the registries of `M` (and all the rest of the state) are unchanged and
no layer is inserted twice. -/
theorem injectMixInModel_idempotent (fuel : Nat) (st : State) (M A : String) (st2 : State)
    (h : injectMixInModel fuel st M A = some st2) :
    st2.isMixed A M = true ∧ injectMixInModel fuel st2 M A = some st2 :=
  ⟨injectMixInModel_isMixed fuel st M A st2 h,
   injectMixInModel_again fuel st M A st2 h st2 (Stable.refl st2)⟩

/-- Witness of C7: `AddressMixIn` is injected into `Profile` of the test module; a second
injection returns the same state. -/
theorem injectMixInModel_idempotent_witness :
    ∃ st2, injectMixInModel 2 testmodule.declared "AddressMixIn" "Profile" = some st2 ∧
      st2.model "Profile" ≠ testmodule.declared.model "Profile" ∧
      st2.isMixed "Profile" "AddressMixIn" = true ∧
      injectMixInModel 2 st2 "AddressMixIn" "Profile" = some st2 := by
  have h1 : ((injectMixInModel 2 testmodule.declared "AddressMixIn" "Profile").bind
      (fun s => if s.model "Profile" = testmodule.declared.model "Profile" then none
        else some s)).isSome = true := by decide
  obtain ⟨s1, hs1⟩ := Option.isSome_iff_exists.1 h1
  cases hinj : injectMixInModel 2 testmodule.declared "AddressMixIn" "Profile" with
  | none => rw [hinj] at hs1; simp at hs1
  | some st2 =>
    rw [hinj] at hs1
    simp only [Option.some_bind] at hs1
    have hne : st2.model "Profile" ≠ testmodule.declared.model "Profile" := by
      intro he
      rw [if_pos he] at hs1
      cases hs1
    have := injectMixInModel_idempotent 2 testmodule.declared "AddressMixIn" "Profile" st2 hinj
    exact ⟨st2, rfl, hne, this.1, this.2⟩

theorem mixedInElsewhere_false (st : State) (L : String)
    (h : st.mixedInElsewhere L = false) (p : String) (mp : Model)
    (hp : st.model p = some mp) (hne : p ≠ L) : L ∉ mp.mixins := by
  intro hmem
  have hin := mapGet_mem _ _ _ hp
  have : st.mixedInElsewhere L = true := by
    simp only [State.mixedInElsewhere, List.any_eq_true]
    exact ⟨(p, mp), hin, by simp [hne, hmem]⟩
  rw [h] at this
  cases this

/-- C8. A many-to-many link model that no other model declares as a mixin is exempt from
mixin injection: `inflateMixIns` injects none of the mixins it declares, and the model
(its field registry and its method registry included) is the same after `inflateMixIns`
as before. -/
theorem inflateMixIns_skips_m2m_link (fuel : Nat) (st st2 : State) (L : String) (m : Model)
    (hL : st.model L = some m) (hlink : m.isM2MLink = true)
    (hunused : st.mixedInElsewhere L = false)
    (h : inflateMixIns fuel st = some st2) : st2.model L = some m := by
  have hinj : ∀ (s : State) (x t : String) (s2 : State),
      (s.model L = some m ∧ Stable st s) → (x ≠ L ∧ t ≠ L) →
      injectMixInModel fuel s x t = some s2 → (s2.model L = some m ∧ Stable st s2) := by
    intro s x t s2 hs hD hf
    refine inject_ind (fun s => s.model L = some m ∧ Stable st s)
      (fun x t => x ≠ L ∧ t ≠ L) ?_ ?_ fuel s x t s2 hs hD hf
    · intro s x t mixIn mmm hs hD hx hmem
      obtain ⟨mx, hmx, hstat⟩ := hs.2.model_some_rev x mixIn hx
      refine ⟨?_, hD.1⟩
      intro he
      subst he
      exact mixedInElsewhere_false st mmm hunused x mx hmx hD.1
        (by rw [static_mixins hstat]; exact hmem)
    · intro s x t s2 hs hD _ hb
      refine ⟨?_, hs.2.trans (injectBody_stable s x t s2 hb)⟩
      rw [injectBody_model_ne s x t s2 hb L (fun he => hD.2 he.symm)]
      exact hs.1
  refine (inflateMixIns_inv (fun s => s.model L = some m ∧ Stable st s) fuel st st2 ?_
    ⟨hL, Stable.refl st⟩ h).1
  intro s mi mm mixInMI s2 hs hmi hnl hmem hf
  have hmiL : mi ≠ L := by
    intro he
    subst he
    rw [hs.1] at hmi
    cases hmi
    rw [hlink] at hnl
    cases hnl
  obtain ⟨mx, hmx, hstat⟩ := hs.2.model_some_rev mi mm hmi
  have hx : mixInMI ≠ L := by
    intro he
    subst he
    exact mixedInElsewhere_false st mixInMI hunused mi mx hmx hmiL
      (by rw [static_mixins hstat]; exact hmem)
  exact hinj s mixInMI mi s2 hs ⟨hx, hmiL⟩ hf

/-- Witness of C8: the link model `UserTagRel` declares the mixin `ActiveMixIn` and is left
as declared, while the regular model `Tag`, which declares the same mixin, is not. -/
theorem inflateMixIns_skips_m2m_link_witness :
    ∃ st2, inflateMixIns 2 example1.linked = some st2 ∧
      st2.model "UserTagRel" = example1.linked.model "UserTagRel" ∧
      st2.model "Tag" ≠ example1.linked.model "Tag" := by
  have h1 : ((inflateMixIns 2 example1.linked).bind
      (fun s => if s.model "Tag" = example1.linked.model "Tag" then none
        else some s)).isSome = true := by decide
  obtain ⟨s1, hs1⟩ := Option.isSome_iff_exists.1 h1
  cases hinf : inflateMixIns 2 example1.linked with
  | none => rw [hinf] at hs1; simp at hs1
  | some st2 =>
    rw [hinf] at hs1
    simp only [Option.some_bind] at hs1
    have hne : st2.model "Tag" ≠ example1.linked.model "Tag" := by
      intro he
      rw [if_pos he] at hs1
      cases hs1
    obtain ⟨m, hm⟩ : ∃ m, example1.linked.model "UserTagRel" = some m :=
      Option.isSome_iff_exists.1 (by decide)
    have := inflateMixIns_skips_m2m_link 2 example1.linked st2 "UserTagRel" m hm
      (by
        have : ((example1.linked.model "UserTagRel").map Model.isM2MLink) = some true := by
          decide
        rw [hm] at this
        simpa using this)
      (by decide) hinf
    exact ⟨st2, rfl, by rw [this, hm], hne⟩

theorem injectMixInModel_eq_body (fuel : Nat) (st st1 : State) (M A : String)
    (mixIn0 : Model) (hM0 : st.model M = some mixIn0)
    (hrec : mixIn0.mixins.foldlM (fun s mmm => injectMixInModel fuel s mmm M) st = some st1)
    (hnew : st1.isMixed A M = false) :
    injectMixInModel (fuel + 1) st M A = injectBody st1 M A := by
  rw [injectMixInModel_succ, hM0]
  simp only [Option.some_bind]
  rw [hrec]
  simp only [Option.some_bind, hnew]
  rfl

/-- The splice branch of the body of `injectMixInModel` (lines 117–138), on the state `s`
in which the body runs. -/
theorem injectBody_splice (s : State) (M A X : String) (mixIn target : Model)
    (methInfo emi : methodInfo) (bs ts ms : List methodLayer)
    (hM : s.model M = some mixIn) (hA : s.model A = some target)
    (hwfM : mixIn.methods.wellFormed = true) (hwfA : target.methods.wellFormed = true)
    (hX : mapGet mixIn.methods.registry X = some methInfo)
    (hms : methInfo.invertedLayers = some ms)
    (hE : mapGet target.methods.registry X = some emi)
    (hch : emi.invertedLayers = some (bs ++ ts)) (hts : ts ≠ [])
    (hown : ∀ l ∈ ts, l.mixedIn = false) (hband : ∀ l ∈ bs, l.mixedIn = true) :
    ∃ s2 target2 emi2, injectBody s M A = some s2 ∧
      s2.model A = some target2 ∧ target2.methods.wellFormed = true ∧
      mapGet target2.methods.registry X = some emi2 ∧
      emi2.topLayer = emi.topLayer ∧
      emi2.invertedLayers = some (bs ++ ms.map emi.mixedLayer ++ ts) ∧
      emi2.mixedLayer = emi.mixedLayer := by
  obtain ⟨s2, methods, hb, hmod, hwf2, _, hget⟩ :=
    injectBody_total s M A mixIn target hM hA hwfM hwfA
  obtain ⟨emi1, hs1, hs2, hs3, hs4, hs5, _⟩ :=
    spliceLayers_inverted emi ms bs ts hch hts hown hband
  have hres : mapGet methods.registry X = some (copyGroups emi1 methInfo.groups) := by
    rw [hget X methInfo hX, hE]
    simp [mixedInMethod, hms, hs1]
  refine ⟨s2, _, copyGroups emi1 methInfo.groups, hb, hmod, hwf2, hres, ?_, ?_, ?_⟩
  · rw [(copyGroups_proj _ _).2.1, hs2]
  · rw [copyGroups_inverted, hs3]
  · funext lf
    simp [methodInfo.mixedLayer, (copyGroups_proj methInfo.groups emi1).2.2.2.1,
      (copyGroups_proj methInfo.groups emi1).2.2.2.2, hs4, hs5]

/-- C2. Splice below the own layers.  Let `st1` be the state in which the body of
`injectMixInModel(M, A)` runs (the mixins of `M` are injected into `M`, lines 89–91) and
let the couple be new.  If in `st1` the chain of method `X` of the target `A` reads, bottom
to top, `bs ++ ts` with own layers `ts` (not mixed in, at least one) above a band `bs` of
mixed-in layers, and the chain of `X` in the mixin `M` reads `ms`, then the call returns
and the chain of `X` in `A` reads `bs`, then one layer for each layer of `ms` in the same
order, then `ts`; the top layer is the same pointer as before, and each inserted layer is
flagged `mixedIn` and carries the function of the mixin layer it stands for. -/
theorem injectMixInModel_splices_below_own_layers (fuel : Nat) (st st1 : State)
    (M A X : String) (mixIn0 mixIn target : Model) (methInfo emi : methodInfo)
    (bs ts ms : List methodLayer)
    (hM0 : st.model M = some mixIn0)
    (hrec : mixIn0.mixins.foldlM (fun s mmm => injectMixInModel fuel s mmm M) st = some st1)
    (hnew : st1.isMixed A M = false)
    (hM : st1.model M = some mixIn) (hA : st1.model A = some target)
    (hwfM : mixIn.methods.wellFormed = true) (hwfA : target.methods.wellFormed = true)
    (hX : mapGet mixIn.methods.registry X = some methInfo)
    (hms : methInfo.invertedLayers = some ms)
    (hE : mapGet target.methods.registry X = some emi)
    (hch : emi.invertedLayers = some (bs ++ ts)) (hts : ts ≠ [])
    (hown : ∀ l ∈ ts, l.mixedIn = false) (hband : ∀ l ∈ bs, l.mixedIn = true) :
    ∃ st2 target2 emi2, injectMixInModel (fuel + 1) st M A = some st2 ∧
      st2.model A = some target2 ∧ mapGet target2.methods.registry X = some emi2 ∧
      emi2.topLayer = emi.topLayer ∧
      emi2.invertedLayers = some (bs ++ ms.map emi.mixedLayer ++ ts) ∧
      (∀ l ∈ ms.map emi.mixedLayer, l.mixedIn = true) ∧
      (ms.map emi.mixedLayer).map (fun l => l.funcValue) = ms.map (fun l => l.funcValue) := by
  obtain ⟨st2, target2, emi2, hb, hmod, _, hres, htop, hinv, _⟩ :=
    injectBody_splice st1 M A X mixIn target methInfo emi bs ts ms hM hA hwfM hwfA hX hms hE
      hch hts hown hband
  refine ⟨st2, target2, emi2, ?_, hmod, hres, htop, hinv, ?_, ?_⟩
  · rw [injectMixInModel_eq_body fuel st st1 M A mixIn0 hM0 hrec hnew]; exact hb
  · intro l hl
    obtain ⟨lf, _, rfl⟩ := List.mem_map.1 hl
    rfl
  · simp [methodInfo.mixedLayer, wrapFunctionForMethodLayer]

/-- Witness of C2: `Profile.PrintAddress` (own base and own extension) over
`AddressMixIn.PrintAddress` (base and extension).  After the injection the chain reads
mixin base, mixin extension, own base, own extension, and the call returns
"[<165 5th Avenue, 0305 New York>, USA]". -/
theorem injectMixInModel_splices_below_own_layers_witness :
    ∃ st2, injectMixInModel 1 testmodule.declared "AddressMixIn" "Profile" = some st2 ∧
      testmodule.layersOf st2 "Profile" "PrintAddress"
        = some [("AddressMixIn.PrintAddress", true), ("AddressMixIn.PrintAddress.Extend", true),
                ("Profile.PrintAddress", false), ("Profile.PrintAddress.Extend", false)] ∧
      testmodule.callMethod st2 "Profile" "PrintAddress"
        = some "[<165 5th Avenue, 0305 New York>, USA]" := by
  obtain ⟨st2, target2, emi2, h1, h2, h3, _, h5, _, _⟩ :=
    injectMixInModel_splices_below_own_layers 0 testmodule.declared testmodule.declared
      "AddressMixIn" "Profile" "PrintAddress" testmodule.addressMixIn testmodule.addressMixIn
      testmodule.profile
      (testmodule.declareMethod "AddressMixIn" "PrintAddress"
        ["AddressMixIn.PrintAddress", "AddressMixIn.PrintAddress.Extend"])
      (testmodule.declareMethod "Profile" "PrintAddress"
        ["Profile.PrintAddress", "Profile.PrintAddress.Extend"])
      []
      [⟨"Profile.PrintAddress", false, ("Profile", "PrintAddress"), ""⟩,
       ⟨"Profile.PrintAddress.Extend", false, ("Profile", "PrintAddress"), ""⟩]
      [⟨"AddressMixIn.PrintAddress", false, ("AddressMixIn", "PrintAddress"), ""⟩,
       ⟨"AddressMixIn.PrintAddress.Extend", false, ("AddressMixIn", "PrintAddress"), ""⟩]
      (by decide) (by decide) (by decide) (by decide) (by decide) (by decide) (by decide)
      (by decide) (by decide) (by decide) (by decide) (by decide) (by decide) (by decide)
  refine ⟨st2, h1, ?_, ?_⟩
  · simp only [testmodule.layersOf, h2, h3, h5, Option.some_bind, Option.map_some']
    decide
  · have hcall : (injectMixInModel 1 testmodule.declared "AddressMixIn" "Profile").bind
        (fun s => testmodule.callMethod s "Profile" "PrintAddress")
        = some "[<165 5th Avenue, 0305 New York>, USA]" := by decide
    rw [h1] at hcall
    exact hcall

/-- C5, the code at a failing input: `SayHello` is declared on `AddressMixIn` only; after
the injection into `Profile` the chain of `Profile.SayHello` holds the same implementation
and the call returns "Hello !", but the copied layer is not flagged `mixedIn`: the branch
of lines 140–144 builds it with `addMethodLayer(funcValue, doc)`, which leaves the flag
unset, where the branch of lines 130–134 sets `mixedIn: true`. -/
theorem injectMixInModel_copied_layer_not_flagged :
    (injectMixInModel 1 testmodule.declared "AddressMixIn" "Profile").bind
        (fun s => testmodule.layersOf s "Profile" "SayHello")
      = some [("AddressMixIn.SayHello", false)] ∧
    (injectMixInModel 1 testmodule.declared "AddressMixIn" "Profile").bind
        (fun s => testmodule.callMethod s "Profile" "SayHello")
      = some "Hello !" := by
  decide

/-- Copy of a chain.  In the state `st1` in which the body of `injectMixInModel(M, A)`
runs, let the target `A` have no method `X` and let the chain of `X` in the mixin `M`
read `ms`, bottom to top.  Then the call returns and `A` has a method `X` whose chain
holds one layer for each layer of `ms`, in the same order, with the same function and
doc; these layers are layers of the target's method and their `mixedIn` flag is false. -/
theorem injectMixInModel_copies_chain (fuel : Nat) (st st1 : State)
    (M A X : String) (mixIn0 mixIn target : Model) (methInfo : methodInfo)
    (ms : List methodLayer)
    (hM0 : st.model M = some mixIn0)
    (hrec : mixIn0.mixins.foldlM (fun s mmm => injectMixInModel fuel s mmm M) st = some st1)
    (hnew : st1.isMixed A M = false)
    (hM : st1.model M = some mixIn) (hA : st1.model A = some target)
    (hwfM : mixIn.methods.wellFormed = true) (hwfA : target.methods.wellFormed = true)
    (hX : mapGet mixIn.methods.registry X = some methInfo)
    (hms : methInfo.invertedLayers = some ms)
    (hE : mapGet target.methods.registry X = none) :
    ∃ st2 target2 emi2, injectMixInModel (fuel + 1) st M A = some st2 ∧
      st2.model A = some target2 ∧ mapGet target2.methods.registry X = some emi2 ∧
      emi2.invertedLayers = some (ms.map (fun l =>
        { funcValue := l.funcValue, mixedIn := false, method := (A, methInfo.name),
          doc := l.doc })) := by
  obtain ⟨st2, methods, hb, hmod, _, _, hget⟩ :=
    injectBody_total st1 M A mixIn target hM hA hwfM hwfA
  have hres : mapGet methods.registry X
      = some (copyGroups (copyLayers A methInfo ms) methInfo.groups) := by
    rw [hget X methInfo hX, hE]
    simp [mixedInMethod, hms]
  refine ⟨st2, _, _, ?_, hmod, hres, ?_⟩
  · rw [injectMixInModel_eq_body fuel st st1 M A mixIn0 hM0 hrec hnew]; exact hb
  · rw [copyGroups_inverted, (copyLayers_inverted A methInfo ms).1]
    rfl

/-- Example of a copied chain: `Profile.SayHello` after the injection of `AddressMixIn`. -/
theorem injectMixInModel_copies_chain_witness :
    ∃ st2, injectMixInModel 1 testmodule.declared "AddressMixIn" "Profile" = some st2 ∧
      testmodule.layersOf st2 "Profile" "SayHello" = some [("AddressMixIn.SayHello", false)] := by
  obtain ⟨st2, target2, emi2, h1, h2, h3, h4⟩ :=
    injectMixInModel_copies_chain 0 testmodule.declared testmodule.declared
      "AddressMixIn" "Profile" "SayHello" testmodule.addressMixIn testmodule.addressMixIn
      testmodule.profile
      (testmodule.declareMethod "AddressMixIn" "SayHello" ["AddressMixIn.SayHello"])
      [⟨"AddressMixIn.SayHello", false, ("AddressMixIn", "SayHello"), ""⟩]
      (by decide) (by decide) (by decide) (by decide) (by decide) (by decide) (by decide)
      (by decide) (by decide) (by decide)
  refine ⟨st2, h1, ?_⟩
  simp only [testmodule.layersOf, h2, h3, h4, Option.some_bind, Option.map_some']
  decide

/-- C6. Copy of a mixin field.  In the state `st1` in which the body of
`injectMixInModel(M, A)` runs, let the mixin `M` have a field `F` with descriptor `fi`
and let the target `A` have no field of that name.  Then the call returns and `A` has a
field `F` that is `fi` with `A` as owning model: the access-control list holds the
(group, permission) pairs of `fi` and every other attribute is that of `fi`.  The mixin
is left as it was.  Fields are registered under their own names and the permissions of
`fi` bind each group once. -/
theorem injectMixInModel_copies_absent_field (fuel : Nat) (st st1 : State)
    (M A F : String) (mixIn0 mixIn target : Model) (fi : Field)
    (hM0 : st.model M = some mixIn0)
    (hrec : mixIn0.mixins.foldlM (fun s mmm => injectMixInModel fuel s mmm M) st = some st1)
    (hnew : st1.isMixed A M = false)
    (hM : st1.model M = some mixIn) (hA : st1.model A = some target)
    (hwfM : mixIn.methods.wellFormed = true) (hwfA : target.methods.wellFormed = true)
    (hkeyed : st1.fieldsKeyed = true)
    (hF : mapGet mixIn.fields.registryByName F = some fi)
    (habs : mapGet target.fields.registryByName F = none)
    (hacl : (mapKeys fi.acl.Permissions).Nodup) :
    ∃ st2 target2, injectMixInModel (fuel + 1) st M A = some st2 ∧
      st2.model A = some target2 ∧
      mapGet target2.fields.registryByName F = some { fi with model := A } ∧
      st2.model M = some mixIn := by
  obtain ⟨st2, methods, hb, hmod, _, _, _⟩ :=
    injectBody_total st1 M A mixIn target hM hA hwfM hwfA
  have hMA : M ≠ A := by
    intro he
    subst he
    rw [hA] at hM
    cases hM
    rw [hF] at habs
    cases habs
  refine ⟨st2, _, ?_, hmod, ?_, ?_⟩
  · rw [injectMixInModel_eq_body fuel st st1 M A mixIn0 hM0 hrec hnew]; exact hb
  · have := injectFields_get_added A F fi mixIn.fields.registryByName target.fields
      (fieldsKeyed_model st1 hkeyed M mixIn hM) hF habs
    rw [this]
    simp only [mixedInField, copyPermissions_new fi.acl hacl]
  · rw [injectBody_model_ne st1 M A st2 hb M hMA]; exact hM

/-- Witness of C6: the field `Active` of `ActiveMixIn`, mixed into `ModelMixin`, is copied
into `User` with `User` as owning model; after `inflateMixIns` both `User` and `Profile`
have it. -/
theorem injectMixInModel_copies_absent_field_witness :
    (∃ st2 target2, injectMixInModel 2 testmodule.declared "ModelMixin" "User" = some st2 ∧
      st2.model "User" = some target2 ∧
      mapGet target2.fields.registryByName "Active"
        = some (testmodule.declareField "User" "Active" "active" "boolean")) ∧
    (inflateMixIns 3 testmodule.declared).bind (fun s =>
        (s.model "Profile").bind (fun m => mapGet m.fields.registryByName "Active"))
      = some (testmodule.declareField "Profile" "Active" "active" "boolean") := by
  constructor
  · obtain ⟨st2, target2, h1, h2, h3, _⟩ :=
      injectMixInModel_copies_absent_field 1 testmodule.declared testmodule.activeInjected
        "ModelMixin" "User" "Active" testmodule.modelMixin testmodule.modelMixinInflated
        testmodule.user (testmodule.declareField "ModelMixin" "Active" "active" "boolean")
        (by decide) (by decide) (by decide) (by decide) (by decide) (by decide) (by decide)
        (by decide) (by decide) (by decide) (by decide)
    exact ⟨st2, target2, h1, h2, h3⟩
  · decide

/-! ## A mixin of a mixin -/

/-- C3 as stated fails.  In the registry `shared`, `Contact` mixes in `PersonMixIn`, which
mixes in `NamedMixIn`, each with a layer of its own for `Describe`, and `Contact` also
declares `NamedMixIn`, after `PersonMixIn`.  After `inflateMixIns`, going down from the
top layer of `Contact.Describe`, the two layers of `Contact` come first, then a layer of
`NamedMixIn`, and only then the layer of `PersonMixIn`.  The same happens in the registry
`twice`, in which `Contact` does not declare `NamedMixIn` and receives it through
`PersonMixIn` and through `StaffMixIn`, declared after `PersonMixIn`: the layer of
`NamedMixIn` that comes with `StaffMixIn` is reached before the layer of `PersonMixIn`. -/
theorem inflateMixIns_mixin_of_mixin_counterexample :
    (example12.shared.model "Contact").map (fun m => m.mixins)
      = some ["PersonMixIn", "NamedMixIn"] ∧
    (example12.shared.model "PersonMixIn").map (fun m => m.mixins) = some ["NamedMixIn"] ∧
    ((inflateMixIns 2 example12.shared).bind
        (fun s => testmodule.layersOf s "Contact" "Describe")).map List.reverse
      = some [("Contact.Describe.Extend", false), ("Contact.Describe", false),
              ("NamedMixIn.Describe", true), ("PersonMixIn.Describe", true),
              ("NamedMixIn.Describe", true)] ∧
    (example12.twice.model "Contact").map (fun m => m.mixins)
      = some ["PersonMixIn", "StaffMixIn"] ∧
    ((inflateMixIns 2 example12.twice).bind
        (fun s => testmodule.layersOf s "Contact" "Describe")).map List.reverse
      = some [("Contact.Describe.Extend", false), ("Contact.Describe", false),
              ("StaffMixIn.Describe", true), ("NamedMixIn.Describe", true),
              ("PersonMixIn.Describe", true), ("NamedMixIn.Describe", true)] := by
  decide

/-- C3, amended.  Let `Y` be the mixin that model `M` declares last, and there only, and
`Z` a mixin that `Y` declares, each of `M`, `Y` and `Z` with layers of its own for method
`X` (`tsM`, `tsY` and `msZ`, bottom to top), on a well-formed registry in which neither
couple is recorded yet and `M` is not a link model.  Then `inflateMixIns` returns, the top
layer of `X` in `M` is the top layer `M` declared, and the chain of `X` in `M` reads,
bottom to top: mixed-in layers `below`, the layers of `Z`, mixed-in layers `mid`, the
layers of `Y`, then the layers of `M`.  Going down from the top layer through `nextLayer`,
all the layers of `M` come first, then those of `Y`, and those of `Z` further down. -/
theorem inflateMixIns_mixin_of_mixin (rank : String → Nat) (fuel : Nat) (st : State)
    (M Y Z X : String) (mM mY mZ : Model) (emiM emiY emiZ : methodInfo)
    (tsM tsY msZ : List methodLayer) (pre : List String)
    (hwf : st.wellFormed rank = true) (hr : st.rankedBelow rank fuel = true)
    (hM : st.model M = some mM) (hY : st.model Y = some mY) (hZ : st.model Z = some mZ)
    (hmixM : mM.mixins = pre ++ [Y]) (hpre : Y ∉ pre) (hmixY : Z ∈ mY.mixins)
    (hlink : mM.isM2MLink = false)
    (hnewM : st.isMixed M Y = false) (hnewY : st.isMixed Y Z = false)
    (hXM : mapGet mM.methods.registry X = some emiM)
    (hXY : mapGet mY.methods.registry X = some emiY)
    (hXZ : mapGet mZ.methods.registry X = some emiZ)
    (hchM : emiM.invertedLayers = some tsM) (hchY : emiY.invertedLayers = some tsY)
    (hchZ : emiZ.invertedLayers = some msZ)
    (hneM : tsM ≠ []) (hneY : tsY ≠ []) (hneZ : msZ ≠ [])
    (hownM : ∀ l ∈ tsM, l.mixedIn = false) (hownY : ∀ l ∈ tsY, l.mixedIn = false)
    (hownZ : ∀ l ∈ msZ, l.mixedIn = false) :
    ∃ st2 e2 below mid, inflateMixIns fuel st = some st2 ∧ st2.method M X = some e2 ∧
      e2.topLayer = emiM.topLayer ∧
      e2.invertedLayers = some
        (below ++ msZ.map emiM.mixedLayer ++ mid ++ tsY.map emiM.mixedLayer ++ tsM) ∧
      (∀ l ∈ below ++ mid, l.mixedIn = true) := by
  have hwfp := wellFormed_WFp rank st hwf
  have hYin : Y ∈ mM.mixins := by rw [hmixM]; simp
  have hrYM : rank Y < rank M := ((hwfp M mM hM).2 Y hYin).2
  have hrZY : rank Z < rank Y := ((hwfp Y mY hY).2 Z hmixY).2
  have hMY : M ≠ Y := by intro h; rw [h] at hrYM; omega
  have hYZ : Y ≠ Z := by intro h; rw [h] at hrZY; omega
  have hMZ : M ≠ Z := by intro h; rw [h] at hrYM; omega
  obtain ⟨st2, hinf⟩ := inflateMixIns_total rank fuel st hwf hr
  let PZ : State → Prop := fun s => ∃ BZ, OwnChain s Z X emiZ msZ BZ
  let PY : State → Prop := fun s => ∃ BY, OwnChain s Y X emiY tsY BY ∧
    (s.isMixed Y Z = true → ∃ B1 B2, BY = B1 ++ msZ.map emiY.mixedLayer ++ B2)
  let PM : State → Prop := fun s => ∃ BM, OwnChain s M X emiM tsM BM ∧
    (s.isMixed M Y = true → ∃ below mid,
      BM = below ++ msZ.map emiM.mixedLayer ++ mid ++ tsY.map emiM.mixedLayer)
  let J : State → Prop := fun s =>
    s.isMixed M Y = true → ∀ w ∈ mM.mixins, s.isMixed M w = true
  let I : State → Prop := fun s => WFp rank s ∧ Stable st s ∧ PZ s ∧ PY s ∧ PM s ∧ J s
  -- the pieces of the invariant that an injection into another model leaves alone
  have keepZ : ∀ s x a s2, injectBody s x a = some s2 → Z ≠ a → PZ s → PZ s2 := by
    rintro s x a s2 hb hne ⟨BZ, hc⟩
    exact ⟨BZ, hc.congr (injectBody_other s x a s2 hb Z hne).1⟩
  have keepY : ∀ s x a s2, injectBody s x a = some s2 → Y ≠ a → PY s → PY s2 := by
    rintro s x a s2 hb hne ⟨BY, hc, hz⟩
    obtain ⟨h1, h2⟩ := injectBody_other s x a s2 hb Y hne
    exact ⟨BY, hc.congr h1, fun h => hz (by rw [← h2 Z]; exact h)⟩
  have keepM : ∀ s x a s2, injectBody s x a = some s2 → M ≠ a → PM s ∧ J s →
      PM s2 ∧ J s2 := by
    rintro s x a s2 hb hne ⟨⟨BM, hc, hz⟩, hj⟩
    obtain ⟨h1, h2⟩ := injectBody_other s x a s2 hb M hne
    exact ⟨⟨BM, hc.congr h1, fun h => hz (by rw [← h2 Y]; exact h)⟩,
      fun h w hw => by rw [h2 w]; exact hj (by rw [← h2 Y]; exact h) w hw⟩
  have hI0 : I st := by
    refine ⟨hwfp, Stable.refl st, ⟨[], emiZ, ?_, rfl, rfl, rfl, hchZ, ?_⟩,
      ⟨[], ⟨emiY, ?_, rfl, rfl, rfl, hchY, ?_⟩, ?_⟩,
      ⟨[], ⟨emiM, ?_, rfl, rfl, rfl, hchM, ?_⟩, ?_⟩, ?_⟩
    · unfold State.method; rw [hZ]; exact hXZ
    · intro l hl; cases hl
    · unfold State.method; rw [hY]; exact hXY
    · intro l hl; cases hl
    · intro h; rw [hnewY] at h; cases h
    · unfold State.method; rw [hM]; exact hXM
    · intro l hl; cases hl
    · intro h; rw [hnewM] at h; cases h
    · intro h; rw [hnewM] at h; cases h
  have hbody : ∀ s x a s2, I s → InTurn s x a → s.isMixed a x = false →
      (∀ mixIn, s.model x = some mixIn → ∀ mmm ∈ mixIn.mixins, s.isMixed x mmm = true) →
      injectBody s x a = some s2 → I s2 := by
    intro s x a s2 hs hT hnm hdone hb
    obtain ⟨hwfs, hsts, hPZ, hPY, hPM, hJ⟩ := hs
    have hwf2 : WFp rank s2 := (injectBody_det rank s x a s2 hwfs hb).1
    have hst2 : Stable st s2 := hsts.trans (injectBody_stable s x a s2 hb)
    obtain ⟨hm1, hm2⟩ := injectBody_isMixed s x a s2 hb
    by_cases haZ : a = Z
    · subst haZ
      obtain ⟨BZ, hc⟩ := hPZ
      obtain ⟨B2, h2, _⟩ :=
        injectBody_ownChain rank s x a s2 X emiZ msZ BZ hwfs hb hc hneZ hownZ
      obtain ⟨hpm, hj⟩ := keepM s x a s2 hb hMZ ⟨hPM, hJ⟩
      exact ⟨hwf2, hst2, ⟨B2, h2⟩, keepY s x a s2 hb hYZ hPY, hpm, hj⟩
    by_cases haY : a = Y
    · subst haY
      obtain ⟨hpm, hj⟩ := keepM s x a s2 hb hMY ⟨hPM, hJ⟩
      refine ⟨hwf2, hst2, keepZ s x a s2 hb (fun h => haZ h.symm) hPZ, ?_, hpm, hj⟩
      obtain ⟨BY, hc, hz⟩ := hPY
      obtain ⟨B2, h2, hcase⟩ :=
        injectBody_ownChain rank s x a s2 X emiY tsY BY hwfs hb hc hneY hownY
      refine ⟨B2, h2, fun hflag => ?_⟩
      by_cases hxZ : x = Z
      · subst hxZ
        obtain ⟨BZ, eZ, heZ, _, _, _, hinvZ, _⟩ := hPZ
        rcases hcase with ⟨hnone, _⟩ | ⟨ex, ms, hex, hms, hB2⟩
        · rw [heZ] at hnone; cases hnone
        · rw [heZ] at hex
          cases hex
          rw [hinvZ] at hms
          cases hms
          exact ⟨BY ++ BZ.map emiY.mixedLayer, [], by rw [hB2]; simp⟩
      · have hsame : s2.isMixed a Z = s.isMixed a Z :=
          hm2 a Z (by intro h; cases h; exact hxZ rfl)
        obtain ⟨B1, B3, hBY⟩ := hz (by rw [← hsame]; exact hflag)
        rcases hcase with ⟨_, hB2⟩ | ⟨ex, ms, _, _, hB2⟩
        · exact ⟨B1, B3, by rw [hB2, hBY]⟩
        · exact ⟨B1, B3 ++ ms.map emiY.mixedLayer, by rw [hB2, hBY]; simp⟩
    by_cases haM : a = M
    · subst haM
      refine ⟨hwf2, hst2, keepZ s x a s2 hb (fun h => haZ h.symm) hPZ,
        keepY s x a s2 hb (fun h => haY h.symm) hPY, ?_⟩
      obtain ⟨BM, hc, hz⟩ := hPM
      obtain ⟨B2, h2, hcase⟩ :=
        injectBody_ownChain rank s x a s2 X emiM tsM BM hwfs hb hc hneM hownM
      obtain ⟨ma, pre2, post2, hma, hmix2, hpre2⟩ := hT
      obtain ⟨m0, hm0, hstat⟩ := hsts.model_some_rev a ma hma
      rw [hM] at hm0
      cases hm0
      have hmixeq : ma.mixins = mM.mixins := (static_mixins hstat).symm
      by_cases hxY : x = Y
      · subst hxY
        obtain ⟨hcut1, _⟩ := append_singleton_cut pre pre2 post2 x hpre
          (by rw [← hmixM, ← hmixeq]; exact hmix2)
        obtain ⟨my, hmy, hstaty⟩ := hsts.model_some x mY hY
        have hYZmixed : s.isMixed x Z = true :=
          hdone my hmy Z (by rw [static_mixins hstaty]; exact hmixY)
        obtain ⟨BY, ⟨eY, heY, _, _, _, hinvY, _⟩, hzY⟩ := hPY
        obtain ⟨B1, B3, hBY⟩ := hzY hYZmixed
        rcases hcase with ⟨hnone, _⟩ | ⟨ex, ms, hex, hms, hB2⟩
        · rw [heY] at hnone; cases hnone
        · rw [heY] at hex
          cases hex
          rw [hinvY] at hms
          cases hms
          refine ⟨⟨B2, h2, fun _ => ⟨BM ++ B1.map emiM.mixedLayer, B3.map emiM.mixedLayer, ?_⟩⟩,
            fun _ w hw => ?_⟩
          · rw [hB2, hBY]
            simp only [List.map_append, List.map_map, List.append_assoc]
            rfl
          · rw [hmixM] at hw
            rcases List.mem_append.mp hw with h | h
            · exact (injectBody_stable s x a s2 hb).1 a w (hpre2 w (by rw [hcut1]; exact h))
            · rw [List.mem_singleton.mp h]; exact hm1
      · have hxin : x ∈ mM.mixins := by rw [← hmixeq, hmix2]; simp
        have hnY : s.isMixed a Y = false := by
          cases hmy : s.isMixed a Y with
          | false => rfl
          | true =>
            have := hJ hmy x hxin
            rw [hnm] at this
            cases this
        have hnY2 : s2.isMixed a Y = false := by
          rw [hm2 a Y (by intro h; cases h; exact hxY rfl)]; exact hnY
        exact ⟨⟨B2, h2, fun h => by rw [hnY2] at h; cases h⟩,
          fun h => by rw [hnY2] at h; cases h⟩
    · obtain ⟨hpm, hj⟩ := keepM s x a s2 hb (fun h => haM h.symm) ⟨hPM, hJ⟩
      exact ⟨hwf2, hst2, keepZ s x a s2 hb (fun h => haZ h.symm) hPZ,
        keepY s x a s2 hb (fun h => haY h.symm) hPY, hpm, hj⟩
  have hstep : ∀ s mi s2, I s → inflateModel fuel s mi = some s2 → I s2 :=
    fun s mi s2 hs h => inflateModel_turns I hbody fuel s mi s2 hs h
  -- the couple (M, Y) is recorded once the loop has visited M
  have hMkey : M ∈ mapKeys st.Registry.registryByName :=
    (mapGet_isSome_iff _ _).1 (by
      have : mapGet st.Registry.registryByName M = some mM := hM
      rw [this]; rfl)
  have hfinal : I st2 ∧ st2.isMixed M Y = true := by
    unfold inflateMixIns at hinf
    refine foldlM_mem (inflateModel fuel) I (fun s => I s ∧ s.isMixed M Y = true) M _ hMkey
      (fun s b s2 _ hs h => hstep s b s2 hs h) ?_ ?_ st st2 hI0 hinf
    · intro s s2 hs h
      refine ⟨hstep s M s2 hs h, ?_⟩
      obtain ⟨m, hm, hc⟩ := inflateModel_cases fuel s M s2 h
      obtain ⟨m0, hm0, hstat⟩ := hs.2.1.model_some_rev M m hm
      rw [hM] at hm0
      cases hm0
      rcases hc with ⟨hl, _⟩ | ⟨_, hf⟩
      · rw [← static_isM2MLink hstat, hlink] at hl; cases hl
      · exact inject_fold_isMixed fuel M m.mixins s s2 hf Y
          (by rw [← static_mixins hstat]; exact hYin)
    · intro s b s2 _ hs hq h
      exact ⟨hstep s b s2 hs h, (inflateModel_stable fuel s b s2 h).1 M Y hq.2⟩
  obtain ⟨⟨_, _, _, _, ⟨BM, ⟨e2, he2, htop, _, _, hinv, hflag⟩, hz⟩, _⟩, hmixed⟩ := hfinal
  obtain ⟨below, mid, hBM⟩ := hz hmixed
  refine ⟨st2, e2, below, mid, hinf, he2, htop, by rw [hinv, hBM], ?_⟩
  intro l hl
  apply hflag l
  rw [hBM]
  rcases List.mem_append.mp hl with h | h
  · simp [h]
  · simp [h]

/-- Witness of the amended C3, on the registry `crowded`: `Contact` declares `TaggedMixIn`
and then `PersonMixIn`, which declares `StampedMixIn`, `NamedMixIn` and `TaggedMixIn`;
`NamedMixIn` declares `StampedMixIn`.  After `inflateMixIns` the chain of
`Contact.Describe` ends, bottom to top, with the layer of `NamedMixIn`, one other mixed-in
layer, the layer of `PersonMixIn`, then the two layers of `Contact`. -/
theorem inflateMixIns_mixin_of_mixin_witness :
    ∃ st2, inflateMixIns 3 example12.crowded = some st2 ∧
      testmodule.layersOf st2 "Contact" "Describe"
        = some [("TaggedMixIn.Describe", true), ("StampedMixIn.Describe", true),
                ("StampedMixIn.Describe", true), ("NamedMixIn.Describe", true),
                ("TaggedMixIn.Describe", true), ("PersonMixIn.Describe", true),
                ("Contact.Describe", false), ("Contact.Describe.Extend", false)] := by
  obtain ⟨st2, e2, below, mid, hinf, _, _, _, _⟩ :=
    inflateMixIns_mixin_of_mixin example12.rank 3 example12.crowded
      "Contact" "PersonMixIn" "NamedMixIn" "Describe"
      (testmodule.declareModel "Contact" ModelKind.regular ["TaggedMixIn", "PersonMixIn"] []
        [("Describe", ["Contact.Describe", "Contact.Describe.Extend"])])
      (testmodule.declareModel "PersonMixIn" ModelKind.mixin
        ["StampedMixIn", "NamedMixIn", "TaggedMixIn"] []
        [("Describe", ["PersonMixIn.Describe"])])
      (testmodule.declareModel "NamedMixIn" ModelKind.mixin ["StampedMixIn"] []
        [("Describe", ["NamedMixIn.Describe"])])
      (testmodule.declareMethod "Contact" "Describe"
        ["Contact.Describe", "Contact.Describe.Extend"])
      (testmodule.declareMethod "PersonMixIn" "Describe" ["PersonMixIn.Describe"])
      (testmodule.declareMethod "NamedMixIn" "Describe" ["NamedMixIn.Describe"])
      [⟨"Contact.Describe", false, ("Contact", "Describe"), ""⟩,
       ⟨"Contact.Describe.Extend", false, ("Contact", "Describe"), ""⟩]
      [⟨"PersonMixIn.Describe", false, ("PersonMixIn", "Describe"), ""⟩]
      [⟨"NamedMixIn.Describe", false, ("NamedMixIn", "Describe"), ""⟩]
      ["TaggedMixIn"]
      (by decide) (by decide) (by decide) (by decide) (by decide) (by decide) (by decide)
      (by decide) (by decide) (by decide) (by decide) (by decide) (by decide) (by decide)
      (by decide) (by decide) (by decide) (by decide) (by decide) (by decide) (by decide)
      (by decide) (by decide)
  have hd : (inflateMixIns 3 example12.crowded).bind
      (fun s => testmodule.layersOf s "Contact" "Describe")
      = some [("TaggedMixIn.Describe", true), ("StampedMixIn.Describe", true),
              ("StampedMixIn.Describe", true), ("NamedMixIn.Describe", true),
              ("TaggedMixIn.Describe", true), ("PersonMixIn.Describe", true),
              ("Contact.Describe", false), ("Contact.Describe.Extend", false)] := by decide
  rw [hinf] at hd
  exact ⟨st2, hinf, hd⟩

/-- C4, the code at a failing input: `Document` declares no layer of its own for
`Describe` and mixes in `ArchiveMixIn`, then `AuditMixIn`.  After `inflateMixIns` the
chain of `Document.Describe` reads, bottom to top, the layer of `AuditMixIn` and then the
layer of `ArchiveMixIn`: the layer of the second mixin sits below the layer of the first
one.  When `Document` declares a layer of its own, the chain reads `ArchiveMixIn`,
`AuditMixIn`, `Document`, as the claim says. -/
theorem inflateMixIns_second_mixin_below_first :
    (inflateMixIns 2 example3.twoMixins).bind
        (fun s => testmodule.layersOf s "Document" "Describe")
      = some [("AuditMixIn.Describe", true), ("ArchiveMixIn.Describe", false)] ∧
    (inflateMixIns 2 example3.twoMixinsOwn).bind
        (fun s => testmodule.layersOf s "Document" "Describe")
      = some [("ArchiveMixIn.Describe", true), ("AuditMixIn.Describe", true),
              ("Document.Describe", false)] := by
  decide

theorem BootStrap_flag (ext : External) (fuel : Nat) (st : State)
    (h : st.Registry.bootstrapped = false) :
    (BootStrap ext fuel st).result.holds (fun s => s.Registry.bootstrapped = true) := by
  unfold BootStrap
  rw [if_neg (by rw [h]; simp)]
  refine call_holds _ _ _ _ (call_holds _ _ _ _ (call_holds _ _ _ _ (call_holds _ _ _ _
    (call_holds _ _ _ _ (call_holds _ _ _ _ (call_holds _ _ _ _ (call_holds _ _ _ _
      ?_ ?_) ?_) ?_) ?_) ?_) ?_) ?_) ?_
  · exact (rfl : st.setBootstrapped.Registry.bootstrapped = true)
  · exact fun s hs => createModelLinks_flag s hs
  · intro s hs
    cases hinf : inflateMixIns fuel s with
    | none => trivial
    | some s2 => exact inflateMixIns_flag fuel s s2 hs hinf
  · exact fun s hs => inflateEmbeddings_flag s hs
  · exact fun s hs => syncRelatedFieldInfo_flag s hs
  · exact fun s hs => bootStrapMethods_flag s hs
  · intro s hs
    unfold onModels
    cases ext.processDepends s.Registry.registryByName with
    | done models => exact hs
    | panicked msg models => exact hs
    | diverged => trivial
  · intro s hs
    unfold onModelsCheck
    cases ext.checkComputeMethodsSignature s.Registry.registryByName with
    | none => exact hs
    | some msg => exact hs
  · exact fun s hs => setupSecurity_flag s hs

/-- C9. `BootStrap` runs at most once.  If `Registry.bootstrapped` is already true,
`BootStrap` panics ("Trying to bootstrap models twice !") before it enters any phase and
leaves the state, with every model, field and method of the registry, as it was.  If the
flag is false, the state that `BootStrap` leaves, when it returns and when a phase panics
alike, has the flag set; so a second call made after `BootStrap` has returned panics and
changes nothing. -/
theorem BootStrap_runs_once (ext : External) (fuel : Nat) (st : State) :
    (st.Registry.bootstrapped = true →
      BootStrap ext fuel st =
        { result := Result.panicked "Trying to bootstrap models twice !" st, trace := [] }) ∧
    (st.Registry.bootstrapped = false →
      (BootStrap ext fuel st).result.holds (fun s => s.Registry.bootstrapped = true)) ∧
    (st.Registry.bootstrapped = false →
      ∀ st2, (BootStrap ext fuel st).result = Result.done st2 →
        BootStrap ext fuel st2 =
          { result := Result.panicked "Trying to bootstrap models twice !" st2,
            trace := [] }) := by
  refine ⟨?_, BootStrap_flag ext fuel st, ?_⟩
  · intro h
    unfold BootStrap
    rw [if_pos h]
    rfl
  · intro h st2 hres
    have hflag := BootStrap_flag ext fuel st h
    rw [hres] at hflag
    have h2 : st2.Registry.bootstrapped = true := hflag
    unfold BootStrap
    rw [if_pos h2]
    rfl

/-- Example for C9: `BootStrap` returns on the registry of the test module, with the flag
set, and a second call panics without entering a phase. -/
theorem BootStrap_runs_once_witness :
    ∃ st2, (BootStrap example4.external 3 testmodule.declared).result = Result.done st2 ∧
      st2.Registry.bootstrapped = true ∧
      BootStrap example4.external 3 st2 =
        { result := Result.panicked "Trying to bootstrap models twice !" st2, trace := [] } := by
  have hd : (BootStrap example4.external 3 testmodule.declared).result.isDone = true := by
    decide
  cases hres : (BootStrap example4.external 3 testmodule.declared).result with
  | done st2 =>
    have h := BootStrap_runs_once example4.external 3 testmodule.declared
    have hflag := h.2.1 (by decide)
    rw [hres] at hflag
    exact ⟨st2, rfl, hflag, h.2.2 (by decide) st2 hres⟩
  | panicked msg s => rw [hres] at hd; cases hd
  | diverged => rw [hres] at hd; cases hd

/-- C10 as stated fails: on the registry of the test module `BootStrap` returns, and the
phases it has entered are not the seven of the claim: `processDepends` runs between
`bootStrapMethods` and `checkComputeMethodsSignature`. -/
theorem BootStrap_seven_phases_counterexample :
    (BootStrap example4.external 3 testmodule.declared).result.isDone = true ∧
    (BootStrap example4.external 3 testmodule.declared).trace ≠
      ["createModelLinks", "inflateMixIns", "inflateEmbeddings", "syncRelatedFieldInfo",
       "bootStrapMethods", "checkComputeMethodsSignature", "setupSecurity"] := by
  decide

/-- C10, amended.  On a registry that is not bootstrapped, `BootStrap` enters the phases
in this order, each once: `createModelLinks`, `inflateMixIns`, `inflateEmbeddings`,
`syncRelatedFieldInfo`, `bootStrapMethods`, `processDepends`,
`checkComputeMethodsSignature`, `setupSecurity`.  The phases entered are always the first
ones of this list, and all eight when `BootStrap` returns; each phase then runs on the
state that the one before it returned, so that the resolution of embeddings reads the
registry that the injection of mixins has produced, and the default security is applied to
the registry at the end, with the methods obtained from mixins. -/
theorem BootStrap_phase_order (ext : External) (fuel : Nat) (st : State)
    (h : st.Registry.bootstrapped = false) :
    (∃ k, (BootStrap ext fuel st).trace =
      (["createModelLinks", "inflateMixIns", "inflateEmbeddings", "syncRelatedFieldInfo",
        "bootStrapMethods", "processDepends", "checkComputeMethodsSignature",
        "setupSecurity"] : List String).take k) ∧
    (∀ st2, (BootStrap ext fuel st).result = Result.done st2 →
      (BootStrap ext fuel st).trace =
        ["createModelLinks", "inflateMixIns", "inflateEmbeddings", "syncRelatedFieldInfo",
         "bootStrapMethods", "processDepends", "checkComputeMethodsSignature",
         "setupSecurity"] ∧
      ∃ s1 s2 s3 s4 s6,
        createModelLinks st.setBootstrapped = Result.done s1 ∧
        inflateMixIns fuel s1 = some s2 ∧
        inflateEmbeddings s2 = Result.done s3 ∧
        syncRelatedFieldInfo s3 = Result.done s4 ∧
        onModels ext.processDepends (bootStrapMethods s4) = Result.done s6 ∧
        ext.checkComputeMethodsSignature s6.Registry.registryByName = none ∧
        st2 = setupSecurity s6) := by
  have hfold := BootStrap_eq_foldl ext fuel st h
  obtain ⟨hk, hall⟩ := calls_trace (phaseList ext fuel)
    (Run.start (Result.done st.setBootstrapped))
  rw [← hfold] at hk hall
  refine ⟨?_, ?_⟩
  · obtain ⟨k, hk⟩ := hk
    exact ⟨k, by rw [hk]; rfl⟩
  · intro st2 hres
    refine ⟨by rw [hall st2 hres]; rfl, ?_⟩
    unfold BootStrap at hres
    rw [if_neg (by rw [h]; simp)] at hres
    obtain ⟨s7, hr7, h8⟩ := call_done _ _ _ _ hres
    obtain ⟨s6, hr6, h7⟩ := call_done _ _ _ _ hr7
    obtain ⟨s5, hr5, h6⟩ := call_done _ _ _ _ hr6
    obtain ⟨s4, hr4, h5⟩ := call_done _ _ _ _ hr5
    obtain ⟨s3, hr3, h4⟩ := call_done _ _ _ _ hr4
    obtain ⟨s2, hr2, h3⟩ := call_done _ _ _ _ hr3
    obtain ⟨s1, hr1, h2⟩ := call_done _ _ _ _ hr2
    obtain ⟨s0, hr0, h1⟩ := call_done _ _ _ _ hr1
    have hs0 : s0 = st.setBootstrapped := by
      have : Result.done st.setBootstrapped = Result.done s0 := hr0
      cases this
      rfl
    subst hs0
    have hs5 : s5 = bootStrapMethods s4 := by
      cases h5
      rfl
    subst hs5
    have hmix : inflateMixIns fuel s1 = some s2 := by
      unfold withFuel at h2
      cases hinf : inflateMixIns fuel s1 with
      | none => rw [hinf] at h2; cases h2
      | some t =>
        rw [hinf] at h2
        cases h2
        rfl
    have hcheck : ext.checkComputeMethodsSignature s6.Registry.registryByName = none ∧
        s7 = s6 := by
      unfold onModelsCheck at h7
      cases hc : ext.checkComputeMethodsSignature s6.Registry.registryByName with
      | none =>
        rw [hc] at h7
        cases h7
        exact ⟨rfl, rfl⟩
      | some msg => rw [hc] at h7; cases h7
    obtain ⟨hc1, hc2⟩ := hcheck
    subst hc2
    have hlast : st2 = setupSecurity s7 := by
      cases h8
      rfl
    exact ⟨s1, s2, s3, s4, s7, h1, hmix, h3, h4, h6, hc1, hlast⟩

/-- Witness of C10: `Order` embeds its field `Customer`, whose model `Partner` mixes in
`AddressMixIn`.  `BootStrap` returns after the eight phases; the field `Street`, which
`Partner` obtains from the mixin, is promoted to `Order` with the path `Customer.Street`,
and the method `SayHello`, which `Partner` obtains from the mixin, is granted to the admin
group. -/
theorem BootStrap_phase_order_witness :
    (BootStrap example4.external 3 example4.orders).trace =
      ["createModelLinks", "inflateMixIns", "inflateEmbeddings", "syncRelatedFieldInfo",
       "bootStrapMethods", "processDepends", "checkComputeMethodsSignature",
       "setupSecurity"] ∧
    ((BootStrap example4.external 3 example4.orders).result.state?.bind
        (fun s => (s.field "Order" "Street").map (fun f => f.relatedPath)))
      = some "Customer.Street" ∧
    ((BootStrap example4.external 3 example4.orders).result.state?.bind
        (fun s => (s.method "Partner" "SayHello").map (fun m => m.groups)))
      = some [(security.GroupAdmin, true)] := by
  have hd : (BootStrap example4.external 3 example4.orders).result.isDone = true := by
    decide
  cases hres : (BootStrap example4.external 3 example4.orders).result with
  | done st2 =>
    have h := (BootStrap_phase_order example4.external 3 example4.orders (by decide)).2
      st2 hres
    refine ⟨h.1, ?_, ?_⟩
    · have hd2 : ((BootStrap example4.external 3 example4.orders).result.state?.bind
          (fun s => (s.field "Order" "Street").map (fun f => f.relatedPath)))
          = some "Customer.Street" := by decide
      rw [hres] at hd2
      exact hd2
    · have hd3 : ((BootStrap example4.external 3 example4.orders).result.state?.bind
          (fun s => (s.method "Partner" "SayHello").map (fun m => m.groups)))
          = some [(security.GroupAdmin, true)] := by decide
      rw [hres] at hd3
      exact hd3
  | panicked msg s => rw [hres] at hd; cases hd
  | diverged => rw [hres] at hd; cases hd

/-- Two mixins of a model with layers of its own.  Let the target `A` declare layers `ts`
of its own for method `X` (not mixed in, at least one) and let `Y1` and `Y2` be two
distinct mixins with no mixins of their own, whose chains for `X` read `ms1` and `ms2`;
neither couple is recorded.  Injected in that order, as the loop of `inflateMixIns` does
for the mixins `A` declares, they leave in `A` a chain that reads, bottom to top, the
layers of `Y1`, then the layers of `Y2`, then `ts`: the layers of the mixin injected later
sit above those of the earlier one, and both below the layers of the target. -/
theorem injectMixInModel_twice_orders_mixins (fuel : Nat) (st : State) (Y1 Y2 A X : String)
    (m1 m2 target : Model) (meth1 meth2 emi : methodInfo) (ms1 ms2 ts : List methodLayer)
    (h1 : st.model Y1 = some m1) (h2 : st.model Y2 = some m2) (hA : st.model A = some target)
    (hmix1 : m1.mixins = []) (hmix2 : m2.mixins = []) (hY : Y1 ≠ Y2) (hA2 : A ≠ Y2)
    (hnew1 : st.isMixed A Y1 = false) (hnew2 : st.isMixed A Y2 = false)
    (hwf1 : m1.methods.wellFormed = true) (hwf2 : m2.methods.wellFormed = true)
    (hwfA : target.methods.wellFormed = true)
    (hX1 : mapGet m1.methods.registry X = some meth1)
    (hX2 : mapGet m2.methods.registry X = some meth2)
    (hms1 : meth1.invertedLayers = some ms1) (hms2 : meth2.invertedLayers = some ms2)
    (hE : mapGet target.methods.registry X = some emi)
    (hch : emi.invertedLayers = some ts) (hts : ts ≠ [])
    (hown : ∀ l ∈ ts, l.mixedIn = false) :
    ∃ s1 s2 e2, injectMixInModel (fuel + 1) st Y1 A = some s1 ∧
      injectMixInModel (fuel + 1) s1 Y2 A = some s2 ∧
      s2.method A X = some e2 ∧ e2.topLayer = emi.topLayer ∧
      e2.invertedLayers = some (ms1.map emi.mixedLayer ++ ms2.map emi.mixedLayer ++ ts) := by
  obtain ⟨s1, t1, e1, hb1, hmod1, hwft1, hres1, htop1, hinv1, hml1⟩ :=
    injectBody_splice st Y1 A X m1 target meth1 emi [] ts ms1 h1 hA hwf1 hwfA hX1 hms1 hE
      (by simpa using hch) hts hown (by intro l hl; simp at hl)
  have hs1Y2 : s1.model Y2 = some m2 := by
    rw [injectBody_model_ne st Y1 A s1 hb1 Y2 (fun h => hA2 h.symm)]; exact h2
  have hs1new : s1.isMixed A Y2 = false := by
    rw [(injectBody_isMixed st Y1 A s1 hb1).2 A Y2 (by
      intro h
      cases h
      exact hY rfl)]
    exact hnew2
  obtain ⟨s2, t2, e2, hb2, hmod2, _, hres2, htop2, hinv2, _⟩ :=
    injectBody_splice s1 Y2 A X m2 t1 meth2 e1 (ms1.map emi.mixedLayer) ts ms2 hs1Y2 hmod1
      hwf2 hwft1 hX2 hms2 hres1 (by simpa using hinv1) hts hown (by
        intro l hl
        obtain ⟨lf, _, rfl⟩ := List.mem_map.1 hl
        rfl)
  refine ⟨s1, s2, e2, ?_, ?_, ?_, ?_, ?_⟩
  · rw [injectMixInModel_eq_body fuel st st Y1 A m1 h1 (by rw [hmix1]; rfl) hnew1]
    exact hb1
  · rw [injectMixInModel_eq_body fuel s1 s1 Y2 A m2 hs1Y2 (by rw [hmix2]; rfl) hs1new]
    exact hb2
  · simp only [State.method, hmod2, Option.some_bind]
    exact hres2
  · rw [htop2, htop1]
  · rw [hinv2, hml1]

/-- Example of two mixins of a model with a layer of its own: `Document.Describe` after
the injection of `ArchiveMixIn` and then of `AuditMixIn`. -/
theorem injectMixInModel_twice_orders_mixins_witness :
    ∃ s1 s2, injectMixInModel 1 example3.twoMixinsOwn "ArchiveMixIn" "Document" = some s1 ∧
      injectMixInModel 1 s1 "AuditMixIn" "Document" = some s2 ∧
      testmodule.layersOf s2 "Document" "Describe"
        = some [("ArchiveMixIn.Describe", true), ("AuditMixIn.Describe", true),
                ("Document.Describe", false)] := by
  obtain ⟨s1, s2, e2, h1, h2, _, _, _⟩ :=
    injectMixInModel_twice_orders_mixins 0 example3.twoMixinsOwn
      "ArchiveMixIn" "AuditMixIn" "Document" "Describe"
      (testmodule.declareModel "ArchiveMixIn" ModelKind.mixin [] []
        [("Describe", ["ArchiveMixIn.Describe"])])
      (testmodule.declareModel "AuditMixIn" ModelKind.mixin [] []
        [("Describe", ["AuditMixIn.Describe"])])
      (testmodule.declareModel "Document" ModelKind.regular
        ["ArchiveMixIn", "AuditMixIn"] [] [("Describe", ["Document.Describe"])])
      (testmodule.declareMethod "ArchiveMixIn" "Describe" ["ArchiveMixIn.Describe"])
      (testmodule.declareMethod "AuditMixIn" "Describe" ["AuditMixIn.Describe"])
      (testmodule.declareMethod "Document" "Describe" ["Document.Describe"])
      [⟨"ArchiveMixIn.Describe", false, ("ArchiveMixIn", "Describe"), ""⟩]
      [⟨"AuditMixIn.Describe", false, ("AuditMixIn", "Describe"), ""⟩]
      [⟨"Document.Describe", false, ("Document", "Describe"), ""⟩]
      (by decide) (by decide) (by decide) (by decide) (by decide) (by decide) (by decide)
      (by decide) (by decide) (by decide) (by decide) (by decide) (by decide) (by decide)
      (by decide) (by decide) (by decide) (by decide) (by decide) (by decide)
  have hd : ((injectMixInModel 1 example3.twoMixinsOwn "ArchiveMixIn" "Document").bind
      (fun s => injectMixInModel 1 s "AuditMixIn" "Document")).bind
      (fun s => testmodule.layersOf s "Document" "Describe")
      = some [("ArchiveMixIn.Describe", true), ("AuditMixIn.Describe", true),
              ("Document.Describe", false)] := by decide
  rw [h1] at hd
  simp only [Option.some_bind] at hd
  rw [h2] at hd
  exact ⟨s1, s2, h1, h2, hd⟩

/-! ## `createModelLinks` -/

/-- C11: `createModelLinks` panics if and only if some field of relation type names a
related model that is absent from the registry, and the panic is then the one of line 65;
otherwise it returns, and when it returns every field is the field declared under the
same name with its `relatedModel` set: for a field of relation type the registry model
named by its `relatedModelName`, for a field of another type nil. -/
theorem createModelLinks_panics_iff_unknown_related_model (st : State) :
    ((∃ msg s, createModelLinks st = Result.panicked msg s) ↔ UnknownRelatedModel st) ∧
    (∀ msg s, createModelLinks st = Result.panicked msg s →
      msg = "Unknown related model in field declaration") ∧
    ((∃ s, createModelLinks st = Result.done s) ↔ ¬ UnknownRelatedModel st) ∧
    (∀ s, createModelLinks st = Result.done s → ∀ mi fi f, s.field mi fi = some f →
      (∃ f0, st.field mi fi = some f0 ∧ f = { f0 with relatedModel := f.relatedModel }) ∧
      (f.fieldType.IsRelationType = true →
        f.relatedModel = some f.relatedModelName ∧
        (s.model f.relatedModelName).isSome = true) ∧
      (f.fieldType.IsRelationType = false → f.relatedModel = none)) := by
  have hdone : ∀ s, createModelLinks st = Result.done s → ∀ mi fi f, s.field mi fi = some f →
      ∃ f0, st.field mi fi = some f0 ∧ f = linkedField st f0 ∧ Linking st s ∧
        (f0.fieldType.IsRelationType = true →
          (st.model f0.relatedModelName).isSome = true) := by
    intro s hs mi fi f hf
    rcases createModelLinks_spec st with ⟨s2, h2, hI2, hQ2⟩ | ⟨msg, s2, h2, _⟩
    · rw [hs] at h2
      cases h2
      have hsome : (st.field mi fi).isSome = true := by
        rw [← hI2.linking_isSome, hf]; rfl
      obtain ⟨f0, hf0⟩ := Option.isSome_iff_exists.mp hsome
      have h3 := hQ2 mi fi f0 hf0
      have h4 : s.field mi fi = some (linkedField st f0) := h3.1
      rw [hf] at h4
      exact ⟨f0, hf0, Option.some.inj h4, hI2, h3.2⟩
    · rw [hs] at h2; cases h2
  have hnot : ∀ s, createModelLinks st = Result.done s → ¬ UnknownRelatedModel st := by
    intro s hs hbad
    obtain ⟨mi, fi, f, hf, hrel, hnone⟩ := hbad
    rcases createModelLinks_spec st with ⟨s2, _, _, hQ2⟩ | ⟨msg, s2, h2, _⟩
    · have h3 := (hQ2 mi fi f hf).2 hrel
      rw [hnone] at h3
      simp at h3
    · rw [hs] at h2; cases h2
  refine ⟨⟨?_, ?_⟩, ?_, ⟨?_, ?_⟩, ?_⟩
  · rintro ⟨msg, s, hp⟩
    rcases createModelLinks_spec st with ⟨s2, h2, _⟩ | ⟨_, _, _, _, hb⟩
    · rw [hp] at h2; cases h2
    · exact hb
  · intro hbad
    rcases createModelLinks_spec st with ⟨s2, h2, _⟩ | ⟨msg, s2, h2, _⟩
    · exact absurd hbad (hnot s2 h2)
    · exact ⟨msg, s2, h2⟩
  · intro msg s hp
    rcases createModelLinks_spec st with ⟨s2, h2, _⟩ | ⟨msg2, s2, h2, hmsg, _⟩
    · rw [hp] at h2; cases h2
    · rw [hp] at h2; cases h2; exact hmsg
  · rintro ⟨s, hs⟩
    exact hnot s hs
  · intro hgood
    rcases createModelLinks_spec st with ⟨s2, h2, _⟩ | ⟨_, _, _, _, hb⟩
    · exact ⟨s2, h2⟩
    · exact absurd hb hgood
  · intro s hs mi fi f hf
    obtain ⟨f0, hf0, hlink, hI, hrel0⟩ := hdone s hs mi fi f hf
    subst hlink
    refine ⟨⟨f0, hf0, rfl⟩, ?_, ?_⟩
    · intro hrel
      have hrel1 : f0.fieldType.IsRelationType = true := hrel
      have hm := hrel0 hrel1
      refine ⟨?_, ?_⟩
      · show (if f0.fieldType.IsRelationType = true then
          st.Registry.Get f0.relatedModelName else none) = some f0.relatedModelName
        rw [if_pos hrel1, Get_eq, if_pos hm]
      · show (s.model f0.relatedModelName).isSome = true
        rw [hI.1]; exact hm
    · intro hrel
      have hrel1 : ¬ f0.fieldType.IsRelationType = true := by
        have h5 : f0.fieldType.IsRelationType = false := hrel
        rw [h5]; simp
      show (if f0.fieldType.IsRelationType = true then
          st.Registry.Get f0.relatedModelName else none) = none
      rw [if_neg hrel1]

/-- C11 on two registries: `orders`, whose relation field names the model `Partner` it
has, and `dangling`, which lacks that model and makes `createModelLinks` panic. -/
theorem createModelLinks_panics_iff_unknown_related_model_witness :
    ¬ UnknownRelatedModel example4.orders ∧ UnknownRelatedModel example5.dangling ∧
    createModelLinks example5.dangling =
      Result.panicked "Unknown related model in field declaration" example5.dangling :=
  ⟨(createModelLinks_panics_iff_unknown_related_model example4.orders).2.2.1.mp
      (by
        have h : (createModelLinks example4.orders).isDone = true := by decide
        cases hr : createModelLinks example4.orders with
        | done s => exact ⟨s, rfl⟩
        | panicked msg s => rw [hr] at h; simp [Result.isDone] at h
        | diverged => rw [hr] at h; simp [Result.isDone] at h),
   (createModelLinks_panics_iff_unknown_related_model example5.dangling).1.mp
      ⟨"Unknown related model in field declaration", example5.dangling, by decide⟩,
   by decide⟩

/-! ## `setupSecurity` -/

/-- C15: after `setupSecurity` every method of every model of the registry is authorised
for the admin group; each method is the one the registry had, with that one group added,
so that no group authorised before is removed; and the same holds of the registry that a
`BootStrap` which returns leaves, whose methods include those obtained from mixins. -/
theorem setupSecurity_grants_admin (st : State) :
    (∀ A X m, (setupSecurity st).method A X = some m →
      mapGet m.groups security.GroupAdmin = some true) ∧
    (∀ A X m0, st.method A X = some m0 →
      ∃ m, (setupSecurity st).method A X = some m ∧ m = grantedMethod m0 ∧
        ∀ g, mapGet m0.groups g = some true → mapGet m.groups g = some true) ∧
    (∀ A X, ((setupSecurity st).method A X).isSome = (st.method A X).isSome) ∧
    (∀ ext fuel s, (BootStrap ext fuel st).result = Result.done s →
      ∀ A X m, s.method A X = some m → mapGet m.groups security.GroupAdmin = some true) := by
  have hadmin : ∀ (s0 : State) A X m, (setupSecurity s0).method A X = some m →
      mapGet m.groups security.GroupAdmin = some true := by
    intro s0 A X m hm
    rw [setupSecurity_method] at hm
    cases h0 : s0.method A X with
    | none => rw [h0] at hm; simp at hm
    | some m0 =>
      rw [h0] at hm
      simp only [Option.map_some', Option.some.injEq] at hm
      rw [← hm]
      exact grantedMethod_admin m0
  refine ⟨hadmin st, ?_, ?_, ?_⟩
  · intro A X m0 h0
    refine ⟨grantedMethod m0, ?_, rfl, fun g hg => grantedMethod_keeps m0 g true hg rfl⟩
    rw [setupSecurity_method, h0]; rfl
  · intro A X
    rw [setupSecurity_method]
    cases st.method A X <;> rfl
  · intro ext fuel s hs A X m hm
    unfold BootStrap at hs
    by_cases hb : st.Registry.bootstrapped = true
    · rw [if_pos hb] at hs
      simp [Run.start] at hs
    · rw [if_neg hb] at hs
      obtain ⟨s1, _, h1⟩ := call_done _ _ _ _ hs
      simp only [Result.done.injEq] at h1
      subst h1
      exact hadmin s1 A X m hm

/-- C15 on the registry `orders`: the method `SayHello`, which `Partner` obtains from the
mixin `AddressMixIn`, is authorised for the admin group once `BootStrap` has returned. -/
theorem setupSecurity_grants_admin_witness :
    ∃ s m, (BootStrap example4.external 3 example4.orders).result = Result.done s ∧
      s.method "Partner" "SayHello" = some m ∧
      mapGet m.groups security.GroupAdmin = some true := by
  have hd : ((BootStrap example4.external 3 example4.orders).result.state?.bind
      (fun s => s.method "Partner" "SayHello")).isSome = true := by decide
  cases hres : (BootStrap example4.external 3 example4.orders).result with
  | done s =>
    rw [hres] at hd
    obtain ⟨m, hm⟩ := Option.isSome_iff_exists.mp hd
    have hm2 : s.method "Partner" "SayHello" = some m := hm
    exact ⟨s, m, rfl, hm2,
      (setupSecurity_grants_admin example4.orders).2.2.2 example4.external 3 s hres
        "Partner" "SayHello" m hm2⟩
  | panicked msg s => rw [hres] at hd; simp [Result.state?] at hd
  | diverged => rw [hres] at hd; simp [Result.state?] at hd

/-! ## `syncRelatedFieldInfo` -/

theorem relatedPathsPlain_not_chained (st : State) (h : st.relatedPathsPlain = true) :
    ¬ ChainedRelatedField st := by
  rintro ⟨p, q, f, hf, hrel, hnp⟩
  unfold State.field at hf
  cases hm : st.model p with
  | none => rw [hm] at hf; simp at hf
  | some m =>
    rw [hm] at hf
    have h1 := mapGet_mem _ _ _ hm
    have h2 := mapGet_mem _ _ _ hf
    unfold State.relatedPathsPlain at h
    rw [List.all_eq_true] at h
    have h3 := h _ h1
    rw [List.all_eq_true] at h3
    have h4 := h3 _ h2
    simp only [hrel, hnp] at h4
    simp at h4

/-- The related field of a plain path, once `syncRelatedFieldInfo` has returned. -/
theorem syncRelatedFieldInfo_field (st : State) (A q : String) (f t : Field)
    (hf : st.field A q = some f) (hrel : f.isRelatedField = true)
    (hplain : plainPath st A (splitPath f.relatedPath) = true)
    (ht : getRelatedFieldInfo st A (splitPath f.relatedPath) = some t) :
    (∀ s, syncRelatedFieldInfo st = Result.done s →
      s.field A q = some (syncedField A f t) ∧ t.isRelatedField = false ∧
      (∃ p n, st.field p n = some t) ∧
      (∀ p n g, st.field p n = some g → g.isRelatedField = false → s.field p n = some g)) ∧
    (st.relatedPathsPlain = true → ∃ s, syncRelatedFieldInfo st = Result.done s) := by
  refine ⟨fun s hs => ?_, fun hall => ?_⟩
  · rcases syncRelatedFieldInfo_spec st with ⟨s2, h2, hI2, hQ2⟩ | ⟨msg, s2, h2, _⟩
    · rw [hs] at h2; cases h2
      obtain ⟨t2, ht1, _, ht3, ht4⟩ := plainPath_resolves st s hI2 _ A hplain
      rw [ht] at ht1; cases ht1
      exact ⟨hQ2 A q f t hf hrel hplain ht, ht3, ht4, hI2.2.2.1⟩
    · rw [hs] at h2; cases h2
  · rcases syncRelatedFieldInfo_spec st with ⟨s2, h2, _⟩ | ⟨msg, s2, _, hbad⟩
    · exact ⟨s2, h2⟩
    · exact absurd hbad (relatedPathsPlain_not_chained st hall)

/-- C13, as stated, fails on the registry `chained`: the path of the related field `Street`
of `Order` resolves to the field `Street` of `Partner`, which is itself a related field;
`syncRelatedFieldInfo` returns, and that target is not the field it was. -/
theorem syncRelatedFieldInfo_target_changed_counterexample :
    ((example6.chained.field "Order" "Street").bind (fun f =>
        getRelatedFieldInfo example6.chained "Order" (splitPath f.relatedPath)))
      = example6.chained.field "Partner" "Street" ∧
    (example6.chained.field "Partner" "Street").isSome = true ∧
    (syncRelatedFieldInfo example6.chained).isDone = true ∧
    (syncRelatedFieldInfo example6.chained).state?.bind (fun s => s.field "Partner" "Street")
      ≠ example6.chained.field "Partner" "Street" := by
  decide

/-- C13, amended: for every related field `f` of model `A` whose path resolves to the
field `t` through fields none of which, `t` included, is itself a related field: when
`syncRelatedFieldInfo` returns, `f` keeps its name, json name, related path and `stored`
flag, its owning model is `A`, `noCopy` is true and every other attribute, the
access-control list included, is that of `t`; `t`, like every field that is not a related
field, is unchanged.  The function returns when every related field has such a path. -/
theorem syncRelatedFieldInfo_copies_plain_target (st : State) (A q : String) (f t : Field)
    (hf : st.field A q = some f) (hrel : f.isRelatedField = true)
    (hplain : plainPath st A (splitPath f.relatedPath) = true)
    (ht : getRelatedFieldInfo st A (splitPath f.relatedPath) = some t) :
    (∀ s, syncRelatedFieldInfo st = Result.done s →
      s.field A q = some
        { t with
          name := f.name, json := f.json, relatedPath := f.relatedPath, stored := f.stored,
          model := A, noCopy := true } ∧
      t.isRelatedField = false ∧ (∃ p n, st.field p n = some t) ∧
      (∀ p n g, st.field p n = some g → g.isRelatedField = false → s.field p n = some g)) ∧
    (st.relatedPathsPlain = true → ∃ s, syncRelatedFieldInfo st = Result.done s) :=
  syncRelatedFieldInfo_field st A q f t hf hrel hplain ht

/-- C13 on the test module: `PMoney` of `User`, related to `Profile.Money`, takes the
attributes of `Money` and keeps its own name and column. -/
theorem syncRelatedFieldInfo_copies_plain_target_witness :
    ∃ s, syncRelatedFieldInfo example6.related = Result.done s ∧
      s.field "User" "PMoney" = some
        { example6.money with
          name := "PMoney", json := "p_money", relatedPath := "Profile.Money",
          stored := false, model := "User", noCopy := true } ∧
      s.field "Profile" "Money" = some example6.money := by
  have h := syncRelatedFieldInfo_copies_plain_target example6.related "User" "PMoney"
    example6.pMoney example6.money (by decide) (by decide) (by decide) (by decide)
  obtain ⟨s, hs⟩ := h.2 (by decide)
  have h2 := h.1 s hs
  exact ⟨s, hs, h2.1, h2.2.2.2 "Profile" "Money" example6.money (by decide) (by decide)⟩

/-- C14, as stated, fails on the test module: after `syncRelatedFieldInfo` the
access-control list of `PMoney` is the one of `Profile.Money`, and not the one that
`PMoney` had. -/
theorem syncRelatedFieldInfo_acl_counterexample :
    (syncRelatedFieldInfo example6.related).state?.bind
        (fun s => (s.field "User" "PMoney").map (fun f => f.acl))
      = some example6.money.acl ∧
    example6.money.acl ≠ example6.pMoney.acl ∧
    example6.related.field "User" "PMoney" = some example6.pMoney := by
  decide

/-- C14, amended: for every related field `f` whose path resolves to the field `t` through
fields that are not related fields, the access-control list of `f` after
`syncRelatedFieldInfo` is the one of `t`; the list that `f` had before is not kept. -/
theorem syncRelatedFieldInfo_takes_target_acl (st : State) (A q : String) (f t : Field)
    (hf : st.field A q = some f) (hrel : f.isRelatedField = true)
    (hplain : plainPath st A (splitPath f.relatedPath) = true)
    (ht : getRelatedFieldInfo st A (splitPath f.relatedPath) = some t) :
    (∀ s, syncRelatedFieldInfo st = Result.done s →
      (s.field A q).map (fun g => g.acl) = some t.acl) ∧
    (st.relatedPathsPlain = true → ∃ s, syncRelatedFieldInfo st = Result.done s) := by
  have h := syncRelatedFieldInfo_field st A q f t hf hrel hplain ht
  refine ⟨fun s hs => ?_, h.2⟩
  rw [(h.1 s hs).1]
  rfl

/-- C14 on the test module: `PMoney` ends with the list of `Profile.Money`. -/
theorem syncRelatedFieldInfo_takes_target_acl_witness :
    ∃ s, syncRelatedFieldInfo example6.related = Result.done s ∧
      (s.field "User" "PMoney").map (fun g => g.acl) = some ⟨[(security.GroupAdmin, 15)]⟩ := by
  have h := syncRelatedFieldInfo_takes_target_acl example6.related "User" "PMoney"
    example6.pMoney example6.money (by decide) (by decide) (by decide) (by decide)
  obtain ⟨s, hs⟩ := h.2 (by decide)
  exact ⟨s, hs, h.1 s hs⟩

/-! ## `inflateEmbeddings` -/

/-- C12, as stated, fails on the registry `twoAddresses`: `Order` embeds `Billing` and
`Shipping`, which both relate to `Address`; `Order` has no field `Street` and `Address` has
one, and after `inflateEmbeddings` the field `Street` of `Order` has the path
`Billing.Street`, not the path `Shipping.Street` that the claim gives it for the embedding
`Shipping`. -/
theorem inflateEmbeddings_two_embeddings_counterexample :
    (example7.twoAddresses.field "Order" "Shipping").map
        (fun E => (E.embed, E.relatedModel, E.name)) = some (true, some "Address", "Shipping") ∧
    (example7.twoAddresses.field "Address" "Street").isSome = true ∧
    example7.twoAddresses.field "Order" "Street" = none ∧
    (inflateEmbeddings example7.twoAddresses).isDone = true ∧
    (inflateEmbeddings example7.twoAddresses).state?.bind
        (fun s => (s.field "Order" "Street").map (fun g => g.relatedPath))
      = some "Billing.Street" ∧
    "Billing.Street" ≠ "Shipping" ++ ExprSep ++ "Street" := by
  decide

/-- C12, amended: for every model `A`, every field `E` of `A` with the embed flag and
related model `R`, and every field name `n` of `R`: when `inflateEmbeddings` returns, a
field `n` that `A` had is unchanged; otherwise `A` has a field `n` promoted through one of
its embeddings, and through `E` when no other embedding of `A` relates to a model that
has a field `n`: a related field of path `E.name + ExprSep + n` with the json name of the
field `n` of `R`, `stored` as `E`, `noCopy` true and a fresh, empty access-control list.
The function returns when every embedding of the registry has its related model. -/
theorem inflateEmbeddings_promotes_fields (st : State) (A e n R : String) (E relFI : Field)
    (hE : st.field A e = some E) (hemb : E.embed = true) (hR : E.relatedModel = some R)
    (hn : st.field R n = some relFI) :
    (∀ s, inflateEmbeddings st = Result.done s →
      (∀ f0, st.field A n = some f0 → s.field A n = some f0) ∧
      (st.field A n = none →
        (∃ e2 E2 R2 relFI2, st.field A e2 = some E2 ∧ E2.embed = true ∧
          E2.relatedModel = some R2 ∧ s.field R2 n = some relFI2 ∧
          s.field A n = some (embeddedField A E2 n relFI2)) ∧
        ((∀ e2 E2 R2, e2 ≠ e → st.field A e2 = some E2 → E2.embed = true →
            E2.relatedModel = some R2 → s.field R2 n = none) →
          ∃ g, s.field A n = some g ∧ g = embeddedField A E n relFI ∧
            g.name = n ∧ g.model = A ∧ g.isRelatedField = true ∧
            g.relatedPath = E.name ++ ExprSep ++ n ∧ g.json = relFI.json ∧
            g.stored = E.stored ∧ g.noCopy = true ∧
            g.acl = security.NewAccessControlList))) ∧
    (st.embedsResolved = true → ∃ s, inflateEmbeddings st = Result.done s) := by
  have h := inflateEmbeddings_field st A e n R E relFI hE hemb hR hn
  refine ⟨fun s hs => ?_, h.2⟩
  obtain ⟨h1, h2⟩ := h.1 s hs
  refine ⟨h1, fun hnone => ?_⟩
  obtain ⟨h3, h4⟩ := h2 hnone
  refine ⟨h3, fun huniq => ?_⟩
  exact ⟨_, h4 huniq, rfl, rfl, rfl, embeddedField_isRelatedField A E n relFI, rfl, rfl, rfl,
    rfl, rfl⟩

/-- C12 on the test module: `User` embeds `LastPost`, and obtains the field `Title` of
`Post` as a related field of path `LastPost.Title`; its own field `ID` shadows the one of
`Post` and is unchanged. -/
theorem inflateEmbeddings_promotes_fields_witness :
    ∃ s, inflateEmbeddings example7.blog = Result.done s ∧
      s.field "User" "Title" = some
        (embeddedField "User" example7.lastPost "Title" example7.title) ∧
      (s.field "User" "Title").map (fun g => g.relatedPath) = some "LastPost.Title" ∧
      s.field "User" "ID" = some (testmodule.declareField "User" "ID" "id" "integer") := by
  have h := inflateEmbeddings_promotes_fields example7.blog "User" "LastPost" "Title" "Post"
    example7.lastPost example7.title (by decide) (by decide) (by decide) (by decide)
  obtain ⟨s, hs⟩ := h.2 (by decide)
  have h2 := (h.1 s hs).2 (by decide)
  have hnone : ∀ e2 E2 R2, e2 ≠ "LastPost" → example7.blog.field "User" e2 = some E2 →
      E2.embed = true → E2.relatedModel = some R2 → s.field R2 "Title" = none := by
    intro e2 E2 R2 hne hE2 hemb2 _
    exfalso
    have hname : e2 = "ID" ∨ e2 = "LastPost" := by
      by_contra hc
      push_neg at hc
      have : example7.blog.field "User" e2 = none := by
        simp [State.field, State.model, example7.blog, testmodule.declareModel, mapGet, hc.1,
          hc.2, Ne.symm hc.1, Ne.symm hc.2, example7.lastPost, example6.many2one,
          testmodule.declareField]
      rw [this] at hE2; cases hE2
    rcases hname with rfl | rfl
    · have : example7.blog.field "User" "ID" =
          some (testmodule.declareField "User" "ID" "id" "integer") := by decide
      rw [this] at hE2
      cases hE2
      cases hemb2
    · exact hne rfl
  obtain ⟨g, hg, hgE, _, _, _, hpath, _⟩ := h2.2 hnone
  have h4 := ((inflateEmbeddings_promotes_fields example7.blog "User" "LastPost" "ID" "Post"
    example7.lastPost (testmodule.declareField "Post" "ID" "id" "integer")
    (by decide) (by decide) (by decide) (by decide)).1 s hs).1
    (testmodule.declareField "User" "ID" "id" "integer") (by decide)
  refine ⟨s, hs, by rw [hg, hgE], ?_, h4⟩
  rw [hg]
  simp only [Option.map_some', hpath]
  decide

/-! ## `updateDBColumns` -/

/-- C19: for every model whose columns resolve, `updateDBColumns` returns, and it issues
`DROP COLUMN` for a column `col` of a table if and only if the table is the model's, `col`
is a live column of that table and `registryByJSON` has no field for `col`, which is to
say that no field declared on the model has `col` as its json name; in particular the
column of a declared field, `id` included, is never dropped. -/
theorem updateDBColumns_drops_undeclared_columns (c : Collaborators) (st : State)
    (m : Model) (db : DB) (hres : m.columnsResolve st = true)
    (hcons : m.fields.columnsOfFields = true) :
    ∃ db2 new, updateDBColumns c st m db = Result.done db2 ∧
      db2.statements = db.statements ++ new ∧
      (∀ T col, Statement.dropColumn T col ∈ new ↔
        T = m.tableName ∧ col ∈ mapKeys (db.catalog.columns m.tableName) ∧
        mapGet m.fields.registryByJSON col = none) ∧
      (∀ col, mapGet m.fields.registryByJSON col = none ↔
        ¬ ∃ name fi, mapGet m.fields.registryByName name = some fi ∧ fi.json = col) ∧
      (∀ name fi, mapGet m.fields.registryByName name = some fi →
        Statement.dropColumn m.tableName fi.json ∉ new) ∧
      ((∃ name fi, mapGet m.fields.registryByName name = some fi ∧ fi.json = "id") →
        Statement.dropColumn m.tableName "id" ∉ new) := by
  have hiff : ∀ T col, Statement.dropColumn T col ∈
      m.fields.registryByJSON.flatMap
          (entryStatements c st m (db.catalog.columns m.tableName)) ++
        dropStatements m (db.catalog.columns m.tableName) ↔
      T = m.tableName ∧ col ∈ mapKeys (db.catalog.columns m.tableName) ∧
        mapGet m.fields.registryByJSON col = none := by
    intro T col
    rw [List.mem_append]
    constructor
    · rintro (h | h)
      · obtain ⟨entry, _, hs⟩ := List.mem_flatMap.mp h
        obtain ⟨fi, _, _, _, hcs⟩ := mem_entryStatements c st m _ entry _ hs
        rcases mem_columnStatements c _ _ _ fi _ hcs with h1 | h1 | h1 | h1 <;> cases h1
      · obtain ⟨col2, heq, hmem, hnone⟩ := (mem_dropStatements m _ _).mp h
        cases heq
        exact ⟨rfl, hmem, hnone⟩
    · rintro ⟨rfl, hmem, hnone⟩
      exact Or.inr ((mem_dropStatements m _ _).mpr ⟨col, rfl, hmem, hnone⟩)
  have hdecl : ∀ name fi, mapGet m.fields.registryByName name = some fi →
      Statement.dropColumn m.tableName fi.json ∉
        m.fields.registryByJSON.flatMap
            (entryStatements c st m (db.catalog.columns m.tableName)) ++
          dropStatements m (db.catalog.columns m.tableName) := by
    intro name fi hfi hmem
    have hnone := ((hiff _ _).mp hmem).2.2
    exact (columnsOfFields_iff m.fields hcons fi.json).mp hnone ⟨name, fi, hfi, rfl⟩
  refine ⟨_, _, updateDBColumns_eq c st m db hres, run_statements _ _ _, hiff,
    columnsOfFields_iff m.fields hcons, hdecl, ?_⟩
  rintro ⟨name, fi, hfi, hid⟩
  have := hdecl name fi hfi
  rw [hid] at this
  exact this

/-- C19 on the model `User` and the live table `user`, which has a column `login` that no
field declares: `login` is dropped; `id` and `name` are not. -/
theorem updateDBColumns_drops_undeclared_columns_witness :
    ∃ db2, updateDBColumns example8.collaborators example8.frozen example8.user
        (DB.start example8.live) = Result.done db2 ∧
      Statement.dropColumn "user" "login" ∈ db2.statements ∧
      Statement.dropColumn "user" "id" ∉ db2.statements ∧
      Statement.dropColumn "user" "name" ∉ db2.statements := by
  obtain ⟨db2, new, h1, h2, h3, _, _, _⟩ :=
    updateDBColumns_drops_undeclared_columns example8.collaborators example8.frozen
      example8.user (DB.start example8.live) (by decide) (by decide)
  have h4 : db2.statements = new := by rw [h2]; rfl
  refine ⟨db2, h1, ?_, ?_, ?_⟩ <;> rw [h4]
  · exact (h3 _ _).mpr ⟨rfl, by decide, by decide⟩
  · intro h
    exact absurd ((h3 _ _).mp h).2.2 (by decide)
  · intro h
    exact absurd ((h3 _ _).mp h).2.2 (by decide)

/-- C18, amended: for every model whose columns are those of its fields and every stored
field other than `id`, `updateDBColumns` returns and the statements it issues about the
column of the field are those of lines 304–318: `ADD COLUMN` when the column is missing
from the live table; for a column that exists, a data-type `ALTER` exactly when the live
type differs from the adapter's SQL type, a `SET/DROP NOT NULL` exactly when the live
column is `NO` and the field is not required or `YES` and the field is required, and a
`SET/DROP DEFAULT` exactly when the live column has a default and it differs from the
declared one; nothing for a column that matches, and nothing for a live column without
default, whatever default the field declares. -/
theorem updateDBColumns_alters_diverging_column (c : Collaborators) (st : State)
    (m : Model) (db : DB) (howned : m.columnsOwned st = true) (col ptr : String) (fi : Field)
    (hentry : (col, ptr) ∈ m.fields.registryByJSON)
    (hfi : m.fieldByJSON (col, ptr) = some fi) (hid : col ≠ "id")
    (hs : c.isStored fi = true) :
    ∃ db2 new, updateDBColumns c st m db = Result.done db2 ∧
      db2.statements = db.statements ++ new ∧
      new.filter (fun s => s.column == some (m.tableName, col)) =
        columnStatements c m.tableName (db.catalog.columns m.tableName) col fi ∧
      (mapGet (db.catalog.columns m.tableName) col = none →
        Statement.addColumn m.tableName fi ∈ new) ∧
      (∀ data, mapGet (db.catalog.columns m.tableName) col = some data →
        (∀ f, Statement.addColumn m.tableName f ∈ new → f.json ≠ col) ∧
        (∀ ty, Statement.setDataType m.tableName col ty ∈ new ↔
          ty = c.adapter.typeSQL fi ∧ data.DataType ≠ c.adapter.typeSQL fi) ∧
        (∀ b, Statement.setNotNull m.tableName col b ∈ new ↔
          b = c.adapter.fieldIsNotNull fi ∧
          ((data.IsNullable = "NO" ∧ c.adapter.fieldIsNotNull fi = false) ∨
            (data.IsNullable = "YES" ∧ c.adapter.fieldIsNotNull fi = true))) ∧
        (∀ v, Statement.setDefault m.tableName col v ∈ new ↔
          v = c.adapter.fieldSQLDefault fi ∧
          ∃ s, data.ColumnDefault = some s ∧ s ≠ c.adapter.fieldSQLDefault fi) ∧
        (data.DataType = c.adapter.typeSQL fi →
          ¬ ((data.IsNullable = "NO" ∧ c.adapter.fieldIsNotNull fi = false) ∨
            (data.IsNullable = "YES" ∧ c.adapter.fieldIsNotNull fi = true)) →
          (∀ s, data.ColumnDefault = some s → s = c.adapter.fieldSQLDefault fi) →
          ∀ s ∈ new, s.column ≠ some (m.tableName, col))) := by
  obtain ⟨db2, new, h1, h2, h3⟩ :=
    updateDBColumns_column c st m db howned col ptr fi hentry hfi hid hs
  obtain ⟨fi2, hfi2, hjson, _⟩ := columnsOwned_entry st m howned _ hentry
  rw [hfi] at hfi2
  cases hfi2
  have hjson2 : fi.json = col := hjson
  have hmem : ∀ s, s.column = some (m.tableName, col) →
      (s ∈ new ↔ s ∈ columnStatements c m.tableName (db.catalog.columns m.tableName) col fi) := by
    intro s hsc
    rw [← h3, List.mem_filter]
    simp [hsc]
  refine ⟨db2, new, h1, h2, h3, ?_, ?_⟩
  · intro hnone
    rw [hmem _ (by simp [Statement.column, hjson2])]
    simp [columnStatements, hnone]
  · intro data hlive
    refine ⟨?_, ?_, ?_, ?_, ?_⟩
    · intro f hf hfc
      rw [hmem _ (by simp [Statement.column, hfc])] at hf
      rcases mem_columnStatements c _ _ _ fi _ hf with h | h | h | h
      · cases h
        simp [columnStatements, hlive] at hf
        split at hf <;> (try split_ifs at hf) <;> simp at hf
      · cases h
      · cases h
      · cases h
    · intro ty
      rw [hmem _ (by simp [Statement.column])]
      simp only [columnStatements, hlive, Option.isSome_some, Bool.true_eq_false, if_false,
        Option.getD_some, List.nil_append, List.mem_append, hjson2]
      constructor
      · rintro ((h | h) | h)
        · split_ifs at h with hty
          · simp at h; exact ⟨h, hty⟩
          · simp at h
        · split_ifs at h <;> simp at h
        · split at h
          · split_ifs at h <;> simp at h
          · simp at h
      · rintro ⟨rfl, hty⟩
        left; left
        rw [if_pos hty]
        simp
    · intro b
      rw [hmem _ (by simp [Statement.column])]
      simp only [columnStatements, hlive, Option.isSome_some, Bool.true_eq_false, if_false,
        Option.getD_some, List.nil_append, List.mem_append, hjson2]
      constructor
      · rintro ((h | h) | h)
        · split_ifs at h <;> simp at h
        · split_ifs at h with hnn
          · simp at h; exact ⟨h, hnn⟩
          · simp at h
        · split at h
          · split_ifs at h <;> simp at h
          · simp at h
      · rintro ⟨rfl, hnn⟩
        left; right
        rw [if_pos hnn]
        simp
    · intro v
      rw [hmem _ (by simp [Statement.column])]
      simp only [columnStatements, hlive, Option.isSome_some, Bool.true_eq_false, if_false,
        Option.getD_some, List.nil_append, List.mem_append, hjson2]
      constructor
      · rintro ((h | h) | h)
        · split_ifs at h <;> simp at h
        · split_ifs at h <;> simp at h
        · split at h
          · rename_i s0 hs0
            split_ifs at h with hd
            · simp at h; exact ⟨h, s0, hs0, hd⟩
            · simp at h
          · simp at h
      · rintro ⟨rfl, s0, hs0, hd⟩
        right
        rw [hs0]
        simp only
        rw [if_pos hd]
        simp
    · intro hty hnn hdef s hsmem hsc
      rw [hmem s hsc] at hsmem
      simp only [columnStatements, hlive, Option.isSome_some, Bool.true_eq_false, if_false,
        Option.getD_some, List.nil_append, List.mem_append] at hsmem
      rcases hsmem with (h | h) | h
      · rw [if_neg (by simpa using hty)] at h; simp at h
      · rw [if_neg hnn] at h; simp at h
      · split at h
        · rename_i s0 hs0
          rw [if_neg (by simpa using hdef s0 hs0)] at h
          simp at h
        · simp at h

/-- C18, as stated, fails on the model `User` and the live catalog `noDefault`: the column
`is_staff` exists without a default, the field `IsStaff` is stored and declares the default
`false`, and `updateDBColumns` issues no statement at all. -/
theorem updateDBColumns_missing_default_counterexample :
    example8.user.fieldByJSON ("is_staff", "IsStaff") = some example8.isStaff ∧
    example8.collaborators.isStored example8.isStaff = true ∧
    example8.collaborators.adapter.fieldSQLDefault example8.isStaff = "false" ∧
    mapGet (example8.noDefault.columns "user") "is_staff" =
      some { DataType := "bool", IsNullable := "NO", ColumnDefault := none } ∧
    updateDBColumns example8.collaborators example8.frozen example8.user
        (DB.start example8.noDefault) = Result.done (DB.start example8.noDefault) := by
  decide

/-- C18 on the model `User` and the live table `user`, whose column `name` has the type
`text`: the type of the column is altered, and neither its nullability nor its default. -/
theorem updateDBColumns_alters_diverging_column_witness :
    ∃ db2, updateDBColumns example8.collaborators example8.frozen example8.user
        (DB.start example8.live) = Result.done db2 ∧
      Statement.setDataType "user" "name" "character varying" ∈ db2.statements ∧
      (∀ b, Statement.setNotNull "user" "name" b ∉ db2.statements) ∧
      (∀ v, Statement.setDefault "user" "name" v ∉ db2.statements) := by
  obtain ⟨db2, new, h1, h2, _, _, h5⟩ :=
    updateDBColumns_alters_diverging_column example8.collaborators example8.frozen
      example8.user (DB.start example8.live) (by decide) "name" "Name"
      (testmodule.declareField "User" "Name" "name" "char") (by decide) (by decide)
      (by decide) (by decide)
  have h4 : db2.statements = new := by rw [h2]; rfl
  obtain ⟨_, hty, hnn, hdef, _⟩ :=
    h5 { DataType := "text", IsNullable := "YES", ColumnDefault := none } (by decide)
  refine ⟨db2, h1, ?_, ?_, ?_⟩ <;> rw [h4]
  · exact (hty _).mpr ⟨by decide, by decide⟩
  · intro b hb
    have := ((hnn b).mp hb).2
    revert this
    decide
  · intro v hv
    obtain ⟨_, s, hsome, _⟩ := (hdef v).mp hv
    cases hsome

/-! ## `updateDBForeignKeyConstraints` -/

/-- C20: for every model with table `T` whose columns are registered once and resolve, and
every field `fi` with column `col`, on a catalog in which a constraint that has the name
of a foreign key of the model is on the table of the model: the function returns; it
creates the constraint of name `T_col_fkey`, which references the table of the related
model with the on-delete policy of the field, if and only if the field is a stored
foreign key and no constraint of that name exists; it drops the constraint if and only if
the field is not a stored foreign key and the constraint exists; it issues no other
statement; and afterwards the constraint exists if and only if the field is a stored
foreign key. -/
theorem updateDBForeignKeyConstraints_matches_fields (c : Collaborators) (st : State)
    (m : Model) (db : DB) (hnodup : (mapKeys m.fields.registryByJSON).Nodup)
    (hres : m.foreignKeysResolve c st = true) (hown : db.catalog.ownsConstraints m = true)
    (col ptr : String) (fi : Field) (hentry : (col, ptr) ∈ m.fields.registryByJSON)
    (hfi : m.fieldByJSON (col, ptr) = some fi) :
    ∃ db2 new, updateDBForeignKeyConstraints c st m db = Result.done db2 ∧
      db2.statements = db.statements ++ new ∧
      (∀ target ondelete,
        Statement.addConstraint m.tableName col target ondelete ∈ new ↔
          fieldIsFK c fi = true ∧
          db.catalog.constraintExists (fkeyName m.tableName col) = false ∧
          (fi.relatedModel.bind st.model).map (fun related => related.tableName)
            = some target ∧
          ondelete = fi.onDelete) ∧
      (Statement.dropConstraint m.tableName col ∈ new ↔
        fieldIsFK c fi = false ∧
        db.catalog.constraintExists (fkeyName m.tableName col) = true) ∧
      (∀ s ∈ new, ∃ col2, col2 ∈ mapKeys m.fields.registryByJSON ∧
        ((∃ target ondelete, s = Statement.addConstraint m.tableName col2 target ondelete) ∨
          s = Statement.dropConstraint m.tableName col2)) ∧
      db2.catalog.constraintExists (fkeyName m.tableName col) = fieldIsFK c fi ∧
      fkeyName m.tableName col = m.tableName ++ "_" ++ col ++ "_fkey" ∧
      (∀ target ondelete,
        (Statement.addConstraint m.tableName col target ondelete).query c.adapter =
          some ("\n\t\tALTER TABLE " ++ c.adapter.quoteTableName m.tableName ++
            " ADD CONSTRAINT " ++ (m.tableName ++ "_" ++ col ++ "_fkey") ++
            " FOREIGN KEY (" ++ col ++ ") REFERENCES " ++ c.adapter.quoteTableName target ++
            " ON DELETE " ++ ondelete ++ "\n\t")) := by
  obtain ⟨h1, h2⟩ := updateDBForeignKeyConstraints_eq c st m db hnodup hres hown
  have hkey : ∀ e ∈ m.fields.registryByJSON, e.1 = col → e = (col, ptr) :=
    fun e he hk => List.inj_on_of_nodup_map hnodup he hentry hk
  refine ⟨_, _, h1, run_statements _ _ _, ?_, ?_, ?_, h2 _ hentry fi hfi, rfl, fun _ _ => rfl⟩
  · intro target ondelete
    constructor
    · intro hmem
      obtain ⟨e, he, hs⟩ := List.mem_flatMap.mp hmem
      obtain ⟨fi2, hfi2, hcase⟩ := mem_fkStatements c st m _ e _ hs
      rcases hcase with ⟨hfk, hex, related, hrel, heq⟩ | ⟨_, _, heq⟩
      · cases heq
        have := hkey e he rfl
        rw [← this, hfi2] at hfi
        cases hfi
        exact ⟨hfk, hex, by rw [hrel]; rfl, rfl⟩
      · cases heq
    · rintro ⟨hfk, hex, htarget, rfl⟩
      refine List.mem_flatMap.mpr ⟨(col, ptr), hentry, ?_⟩
      cases hrel : fi.relatedModel.bind st.model with
      | none => rw [hrel] at htarget; cases htarget
      | some related =>
        rw [hrel] at htarget
        simp only [Option.map_some', Option.some.injEq] at htarget
        subst htarget
        simp [fkStatements, hfi, hfk, hex, hrel]
  · constructor
    · intro hmem
      obtain ⟨e, he, hs⟩ := List.mem_flatMap.mp hmem
      obtain ⟨fi2, hfi2, hcase⟩ := mem_fkStatements c st m _ e _ hs
      rcases hcase with ⟨_, _, related, _, heq⟩ | ⟨hfk, hex, heq⟩
      · cases heq
      · cases heq
        have := hkey e he rfl
        rw [← this, hfi2] at hfi
        cases hfi
        exact ⟨hfk, hex⟩
    · rintro ⟨hfk, hex⟩
      refine List.mem_flatMap.mpr ⟨(col, ptr), hentry, ?_⟩
      simp [fkStatements, hfi, hfk, hex]
  · intro s hs
    obtain ⟨e, he, hse⟩ := List.mem_flatMap.mp hs
    obtain ⟨fi2, _, hcase⟩ := mem_fkStatements c st m _ e _ hse
    refine ⟨e.1, List.mem_map.mpr ⟨e, he, rfl⟩, ?_⟩
    rcases hcase with ⟨_, _, related, _, heq⟩ | ⟨_, _, heq⟩
    · exact Or.inl ⟨_, _, heq⟩
    · exact Or.inr heq

/-- C20 on the model `User` and the catalog `stale`: the constraint `user_profile_id_fkey`
of the many-to-one field `Profile` is created, referencing the table `profile`; the
constraint `user_name_fkey` of the column `name`, which is not a foreign key, is dropped;
afterwards the first exists and the second does not. -/
theorem updateDBForeignKeyConstraints_matches_fields_witness :
    ∃ db2, updateDBForeignKeyConstraints example8.collaborators example8.frozen example8.user
        (DB.start example8.stale) = Result.done db2 ∧
      Statement.addConstraint "user" "profile_id" "profile" "" ∈ db2.statements ∧
      db2.catalog.constraintExists "user_profile_id_fkey" = true ∧
      Statement.dropConstraint "user" "name" ∈ db2.statements ∧
      db2.catalog.constraintExists "user_name_fkey" = false := by
  obtain ⟨db2, new, h1, h2, h3, _, _, h6, _⟩ :=
    updateDBForeignKeyConstraints_matches_fields example8.collaborators example8.frozen
      example8.user (DB.start example8.stale) (by decide) (by decide) (by decide)
      "profile_id" "Profile" (example6.many2one "User" "Profile" "profile_id" "Profile")
      (by decide) (by decide)
  obtain ⟨db3, new3, h1b, h2b, _, h4b, _, h6b, _⟩ :=
    updateDBForeignKeyConstraints_matches_fields example8.collaborators example8.frozen
      example8.user (DB.start example8.stale) (by decide) (by decide) (by decide)
      "name" "Name" (testmodule.declareField "User" "Name" "name" "char")
      (by decide) (by decide)
  rw [h1] at h1b
  cases h1b
  have hn : db2.statements = new := by rw [h2]; rfl
  have hn3 : db2.statements = new3 := by rw [h2b]; rfl
  refine ⟨db2, h1, ?_, ?_, ?_, ?_⟩
  · rw [hn]
    exact (h3 _ _).mpr ⟨by decide, by decide, by decide, by decide⟩
  · exact h6.trans (by decide)
  · rw [hn3]
    exact h4b.mpr ⟨by decide, by decide⟩
  · exact h6b.trans (by decide)

/-! ## `SyncDatabase`: tables to create -/

/-- C17: on a registry whose tables resolve, `SyncDatabase` comes to an end, and at that
point a `CREATE TABLE` of `T` has been issued if and only if `T` is the table of a
registered model that is neither a mixin nor a manual model and the database had no table
`T` when the synchronisation started; the statement declares the column `id serial NOT NULL
PRIMARY KEY` and no other, and on a catalog without the table it leaves the table with
the column `id` only. -/
theorem SyncDatabase_creates_missing_tables (c : Collaborators) (st : State) (cat : Catalog)
    (htab : st.tablesResolve = true) :
    SyncDatabase c st cat ≠ Result.diverged ∧
    (SyncDatabase c st cat).holds (fun db =>
      ∀ T, Statement.createTable T ∈ db.statements ↔ ToCreate st cat.tableNames T) ∧
    (∀ T, (Statement.createTable T).query c.adapter =
      some ("\n\tCREATE TABLE " ++ c.adapter.quoteTableName T ++
        " (\n\t\tid serial NOT NULL PRIMARY KEY\n\t)\n\t")) ∧
    (∀ T (cat0 : Catalog), mapGet cat0.tables T = none →
      (cat0.exec c.adapter (Statement.createTable T)).columns T = [("id", serialColumn)]) := by
  obtain ⟨d1, h1, m1⟩ := SyncDatabase_first_loop c st cat htab
  have htail := SyncDatabase_tail_issues c st d1
  refine ⟨?_, ?_, fun T => rfl, ?_⟩
  · unfold SyncDatabase
    rw [h1]
    exact andThen_ne_diverged _ _
      (andThen_ne_diverged _ _
        (andThen_ne_diverged _ _ (by intro h; cases h)
          (fun d => forEach_ne_diverged _ (syncForeignKeys_ne_diverged c st) _ d))
        (fun d => forEach_ne_diverged _ (dropUnknownTable_ne_diverged c st) _ d))
      (fun d => by intro h; cases h)
  · have key : ∀ d2, Issues (fun s => s.kind = StatementKind.foreignKey ∨
        s.kind = StatementKind.dropTable ∨ s.kind = StatementKind.sequence) d1 d2 →
        ∀ T, Statement.createTable T ∈ d2.statements ↔ ToCreate st cat.tableNames T := by
      rintro d2 ⟨new, e, p⟩ T
      rw [← m1 T, e, List.mem_append]
      constructor
      · rintro (h | h)
        · exact h
        · rcases p _ h with h2 | h2 | h2 <;> cases h2
      · exact Or.inl
    unfold SyncDatabase
    rw [h1]
    revert htail
    generalize (((Result.done d1).andThen
        (fun d => forEach (syncForeignKeys c st) st.Registry.registryByTableName d)).andThen
        (fun d => forEach (dropUnknownTable c st) d.catalog.tableNames d)).andThen
        (fun d => Result.done (updateDBSequences c st d)) = r
    intro htail
    cases r with
    | done d2 => exact key d2 htail
    | panicked msg d2 => exact key d2 htail
    | diverged => trivial
  · intro T cat0 h0
    simp [Catalog.exec, Catalog.columns, h0, mapGet_mapSet_self]

/-- C17 on the registry `frozen` and the catalog `live`, which has the table `user` and
not the table `profile`: the run returns, and the one `CREATE TABLE` that it issues is that
of `profile`; none is issued for the table `user`, which exists, for the table of the
mixin `AddressMixIn` nor for that of the manual model `UserView`. -/
theorem SyncDatabase_creates_missing_tables_witness :
    example8.frozen.tablesResolve = true ∧
    (SyncDatabase example8.collaborators example8.frozen example8.live).isDone = true ∧
    (SyncDatabase example8.collaborators example8.frozen example8.live).holds (fun db =>
      Statement.createTable "profile" ∈ db.statements ∧
      Statement.createTable "user" ∉ db.statements ∧
      Statement.createTable "address_mix_in" ∉ db.statements ∧
      Statement.createTable "user_view" ∉ db.statements) ∧
    (Statement.createTable "profile").query example8.collaborators.adapter =
      some "\n\tCREATE TABLE \"profile\" (\n\t\tid serial NOT NULL PRIMARY KEY\n\t)\n\t" := by
  have h := SyncDatabase_creates_missing_tables example8.collaborators example8.frozen
    example8.live (by decide)
  refine ⟨by decide, by decide, ?_, by decide⟩
  have h2 := h.2.1
  revert h2
  generalize SyncDatabase example8.collaborators example8.frozen example8.live = r
  intro h2
  have e1 : ToCreate example8.frozen example8.live.tableNames "profile" :=
    ⟨"Profile", example8.profile, by decide, by decide, by decide, by decide, by decide⟩
  have e2 : ¬ ToCreate example8.frozen example8.live.tableNames "user" := by
    rintro ⟨ptr, model, _, _, _, _, h5⟩
    exact h5 (by decide)
  have e3 : ¬ ToCreate example8.frozen example8.live.tableNames "address_mix_in" := by
    rintro ⟨ptr, model, h1, h2, h3, _, _⟩
    have hp : ptr = "AddressMixIn" := by
      simp [example8.frozen] at h1
      exact h1
    subst hp
    have hm : example8.frozen.model "AddressMixIn" = some model := h2
    revert h3
    have : some model = example8.frozen.model "AddressMixIn" := hm.symm
    cases (by decide : example8.frozen.model "AddressMixIn" =
      some (example8.table "AddressMixIn" "address_mix_in" ModelKind.mixin
        [example8.pk "AddressMixIn",
         testmodule.declareField "AddressMixIn" "Street" "street" "char"])) ▸ this
    decide
  have e4 : ¬ ToCreate example8.frozen example8.live.tableNames "user_view" := by
    rintro ⟨ptr, model, h1, h2, _, h4, _⟩
    have hp : ptr = "UserView" := by
      simp [example8.frozen] at h1
      exact h1
    subst hp
    have : some model = example8.frozen.model "UserView" := h2.symm
    revert h4
    cases (by decide : example8.frozen.model "UserView" = some example8.userView) ▸ this
    decide
  cases r with
  | done d2 => exact ⟨(h2 _).mpr e1, fun h => e2 ((h2 _).mp h), fun h => e3 ((h2 _).mp h),
      fun h => e4 ((h2 _).mp h)⟩
  | panicked msg d2 => exact ⟨(h2 _).mpr e1, fun h => e2 ((h2 _).mp h),
      fun h => e3 ((h2 _).mp h), fun h => e4 ((h2 _).mp h)⟩
  | diverged => trivial

/-! ## `SyncDatabase`: a second run -/

/-- C16, what the code does: when `SyncDatabase` has been run on a database, leaving the
catalog `cat1`, a second run against the same registry that returns has issued a
`createSequence` for every sequence of the registry: `updateDBSequences` (lines 256–258)
creates the sequences of the registry without looking at those that the database has. -/
theorem SyncDatabase_second_run_creates_sequences (c : Collaborators) (st : State)
    (cat cat1 : Catalog) (db2 : DB)
    (_h1 : (SyncDatabase c st cat).state?.map (fun db => db.catalog) = some cat1)
    (h2 : SyncDatabase c st cat1 = Result.done db2) :
    ∀ sequence ∈ st.Registry.sequences,
      Statement.createSequence sequence.JSON ∈ db2.statements := by
  intro sequence hs
  obtain ⟨d, rfl⟩ := SyncDatabase_done c st cat1 db2 h2
  exact updateDBSequences_creates c st d sequence hs

/-- C16 on the registry `invoicing`, which has the model `Profile` and the sequence
`invoice_manseq`, and a database without anything: the first run leaves the catalog
`converged`, which has the table and the sequence; the second run leaves the catalog as it
is and issues one statement, the creation of the sequence `invoice_manseq`. -/
theorem SyncDatabase_second_run_creates_sequences_witness :
    (SyncDatabase example8.collaborators example8.invoicing example8.blank).state?.map
        (fun db => db.catalog) = some example8.converged ∧
    SyncDatabase example8.collaborators example8.invoicing example8.converged =
      Result.done { catalog := example8.converged,
                    statements := [Statement.createSequence "invoice_manseq"] } ∧
    Statement.createSequence "invoice_manseq" ∈
      [Statement.createSequence "invoice_manseq"] :=
  ⟨by decide, by decide,
    SyncDatabase_second_run_creates_sequences example8.collaborators example8.invoicing
      example8.blank example8.converged
      { catalog := example8.converged,
        statements := [Statement.createSequence "invoice_manseq"] }
      (by decide) (by decide) ⟨"invoice_manseq"⟩ (by decide)⟩

/-! ## `SyncDatabase`: foreign keys come after tables and columns -/

/-- C21: on every registry and every catalog, `SyncDatabase` comes to an end, and the
statements it has issued by then split in two: first those of the loop over the tables
(lines 209–222), none of which is a statement on a foreign key, then those of the rest of
the function, none of which is a `CREATE TABLE` or a statement on a column (`ADD COLUMN`,
change of type, of nullability or of default, `DROP COLUMN`).  So no statement on a foreign
key (`ADD CONSTRAINT`, `DROP CONSTRAINT`) is issued before a `CREATE TABLE` or a statement
on a column of any model. -/
theorem SyncDatabase_foreign_keys_after_columns (c : Collaborators) (st : State)
    (cat : Catalog) :
    SyncDatabase c st cat ≠ Result.diverged ∧
    (SyncDatabase c st cat).holds (fun db =>
      (∃ first rest, db.statements = first ++ rest ∧
        (∀ s ∈ first, s.kind ≠ StatementKind.foreignKey) ∧
        (∀ s ∈ rest, s.kind ≠ StatementKind.createTable ∧ s.kind ≠ StatementKind.column)) ∧
      ∀ (i j : Nat) (s t : Statement), db.statements[i]? = some s →
        db.statements[j]? = some t → s.kind = StatementKind.foreignKey →
        (t.kind = StatementKind.createTable ∨ t.kind = StatementKind.column) → j < i) := by
  refine ⟨SyncDatabase_ne_diverged c st cat, ?_⟩
  have key : ∀ db : DB, (∃ first rest, db.statements = first ++ rest ∧
      (∀ s ∈ first, s.kind = StatementKind.createTable ∨ s.kind = StatementKind.column ∨
        s.kind = StatementKind.index) ∧
      (∀ s ∈ rest, s.kind = StatementKind.foreignKey ∨ s.kind = StatementKind.dropTable ∨
        s.kind = StatementKind.sequence)) →
      (∃ first rest, db.statements = first ++ rest ∧
        (∀ s ∈ first, s.kind ≠ StatementKind.foreignKey) ∧
        (∀ s ∈ rest, s.kind ≠ StatementKind.createTable ∧ s.kind ≠ StatementKind.column)) ∧
      ∀ (i j : Nat) (s t : Statement), db.statements[i]? = some s →
        db.statements[j]? = some t → s.kind = StatementKind.foreignKey →
        (t.kind = StatementKind.createTable ∨ t.kind = StatementKind.column) → j < i := by
    rintro db ⟨first, rest, e, p1, p2⟩
    have q1 : ∀ s ∈ first, s.kind ≠ StatementKind.foreignKey := by
      intro s hs h
      rcases p1 s hs with h1 | h1 | h1 <;> rw [h] at h1 <;> cases h1
    have q2 : ∀ s ∈ rest, s.kind ≠ StatementKind.createTable ∧
        s.kind ≠ StatementKind.column := by
      intro s hs
      rcases p2 s hs with h1 | h1 | h1 <;> rw [h1] <;> exact ⟨by decide, by decide⟩
    refine ⟨⟨first, rest, e, q1, q2⟩, ?_⟩
    intro i j s t hi hj hs ht
    rw [e] at hi hj
    by_contra hle
    have hij : i ≤ j := Nat.le_of_not_lt hle
    have hi2 : first.length ≤ i := by
      by_contra hlt
      have hlt2 : i < first.length := Nat.lt_of_not_le hlt
      rw [List.getElem?_append_left hlt2] at hi
      exact q1 s (List.getElem?_mem hi) hs
    have hj2 : first.length ≤ j := Nat.le_trans hi2 hij
    rw [List.getElem?_append_right hj2] at hj
    have := q2 t (List.getElem?_mem hj)
    rcases ht with h | h
    · exact this.1 h
    · exact this.2 h
  have h := SyncDatabase_phases c st cat
  revert h
  cases SyncDatabase c st cat with
  | done db => exact key db
  | panicked msg db => exact key db
  | diverged => exact fun _ => trivial

/-- C21 on the registry `frozen` and the catalog `live`: the run returns, and the kinds of
the statements it issues are, in order, those of the loop over the tables (columns of
`user`, creation of `profile`, column of `profile`), then two foreign keys, the drop of the
table `legacy`, and the sequence. -/
theorem SyncDatabase_foreign_keys_after_columns_witness :
    (SyncDatabase example8.collaborators example8.frozen example8.live).state?.map
        (fun db => db.statements.map Statement.kind) =
      some [StatementKind.column, StatementKind.column, StatementKind.column,
        StatementKind.column, StatementKind.column, StatementKind.column,
        StatementKind.createTable, StatementKind.column, StatementKind.column,
        StatementKind.foreignKey, StatementKind.foreignKey, StatementKind.dropTable,
        StatementKind.sequence] ∧
    SyncDatabase example8.collaborators example8.frozen example8.live ≠ Result.diverged :=
  ⟨by decide,
    (SyncDatabase_foreign_keys_after_columns example8.collaborators example8.frozen
      example8.live).1⟩

/-! ## `SyncDatabase`: tables to drop -/

/-- C22: on a registry whose tables and foreign keys resolve and whose models are
registered under their table names, `SyncDatabase` returns, and a `DROP TABLE` of `T` has
been issued if and only if `T` is a table of the live catalog and no model of the registry
that is not a mixin has `T` as its table name.  So a table created earlier in the same run
is not dropped, nor is the table of a model that is not a mixin, regular or manual. -/
theorem SyncDatabase_drops_unknown_tables (c : Collaborators) (st : State) (cat : Catalog)
    (htab : st.tablesResolve = true) (hidx : st.tablesIndexed = true)
    (hfk : st.foreignKeysResolve c = true) :
    ∃ db, SyncDatabase c st cat = Result.done db ∧
      (∀ T, Statement.dropTable T ∈ db.statements ↔ T ∈ cat.tableNames ∧ ¬ HasTable st T) ∧
      (∀ T, Statement.createTable T ∈ db.statements →
        Statement.dropTable T ∉ db.statements) ∧
      (∀ name model, st.model name = some model → model.isMixin = false →
        Statement.dropTable model.tableName ∉ db.statements) ∧
      (∀ T, (Statement.dropTable T).query c.adapter =
        some ("DROP TABLE " ++ c.adapter.quoteTableName T)) := by
  -- the first loop
  obtain ⟨d1, h1, m1⟩ := SyncDatabase_first_loop c st cat htab
  have i1 := forEach_issues_holds _ _ (fun d e => syncTable_issues c st cat.tableNames d e)
    st.Registry.registryByTableName (DB.start cat)
  have k1 := forEach_holds (DB.startedFrom c.adapter cat) _
    (fun d e hd => syncTable_kept c st _ (startedFrom_execute c.adapter cat) cat.tableNames d e hd)
    st.Registry.registryByTableName (DB.start cat) (startedFrom_start c.adapter cat)
  rw [h1] at i1 k1
  -- the second loop
  obtain ⟨d2, h2, i2⟩ := SyncDatabase_second_loop c st hfk d1
  have k2 := forEach_holds (DB.startedFrom c.adapter cat) _
    (fun d e hd => syncForeignKeys_kept c st _ (startedFrom_execute c.adapter cat) d e hd)
    st.Registry.registryByTableName d1 k1
  rw [h2] at k2
  -- the third loop
  have hres : ∀ entry ∈ st.Registry.registryByTableName, (st.model entry.2).isSome = true := by
    intro entry he
    obtain ⟨model, hm, _⟩ := tablesResolve_entry st htab entry he
    rw [hm]; rfl
  obtain ⟨d3, new3, h3, e3, m3⟩ := SyncDatabase_third_loop c st hres d2.catalog.tableNames d2
  have i4 := updateDBSequences_issues c st d3
  -- the statements of the run
  obtain ⟨n1, e1, p1⟩ := i1
  obtain ⟨n2, e2, p2⟩ := i2
  obtain ⟨n4, e4, p4⟩ := i4
  have e1b : d1.statements = n1 := by rw [e1]; rfl
  have hnodrop : ∀ s ∈ d2.statements, s.kind ≠ StatementKind.dropTable := by
    intro s hs hk
    rw [e2, e1b, List.mem_append] at hs
    rcases hs with hs | hs
    · rcases p1 s hs with h | h | h <;> rw [hk] at h <;> cases h
    · have h : s.kind = StatementKind.foreignKey := p2 s hs
      rw [hk] at h
      cases h
  have htables : ∀ T, T ∈ d2.catalog.tableNames ↔
      T ∈ cat.tableNames ∨ Statement.createTable T ∈ d2.statements := by
    intro T
    have := run_tableNames c.adapter d2.statements hnodrop T (DB.start cat)
    rw [← k2] at this
    exact this
  have hcreate : ∀ T, Statement.createTable T ∈ d2.statements ↔
      ToCreate st cat.tableNames T := by
    intro T
    rw [← m1 T, e2, List.mem_append]
    constructor
    · rintro (h | h)
      · exact h
      · have := p2 _ h
        cases this
    · exact Or.inl
  have hdrop : ∀ T, Statement.dropTable T ∈ (updateDBSequences c st d3).statements ↔
      Statement.dropTable T ∈ new3 := by
    intro T
    rw [e4, e3, List.mem_append, List.mem_append]
    constructor
    · rintro ((h | h) | h)
      · exact absurd rfl (hnodrop _ h)
      · exact h
      · have := p4 _ h
        cases this
    · exact fun h => Or.inl (Or.inr h)
  have hmain : ∀ T, Statement.dropTable T ∈ (updateDBSequences c st d3).statements ↔
      T ∈ cat.tableNames ∧ ¬ HasTable st T := by
    intro T
    rw [hdrop, m3]
    constructor
    · rintro ⟨T2, hT2, heq, hno⟩
      cases heq
      rw [hasTable_iff st htab hidx T] at hno
      rcases (htables T).mp hT2 with h | h
      · exact ⟨h, hno⟩
      · obtain ⟨ptr, model, he, hm, hmix, _, _⟩ := (hcreate T).mp h
        exact absurd ((hasTable_iff st htab hidx T).mp ⟨ptr, model, he, hm, hmix⟩) hno
    · rintro ⟨h, hno⟩
      refine ⟨T, (htables T).mpr (Or.inl h), rfl, ?_⟩
      rw [hasTable_iff st htab hidx T]
      exact hno
  refine ⟨updateDBSequences c st d3, ?_, hmain, ?_, ?_, fun T => rfl⟩
  · unfold SyncDatabase
    rw [h1]
    simp only [Result.andThen]
    rw [h2]
    simp only
    rw [h3]
  · intro T hc hd
    have hc2 : Statement.createTable T ∈ d2.statements := by
      rw [e4, e3, List.mem_append, List.mem_append] at hc
      rcases hc with (h | h) | h
      · exact h
      · obtain ⟨T2, _, heq, _⟩ := (m3 _).mp h
        cases heq
      · have := p4 _ h
        cases this
    obtain ⟨ptr, model, he, hm, hmix, _, _⟩ := (hcreate T).mp hc2
    exact ((hmain T).mp hd).2 ((hasTable_iff st htab hidx T).mp ⟨ptr, model, he, hm, hmix⟩)
  · intro name model hm hmix hd
    exact ((hmain model.tableName).mp hd).2 ⟨name, model, hm, hmix, rfl⟩

/-- C22 on the registry `frozen` and the catalog `live`, which has the tables `user` and
`legacy`: the run returns, the table `legacy`, which no model has, is dropped; the table
`user` of a regular model, the table `profile` created in the run and the table `user_view`
of a manual model are not. -/
theorem SyncDatabase_drops_unknown_tables_witness :
    ∃ db, SyncDatabase example8.collaborators example8.frozen example8.live =
        Result.done db ∧
      Statement.dropTable "legacy" ∈ db.statements ∧
      Statement.dropTable "user" ∉ db.statements ∧
      Statement.dropTable "profile" ∉ db.statements ∧
      Statement.dropTable "user_view" ∉ db.statements := by
  obtain ⟨db, h1, h2, _, h4, _⟩ :=
    SyncDatabase_drops_unknown_tables example8.collaborators example8.frozen example8.live
      (by decide) (by decide) (by decide)
  refine ⟨db, h1, ?_, ?_, ?_, ?_⟩
  · refine (h2 "legacy").mpr ⟨by decide, ?_⟩
    rintro ⟨name, model, hm, hmix, hT⟩
    have hkey : name ∈ mapKeys example8.frozen.Registry.registryByName :=
      (mapGet_isSome_iff _ _).1 (by
        have : mapGet example8.frozen.Registry.registryByName name = some model := hm
        rw [this]; rfl)
    have hcases : name = "User" ∨ name = "Profile" ∨ name = "AddressMixIn" ∨
        name = "UserView" := by
      simpa [example8.frozen, mapKeys] using hkey
    rcases hcases with h | h | h | h <;> subst h <;>
      · have hm2 := hm.symm
        revert hT
        first
          | (cases (by decide : example8.frozen.model "User" = some example8.user) ▸ hm2
             decide)
          | (cases (by decide : example8.frozen.model "Profile" = some example8.profile) ▸ hm2
             decide)
          | (cases (by decide : example8.frozen.model "UserView" =
              some example8.userView) ▸ hm2
             decide)
          | (cases (by decide : example8.frozen.model "AddressMixIn" =
              some (example8.table "AddressMixIn" "address_mix_in" ModelKind.mixin
                [example8.pk "AddressMixIn",
                 testmodule.declareField "AddressMixIn" "Street" "street" "char"])) ▸ hm2
             decide)
  · exact h4 "User" example8.user (by decide) (by decide)
  · exact h4 "Profile" example8.profile (by decide) (by decide)
  · exact h4 "UserView" example8.userView (by decide) (by decide)

/-! ## `SyncDatabase`: manual models -/

/-- C26, what the code does: for a manual model, the first loop of `SyncDatabase` (lines
209–222) issues nothing, but the second loop (lines 224–229), which skips the mixins only,
runs `updateDBForeignKeyConstraints` on the model as on a regular one. -/
theorem syncForeignKeys_manual_model (c : Collaborators) (st : State)
    (dbTables : List String) (db : DB) (entry : String × String) (model : Model)
    (hm : st.model entry.2 = some model) (hman : model.isManual = true) :
    syncTable c st dbTables db entry = Result.done db ∧
    syncForeignKeys c st db entry = updateDBForeignKeyConstraints c st model db := by
  have hmix : model.isMixin = false := by
    unfold Model.isManual at hman
    unfold Model.isMixin
    rw [beq_iff_eq] at hman
    rw [hman]
    rfl
  constructor
  · unfold syncTable
    rw [hm]
    simp [hmix, hman]
  · unfold syncForeignKeys
    rw [hm]
    simp [hmix]

/-- C26 at a failing input: the registry `frozen` has the manual model `UserView`, with the
stored many-to-one field `User`, and the catalog `live` has no constraint.  The run
returns, and the statements it issues against the table `user_view` are one: the creation
of the foreign key `user_view_user_id_fkey`. -/
theorem syncForeignKeys_manual_model_witness :
    example8.userView.isManual = true ∧
    (SyncDatabase example8.collaborators example8.frozen example8.live).state?.map
        (fun db => db.statements.filter (fun s => s.table == some "user_view")) =
      some [Statement.addConstraint "user_view" "user_id" "user" ""] ∧
    (Statement.addConstraint "user_view" "user_id" "user" "").query
        example8.collaborators.adapter =
      some ("\n\t\tALTER TABLE \"user_view\" ADD CONSTRAINT user_view_user_id_fkey" ++
        " FOREIGN KEY (user_id) REFERENCES \"user\" ON DELETE \n\t") ∧
    syncTable example8.collaborators example8.frozen example8.live.tableNames
        (DB.start example8.live) ("user_view", "UserView") =
      Result.done (DB.start example8.live) ∧
    syncForeignKeys example8.collaborators example8.frozen (DB.start example8.live)
        ("user_view", "UserView") =
      updateDBForeignKeyConstraints example8.collaborators example8.frozen example8.userView
        (DB.start example8.live) :=
  ⟨by decide, by decide, by decide,
    syncForeignKeys_manual_model example8.collaborators example8.frozen
      example8.live.tableNames (DB.start example8.live) ("user_view", "UserView")
      example8.userView (by decide) (by decide)⟩

/-! ## Termination of `injectMixInModel` -/

/-- C27: let `S` be models of the registry, with well-formed methods, among which the
mixin `x` is, closed under `mixins` and on which `rank` decreases from a model to each of
its mixins (the `mixins` relation reachable from `x` is acyclic), and let the target `a`
be in the registry with well-formed methods.  Then `injectMixInModel(x, a)` returns: with
any fuel above the rank of `x` the function returns the same state.  The bound is the
rank, not the memo: on a registry in which the first mixin of a model leads back to it,
the call does not return whatever the fuel, whatever `mixed` records, since the test of
`mixed` comes after the recursive calls. -/
theorem injectMixInModel_terminates (rank : String → Nat) (st : State) (S : List String)
    (x a : String) (hS : st.mixinsRanked rank S = true) (hx : x ∈ S)
    (ha : st.ready a = true) :
    (∃ st2, ∀ fuel, rank x < fuel → injectMixInModel fuel st x a = some st2) ∧
    (∀ fuel st1, injectMixInModel (fuel + 1) st x a = some st1 →
      ∃ mixIn st0, st.model x = some mixIn ∧
        mixIn.mixins.foldlM (fun s mmm => injectMixInModel fuel s mmm x) st = some st0 ∧
        ((st0.isMixed a x = true ∧ st1 = st0) ∨
          (st0.isMixed a x = false ∧ injectBody st0 x a = some st1))) ∧
    (∀ (s : State) (D : List String), s.firstMixinWithin D = true →
      ∀ y ∈ D, ∀ b fuel, injectMixInModel fuel s y b = none) := by
  refine ⟨?_, fun fuel st1 h => injectMixInModel_some fuel st x a st1 h,
    fun s D hD y hy b fuel => injectMixInModel_cycle s D hD fuel y hy b⟩
  have hloc := mixinsRanked_locallyRanked rank st S a hS ha
  obtain ⟨st2, h2, _⟩ := injectMixInModel_locally_total rank (fun p => p ∈ S)
    (fun p => p ∈ S ∨ p = a) (rank x + 1) st x a hloc hx (Or.inr rfl) (Nat.lt_succ_self _)
  exact ⟨st2, fun fuel hf => injectMixInModel_fuel_le (rank x + 1) fuel hf st x a st2 h2⟩

/-- C27 on the registry `nested`, in which `Contact` mixes in `PersonMixIn`, which mixes in
`NamedMixIn`: the injection of `PersonMixIn` into `Contact` returns with any fuel above 1,
the rank of `PersonMixIn`.  On the registry `looping`, in which `Tagged` is its own mixin
and `mixed` records every couple, the injection of `Tagged` into `Note` does not return. -/
theorem injectMixInModel_terminates_witness :
    example2.nested.mixinsRanked example2.rank ["PersonMixIn", "NamedMixIn"] = true ∧
    example2.nested.ready "Contact" = true ∧
    (∃ st2, ∀ fuel, example2.rank "PersonMixIn" < fuel →
      injectMixInModel fuel example2.nested "PersonMixIn" "Contact" = some st2) ∧
    example9.looping.isMixed "Note" "Tagged" = true ∧
    (∀ fuel, injectMixInModel fuel example9.looping "Tagged" "Note" = none) :=
  have h := injectMixInModel_terminates example2.rank example2.nested
    ["PersonMixIn", "NamedMixIn"] "PersonMixIn" "Contact" (by decide) (by decide) (by decide)
  ⟨by decide, by decide, h.1, by decide,
    fun fuel => h.2.2 example9.looping ["Tagged"] (by decide) "Tagged" (by decide) "Note" fuel⟩

/-! ## A diamond of mixins -/

/-- C25, as stated, fails on the registry `diamond`, in which `Invoice` mixes in `Dated`
and `Numbered`, each of which mixes in `Tracked`, the only model that declares `Describe`,
in one layer: after `inflateMixIns` the chain of `Invoice.Describe` holds the
implementation of `Tracked` twice, not once. -/
theorem inflateMixIns_diamond_counterexample :
    (inflateMixIns 3 example10.diamond).bind
        (fun s => testmodule.layersOf s "Invoice" "Describe") =
      some [("Tracked.Describe", true), ("Tracked.Describe", false)] ∧
    ((inflateMixIns 3 example10.diamond).bind
        (fun s => testmodule.layersOf s "Invoice" "Describe")).map
        (fun ls => (ls.filter (fun l => l.1 == "Tracked.Describe")).length) ≠ some 1 := by
  decide

/-- C25, amended: in a diamond of mixins (model `A` mixes in `B` and `C`, each of which
mixes in `D` only; `D` declares method `X` with the single layer `lD` and `A`, `B`, `C` do
not declare `X`), on a well-formed registry in which none of the four couples is recorded
yet, `inflateMixIns` returns and the chain of `X` in `A` is two layers, each with the
implementation of `D`: one received through `B` and one through `C`. -/
theorem inflateMixIns_diamond_twice (rank : String → Nat) (fuel : Nat) (st : State)
    (A B C D X : String) (mA mB mC mD : Model) (emiD : methodInfo) (lD : methodLayer)
    (hwf : st.wellFormed rank = true) (hr : st.rankedBelow rank fuel = true)
    (hA : st.model A = some mA) (hB : st.model B = some mB) (hC : st.model C = some mC)
    (hD : st.model D = some mD) (hBC : B ≠ C)
    (hmixA : mA.mixins = [B, C]) (hmixB : mB.mixins = [D]) (hmixC : mC.mixins = [D])
    (hmixD : mD.mixins = []) (hlink : mA.isM2MLink = false)
    (hnewAB : st.isMixed A B = false) (hnewAC : st.isMixed A C = false)
    (hnewB : st.isMixed B D = false) (hnewC : st.isMixed C D = false)
    (hXA : mapGet mA.methods.registry X = none) (hXB : mapGet mB.methods.registry X = none)
    (hXC : mapGet mC.methods.registry X = none)
    (hXD : mapGet mD.methods.registry X = some emiD)
    (hchD : emiD.invertedLayers = some [lD]) :
    ∃ st2 e2 l1 l2, inflateMixIns fuel st = some st2 ∧ st2.method A X = some e2 ∧
      e2.invertedLayers = some [l1, l2] ∧
      l1.funcValue = lD.funcValue ∧ l2.funcValue = lD.funcValue := by
  have hwfp := wellFormed_WFp rank st hwf
  have hrBA : rank B < rank A := ((hwfp A mA hA).2 B (by rw [hmixA]; simp)).2
  have hrCA : rank C < rank A := ((hwfp A mA hA).2 C (by rw [hmixA]; simp)).2
  have hrDB : rank D < rank B := ((hwfp B mB hB).2 D (by rw [hmixB]; simp)).2
  have hrDC : rank D < rank C := ((hwfp C mC hC).2 D (by rw [hmixC]; simp)).2
  have hAB : A ≠ B := by intro h; rw [h] at hrBA; omega
  have hAC : A ≠ C := by intro h; rw [h] at hrCA; omega
  have hAD : A ≠ D := by intro h; rw [h] at hrBA; omega
  have hBD : B ≠ D := by intro h; rw [h] at hrDB; omega
  have hCD : C ≠ D := by intro h; rw [h] at hrDC; omega
  obtain ⟨st2, hinf⟩ := inflateMixIns_total rank fuel st hwf hr
  let f : FuncValue := lD.funcValue
  let I : State → Prop := fun s =>
    WFp rank s ∧ Stable st s ∧ s.model D = some mD ∧
    Received X f mB (s.isMixed B D) (s.model B) ∧
    Received X f mC (s.isMixed C D) (s.model C) ∧
    ReceivedTwice X f mA (s.isMixed A B) (s.isMixed A C) (s.model A)
  have hI0 : I st :=
    ⟨hwfp, Stable.refl st, hD, Or.inl ⟨hnewB, hB⟩, Or.inl ⟨hnewC, hC⟩,
      Or.inl ⟨hnewAB, hnewAC, hA⟩⟩
  -- the injection of `D` into `Y`, one of `B` and `C`
  have hside : ∀ (Y : String) (mY : Model), mapGet mY.methods.registry X = none →
      ∀ (s s2 : State) (ma : Model) (methods : methodsCollection),
      s.model D = some mD → s.model Y = some mY →
      s2.model Y = some { mY with
        fields := injectFields Y mY.fields mD.fields.registryByName, methods := methods } →
      (∀ k mI, mapGet mD.methods.registry k = some mI →
        mapGet methods.registry k = mixedInMethod Y (mapGet mY.methods.registry k) mI) →
      s2.isMixed Y D = true → Received X f mY (s2.isMixed Y D) (s2.model Y) := by
    intro Y mY hXY s s2 ma methods hsD hsY hmod hget hm1
    obtain ⟨e2, he1, he2⟩ := mixedInMethod_copy Y emiD [lD] hchD
    refine Or.inr ⟨hm1, e2, _, ?_, he2, rfl, rfl⟩
    rw [hmod]
    simp only [Option.some_bind]
    rw [hget X emiD hXD, hXY, he1]
  -- the injection of `x`, one of `B` and `C`, into `A`
  have hmain : ∀ (x : String) (mx0 : Model) (s s2 : State) (mx ma : Model)
      (methods : methodsCollection) (flagOther : Bool),
      st.model x = some mx0 → mx0.mixins = [D] →
      Stable st s → s.model x = some mx → s.model A = some ma →
      Received X f mx0 (s.isMixed x D) (s.model x) →
      (∀ mixIn, s.model x = some mixIn → ∀ mmm ∈ mixIn.mixins, s.isMixed x mmm = true) →
      ReceivedTwice X f mA false flagOther (s.model A) →
      s2.model A = some { ma with
        fields := injectFields A ma.fields mx.fields.registryByName, methods := methods } →
      (∀ k mI, mapGet mx.methods.registry k = some mI →
        mapGet methods.registry k = mixedInMethod A (mapGet ma.methods.registry k) mI) →
      ReceivedTwice X f mA true flagOther (s2.model A) := by
    intro x mx0 s s2 mx ma methods flagOther hx0 hmixx0 hsts hx ha hPx hdone hPA hmod hget
    have hmixx : mx.mixins = [D] := by
      obtain ⟨m0, hm0, hstat⟩ := hsts.model_some_rev x mx hx
      rw [hx0] at hm0
      cases hm0
      rw [← static_mixins hstat]; exact hmixx0
    have hxD : s.isMixed x D = true := hdone mx hx D (by rw [hmixx]; simp)
    obtain ⟨eX, lX, heX1, heX2, heX3, _⟩ : ∃ e l1,
        (s.model x).bind (fun m => mapGet m.methods.registry X) = some e ∧
        e.invertedLayers = some [l1] ∧ l1.funcValue = f ∧ l1.mixedIn = false := by
      rcases hPx with ⟨h1, _⟩ | ⟨_, h2⟩
      · rw [hxD] at h1; cases h1
      · exact h2
    rw [hx] at heX1
    simp only [Option.some_bind] at heX1
    rcases hPA with ⟨_, hfo, hfresh⟩ | ⟨hne, eA, lA, heA1, heA2, heA3, heA4⟩ |
        ⟨h1, _⟩
    · -- `A` is as declared: the chain of `x` is copied
      rw [ha] at hfresh
      cases hfresh
      obtain ⟨e2, he1, he2⟩ := mixedInMethod_copy A eX [lX] heX2
      refine Or.inr (Or.inl ⟨by rw [hfo]; decide, e2, _, ?_, he2, heX3, rfl⟩)
      rw [hmod]
      simp only [Option.some_bind]
      rw [hget X eX heX1, hXA, he1]
    · -- `A` has received the other mixin: the chain of `x` goes under its layer
      rw [ha] at heA1
      simp only [Option.some_bind] at heA1
      have hfo : flagOther = true := by
        cases flagOther with
        | true => rfl
        | false => exact absurd rfl hne
      obtain ⟨e2, he1, _, he3⟩ := mixedInMethod_splice A eA eX [lX] [lA] heX2 heA2
        (by simp) (by intro l hl; simp at hl; rw [hl]; exact heA4)
      refine Or.inr (Or.inr ⟨rfl, hfo, e2, eA.mixedLayer lX, lA, ?_, ?_, heX3, heA3⟩)
      · rw [hmod]
        simp only [Option.some_bind]
        rw [hget X eX heX1, heA1, he1]
      · rw [he3]; rfl
    · cases h1
  have hbody : ∀ s x a s2, I s → Declared st x a → s.isMixed a x = false →
      (∀ mixIn, s.model x = some mixIn → ∀ mmm ∈ mixIn.mixins, s.isMixed x mmm = true) →
      injectBody s x a = some s2 → I s2 := by
    intro s x a s2 hs hDecl hnm hdone hb
    obtain ⟨hwfs, hsts, hsD, hPB, hPC, hPA⟩ := hs
    obtain ⟨hwf2, mx, ma, methods, hx, ha, hmod, hget⟩ := injectBody_det rank s x a s2 hwfs hb
    have hst2 : Stable st s2 := hsts.trans (injectBody_stable s x a s2 hb)
    obtain ⟨hm1, hm2⟩ := injectBody_isMixed s x a s2 hb
    obtain ⟨ma0, hma0, hxin⟩ := hDecl
    have hframe : ∀ q, q ≠ a → s2.model q = s.model q :=
      fun q hq => injectBody_model_ne s x a s2 hb q hq
    by_cases haD : a = D
    · subst haD
      rw [hD] at hma0
      cases hma0
      rw [hmixD] at hxin
      simp at hxin
    by_cases haB : a = B
    · subst haB
      rw [hB] at hma0
      cases hma0
      rw [hmixB] at hxin
      have hxD : x = D := by simpa using hxin
      subst hxD
      have hmaB : ma = mB := by
        rcases hPB with ⟨_, h2⟩ | ⟨h1, _⟩
        · rw [ha] at h2; exact Option.some.inj h2
        · rw [hnm] at h1; cases h1
      subst hmaB
      have hmxD : mx = mD := by rw [hx] at hsD; exact Option.some.inj hsD
      subst hmxD
      refine ⟨hwf2, hst2, ?_, ?_, ?_, ?_⟩
      · rw [hframe x (fun h => hBD h.symm)]; exact hsD
      · exact hside a ma hXB s s2 ma methods hsD ha hmod hget hm1
      · rw [hm2 C x (by intro h; cases h; exact hBC rfl), hframe C (fun h => hBC h.symm)]
        exact hPC
      · rw [hm2 A a (by intro h; cases h; exact hAB rfl),
          hm2 A C (by intro h; cases h; exact hAB rfl), hframe A hAB]
        exact hPA
    by_cases haC : a = C
    · subst haC
      rw [hC] at hma0
      cases hma0
      rw [hmixC] at hxin
      have hxD : x = D := by simpa using hxin
      subst hxD
      have hmaC : ma = mC := by
        rcases hPC with ⟨_, h2⟩ | ⟨h1, _⟩
        · rw [ha] at h2; exact Option.some.inj h2
        · rw [hnm] at h1; cases h1
      subst hmaC
      have hmxD : mx = mD := by rw [hx] at hsD; exact Option.some.inj hsD
      subst hmxD
      refine ⟨hwf2, hst2, ?_, ?_, ?_, ?_⟩
      · rw [hframe x (fun h => hCD h.symm)]; exact hsD
      · rw [hm2 B x (by intro h; cases h; exact hBC rfl), hframe B hBC]
        exact hPB
      · exact hside a ma hXC s s2 ma methods hsD ha hmod hget hm1
      · rw [hm2 A B (by intro h; cases h; exact hAC rfl),
          hm2 A a (by intro h; cases h; exact hAC rfl), hframe A hAC]
        exact hPA
    by_cases haA : a = A
    · subst haA
      rw [hA] at hma0
      cases hma0
      rw [hmixA] at hxin
      have hxBC : x = B ∨ x = C := by simpa using hxin
      refine ⟨hwf2, hst2, ?_, ?_, ?_, ?_⟩
      · rw [hframe D (fun h => hAD h.symm)]; exact hsD
      · rw [hm2 B D (by intro h; cases h; exact hAB rfl), hframe B (fun h => hAB h.symm)]
        exact hPB
      · rw [hm2 C D (by intro h; cases h; exact hAC rfl), hframe C (fun h => hAC h.symm)]
        exact hPC
      · rcases hxBC with hxB | hxC
        · subst hxB
          rw [hm1, hm2 a C (by intro h; cases h; exact hBC rfl)]
          rw [hnm] at hPA
          exact hmain x mB s s2 mx ma methods _ hB hmixB hsts hx ha hPB hdone hPA hmod hget
        · subst hxC
          rw [hm1, hm2 a B (by intro h; cases h; exact hBC rfl)]
          rw [hnm] at hPA
          have hPA2 : ReceivedTwice X f mA false (s.isMixed a B) (s.model a) := by
            rcases hPA with ⟨h1, h2, h3⟩ | ⟨h1, h2⟩ | ⟨h1, h2, h3⟩
            · exact Or.inl ⟨h2, h1, h3⟩
            · exact Or.inr (Or.inl ⟨fun h => h1 h.symm, h2⟩)
            · cases h2
          have := hmain x mC s s2 mx ma methods _ hC hmixC hsts hx ha hPC hdone hPA2 hmod hget
          rcases this with ⟨h1, _⟩ | ⟨h1, h2⟩ | ⟨h1, h2, h3⟩
          · cases h1
          · exact Or.inr (Or.inl ⟨fun h => h1 h.symm, h2⟩)
          · exact Or.inr (Or.inr ⟨h2, h1, h3⟩)
    · refine ⟨hwf2, hst2, ?_, ?_, ?_, ?_⟩
      · rw [hframe D (fun h => haD h.symm)]; exact hsD
      · rw [hm2 B D (by intro h; cases h; exact haB rfl), hframe B (fun h => haB h.symm)]
        exact hPB
      · rw [hm2 C D (by intro h; cases h; exact haC rfl), hframe C (fun h => haC h.symm)]
        exact hPC
      · rw [hm2 A B (by intro h; cases h; exact haA rfl),
          hm2 A C (by intro h; cases h; exact haA rfl), hframe A (fun h => haA h.symm)]
        exact hPA
  have hstep : ∀ s mi s2, I s → inflateModel fuel s mi = some s2 → I s2 :=
    fun s mi s2 hs h => inflateModel_inv st I (fun s hs => hs.2.1) hbody fuel s mi s2 hs h
  have hAkey : A ∈ mapKeys st.Registry.registryByName :=
    (mapGet_isSome_iff _ _).1 (by
      have : mapGet st.Registry.registryByName A = some mA := hA
      rw [this]; rfl)
  have hfinal : I st2 ∧ st2.isMixed A B = true ∧ st2.isMixed A C = true := by
    unfold inflateMixIns at hinf
    refine foldlM_mem (inflateModel fuel) I
      (fun s => I s ∧ s.isMixed A B = true ∧ s.isMixed A C = true) A _ hAkey
      (fun s b s2 _ hs h => hstep s b s2 hs h) ?_ ?_ st st2 hI0 hinf
    · intro s s2 hs h
      refine ⟨hstep s A s2 hs h, ?_⟩
      obtain ⟨m, hm, hc⟩ := inflateModel_cases fuel s A s2 h
      obtain ⟨m0, hm0, hstat⟩ := hs.2.1.model_some_rev A m hm
      rw [hA] at hm0
      cases hm0
      rcases hc with ⟨hl, _⟩ | ⟨_, hf⟩
      · rw [← static_isM2MLink hstat, hlink] at hl; cases hl
      · exact ⟨inject_fold_isMixed fuel A m.mixins s s2 hf B
            (by rw [← static_mixins hstat, hmixA]; simp),
          inject_fold_isMixed fuel A m.mixins s s2 hf C
            (by rw [← static_mixins hstat, hmixA]; simp)⟩
    · intro s b s2 _ hs hq h
      have hstb := inflateModel_stable fuel s b s2 h
      exact ⟨hstep s b s2 hs h, hstb.1 A B hq.2.1, hstb.1 A C hq.2.2⟩
  obtain ⟨⟨_, _, _, _, _, hPA⟩, hmAB, hmAC⟩ := hfinal
  rw [hmAB, hmAC] at hPA
  rcases hPA with ⟨h1, _⟩ | ⟨h1, _⟩ | ⟨_, _, e2, l1, l2, h2, h3, h4, h5⟩
  · cases h1
  · exact absurd rfl h1
  · exact ⟨st2, e2, l1, l2, hinf, h2, h3, h4, h5⟩

/-- C25 on the registry `diamond`: `inflateMixIns` returns and the chain of
`Invoice.Describe` has two layers, each with the implementation `Tracked.Describe`. -/
theorem inflateMixIns_diamond_twice_witness :
    ∃ st2 e2 l1 l2, inflateMixIns 3 example10.diamond = some st2 ∧
      st2.method "Invoice" "Describe" = some e2 ∧ e2.invertedLayers = some [l1, l2] ∧
      l1.funcValue = "Tracked.Describe" ∧ l2.funcValue = "Tracked.Describe" :=
  inflateMixIns_diamond_twice example10.rank 3 example10.diamond
    "Invoice" "Dated" "Numbered" "Tracked" "Describe"
    (testmodule.declareModel "Invoice" ModelKind.regular ["Dated", "Numbered"] [] [])
    (testmodule.declareModel "Dated" ModelKind.mixin ["Tracked"] [] [])
    (testmodule.declareModel "Numbered" ModelKind.mixin ["Tracked"] [] [])
    (testmodule.declareModel "Tracked" ModelKind.mixin [] []
      [("Describe", ["Tracked.Describe"])])
    (testmodule.declareMethod "Tracked" "Describe" ["Tracked.Describe"])
    ⟨"Tracked.Describe", false, ("Tracked", "Describe"), ""⟩
    (by decide) (by decide) (by decide) (by decide) (by decide) (by decide) (by decide)
    (by decide) (by decide) (by decide) (by decide) (by decide) (by decide) (by decide)
    (by decide) (by decide) (by decide) (by decide) (by decide) (by decide) (by decide)

/-! ## Serialization of conditions -/

/-- C23: for every condition `c` with at least one predicate, built from the fresh
condition by `And()`, `Or()` and `AndCond()` with conditions that are not empty, the
serialization of `c` is a prefix form: a predicate, or `&` followed by two prefix forms, or
`|` followed by two prefix forms.  A predicate combined to `c` by `And()` gives `&`, then
the serialization of `c`, then the predicate; by `Or()` it gives `|`, then the predicate,
then the serialization of `c`; a condition combined by `AndCond()` gives `&`, then the
serialization of `c`, then that of the condition; and a predicate is printed
`[field operator value]`. -/
theorem Serialize_polish_form (c : Condition) (hops : c.operandsGiven = true)
    (hne : c.isEmpty = false) :
    PolishForm c.Serialize ∧
    (∀ name op arg, ((c.And.Field name).addOperator op arg).Serialize =
      DomainTerm.operator "&" ::
        (c.Serialize ++ [DomainTerm.term { exprs := splitPath name, operator := op, arg := arg }])) ∧
    (∀ name op arg, ((c.Or.Field name).addOperator op arg).Serialize =
      DomainTerm.operator "|" ::
        (DomainTerm.term { exprs := splitPath name, operator := op, arg := arg } ::
          c.Serialize)) ∧
    (∀ sub, (c.AndCond sub).Serialize =
      DomainTerm.operator "&" :: (c.Serialize ++ sub.Serialize)) ∧
    (∀ p : condPredicate, (DomainTerm.term p).Sprint =
      "[" ++ ExprSep.intercalate p.exprs ++ " " ++ p.operator.text ++ " " ++ p.arg.Sprint ++
        "]") := by
  have hform : PolishForm c.Serialize := by
    rcases Serialize_empty_or_polishForm c hops with ⟨h1, _⟩ | ⟨_, h2⟩
    · rw [hne] at h1; cases h1
    · exact h2
  have hnil := polishForm_ne_nil _ hform
  refine ⟨hform, ?_, ?_, ?_, fun p => rfl⟩
  · intro name op arg
    show combineDomain false c.Serialize _ = _
    rw [combineDomain_of_ne_nil _ _ _ hnil]
    rfl
  · intro name op arg
    show combineDomain true c.Serialize _ = _
    rw [combineDomain_of_ne_nil _ _ _ hnil]
    rfl
  · intro sub
    show combineDomain false c.Serialize _ = _
    rw [combineDomain_of_ne_nil _ _ _ hnil]
    rfl

/-- C23 on the conditions of `TestConditionSerialization`: `Name ilike John AND Age > 18`,
`Name ilike John OR Age > 18`, `Name ilike John AND Age > 18 OR IsStaff = true` and
`(A OR B) AND (C OR D) OR F` are printed as the tests expect, and the serialization of
the third one is a prefix form. -/
theorem Serialize_polish_form_witness :
    SprintDomain ((((newCondition.And.Field "Name").ILike (Value.text "John")).And.Field
        "Age").Greater (Value.number 18)).Serialize =
      "[& [Name ilike John] [Age > 18]]" ∧
    SprintDomain ((((newCondition.And.Field "Name").ILike (Value.text "John")).Or.Field
        "Age").Greater (Value.number 18)).Serialize =
      "[| [Age > 18] [Name ilike John]]" ∧
    SprintDomain ((((((newCondition.And.Field "Name").ILike (Value.text "John")).And.Field
        "Age").Greater (Value.number 18)).Or.Field "IsStaff").Equals
        (Value.boolean true)).Serialize =
      "[| [IsStaff = true] & [Name ilike John] [Age > 18]]" ∧
    SprintDomain (((((newCondition.AndCond
        ((((newCondition.And.Field "A").Equals (Value.text "A Value")).Or.Field "B").Equals
          (Value.text "B Value"))).AndCond
        ((((newCondition.And.Field "C").Equals (Value.text "C Value")).Or.Field "D").Equals
          (Value.text "D Value"))).Or.Field "F").Equals (Value.text "F Value"))).Serialize =
      "[| [F = F Value] & | [B = B Value] [A = A Value] | [D = D Value] [C = C Value]]" ∧
    PolishForm ((((((newCondition.And.Field "Name").ILike (Value.text "John")).And.Field
        "Age").Greater (Value.number 18)).Or.Field "IsStaff").Equals
        (Value.boolean true)).Serialize :=
  ⟨by decide, by decide, by decide, by decide,
    (Serialize_polish_form
      ((((((newCondition.And.Field "Name").ILike (Value.text "John")).And.Field
        "Age").Greater (Value.number 18)).Or.Field "IsStaff").Equals (Value.boolean true))
      (by decide) (by decide)).1⟩

/-! ## The statement of a query -/

/-- C24: for every query on a model of the registry, with its condition, its ordering, its
limit and its offset, and every list of requested fields, when the paths of the fields, of
the condition and of the ordering designate fields, `selectQuery` returns the statement
written below, built from joins, columns, parts and terms such that: the statement has one
`LEFT JOIN` for each join, and the joins are kept under distinct paths, one for each
relation that a path of the query goes through, and none else; the alias of a join is that
of its parent, `__`, and the name of its table, the parent being the table of the model or
the join of the path without its last column; the column at the end of each path takes its
alias from the join of the path that leads to it, whichever path created the join; the
columns projected are those of the requested fields, in the requested order; the terms
of the ORDER BY clause are the columns of the paths of the ordering, in order; and the
values returned are those of the predicates of the condition in construction order, which
is the order of the placeholders in the parts of the WHERE clause. -/
theorem selectQuery_joins (c : Collaborators) (st : State) (q : Query) (fields : List String)
    (root : Model) (hroot : st.model q.model = some root)
    (hres : q.resolves st fields = true) :
    ∃ (joins : List tableJoin) (columns : List (String × List String))
      (parts : List (String × Option Value)) (terms : List (String × Bool)),
      q.selectQuery c st fields =
        some ("SELECT DISTINCT " ++
            ", ".intercalate (columns.map (fun e =>
              (c.adapter.quoteTableName e.1 ++ "." ++ e.2.getLast?.getD "") ++ " AS " ++
                "__".intercalate e.2)) ++
            " FROM " ++ c.adapter.quoteTableName root.tableName ++ " " ++
            c.adapter.quoteTableName root.tableName ++ " " ++
            String.join (joins.map (fun j =>
              ("LEFT JOIN " ++ c.adapter.quoteTableName j.tableName ++ " " ++
                c.adapter.quoteTableName j.tableAlias ++ " ON " ++
                c.adapter.quoteTableName j.parentAlias ++ "." ++ j.column ++ "=" ++
                c.adapter.quoteTableName j.tableAlias ++ ".id") ++ " ")) ++
            " " ++
            (if parts.isEmpty then ""
              else "WHERE " ++ String.join (parts.map (fun part => part.1))) ++
            " " ++
            (if terms.isEmpty then "ORDER BY id "
              else "ORDER BY " ++ ", ".intercalate (terms.map (fun t =>
                t.1 ++ (if t.2 then " DESC" else " ASC"))) ++ " ") ++
            (if q.limit = 0 then "" else "LIMIT " ++ toString q.limit ++ " ") ++
            (if q.offset = 0 then "" else "OFFSET " ++ toString q.offset),
          q.cond.args) ∧
      (joins.map (fun j => j.path)).Nodup ∧
      (∀ j ∈ joins, j.tableAlias = j.parentAlias ++ "__" ++ j.tableName ∧
        JoinAt root.tableName joins j.path.dropLast j.parentAlias) ∧
      (∀ j ∈ joins, ∃ p ∈ q.paths fields, ∃ e,
        columnOf st joins q.model root.tableName [] p = some e ∧ j.path <+: e.2.dropLast) ∧
      (∀ p ∈ q.paths fields, ∃ e,
        columnOf st joins q.model root.tableName [] p = some e ∧
        JoinAt root.tableName joins e.2.dropLast e.1 ∧
        ∀ pre, pre <+: e.2.dropLast → pre ≠ [] → ∃ j ∈ joins, j.path = pre) ∧
      fields.map (fun f => columnOf st joins q.model root.tableName [] (splitPath f)) =
        columns.map some ∧
      q.cond.sqlParts (fun path => (columnOf st joins q.model root.tableName [] path).map
        (fun e => c.adapter.quoteTableName e.1 ++ "." ++ e.2.getLast?.getD "")) = some parts ∧
      parts.filterMap (fun part => part.2) = q.cond.args ∧
      (∀ part ∈ parts, WherePart part) ∧
      q.orders.map (fun o =>
          (columnOf st joins q.model root.tableName [] (splitPath o.1)).map
            (fun e => (c.adapter.quoteTableName e.1 ++ "." ++ e.2.getLast?.getD "", o.2))) =
        terms.map some := by
  have hall : ∀ p ∈ q.paths fields, pathResolves st q.model p = true := by
    unfold Query.resolves at hres
    rw [List.all_eq_true] at hres
    exact hres
  obtain ⟨joins, hj⟩ := joins_fold_total st root.tableName q.model _ hall []
  obtain ⟨hl, ext, hext, hpaths, hon⟩ :=
    joins_fold_spec st root.tableName q.model _ [] joins (joinsLinked_nil _) hj
  have hext2 : joins = ext := by rw [hext]; simp
  obtain ⟨columns, hc1, hc2⟩ := collect_map
    (fun f => columnOf st joins q.model root.tableName [] (splitPath f)) fields
    (fun f hf => by
      obtain ⟨e, he, _⟩ := hpaths (splitPath f)
        (List.mem_append_left _ (List.mem_append_left _ (List.mem_map.mpr ⟨f, hf, rfl⟩)))
      exact ⟨e, he⟩)
  obtain ⟨parts, hp1, hp2, hp3⟩ := sqlParts_spec
    (fun path => (columnOf st joins q.model root.tableName [] path).map (columnSQL c.adapter))
    q.cond
    (fun p hp => by
      obtain ⟨e, he, _⟩ := hpaths p (List.mem_append_left _ (List.mem_append_right _ hp))
      exact ⟨columnSQL c.adapter e, by simp only [he, Option.map_some']⟩)
  obtain ⟨terms, ht1, ht2⟩ := collect_map
    (fun o : String × Bool =>
      (columnOf st joins q.model root.tableName [] (splitPath o.1)).map
        (fun e => (columnSQL c.adapter e, o.2))) q.orders
    (fun o ho => by
      obtain ⟨e, he, _⟩ := hpaths (splitPath o.1)
        (List.mem_append_right _ (List.mem_map.mpr ⟨o, ho, rfl⟩))
      exact ⟨(columnSQL c.adapter e, o.2), by simp only [he, Option.map_some']⟩)
  refine ⟨joins, columns, parts, terms, ?_, hl.1, ?_, ?_, ?_, hc2, hp1, hp2, hp3, ht2⟩
  · have hjoins : q.joins st root.tableName fields = some joins := hj
    simp only [Query.selectQuery, hroot, Option.some_bind, hjoins, hc1, hp1, ht1,
      Option.map_some', hp2]
    rfl
  · intro j hjm
    exact ⟨(hl.2 j hjm).1, (hl.2 j hjm).2.2⟩
  · intro j hjm
    rw [hext2] at hjm
    exact hon j hjm
  · intro p hp
    obtain ⟨e, he, hat⟩ := hpaths p hp
    refine ⟨e, he, hat, ?_⟩
    intro pre hpre hne
    rcases hat with ⟨h0, _⟩ | ⟨j, hjm, hpath, _⟩
    · rw [h0] at hpre
      exact absurd (List.prefix_nil.mp hpre) hne
    · exact joins_closed root.tableName joins hl j.path.length j hjm (Nat.le_refl _) pre
        (by rw [hpath]; exact hpre) hne

set_option maxRecDepth 100000 in
/-- C24 on the query of `TestConditions`: the users filtered on
`Profile.BestPost.Title = "foo"`, with the fields `name` and
`profile_id.best_post_id.title`.  The statement is the one the test expects, with two
`LEFT JOIN`, of aliases `user__profile` and `user__profile__post`, the WHERE clause
`("user__profile__post".title = ? )`, `ORDER BY id`, and the one value `"foo"`; the same
statement comes with the names of the fields in place of those of the columns.  On a query
with an ordering, the users by decreasing `Profile.Money` and then by `Name`, the join of
`Profile` comes from the ordering, and the ORDER BY clause reads the column `money` from
it. -/
theorem selectQuery_joins_witness :
    example11.users.selectQuery example8.collaborators example11.registry
        ["name", "profile_id.best_post_id.title"] =
      some ("SELECT DISTINCT \"user\".name AS name, " ++
        "\"user__profile__post\".title AS profile_id__best_post_id__title " ++
        "FROM \"user\" \"user\" " ++
        "LEFT JOIN \"profile\" \"user__profile\" ON " ++
        "\"user\".profile_id=\"user__profile\".id " ++
        "LEFT JOIN \"post\" \"user__profile__post\" ON " ++
        "\"user__profile\".best_post_id=\"user__profile__post\".id " ++
        " WHERE (\"user__profile__post\".title = ? )  ORDER BY id ",
        [Value.text "foo"]) ∧
    example11.users.selectQuery example8.collaborators example11.registry
        ["Name", "Profile.BestPost.Title"] =
      example11.users.selectQuery example8.collaborators example11.registry
        ["name", "profile_id.best_post_id.title"] ∧
    example11.users.joins example11.registry "user" ["name", "profile_id.best_post_id.title"] =
      some [{ path := ["profile_id"], tableName := "profile", tableAlias := "user__profile",
              parentAlias := "user", column := "profile_id" },
            { path := ["profile_id", "best_post_id"], tableName := "post",
              tableAlias := "user__profile__post", parentAlias := "user__profile",
              column := "best_post_id" }] ∧
    example11.ranked.selectQuery example8.collaborators example11.registry ["name"] =
      some ("SELECT DISTINCT \"user\".name AS name FROM \"user\" \"user\" " ++
        "LEFT JOIN \"profile\" \"user__profile\" ON " ++
        "\"user\".profile_id=\"user__profile\".id " ++
        "  ORDER BY \"user__profile\".money DESC, \"user\".name ASC ", []) ∧
    (∃ joins : List tableJoin,
      (joins.map (fun j => j.path)).Nodup ∧
      (∀ j ∈ joins, j.tableAlias = j.parentAlias ++ "__" ++ j.tableName) ∧
      ∀ p ∈ example11.users.paths ["name", "profile_id.best_post_id.title"], ∃ e,
        columnOf example11.registry joins "User" "user" [] p = some e ∧
        ∀ pre, pre <+: e.2.dropLast → pre ≠ [] → ∃ j ∈ joins, j.path = pre) := by
  refine ⟨by decide, by decide, by decide, by decide, ?_⟩
  obtain ⟨joins, columns, parts, terms, _, h2, h3, _, h5, _⟩ :=
    selectQuery_joins example8.collaborators example11.registry example11.users
      ["name", "profile_id.best_post_id.title"]
      (example8.table "User" "user" ModelKind.regular
        [example8.pk "User", testmodule.declareField "User" "Name" "name" "char",
         testmodule.declareField "User" "Email" "email" "char",
         testmodule.declareField "User" "IsStaff" "is_staff" "boolean",
         testmodule.declareField "User" "Nums" "nums" "integer",
         example6.many2one "User" "Profile" "profile_id" "Profile"])
      (by decide) (by decide)
  refine ⟨joins, h2, fun j hj => (h3 j hj).1, fun p hp => ?_⟩
  obtain ⟨e, he, _, hpre⟩ := h5 p hp
  exact ⟨e, he, hpre⟩

end Yep
